import Mathlib

/-!
# Uno: sparse linear algebra, the l1 penalty strategy and feasibility restoration

A shallow embedding of

* `uno/linear_algebra/Vector.hpp` (`add_vectors`, `norm_inf`, `in_increasing_order`),
* `uno/linear_algebra/CSCSymmetricMatrix.hpp` (compressed sparse column storage),
* `src/base/globalization_strategy/PenaltyMeritFunction.cpp` (`PenaltyStrategy`),
* `uno/ingredients/hessian_models/HessianModelFactory.cpp`,
  `uno/ingredients/inequality_handling_methods/InequalityHandlingMethodFactory.cpp` and
  `uno/ingredients/subproblem_solvers/SymmetricIndefiniteLinearSolverFactory.cpp`,
* `uno/ingredients/constraint_relaxation_strategy/FeasibilityRestoration.cpp`
  (namespace `Restoration`),
* `src/base/subproblem/ActiveSetMethod.cpp` (namespace `ActiveSet`),

followed by the properties proved about them.

Conventions of the embedding.

* `std::vector<T>` is a `List T`; `operator[]` outside the bounds of the vector is
  undefined behaviour in C++ and is the fault `Fault.out_of_bounds` here; a failed
  `assert` is the fault `Fault.assertion`.  Operations that can fault return
  `Except Fault _`.
* `size_t` counters are natural numbers.  The counters of the matrix count stored
  elements, so they are bounded by the size of a `std::vector` and cannot wrap.  Where a
  subtraction on `size_t` can wrap, it is written modulo `2^64`.
* `double` is the field of rational numbers: the arithmetic is exact, rounding is not
  part of the embedding.  `int` sizes and loop counters are natural numbers.
* Virtual member functions and functions defined outside the embedded files are
  parameters (oracles) of the functions that call them.
* A `while` loop is embedded with a bound on its number of passes (fuel).
* A C++ exception that leaves a function is the error of an `Except Exception _`.
-/

namespace Uno

/-! ## Faults and index ranges -/

/-- The ways in which an embedded operation can fail: a failed `assert`, an access outside
the bounds of a vector, and, for a loop embedded with a bound on its number of passes, the
bound being reached before the loop ended (`out_of_fuel` is not a behaviour of the
program; the theorems show that it does not occur when the bound is large enough). -/
inductive Fault where
  | assertion
  | out_of_bounds
  | out_of_fuel
deriving DecidableEq, Repr

/-- Modelled from the spec: `Range(n)` of `symbolic/Range.hpp`, a header that is not among
the embedded sources; it is the forward index range `0, 1, ..., n-1` that the loops
`for (size_t index: Range(n))` run over. -/
def Range (n : Nat) : List Nat := List.range n

/-- Modelled from the spec: `Range(start, end)` of `symbolic/Range.hpp` (not among the
embedded sources), the forward index range `start, start+1, ..., end-1`.  The theorems
evaluate it with `start <= end` only; for `end < start` it is taken to be empty. -/
def RangeFromTo (start_index end_index : Nat) : List Nat :=
  List.range' start_index (end_index - start_index)

/-! ## `Vector.hpp`: `add_vectors` -/

section Vector

variable {α : Type} [Add α] [Mul α]

/-- Memory holding the vectors that `add_vectors` receives by reference: an address is a
natural number.  Passing the same address twice is aliasing. -/
abbrev Store (α : Type) := Nat → List α

/-- One pass of the loop body of `add_vectors`:
`result[index] = x[index] + scaling_factor * y[index]`, read and written through the
references `x`, `y` and `result` in the current memory. -/
def add_vectors_body (x y : Nat) (scaling_factor : α) (result : Nat) (st : Store α) (index : Nat) :
    Except Fault (Store α) :=
  match (st x)[index]?, (st y)[index]? with
  | some xi, some yi =>
    if index < (st result).length then
      .ok (Function.update st result ((st result).set index (xi + scaling_factor * yi)))
    else .error .out_of_bounds
  | _, _ => .error .out_of_bounds

/-- The function `add_vectors(x, y, scaling_factor, result)` of `Vector.hpp`, lines 36-45:
two assertions on the sizes, then the loop over `Range(x.size())`. -/
def add_vectors (st : Store α) (x y : Nat) (scaling_factor : α) (result : Nat) :
    Except Fault (Store α) :=
  if ¬ (st x).length ≤ (st y).length then .error .assertion
  else if ¬ (st x).length ≤ (st result).length then .error .assertion
  else (Range (st x).length).foldlM (add_vectors_body x y scaling_factor result) st

/-- The function `initialize_vector(x, value)` of `Vector.hpp`, lines 47-52: every element
of `x` is overwritten with `value`; the size of `x` is unchanged. -/
def initialize_vector {β : Type} (x : List β) (value : β) : List β :=
  x.map (fun _ => value)

/-- A memory with the vector `(1, 2)` at address 0 and `(10, 20, 30)` at address 1. -/
def example_store : Store Int := fun a => if a = 0 then [1, 2] else if a = 1 then [10, 20, 30] else []

end Vector

/-! ## `CSCSymmetricMatrix.hpp`: compressed sparse column storage -/

section CSC

/-- Modelled from the spec: the members of the base class `SymmetricMatrix<ElementType>`
that `CSCSymmetricMatrix` uses through `this->` (`SymmetricMatrix.hpp` is not among the
embedded sources).  `capacity` only reserves storage and is not kept. -/
structure SymmetricMatrix (α : Type) where
  dimension : Nat
  number_nonzeros : Nat
  entries : List α
  use_regularization : Bool

/-- Modelled from the spec: the base constructor `SymmetricMatrix(dimension,
original_capacity, use_regularization)` (`SymmetricMatrix.hpp` is not among the embedded
sources): it records `dimension` and `use_regularization` and starts with no entry and
`number_nonzeros = 0`.  The capacity is passed to `reserve` only, which changes neither a
size nor a content. -/
def SymmetricMatrix.create {α : Type} (dimension : Nat) (_original_capacity : Nat)
    (use_regularization : Bool) : SymmetricMatrix α :=
  { dimension := dimension
    number_nonzeros := 0
    entries := []
    use_regularization := use_regularization }

/-- Modelled from the spec: the base member `SymmetricMatrix::reset()` (`SymmetricMatrix.hpp`
is not among the embedded sources): it empties `entries` and sets `number_nonzeros` to 0. -/
def SymmetricMatrix.reset {α : Type} (M : SymmetricMatrix α) : SymmetricMatrix α :=
  { M with number_nonzeros := 0, entries := [] }

/-- State of a `CSCSymmetricMatrix<ElementType>`, lines 17-41: the base class and the
members `column_starts`, `row_indices`, `current_column` and `diagonal_entries`. -/
structure CSCSymmetricMatrix (α : Type) extends SymmetricMatrix α where
  column_starts : List Nat
  row_indices : List Nat
  current_column : Nat
  diagonal_entries : List α

variable {α : Type}

/-- The constructor, lines 43-50: the base constructor, `column_starts` with
`dimension + 1` zeros, `diagonal_entries` with `dimension` zeros, `current_column` 0 and
no row index. -/
def CSCSymmetricMatrix.create [Zero α] (dimension : Nat) (original_capacity : Nat)
    (use_regularization : Bool) : CSCSymmetricMatrix α :=
  { toSymmetricMatrix := SymmetricMatrix.create dimension original_capacity use_regularization
    column_starts := List.replicate (dimension + 1) 0
    row_indices := []
    current_column := 0
    diagonal_entries := List.replicate dimension 0 }

/-- The member `reset`, lines 52-60: the base `reset`, then `row_indices.clear()`,
`column_starts` and `diagonal_entries` overwritten with zeros, `current_column = 0`. -/
def CSCSymmetricMatrix.reset [Zero α] (M : CSCSymmetricMatrix α) : CSCSymmetricMatrix α :=
  { toSymmetricMatrix := M.toSymmetricMatrix.reset
    row_indices := []
    column_starts := initialize_vector M.column_starts 0
    current_column := 0
    diagonal_entries := initialize_vector M.diagonal_entries 0 }

/-- The member `insert` with assertions compiled out (`NDEBUG`), lines 87-95: two
`push_back`, the increment of `column_starts[column_index + 1]` and of `number_nonzeros`,
and the update of `diagonal_entries[row_index]` for a diagonal term. -/
def CSCSymmetricMatrix.insert_ndebug [Add α] (M : CSCSymmetricMatrix α) (term : α)
    (row_index column_index : Nat) : Except Fault (CSCSymmetricMatrix α) :=
  match M.column_starts[column_index + 1]? with
  | none => .error .out_of_bounds
  | some start =>
    let M1 : CSCSymmetricMatrix α :=
      { M with
        entries := M.entries ++ [term]
        row_indices := M.row_indices ++ [row_index]
        column_starts := M.column_starts.set (column_index + 1) (start + 1)
        number_nonzeros := M.number_nonzeros + 1 }
    if row_index = column_index then
      match M1.diagonal_entries[row_index]? with
      | none => .error .out_of_bounds
      | some diagonal =>
        .ok { M1 with diagonal_entries := M1.diagonal_entries.set row_index (diagonal + term) }
    else .ok M1

/-- The member `insert(term, row_index, column_index)`, lines 83-96: the assertion
`column_index == current_column`, then the body. -/
def CSCSymmetricMatrix.insert [Add α] (M : CSCSymmetricMatrix α) (term : α)
    (row_index column_index : Nat) : Except Fault (CSCSymmetricMatrix α) :=
  if column_index ≠ M.current_column then .error .assertion
  else M.insert_ndebug term row_index column_index

/-- Lines 107-112 of `finalize_column`: `current_column++`, then, when
`column_index < dimension - 1`, `column_starts[column_index + 2] = column_starts[column_index + 1]`.
The bound `dimension - 1` is passed in, because it is computed in `size_t`. -/
def CSCSymmetricMatrix.start_next_column (M : CSCSymmetricMatrix α) (column_index : Nat)
    (dimension_minus_one : Nat) : Except Fault (CSCSymmetricMatrix α) :=
  let M1 : CSCSymmetricMatrix α := { M with current_column := M.current_column + 1 }
  if column_index < dimension_minus_one then
    match M1.column_starts[column_index + 1]? with
    | none => .error .out_of_bounds
    | some start =>
      if column_index + 2 < M1.column_starts.length then
        .ok { M1 with column_starts := M1.column_starts.set (column_index + 2) start }
      else .error .out_of_bounds
  else .ok M1

/-- The member `finalize_column(column_index)`, lines 98-113: the two assertions, the
regularization slot `insert(0, column_index, column_index)` when `use_regularization` is
set, then `start_next_column`.  Here `dimension - 1` cannot wrap, because the second
assertion gives `dimension > 0`. -/
def CSCSymmetricMatrix.finalize_column [Zero α] [Add α] (M : CSCSymmetricMatrix α)
    (column_index : Nat) : Except Fault (CSCSymmetricMatrix α) :=
  if column_index ≠ M.current_column then .error .assertion
  else if ¬ column_index < M.dimension then .error .assertion
  else if M.use_regularization then
    match M.insert 0 column_index column_index with
    | .error e => .error e
    | .ok M1 => M1.start_next_column column_index (M1.dimension - 1)
  else M.start_next_column column_index (M.dimension - 1)

/-- The member `finalize_column` with assertions compiled out (`NDEBUG`), lines 103-112.
Without the assertion `column_index < dimension` the subtraction `dimension - 1` is the
`size_t` one: it wraps to `2^64 - 1` when `dimension` is 0. -/
def CSCSymmetricMatrix.finalize_column_ndebug [Zero α] [Add α] (M : CSCSymmetricMatrix α)
    (column_index : Nat) : Except Fault (CSCSymmetricMatrix α) :=
  if M.use_regularization then
    match M.insert_ndebug 0 column_index column_index with
    | .error e => .error e
    | .ok M1 => M1.start_next_column column_index ((M1.dimension + 2 ^ 64 - 1) % 2 ^ 64)
  else M.start_next_column column_index ((M.dimension + 2 ^ 64 - 1) % 2 ^ 64)

/-- Body of the loops over `k` at lines 66-70 and 76-80: read `row_indices[k]` and
`entries[k]` and call the callback on them. -/
def CSCSymmetricMatrix.for_each_entry {σ : Type} (M : CSCSymmetricMatrix α)
    (f : σ → Nat → α → σ) (acc : σ) (k : Nat) : Except Fault σ :=
  match M.row_indices[k]?, M.entries[k]? with
  | some row_index, some entry => .ok (f acc row_index entry)
  | _, _ => .error .out_of_bounds

/-- The iterator over one column `for_each(column_index, f)`, lines 74-81: the loop over
`Range(column_starts[column_index], column_starts[column_index + 1])`.  The callback
`f(row_index, entry)` acts on the state `σ` of its captures. -/
def CSCSymmetricMatrix.for_each_column {σ : Type} (M : CSCSymmetricMatrix α)
    (column_index : Nat) (f : σ → Nat → α → σ) (init : σ) : Except Fault σ :=
  match M.column_starts[column_index]?, M.column_starts[column_index + 1]? with
  | some first, some last => (RangeFromTo first last).foldlM (M.for_each_entry f) init
  | _, _ => .error .out_of_bounds

/-- The generic iterator `for_each(f)`, lines 62-72: for every column of
`Range(dimension)`, the loop over the entries of the column (lines 66-70, the same loop as
in `for_each(column_index, f)`), calling `f(row_index, column_index, entry)`.  The result
is the state of the captures of `f` after the last call. -/
def CSCSymmetricMatrix.for_each {σ : Type} (M : CSCSymmetricMatrix α)
    (f : σ → Nat → Nat → α → σ) (init : σ) : Except Fault σ :=
  (Range M.dimension).foldlM (fun acc column_index =>
    M.for_each_column column_index
      (fun acc row_index entry => f acc row_index column_index entry) acc) init

/-- The calls `f(row_index, column_index, entry)` made by `for_each`, in order: `for_each`
run with the callback that records its arguments. -/
def CSCSymmetricMatrix.visits (M : CSCSymmetricMatrix α) : Except Fault (List (Nat × Nat × α)) :=
  M.for_each (fun acc row_index column_index entry => acc ++ [(row_index, column_index, entry)]) []

/-- Body of the loop of `identity`, lines 149-150: `matrix.insert(1., row_index, row_index)`
then `matrix.finalize_column(row_index)`. -/
def CSCSymmetricMatrix.identity_body [Zero α] [One α] [Add α] (matrix : CSCSymmetricMatrix α)
    (row_index : Nat) : Except Fault (CSCSymmetricMatrix α) :=
  match matrix.insert 1 row_index row_index with
  | .error e => .error e
  | .ok M1 => M1.finalize_column row_index

/-- The static member `identity(dimension)`, lines 145-153: a matrix of that dimension
and capacity without regularization, filled by the loop over `Range(dimension)`. -/
def CSCSymmetricMatrix.identity [Zero α] [One α] [Add α] (dimension : Nat) :
    Except Fault (CSCSymmetricMatrix α) :=
  (Range dimension).foldlM CSCSymmetricMatrix.identity_body
    (CSCSymmetricMatrix.create dimension dimension false)

/-- Entries of one column as given to `insert`: pairs (row index, term). -/
abbrev Column (α : Type) := List (Nat × α)

/-- The calls `insert(term, row_index, column_index)` for the entries of one column, in
order. -/
def CSCSymmetricMatrix.insert_column [Add α] (M : CSCSymmetricMatrix α) (column_index : Nat)
    (column : Column α) : Except Fault (CSCSymmetricMatrix α) :=
  column.foldlM (fun M1 e => M1.insert e.2 e.1 column_index) M

/-- Column by column assembly, the way `identity` does it: starting at column
`column_index`, insert the entries of each column, then finalize it. -/
def CSCSymmetricMatrix.fill_columns [Zero α] [Add α] (M : CSCSymmetricMatrix α) :
    Nat → List (Column α) → Except Fault (CSCSymmetricMatrix α)
  | _, [] => .ok M
  | column_index, column :: rest =>
    match M.insert_column column_index column with
    | .error e => .error e
    | .ok M1 =>
      match M1.finalize_column column_index with
      | .error e => .error e
      | .ok M2 => M2.fill_columns (column_index + 1) rest

/-- A matrix assembled from a fresh one: `columns` lists, for every column
`0 .. dimension-1` in order, the entries inserted into it. -/
def CSCSymmetricMatrix.assemble [Zero α] [Add α] (dimension original_capacity : Nat)
    (use_regularization : Bool) (columns : List (Column α)) : Except Fault (CSCSymmetricMatrix α) :=
  (CSCSymmetricMatrix.create dimension original_capacity use_regularization).fill_columns 0 columns

/-- The triples `(row, column, term)` that `for_each` is expected to visit: column by
column from `column_index` on, the inserted entries in insertion order, each column
followed by the slot `(j, j, 0)` when regularization is used. -/
def expected_visits [Zero α] (use_regularization : Bool) :
    Nat → List (Column α) → List (Nat × Nat × α)
  | _, [] => []
  | column_index, column :: rest =>
    column.map (fun e => (e.1, column_index, e.2))
      ++ (if use_regularization then [(column_index, column_index, 0)] else [])
      ++ expected_visits use_regularization (column_index + 1) rest

/-- Number of entries in the first `j` columns of `P`. -/
def entries_before (P : List (Column α)) (j : Nat) : Nat := (P.take j).flatten.length

/-- The columns as they are stored once finalized, numbered from `column_index` on: the
inserted entries, followed by the regularization slot `(j, 0)` when regularization is
used. -/
def stored_columns [Zero α] (use_regularization : Bool) : Nat → List (Column α) → List (Column α)
  | _, [] => []
  | column_index, column :: rest =>
    (column ++ if use_regularization then [(column_index, 0)] else [])
      :: stored_columns use_regularization (column_index + 1) rest

/-- The triples `(row, column, term)` of the stored columns `P`, numbered from
`column_index` on. -/
def column_triples : Nat → List (Column α) → List (Nat × Nat × α)
  | _, [] => []
  | column_index, column :: rest =>
    column.map (fun e => (e.1, column_index, e.2)) ++ column_triples (column_index + 1) rest

/-- State of a matrix of dimension `dim` under assembly: the columns `P` are finalized
and the entries `c` have been inserted into the current column. -/
structure Filling (dim : Nat) (reg : Bool) (M : CSCSymmetricMatrix α) (P : List (Column α))
    (c : Column α) : Prop where
  dimension_eq : M.dimension = dim
  regularization_eq : M.use_regularization = reg
  current_eq : M.current_column = P.length
  starts_length : M.column_starts.length = dim + 1
  diagonal_length : M.diagonal_entries.length = dim
  entries_eq : M.entries = (P.flatten ++ c).map Prod.snd
  rows_eq : M.row_indices = (P.flatten ++ c).map Prod.fst
  nonzeros_eq : M.number_nonzeros = (P.flatten ++ c).length
  finalized_le : P.length ≤ dim
  starts_eq : ∀ j, j ≤ P.length → M.column_starts[j]? = some (entries_before P j)
  next_eq : P.length < dim →
    M.column_starts[P.length + 1]? = some (entries_before P P.length + c.length)

/-- The columns that `identity` inserts: column `i` holds the single entry `(i, 1)`. -/
def unit_columns [One α] (n : Nat) : List (Column α) :=
  (List.range n).map (fun i => [(i, 1)])

/-- The operations that change a matrix, for reachability. -/
inductive MatrixOp (α : Type) where
  | insert (term : α) (row_index column_index : Nat)
  | finalize_column (column_index : Nat)
  | reset

/-- Effect of one operation. -/
def CSCSymmetricMatrix.apply [Zero α] [Add α] (M : CSCSymmetricMatrix α) :
    MatrixOp α → Except Fault (CSCSymmetricMatrix α)
  | .insert term row_index column_index => M.insert term row_index column_index
  | .finalize_column column_index => M.finalize_column column_index
  | .reset => .ok M.reset

/-- Effect of a sequence of operations; it stops at the first fault. -/
def CSCSymmetricMatrix.run [Zero α] [Add α] (M : CSCSymmetricMatrix α) :
    List (MatrixOp α) → Except Fault (CSCSymmetricMatrix α)
  | [] => .ok M
  | op :: ops =>
    match M.apply op with
    | .error e => .error e
    | .ok M1 => M1.run ops

/-- Monotonicity of the column starts up to the current column: the invariant that the
operations maintain. -/
structure SortedStarts (dim : Nat) (M : CSCSymmetricMatrix α) : Prop where
  dimension_eq : M.dimension = dim
  starts_length : M.column_starts.length = dim + 1
  current_le : M.current_column ≤ dim
  sorted : ∀ j, j < dim → j ≤ M.current_column →
    (M.column_starts[j]?).getD 0 ≤ (M.column_starts[j + 1]?).getD 0

/-- Modelled from the spec: the matrix-vector product of `SymmetricMatrix.hpp` (not among
the embedded sources), "defined by accumulating for_each entries": the result starts at
zero, and every stored entry `(i, j, v)` adds `v * x[j]` to `result[i]` and, the matrix
being symmetric with one triangle stored, `v * x[i]` to `result[j]` when `i != j`. -/
def CSCSymmetricMatrix.product [Zero α] [Add α] [Mul α] (M : CSCSymmetricMatrix α) (x : List α) :
    Except Fault (List α) :=
  M.for_each (fun result i j v =>
    let result1 := result.modify (fun r => r + v * x.getD j 0) i
    if i = j then result1 else result1.modify (fun r => r + v * x.getD i 0) j)
    (List.replicate x.length 0)

end CSC

/-! ## `PenaltyMeritFunction.cpp`: the l1 penalty strategy -/

section Penalty

/-- Modelled from the spec: the status of a constraint (`Constraint.hpp` is not among the
embedded sources): the enumerators that the embedded code and the data model name. -/
inductive ConstraintStatus where
  | EQUAL_BOUNDS
  | BOUNDED_LOWER
  | BOUNDED_UPPER
  | BOUNDED_BOTH_SIDES
  | UNBOUNDED
deriving DecidableEq, Repr

/-- Modelled from the spec: the optimality status of an iterate (its declaration is not
among the embedded sources): the five values that `compute_status` returns. -/
inductive OptimalityStatus where
  | NOT_OPTIMAL
  | KKT_POINT
  | FJ_POINT
  | FEASIBLE_SMALL_STEP
  | INFEASIBLE_SMALL_STEP
deriving DecidableEq, Repr

/-- Modelled from the spec: the members of `Problem` that the penalty strategy reads
(`Problem.hpp` is not among the embedded sources). -/
structure Problem where
  number_variables : Nat
  number_constraints : Nat
  constraint_status : List ConstraintStatus
  variable_lb : List ℚ
  variable_ub : List ℚ
  constraint_lb : List ℚ
  constraint_ub : List ℚ

/-- Modelled from the spec: the members of `Iterate` that the penalty strategy reads or
writes (`Iterate.hpp` is not among the embedded sources). -/
structure Iterate where
  x : List ℚ
  bound_multipliers : List ℚ
  constraint_multipliers : List ℚ
  objective : ℚ
  residual : ℚ
  constraints : List ℚ
  KKTerror : ℚ
  complementarity_error : ℚ
  status : OptimalityStatus

/-- Modelled from the spec: the members of `LocalSolution`, the solution of a subproblem,
that the penalty strategy reads (`LocalSolution.hpp` is not among the embedded sources). -/
structure LocalSolution where
  x : List ℚ
  bound_multipliers : List ℚ
  constraint_multipliers : List ℚ
  objective : ℚ

/-- Modelled from the spec: the sizes of the l1 penalty subproblem computed by
`initialize` (the declaration of `PenaltyDimensions` is not among the embedded sources). -/
structure PenaltyDimensions where
  number_additional_variables : Nat
  number_constraints : Nat

/-- Modelled from the spec: the members of `PenaltyStrategy` that its member functions use,
and `tolerance` of its base `GlobalizationStrategy` (`PenaltyMeritFunction.hpp` is not
among the embedded sources).  The reference to the subproblem is the oracle `Subproblem`
below. -/
structure PenaltyStrategy where
  tolerance : ℚ
  penalty_parameter : ℚ
  tau : ℚ
  eta : ℚ
  epsilon1 : ℚ
  epsilon2 : ℚ
  penalty_dimensions : PenaltyDimensions

/-- The constructor, lines 10-16: `penalty_parameter(1.)`, `tau = 0.5`, `eta = 1e-8`,
`epsilon1 = 0.1`, `epsilon2 = 0.1`.  The penalty dimensions are set later, by
`initialize`. -/
def PenaltyStrategy.create (tolerance : ℚ) : PenaltyStrategy :=
  { tolerance := tolerance
    penalty_parameter := 1
    tau := 1 / 2
    eta := 1 / 10 ^ 8
    epsilon1 := 1 / 10
    epsilon2 := 1 / 10
    penalty_dimensions := { number_additional_variables := 0, number_constraints := 0 } }

/-- The virtual member functions of `Subproblem` (`Subproblem.hpp`, lines 31 and 34) that
the penalty strategy calls.  `σ` is the state of the subproblem object: a call returns its
result and the next state, so that a solver may answer the same question differently from
one call to the next.  The iterate passed by reference is read only. -/
structure Subproblem (σ : Type) where
  compute_l1_penalty_step : σ → Problem → Iterate → ℚ → ℚ → PenaltyDimensions → LocalSolution × σ
  compute_measures : σ → Problem → Iterate → Iterate × σ

/-- Functions called by the penalty strategy and defined outside the embedded sources:
`compute_lagrangian_gradient`, `compute_KKT_error` and `compute_complementarity_error` of
the globalization strategy, and the constructor `Iterate(problem, x, bound_multipliers,
constraint_multipliers)`. -/
structure External where
  compute_lagrangian_gradient : Problem → Iterate → ℚ → List ℚ → List ℚ → List ℚ
  compute_KKT_error : Problem → Iterate → ℚ → ℚ
  compute_complementarity_error : Problem → Iterate → ℚ
  new_iterate : Problem → List ℚ → List ℚ → List ℚ → Iterate

/-- The access `v[i]` to a `std::vector<double>`. -/
def read (v : List ℚ) (i : Nat) : Except Fault ℚ :=
  match v[i]? with
  | some value => .ok value
  | none => .error .out_of_bounds

/-- The function `norm_1` of `Vector.hpp`, lines 75-82: the sum of the absolute values, in
index order, starting from 0. -/
def norm_1 (x : List ℚ) : ℚ :=
  x.foldl (fun norm xi => norm + |xi|) 0

/-- The function `norm_inf` of `Vector.hpp`, lines 139-146: the largest absolute value,
starting from 0. -/
def norm_inf (x : List ℚ) : ℚ :=
  x.foldl (fun norm xi => max norm |xi|) 0

/-- Modelled from the spec: the three-argument `add_vectors(x, y, scaling_factor)` called by
`check_step`, defined in a file that is not among the embedded sources; it returns a new
vector of the size of `x` with components `x[i] + scaling_factor * y[i]` (the trial point
`x + alpha * d`). -/
def add_vectors_value (x y : List ℚ) (scaling_factor : ℚ) : Except Fault (List ℚ) :=
  (List.range x.length).foldlM (fun z i =>
    match x[i]?, y[i]? with
    | some xi, some yi => .ok (z.set i (xi + scaling_factor * yi))
    | _, _ => .error .out_of_bounds) (List.replicate x.length 0)

/-- The member `compute_linear_model`, lines 204-210: the sum of the components
`solution.x[number_variables + k]` for `k < number_additional_variables`. -/
def PenaltyStrategy.compute_linear_model (S : PenaltyStrategy) (problem : Problem)
    (solution : LocalSolution) : Except Fault ℚ :=
  (List.range S.penalty_dimensions.number_additional_variables).foldlM
    (fun linear_model k =>
      match read solution.x (problem.number_variables + k) with
      | .error e => .error e
      | .ok value => .ok (linear_model + value)) 0

/-- The member `compute_bound_multipliers`, lines 212-218. -/
def compute_bound_multipliers (problem : Problem) (solution : LocalSolution) :
    Except Fault (List ℚ) :=
  (List.range problem.number_variables).foldlM (fun bound_multipliers i =>
    match read solution.bound_multipliers i with
    | .error e => .error e
    | .ok value => .ok (bound_multipliers.set i value))
    (List.replicate problem.number_variables 0)

/-- Body of the loop of `compute_constraint_multipliers`, lines 224-234, on the pair
(`constraint_multipliers`, `current_constraint`). -/
def compute_constraint_multipliers_body (problem : Problem) (solution : LocalSolution)
    (state : List ℚ × Nat) (j : Nat) : Except Fault (List ℚ × Nat) :=
  match problem.constraint_status[j]? with
  | none => .error .out_of_bounds
  | some status =>
    if status = ConstraintStatus.BOUNDED_BOTH_SIDES then
      match read solution.constraint_multipliers state.2,
            read solution.constraint_multipliers (state.2 + 1) with
      | .ok first, .ok second => .ok (state.1.set j (first + second), state.2 + 2)
      | _, _ => .error .out_of_bounds
    else
      match read solution.constraint_multipliers state.2 with
      | .ok value => .ok (state.1.set j value, state.2 + 1)
      | .error e => .error e

/-- The member `compute_constraint_multipliers`, lines 220-237. -/
def compute_constraint_multipliers (problem : Problem) (solution : LocalSolution) :
    Except Fault (List ℚ) :=
  match (List.range problem.number_constraints).foldlM
      (compute_constraint_multipliers_body problem solution)
      (List.replicate problem.number_constraints 0, 0) with
  | .error e => .error e
  | .ok state => .ok state.1

/-- Body of the loop over the variables of `compute_error`, lines 251-260. -/
def compute_error_bound (problem : Problem) (current_iterate : Iterate)
    (bound_multipliers : List ℚ) (error : ℚ) (i : Nat) : Except Fault ℚ := do
  let lb ← read problem.variable_lb i
  let xi ← read current_iterate.x i
  if lb < xi then
    let ub ← read problem.variable_ub i
    if xi < ub then
      let multiplier_i ← read bound_multipliers i
      if multiplier_i > 0 then .ok (error + |multiplier_i * (xi - lb)|)
      else if multiplier_i < 0 then .ok (error + |multiplier_i * (xi - ub)|)
      else .ok error
    else .ok error
  else .ok error

/-- Body of the loop over the constraints of `compute_error`, lines 264-282. -/
def compute_error_constraint (problem : Problem) (current_iterate : Iterate)
    (constraint_multipliers : List ℚ) (error : ℚ) (j : Nat) : Except Fault ℚ := do
  let multiplier_j ← read constraint_multipliers j
  let cj ← read current_iterate.constraints j
  let lb ← read problem.constraint_lb j
  if cj < lb then .ok (error + |(1 - multiplier_j) * (cj - lb)|)
  else
    let ub ← read problem.constraint_ub j
    if ub < cj then .ok (error + |(1 - multiplier_j) * (cj - ub)|)
    else if multiplier_j > 0 then .ok (error + |multiplier_j * (cj - lb)|)
    else if multiplier_j < 0 then .ok (error + |multiplier_j * (cj - ub)|)
    else .ok error

/-- The member `compute_error`, lines 239-285: the 1-norm of the Lagrangian gradient, then
the complementarity terms of the variables, then those of the constraints. -/
def compute_error (ext : External) (problem : Problem) (current_iterate : Iterate)
    (bound_multipliers constraint_multipliers : List ℚ) (penalty_parameter : ℚ) :
    Except Fault ℚ := do
  let lagrangian_gradient := ext.compute_lagrangian_gradient problem current_iterate
    penalty_parameter bound_multipliers constraint_multipliers
  let error := 0 + norm_1 lagrangian_gradient
  let error ← (List.range problem.number_variables).foldlM
    (compute_error_bound problem current_iterate bound_multipliers) error
  (List.range problem.number_constraints).foldlM
    (compute_error_constraint problem current_iterate constraint_multipliers) error

/-- Local state of the loop `while (!condition2)` of `compute_step`: the penalty parameter
(a member of the strategy), the two flags, the last solution, the state of the subproblem
object and, as a record of the calls made, the penalty parameters passed to
`compute_l1_penalty_step` so far. -/
structure LoopState (σ : Type) where
  penalty_parameter : ℚ
  condition1 : Bool
  condition2 : Bool
  solution : LocalSolution
  solver : σ
  solves : List ℚ

variable {σ : Type}

/-- One pass of the loop `while (!condition2)`, lines 85-106. -/
def PenaltyStrategy.shrink_pass (S : PenaltyStrategy) (sub : Subproblem σ) (problem : Problem)
    (current_iterate : Iterate) (radius : ℚ) (ideal_solution : LocalSolution)
    (ideal_linear_model : ℚ) (st : LoopState σ) : Except Fault (LoopState σ) :=
  let scaled := st.penalty_parameter * S.tau
  let penalty_parameter := if scaled < 1 / 10 ^ 10 then 0 else scaled
  let condition2 := if scaled < 1 / 10 ^ 10 then true else st.condition2
  let solved := sub.compute_l1_penalty_step st.solver problem current_iterate radius
    penalty_parameter S.penalty_dimensions
  match S.compute_linear_model problem solved.1 with
  | .error e => .error e
  | .ok trial_linear_model =>
    let condition1 :=
      if st.condition1 = false then
        if (ideal_linear_model = 0 ∧ trial_linear_model = 0) ∨
            (ideal_linear_model ≠ 0 ∧
              current_iterate.residual - trial_linear_model
                ≥ S.epsilon1 * (current_iterate.residual - ideal_linear_model)) then true
        else st.condition1
      else st.condition1
    let condition2 :=
      if condition1 = true ∧
          current_iterate.residual - solved.1.objective
            ≥ S.epsilon2 * (current_iterate.residual - ideal_solution.objective) then true
      else condition2
    .ok { penalty_parameter := penalty_parameter
          condition1 := condition1
          condition2 := condition2
          solution := solved.1
          solver := solved.2
          solves := st.solves ++ [penalty_parameter] }

/-- The loop `while (!condition2)`, lines 84-107, with at most `fuel` passes. -/
def PenaltyStrategy.shrink_loop (S : PenaltyStrategy) (sub : Subproblem σ) (problem : Problem)
    (current_iterate : Iterate) (radius : ℚ) (ideal_solution : LocalSolution)
    (ideal_linear_model : ℚ) : Nat → LoopState σ → Except Fault (LoopState σ)
  | 0, st => if st.condition2 = true then .ok st else .error .out_of_fuel
  | fuel + 1, st =>
    if st.condition2 = true then .ok st
    else
      match S.shrink_pass sub problem current_iterate radius ideal_solution ideal_linear_model st with
      | .error e => .error e
      | .ok st1 =>
        S.shrink_loop sub problem current_iterate radius ideal_solution ideal_linear_model fuel st1

/-- Lines 75-112 of `compute_step`: the update of the penalty parameter once the ideal
error is known.  `st` carries the penalty parameter at entry and the first solution. -/
def PenaltyStrategy.update_penalty_parameter (S : PenaltyStrategy) (sub : Subproblem σ)
    (fuel : Nat) (problem : Problem) (current_iterate : Iterate) (radius : ℚ)
    (ideal_solution : LocalSolution) (ideal_error : ℚ) (st : LoopState σ) :
    Except Fault (LoopState σ) :=
  if ideal_error = 0 then .ok { st with penalty_parameter := 0 }
  else
    match S.compute_linear_model problem ideal_solution with
    | .error e => .error e
    | .ok ideal_linear_model =>
      match S.shrink_loop sub problem current_iterate radius ideal_solution ideal_linear_model
          fuel { st with condition1 := false, condition2 := false } with
      | .error e => .error e
      | .ok st1 =>
        let term := ideal_error / max 1 current_iterate.residual
        .ok { st1 with penalty_parameter := min st1.penalty_parameter (term * term) }

/-- Result of `compute_step`: the returned solution, the strategy (whose member
`penalty_parameter` the call may have changed), the state of the subproblem object and the
penalty parameters of the subproblems solved during the call, in order. -/
structure StepResult (σ : Type) where
  solution : LocalSolution
  strategy : PenaltyStrategy
  solver : σ
  solves : List ℚ

/-- Lines 114-124 of `compute_step`: when the penalty parameter decreased, the solution
is the ideal one if the parameter is 0 and is recomputed otherwise. -/
def PenaltyStrategy.recompute_solution (S : PenaltyStrategy) (sub : Subproblem σ)
    (problem : Problem) (current_iterate : Iterate) (radius : ℚ)
    (current_penalty_parameter : ℚ) (ideal_solution : LocalSolution) (st : LoopState σ) :
    StepResult σ :=
  if st.penalty_parameter < current_penalty_parameter then
    if st.penalty_parameter = 0 then
      { solution := ideal_solution
        strategy := { S with penalty_parameter := st.penalty_parameter }
        solver := st.solver
        solves := st.solves }
    else
      let solved := sub.compute_l1_penalty_step st.solver problem current_iterate radius
        st.penalty_parameter S.penalty_dimensions
      { solution := solved.1
        strategy := { S with penalty_parameter := st.penalty_parameter }
        solver := solved.2
        solves := st.solves ++ [st.penalty_parameter] }
  else
    { solution := st.solution
      strategy := { S with penalty_parameter := st.penalty_parameter }
      solver := st.solver
      solves := st.solves }

/-- The member `compute_step`, lines 53-129.  `solver` is the state of the subproblem
object at entry and `fuel` bounds the passes of the loop `while (!condition2)`. -/
def PenaltyStrategy.compute_step (S : PenaltyStrategy) (sub : Subproblem σ) (ext : External)
    (fuel : Nat) (solver : σ) (problem : Problem) (current_iterate : Iterate) (radius : ℚ) :
    Except Fault (StepResult σ) :=
  let first := sub.compute_l1_penalty_step solver problem current_iterate radius
    S.penalty_parameter S.penalty_dimensions
  let unchanged : StepResult σ :=
    { solution := first.1, strategy := S, solver := first.2, solves := [S.penalty_parameter] }
  if 0 < S.penalty_parameter then
    match S.compute_linear_model problem first.1 with
    | .error e => .error e
    | .ok linear_model =>
      if linear_model ≠ 0 then
        let ideal := sub.compute_l1_penalty_step first.2 problem current_iterate radius 0
          S.penalty_dimensions
        match compute_bound_multipliers problem ideal.1 with
        | .error e => .error e
        | .ok ideal_bound_multipliers =>
          match compute_constraint_multipliers problem ideal.1 with
          | .error e => .error e
          | .ok ideal_constraint_multipliers =>
            match compute_error ext problem current_iterate ideal_bound_multipliers
                ideal_constraint_multipliers 0 with
            | .error e => .error e
            | .ok ideal_error =>
              match S.update_penalty_parameter sub fuel problem current_iterate radius ideal.1
                  ideal_error
                  { penalty_parameter := S.penalty_parameter
                    condition1 := false
                    condition2 := false
                    solution := first.1
                    solver := ideal.2
                    solves := [S.penalty_parameter, 0] } with
              | .error e => .error e
              | .ok st =>
                .ok (S.recompute_solution sub problem current_iterate radius
                  S.penalty_parameter ideal.1 st)
      else .ok unchanged
  else .ok unchanged

/-- The loops of `compute_status`, lines 178-183: `v[i] /= penalty_parameter` for
`i < n`. -/
def divide_components (v : List ℚ) (n : Nat) (penalty_parameter : ℚ) : Except Fault (List ℚ) :=
  (List.range n).foldlM (fun w i =>
    match read w i with
    | .error e => .error e
    | .ok value => .ok (w.set i (value / penalty_parameter))) v

/-- The member `compute_status`, lines 168-202.  It returns the status and the trial
iterate, whose multipliers it may have rescaled. -/
def PenaltyStrategy.compute_status (S : PenaltyStrategy) (ext : External) (problem : Problem)
    (trial_iterate : Iterate) (step_norm : ℚ) : Except Fault (OptimalityStatus × Iterate) := do
  let optimality_error ← compute_error ext problem trial_iterate trial_iterate.bound_multipliers
    trial_iterate.constraint_multipliers S.penalty_parameter
  if optimality_error ≤ S.tolerance ∧
      trial_iterate.residual ≤ S.tolerance * problem.number_constraints then
    if 0 < S.penalty_parameter then
      let bound_multipliers ← divide_components trial_iterate.bound_multipliers
        problem.number_variables S.penalty_parameter
      let constraint_multipliers ← divide_components trial_iterate.constraint_multipliers
        problem.number_constraints S.penalty_parameter
      .ok (OptimalityStatus.KKT_POINT,
        { trial_iterate with
          bound_multipliers := bound_multipliers
          constraint_multipliers := constraint_multipliers })
    else .ok (OptimalityStatus.KKT_POINT, trial_iterate)
  else
    let infeasibility_error ← compute_error ext problem trial_iterate
      trial_iterate.bound_multipliers trial_iterate.constraint_multipliers 0
    if infeasibility_error ≤ S.tolerance ∧
        trial_iterate.residual > S.tolerance * problem.number_constraints then
      .ok (OptimalityStatus.FJ_POINT, trial_iterate)
    else if step_norm ≤ S.tolerance / 100 then
      if trial_iterate.residual ≤ S.tolerance * problem.number_constraints then
        .ok (OptimalityStatus.FEASIBLE_SMALL_STEP, trial_iterate)
      else .ok (OptimalityStatus.INFEASIBLE_SMALL_STEP, trial_iterate)
    else .ok (OptimalityStatus.NOT_OPTIMAL, trial_iterate)

/-- The member `compute_measures`, lines 308-312: the call is forwarded to the
subproblem. -/
def PenaltyStrategy.compute_measures (_S : PenaltyStrategy) (sub : Subproblem σ) (solver : σ)
    (problem : Problem) (iterate : Iterate) : Iterate × σ :=
  sub.compute_measures solver problem iterate

/-- The trial point of `check_step`: the direction `d`, the trial iterate once its measures
are computed, and the state of the subproblem object. -/
structure Trial (σ : Type) where
  d : List ℚ
  iterate : Iterate
  solver : σ

/-- Lines 134-148 of `check_step`: `d` is made of the first `number_variables` components
of the solution, the trial point is `x + step_length * d`, the trial constraint
multipliers are `constraint_multipliers + step_length * (multipliers of the solution)`;
the trial iterate is constructed from them and its measures are computed.  The
constructor of `Iterate` stores its three vector arguments; what it computes for the other
members is left to the oracle `new_iterate`. -/
def PenaltyStrategy.trial_iterate (S : PenaltyStrategy) (sub : Subproblem σ) (ext : External)
    (solver : σ) (problem : Problem) (current_iterate : Iterate) (solution : LocalSolution)
    (step_length : ℚ) : Except Fault (Trial σ) := do
  let d ← (List.range problem.number_variables).foldlM (fun d i =>
    match read solution.x i with
    | .error e => .error e
    | .ok value => .ok (d.set i value)) (List.replicate problem.number_variables 0)
  let x_trial ← add_vectors_value current_iterate.x d step_length
  let bound_multipliers ← compute_bound_multipliers problem solution
  let constraint_multipliers ← compute_constraint_multipliers problem solution
  let trial_constraint_multipliers ←
    add_vectors_value current_iterate.constraint_multipliers constraint_multipliers step_length
  let constructed : Iterate :=
    { ext.new_iterate problem x_trial bound_multipliers trial_constraint_multipliers with
      x := x_trial
      bound_multipliers := bound_multipliers
      constraint_multipliers := trial_constraint_multipliers }
  let measured := S.compute_measures sub solver problem constructed
  .ok { d := d, iterate := measured.1, solver := measured.2 }

/-- Result of `check_step`: the returned flag, the iterate that `current_iterate` refers to
after the call, and the state of the subproblem object. -/
structure CheckResult (σ : Type) where
  accept : Bool
  current_iterate : Iterate
  solver : σ

/-- The member `check_step`, lines 131-166. -/
def PenaltyStrategy.check_step (S : PenaltyStrategy) (sub : Subproblem σ) (ext : External)
    (solver : σ) (problem : Problem) (current_iterate : Iterate) (solution : LocalSolution)
    (step_length : ℚ) : Except Fault (CheckResult σ) :=
  match S.trial_iterate sub ext solver problem current_iterate solution step_length with
  | .error e => .error e
  | .ok trial =>
    let current_exact_l1_penalty :=
      S.penalty_parameter * current_iterate.objective + current_iterate.residual
    let trial_exact_l1_penalty :=
      S.penalty_parameter * trial.iterate.objective + trial.iterate.residual
    if current_exact_l1_penalty - trial_exact_l1_penalty
        ≥ S.eta * step_length * (current_iterate.residual - solution.objective) then
      let with_KKT : Iterate :=
        { trial.iterate with
          KKTerror := ext.compute_KKT_error problem trial.iterate S.penalty_parameter }
      let with_complementarity : Iterate :=
        { with_KKT with
          complementarity_error := ext.compute_complementarity_error problem with_KKT }
      let step_norm := step_length * norm_inf trial.d
      match S.compute_status ext problem with_complementarity step_norm with
      | .error e => .error e
      | .ok (status, rescaled) =>
        .ok { accept := true, current_iterate := { rescaled with status := status },
              solver := trial.solver }
    else .ok { accept := false, current_iterate := current_iterate, solver := trial.solver }

/-- One call of `compute_step` in a run of the solver: the state of the subproblem object
at entry and the arguments of the call. -/
structure StepCall (σ : Type) where
  solver : σ
  problem : Problem
  current_iterate : Iterate
  radius : ℚ

/-- A sequence of calls of `compute_step` on one strategy: each call starts from the
penalty parameter left by the previous one. -/
def PenaltyStrategy.compute_steps (S : PenaltyStrategy) (sub : Subproblem σ) (ext : External)
    (fuel : Nat) : List (StepCall σ) → Except Fault PenaltyStrategy
  | [] => .ok S
  | call :: calls =>
    match S.compute_step sub ext fuel call.solver call.problem call.current_iterate call.radius with
    | .error e => .error e
    | .ok result => result.strategy.compute_steps sub ext fuel calls

/-! ### A small instance

One variable `x` in `[-10, 10]` and one constraint `c(x) >= 1`; the current iterate is
`x = 0` with `c = 0`, so its residual is 1.  The l1 subproblem has one elastic variable. -/

/-- The problem of the instance. -/
def toy_problem : Problem :=
  { number_variables := 1
    number_constraints := 1
    constraint_status := [ConstraintStatus.BOUNDED_LOWER]
    variable_lb := [-10]
    variable_ub := [10]
    constraint_lb := [1]
    constraint_ub := [100] }

/-- The current iterate of the instance. -/
def toy_iterate : Iterate :=
  { x := [0]
    bound_multipliers := [0]
    constraint_multipliers := [0]
    objective := 0
    residual := 1
    constraints := [0]
    KKTerror := 0
    complementarity_error := 0
    status := OptimalityStatus.NOT_OPTIMAL }

/-- A strategy as constructed, with the penalty dimensions of the instance. -/
def toy_strategy : PenaltyStrategy :=
  { PenaltyStrategy.create (1 / 10 ^ 6) with
    penalty_dimensions := { number_additional_variables := 1, number_constraints := 1 } }

/-- A solution of the subproblem: step 1 in `x`, elastic variable `1/2`, constraint
multiplier 1 and objective value `objective`. -/
def toy_solution (objective : ℚ) : LocalSolution :=
  { x := [1, 1 / 2]
    bound_multipliers := [0]
    constraint_multipliers := [1]
    objective := objective }

/-- A subproblem object without state that returns `toy_solution (1/2)` whatever the
penalty parameter, and whose `compute_measures` leaves the iterate as constructed. -/
def toy_subproblem : Subproblem Unit :=
  { compute_l1_penalty_step := fun s _ _ _ _ _ => (toy_solution (1 / 2), s)
    compute_measures := fun s _ iterate => (iterate, s) }

/-- External functions for the instance: a Lagrangian gradient of `1e-6`, and a constructor
of iterates that evaluates objective 0 and residual 1 at every point. -/
def toy_external : External :=
  { compute_lagrangian_gradient := fun _ _ _ _ _ => [1 / 10 ^ 6]
    compute_KKT_error := fun _ _ _ => 0
    compute_complementarity_error := fun _ _ => 0
    new_iterate := fun _ x bound_multipliers constraint_multipliers =>
      { toy_iterate with
        x := x
        bound_multipliers := bound_multipliers
        constraint_multipliers := constraint_multipliers } }

/-- The trial iterate of the instance for a full step along `toy_solution`: `x = 1`,
constraint multiplier 1, objective 0 and residual 1 as evaluated by the constructor. -/
def toy_trial : Iterate :=
  { toy_iterate with x := [1], constraint_multipliers := [1] }

/-- The call of `compute_step` on the instance. -/
def toy_call : StepCall Unit :=
  { solver := (), problem := toy_problem, current_iterate := toy_iterate, radius := 1 }

end Penalty

/-! ### The combined error as a sum, and further instances -/

section PenaltySpec

/-- Complementarity term of a variable `x` with bounds `lb`, `ub` and bound multiplier `z`,
as the error measure is described: for `lb < x < ub`, `|z (x - lb)|` if `z > 0` and
`|z (x - ub)|` if `z < 0`; a variable at (or outside) a bound and a zero multiplier
contribute nothing. -/
def bound_complementarity (lb x ub z : ℚ) : ℚ :=
  if lb < x ∧ x < ub then
    if z > 0 then |z * (x - lb)| else if z < 0 then |z * (x - ub)| else 0
  else 0

/-- Complementarity term of a constraint value `c` with bounds `lb`, `ub` and multiplier
`lambda`, as the error measure is described: `|(1 - lambda)(c - lb)|` below the lower bound,
`|(1 - lambda)(c - ub)|` above the upper bound, and otherwise `|lambda (c - lb)|` if
`lambda > 0` and `|lambda (c - ub)|` if `lambda < 0`. -/
def constraint_complementarity (lb c ub lambda : ℚ) : ℚ :=
  if c < lb then |(1 - lambda) * (c - lb)|
  else if ub < c then |(1 - lambda) * (c - ub)|
  else if lambda > 0 then |lambda * (c - lb)|
  else if lambda < 0 then |lambda * (c - ub)|
  else 0

/-- The combined error as a closed expression: the sum of the absolute values of the
Lagrangian gradient, plus the complementarity terms of the variables, plus those of the
constraints. -/
def combined_error (ext : External) (problem : Problem) (iterate : Iterate)
    (bound_multipliers constraint_multipliers : List ℚ) (penalty_parameter : ℚ) : ℚ :=
  ((ext.compute_lagrangian_gradient problem iterate penalty_parameter bound_multipliers
      constraint_multipliers).map (fun g => |g|)).sum
  + ((List.range problem.number_variables).map (fun i =>
      bound_complementarity (problem.variable_lb.getD i 0) (iterate.x.getD i 0)
        (problem.variable_ub.getD i 0) (bound_multipliers.getD i 0))).sum
  + ((List.range problem.number_constraints).map (fun j =>
      constraint_complementarity (problem.constraint_lb.getD j 0) (iterate.constraints.getD j 0)
        (problem.constraint_ub.getD j 0) (constraint_multipliers.getD j 0))).sum

/-- Condition 1 of the penalty update for a direction of linear model `linear_model`:
`residual - m(d) >= 0.1 * (residual - m*)`. -/
def Condition1 (residual linear_model ideal_linear_model : ℚ) : Prop :=
  residual - linear_model ≥ 1 / 10 * (residual - ideal_linear_model)

/-- Condition 2 of the penalty update for a direction of objective `objective`:
`residual - objective(d) >= 0.1 * (residual - objective(d*))`. -/
def Condition2 (residual objective ideal_objective : ℚ) : Prop :=
  residual - objective ≥ 1 / 10 * (residual - ideal_objective)

/-- The strategy of the small instance with the penalty parameter `1/2`. -/
def toy_half_strategy : PenaltyStrategy :=
  { toy_strategy with penalty_parameter := 1 / 2 }

/-- The strategy of the small instance with the tolerance `1e-7`. -/
def toy_tight_strategy : PenaltyStrategy :=
  { toy_strategy with tolerance := 1 / 10 ^ 7 }

/-- The trial iterate of the small instance with a residual of 0. -/
def toy_feasible_trial : Iterate :=
  { toy_trial with residual := 0 }

/-- A solution of the subproblem of the small instance whose elastic variable is 0. -/
def toy_feasible_solution : LocalSolution :=
  { x := [1, 0]
    bound_multipliers := [0]
    constraint_multipliers := [0]
    objective := -1 }

/-- A subproblem object without state that returns `toy_feasible_solution` whatever the
penalty parameter. -/
def toy_feasible_subproblem : Subproblem Unit :=
  { compute_l1_penalty_step := fun s _ _ _ _ _ => (toy_feasible_solution, s)
    compute_measures := fun s _ iterate => (iterate, s) }

/-- External functions for the small instance with a Lagrangian gradient equal to 0. -/
def toy_stationary_external : External :=
  { toy_external with compute_lagrangian_gradient := fun _ _ _ _ _ => [0] }

/-- The result of `check_step` on the small instance for a full step along
`toy_solution 1`: the step is accepted and the trial iterate, a `FJ_POINT`, becomes the
current iterate. -/
def toy_check_result : CheckResult Unit :=
  { accept := true
    current_iterate := { toy_trial with status := OptimalityStatus.FJ_POINT }
    solver := () }

/-- The result of `compute_step` on the small instance from the penalty parameter 1. -/
def toy_step_result : StepResult Unit :=
  { solution := toy_solution (1 / 2)
    strategy := { toy_strategy with penalty_parameter := 1 / 10 ^ 12 }
    solver := ()
    solves := [1, 0, 1 / 2, 1 / 10 ^ 12] }

/-- A solution of the subproblem of the small instance whose elastic variable is 1 (no
decrease of the linearized infeasibility) and whose objective is `1/2`. -/
def toy_late_solution : LocalSolution :=
  { x := [1, 1]
    bound_multipliers := [0]
    constraint_multipliers := [1]
    objective := 1 / 2 }

/-- A subproblem object without state whose answer depends on the penalty parameter: the
ideal direction `toy_solution (1/2)` at penalty parameter 0, `toy_late_solution` at penalty
parameter `1/4`, and `toy_solution 1` otherwise. -/
def toy_sticky_subproblem : Subproblem Unit :=
  { compute_l1_penalty_step := fun s _ _ _ penalty_parameter _ =>
      (if penalty_parameter = 0 then toy_solution (1 / 2)
        else if penalty_parameter = 1 / 4 then toy_late_solution
        else toy_solution 1, s)
    compute_measures := fun s _ iterate => (iterate, s) }

/-- State of the shrink loop of `compute_step` at its entry on the small instance with
`toy_sticky_subproblem`: penalty parameter 1, both flags false, the first direction
`toy_solution 1`, two subproblems solved (at 1 and at 0). -/
def toy_loop_start : LoopState Unit :=
  { penalty_parameter := 1
    condition1 := false
    condition2 := false
    solution := toy_solution 1
    solver := ()
    solves := [1, 0] }

/-- State of that loop after its first pass. -/
def toy_loop_middle : LoopState Unit :=
  { penalty_parameter := 1 / 2
    condition1 := true
    condition2 := false
    solution := toy_solution 1
    solver := ()
    solves := [1, 0, 1 / 2] }

/-- State of that loop at its exit, after two passes. -/
def toy_loop_end : LoopState Unit :=
  { penalty_parameter := 1 / 4
    condition1 := true
    condition2 := true
    solution := toy_late_solution
    solver := ()
    solves := [1, 0, 1 / 2, 1 / 4] }

/-- External functions for the small instance with a Lagrangian gradient equal to 0 and a
constructor of iterates that evaluates the constraint at its lower bound 1, hence a
residual of 0, at every point. -/
def toy_active_external : External :=
  { toy_stationary_external with
    new_iterate := fun _ x bound_multipliers constraint_multipliers =>
      { toy_iterate with
        x := x
        bound_multipliers := bound_multipliers
        constraint_multipliers := constraint_multipliers
        residual := 0
        constraints := [1] } }

/-- The current iterate of the small instance with the constraint multiplier 3. -/
def toy_dual_iterate : Iterate :=
  { toy_iterate with constraint_multipliers := [3] }

/-- The trial iterate built from `toy_dual_iterate` for a full step along `toy_solution`
with `toy_active_external`: `x = 0 + 1 * 1`, constraint multiplier `3 + 1 * 1`, constraint
value 1 and residual 0. -/
def toy_active_trial : Iterate :=
  { toy_iterate with
    x := [1]
    constraint_multipliers := [4]
    residual := 0
    constraints := [1] }

/-- The result of `check_step` on that instance with the penalty parameter `1/2`: the step
is accepted, the status is `KKT_POINT` and the constraint multiplier of the current
iterate is `4 / (1/2) = 8`. -/
def toy_rescaled_result : CheckResult Unit :=
  { accept := true
    current_iterate :=
      { toy_active_trial with
        constraint_multipliers := [8]
        status := OptimalityStatus.KKT_POINT }
    solver := () }

end PenaltySpec


/-! ## Factories: `HessianModelFactory.cpp`, `InequalityHandlingMethodFactory.cpp` and
`SymmetricIndefiniteLinearSolverFactory.cpp`

A C++ exception that leaves a function is the error of an `Except Exception _`. -/

section Factories

/-- The exceptions of `<stdexcept>` that the factories throw, with their message. -/
inductive Exception where
  | invalid_argument (what : String)
  | out_of_range (what : String)
deriving DecidableEq, Repr

/-- Modelled from the spec: `Options` of `options/Options.hpp` (not among the embedded
sources), "a keyed string to {string, int, double, bool} map"; only the string values are
kept. -/
structure Options where
  strings : String → Option String

/-- Modelled from the spec: `Options::get_string(key)` of `options/Options.hpp` (not among
the embedded sources): the value of the option, or the exception `out_of_range` when the
map holds no such key. -/
def Options.get_string (options : Options) (key : String) : Except Exception String :=
  match options.strings key with
  | some value => .ok value
  | none => .error (.out_of_range ("The option " ++ key ++ " was not found"))

/-- The classes derived from `HessianModel` that `HessianModelFactory::create` builds; the
constructor of `ConvexifiedHessian` receives the options. -/
inductive HessianModel where
  | ConvexifiedHessian (options : Options)
  | ExactHessian
  | ZeroHessian

/-- The function `HessianModelFactory::create(hessian_model, convexify, options)`,
`HessianModelFactory.cpp` lines 12-25. -/
def HessianModelFactory.create (hessian_model : String) (convexify : Bool) (options : Options) :
    Except Exception HessianModel :=
  if hessian_model = "exact" then
    if convexify then .ok (HessianModel.ConvexifiedHessian options)
    else .ok HessianModel.ExactHessian
  else if hessian_model = "zero" then .ok HessianModel.ZeroHessian
  else .error (.invalid_argument ("Hessian model " ++ hessian_model ++ " does not exist"))

/-- The classes derived from `InequalityHandlingMethod` that
`InequalityHandlingMethodFactory::create` builds, each constructed from the options. -/
inductive InequalityHandlingMethod where
  | QPSubproblem (options : Options)
  | LPSubproblem (options : Options)
  | PrimalDualInteriorPointMethod (options : Options)

/-- The function `InequalityHandlingMethodFactory::create(options)`,
`InequalityHandlingMethodFactory.cpp` lines 15-29.  An exception of `get_string` leaves the
function. -/
def InequalityHandlingMethodFactory.create (options : Options) :
    Except Exception InequalityHandlingMethod :=
  match options.get_string "subproblem" with
  | .error e => .error e
  | .ok subproblem_strategy =>
    if subproblem_strategy = "QP" then .ok (InequalityHandlingMethod.QPSubproblem options)
    else if subproblem_strategy = "LP" then .ok (InequalityHandlingMethod.LPSubproblem options)
    else if subproblem_strategy = "primal_dual_interior_point" then
      .ok (InequalityHandlingMethod.PrimalDualInteriorPointMethod options)
    else .error (.invalid_argument
      ("Subproblem strategy " ++ subproblem_strategy ++ " is not supported"))

/-- The preprocessor symbols that `SymmetricIndefiniteLinearSolverFactory.cpp` tests, and
the value returned by the external function `LIBHSL_isfunctional()`, which is declared
(and called) only when `HAS_HSL` is defined. -/
structure BuildFlags where
  HAS_HSL : Bool
  HAS_MA57 : Bool
  HAS_MA27 : Bool
  HAS_MUMPS : Bool
  LIBHSL_isfunctional : Bool

/-- The function `SymmetricIndefiniteLinearSolverFactory::available_solvers()`,
`SymmetricIndefiniteLinearSolverFactory.cpp` lines 74-94. -/
def SymmetricIndefiniteLinearSolverFactory.available_solvers (flags : BuildFlags) : List String :=
  let solvers : List String := []
  let solvers :=
    if flags.HAS_HSL then
      if flags.LIBHSL_isfunctional then solvers ++ ["MA57"] ++ ["MA27"] else solvers
    else
      let solvers := if flags.HAS_MA57 then solvers ++ ["MA57"] else solvers
      if flags.HAS_MA27 then solvers ++ ["MA27"] else solvers
  if flags.HAS_MUMPS then solvers ++ ["MUMPS"] else solvers

/-- The function `InequalityHandlingMethodFactory::available_strategies()`,
`InequalityHandlingMethodFactory.cpp` lines 31-41.  `QPSolverFactory::available_solvers()`
is defined outside the embedded sources and its result is the parameter `qp_solvers`. -/
def InequalityHandlingMethodFactory.available_strategies (qp_solvers : List String)
    (flags : BuildFlags) : List String :=
  let strategies : List String := []
  let strategies :=
    if ¬ qp_solvers.isEmpty then strategies ++ ["QP"] ++ ["LP"] else strategies
  if ¬ (SymmetricIndefiniteLinearSolverFactory.available_solvers flags).isEmpty then
    strategies ++ ["primal_dual_interior_point"]
  else strategies

/-- Options that hold the one entry `key = value`. -/
def single_option (key value : String) : Options :=
  { strings := fun k => if k = key then some value else none }

/-- A build with MUMPS only. -/
def toy_flags : BuildFlags :=
  { HAS_HSL := false, HAS_MA57 := false, HAS_MA27 := false, HAS_MUMPS := true,
    LIBHSL_isfunctional := false }

end Factories

/-! ## `FeasibilityRestoration.cpp`: the two-phase constraint relaxation strategy

The classes that `FeasibilityRestoration` uses and that are defined outside the embedded
sources (`Model`, `Iterate`, `Direction`, `NonlinearProblem`, `Subproblem`,
`GlobalizationStrategy`) are reduced to the members that `FeasibilityRestoration.cpp`
reads, writes or calls.  The statistics and the debug output are not embedded. -/

namespace Restoration

/-- The two values of `Phase` that `FeasibilityRestoration.cpp` tests and assigns. -/
inductive Phase where
  | OPTIMALITY
  | FEASIBILITY_RESTORATION
deriving DecidableEq, Repr

/-- Modelled from the spec: `SubproblemStatus` (its header is not among the embedded
sources), the status of a direction, "status in {OPTIMAL, INFEASIBLE, UNBOUNDED, ERROR}". -/
inductive SubproblemStatus where
  | OPTIMAL
  | INFEASIBLE
  | UNBOUNDED
  | ERROR
deriving DecidableEq, Repr

/-- Modelled from the spec: `Model` (not among the embedded sources), "n variables, m
constraints; exposes f(x), grad f(x), c(x), grad c(x)", with the bounds
`c_L <= c(x) <= c_U` and `x_L <= x <= x_U`; a bound that is infinite is `none`.  The
Jacobian is the list of the gradients of the constraints. -/
structure Model where
  number_variables : Nat
  number_constraints : Nat
  evaluate_objective : List ℚ → ℚ
  evaluate_objective_gradient : List ℚ → List ℚ
  evaluate_constraints : List ℚ → List ℚ
  evaluate_constraint_jacobian : List ℚ → List (List ℚ)
  variable_lower_bounds : List (Option ℚ)
  variable_upper_bounds : List (Option ℚ)
  constraint_lower_bounds : List (Option ℚ)
  constraint_upper_bounds : List (Option ℚ)

/-- Violation of a lower bound by the value `c`: `max(0, lb - c)`, and 0 without a bound. -/
def lower_violation : Option ℚ → ℚ → ℚ
  | none, _ => 0
  | some lb, c => max 0 (lb - c)

/-- Violation of an upper bound by the value `c`: `max(0, c - ub)`, and 0 without a bound. -/
def upper_violation : Option ℚ → ℚ → ℚ
  | none, _ => 0
  | some ub, c => max 0 (c - ub)

/-- The value `c` is not below the lower bound. -/
def above_lower : Option ℚ → ℚ → Prop
  | none, _ => True
  | some lb, c => lb ≤ c

/-- The value `c` is not above the upper bound. -/
def below_upper : Option ℚ → ℚ → Prop
  | none, _ => True
  | some ub, c => c ≤ ub

/-- Modelled from the spec: `Model::compute_constraint_violation(constraints, L1_NORM)`
(not among the embedded sources), the L1 norm of the bound violations of the constraint
values: the sum over the constraints `j` of `max(0, c_L,j - c_j, c_j - c_U,j)`.  The
components are read with `0` beyond the end of `constraints`. -/
def Model.compute_constraint_violation (model : Model) (constraints : List ℚ) : ℚ :=
  ((List.range model.number_constraints).map (fun j =>
    max (lower_violation (model.constraint_lower_bounds.getD j none) (constraints.getD j 0))
      (upper_violation (model.constraint_upper_bounds.getD j none)
        (constraints.getD j 0)))).sum

/-- The constraint values `c` satisfy `c_L <= c <= c_U`. -/
def Model.constraints_within_bounds (model : Model) (constraints : List ℚ) : Prop :=
  ∀ j, j < model.number_constraints →
    above_lower (model.constraint_lower_bounds.getD j none) (constraints.getD j 0) ∧
    below_upper (model.constraint_upper_bounds.getD j none) (constraints.getD j 0)

/-- The point `x` satisfies `x_L <= x <= x_U`. -/
def Model.variables_within_bounds (model : Model) (x : List ℚ) : Prop :=
  ∀ i, i < model.number_variables →
    above_lower (model.variable_lower_bounds.getD i none) (x.getD i 0) ∧
    below_upper (model.variable_upper_bounds.getD i none) (x.getD i 0)

/-- Modelled from the spec: the progress measures of an iterate, "nonlinear_progress =
{infeasibility, scaled_optimality, unscaled_optimality}"; `scaled_optimality` is a function
of the objective multiplier (a `std::function<double(double)>` in lines 232 and 240). -/
structure ProgressMeasures where
  infeasibility : ℚ
  scaled_optimality : ℚ → ℚ
  unscaled_optimality : ℚ

/-- Modelled from the spec: the evaluations of the model cached in an iterate, "caches
{objective, objective_gradient, constraints, constraints_jacobian}". -/
structure ModelEvaluations where
  objective : ℚ
  constraints : List ℚ
  objective_gradient : List ℚ
  constraint_jacobian : List (List ℚ)

/-- Modelled from the spec: `Iterate` (not among the embedded sources), with the members
that `FeasibilityRestoration.cpp` uses: the primals, the "lazily-evaluated caches" with
their "evaluation flags", and the progress measures. -/
structure Iterate where
  number_variables : Nat
  primals : List ℚ
  model_evaluations : ModelEvaluations
  is_objective_computed : Bool
  are_constraints_computed : Bool
  nonlinear_progress : ProgressMeasures

/-- Modelled from the spec: `Iterate::evaluate_objective(model)` (not among the embedded
sources): the objective is evaluated at the primals and cached, unless the flag says that
it has been ("at-most-one evaluation per iterate"). -/
def Iterate.evaluate_objective (iterate : Iterate) (model : Model) : Iterate :=
  if iterate.is_objective_computed then iterate
  else
    { iterate with
      model_evaluations :=
        { iterate.model_evaluations with objective := model.evaluate_objective iterate.primals }
      is_objective_computed := true }

/-- Modelled from the spec: `Iterate::evaluate_constraints(model)` (not among the embedded
sources): the constraints are evaluated at the primals and cached, unless the flag says
that they have been. -/
def Iterate.evaluate_constraints (iterate : Iterate) (model : Model) : Iterate :=
  if iterate.are_constraints_computed then iterate
  else
    { iterate with
      model_evaluations :=
        { iterate.model_evaluations with
          constraints := model.evaluate_constraints iterate.primals }
      are_constraints_computed := true }

/-- Modelled from the spec: `Direction` (not among the embedded sources), with the members
that `FeasibilityRestoration.cpp` uses: "primals d, objective_multiplier, status, norm". -/
structure Direction where
  primals : List ℚ
  objective_multiplier : ℚ
  norm : ℚ
  status : SubproblemStatus

/-- Modelled from the spec: `NonlinearProblem` (not among the embedded sources), the
reformulation handed to the subproblem, with the members that `FeasibilityRestoration.cpp`
uses.  The member `optimality_problem` is built from the model and `feasibility_problem`
from the model and the objective multiplier 0 (lines 13-15). -/
structure NonlinearProblem where
  number_variables : Nat
  number_constraints : Nat
  objective_multiplier : ℚ

/-- The object `*this->subproblem`: a state of the class behind the pointer and its public
member `unscaled_optimality_measure_changed`, which lines 101 and 105 read and write. -/
structure SubproblemObject (σ : Type) where
  state : σ
  unscaled_optimality_measure_changed : Bool

/-- The virtual member functions of `Subproblem` that `FeasibilityRestoration.cpp` calls;
the class is not among the embedded sources and the functions are parameters.  A function
that receives the iterate by non-const reference returns it.
`unscaled_optimality_measure` is the value that `set_unscaled_optimality_measure(problem,
iterate)` assigns to `iterate.nonlinear_progress.unscaled_optimality`. -/
structure Subproblem (σ : Type) where
  solve : SubproblemObject σ → NonlinearProblem → Iterate →
    Direction × SubproblemObject σ × Iterate
  set_initial_point : SubproblemObject σ → List ℚ → SubproblemObject σ
  initialize_feasibility_problem : SubproblemObject σ → Iterate → SubproblemObject σ × Iterate
  set_elastic_variable_values : SubproblemObject σ → NonlinearProblem → Iterate →
    SubproblemObject σ × Iterate
  unscaled_optimality_measure : SubproblemObject σ → NonlinearProblem → Iterate → ℚ

/-- The virtual member functions of `GlobalizationStrategy` that the embedded functions
call; the class is not among the embedded sources and the functions are parameters acting
on a state `γ`.  `is_feasibility_iterate_acceptable` is a query. -/
structure GlobalizationStrategy (γ : Type) where
  reset : γ → γ
  register_current_progress : γ → ProgressMeasures → γ
  is_feasibility_iterate_acceptable : γ → ℚ → Bool

/-- The member functions of `Iterate` whose effect the spec does not describe, as
parameters: `set_number_variables(number_variables)`. -/
structure External where
  set_number_variables : Iterate → Nat → Iterate

/-- Modelled from the spec: `dot(x, y)` of the linear algebra headers (the overload used
here is not among the embedded sources), the sum of the products of the components. -/
def dot (x y : List ℚ) : ℚ := (List.zipWith (fun a b => a * b) x y).sum

/-- Modelled from the spec:
`ConstraintRelaxationStrategy::compute_linearized_constraint_violation(model,
current_iterate, direction, step_length)` (its definition is not among the embedded
sources), the L1 "violation of c(x) + alpha * grad c(x) d", computed from the constraints
and the Jacobian cached in the current iterate. -/
def compute_linearized_constraint_violation (model : Model) (current_iterate : Iterate)
    (direction : Direction) (step_length : ℚ) : ℚ :=
  model.compute_constraint_violation
    ((List.range model.number_constraints).map (fun j =>
      current_iterate.model_evaluations.constraints.getD j 0
        + step_length * dot direction.primals
            (current_iterate.model_evaluations.constraint_jacobian.getD j [])))

/-- The function `norm_inf(x, range)` of `Vector.hpp`, lines 148-155: the largest absolute
value of the components `x[index]` for the indices of the range, starting from 0. -/
def norm_inf_range (x : List ℚ) (range : List Nat) : Except Fault ℚ :=
  range.foldlM (fun norm index =>
    match x[index]? with
    | some value => .ok (max norm |value|)
    | none => .error .out_of_bounds) 0

/-- State of a `FeasibilityRestoration`: the model, the two reformulated problems, the
subproblem, the two globalization strategies and the current phase. -/
structure FeasibilityRestoration (σ γ : Type) where
  original_model : Model
  optimality_problem : NonlinearProblem
  feasibility_problem : NonlinearProblem
  subproblem : SubproblemObject σ
  phase_1_strategy : γ
  phase_2_strategy : γ
  current_phase : Phase

variable {σ γ : Type}

/-- The member `current_reformulated_problem`, lines 182-189. -/
def FeasibilityRestoration.current_reformulated_problem (S : FeasibilityRestoration σ γ) :
    NonlinearProblem :=
  if S.current_phase = Phase.OPTIMALITY then S.optimality_problem else S.feasibility_problem

/-- The member `set_infeasibility_measure`, lines 199-209. -/
def FeasibilityRestoration.set_infeasibility_measure (S : FeasibilityRestoration σ γ)
    (iterate : Iterate) : Iterate :=
  if S.current_phase = Phase.OPTIMALITY then
    let iterate1 := iterate.evaluate_constraints S.original_model
    { iterate1 with
      nonlinear_progress :=
        { iterate1.nonlinear_progress with
          infeasibility :=
            S.original_model.compute_constraint_violation
              iterate1.model_evaluations.constraints } }
  else
    { iterate with
      nonlinear_progress := { iterate.nonlinear_progress with infeasibility := 0 } }

/-- The member `generate_predicted_infeasibility_reduction_model`, lines 211-225. -/
def FeasibilityRestoration.generate_predicted_infeasibility_reduction_model
    (S : FeasibilityRestoration σ γ) (current_iterate : Iterate) (direction : Direction)
    (step_length : ℚ) : ℚ :=
  if S.current_phase = Phase.OPTIMALITY then
    let current_constraint_violation :=
      S.original_model.compute_constraint_violation current_iterate.model_evaluations.constraints
    let linearized_constraint_violation :=
      compute_linearized_constraint_violation S.original_model current_iterate direction
        step_length
    current_constraint_violation - linearized_constraint_violation
  else 0

/-- The member `set_scaled_optimality_measure`, lines 227-244. -/
def FeasibilityRestoration.set_scaled_optimality_measure (S : FeasibilityRestoration σ γ)
    (iterate : Iterate) : Iterate :=
  if S.current_phase = Phase.OPTIMALITY then
    let iterate1 := iterate.evaluate_objective S.original_model
    let objective := iterate1.model_evaluations.objective
    { iterate1 with
      nonlinear_progress :=
        { iterate1.nonlinear_progress with
          scaled_optimality := fun objective_multiplier => objective_multiplier * objective } }
  else
    let iterate1 := iterate.evaluate_constraints S.original_model
    let constraint_violation :=
      S.original_model.compute_constraint_violation iterate1.model_evaluations.constraints
    { iterate1 with
      nonlinear_progress :=
        { iterate1.nonlinear_progress with
          scaled_optimality := fun _ => constraint_violation } }

/-- The member `generate_predicted_scaled_optimality_reduction_model`, lines 246-266. -/
def FeasibilityRestoration.generate_predicted_scaled_optimality_reduction_model
    (S : FeasibilityRestoration σ γ) (current_iterate : Iterate) (direction : Direction)
    (step_length : ℚ) : ℚ → ℚ :=
  if S.current_phase = Phase.OPTIMALITY then
    let directional_derivative :=
      dot direction.primals current_iterate.model_evaluations.objective_gradient
    fun objective_multiplier => step_length * (-objective_multiplier * directional_derivative)
  else
    let current_constraint_violation :=
      S.original_model.compute_constraint_violation current_iterate.model_evaluations.constraints
    let linearized_constraint_violation :=
      compute_linearized_constraint_violation S.original_model current_iterate direction
        step_length
    fun _ => current_constraint_violation - linearized_constraint_violation

/-- The call `this->subproblem->set_unscaled_optimality_measure(problem, iterate)`. -/
def FeasibilityRestoration.set_unscaled_optimality_measure (sub : Subproblem σ)
    (S : FeasibilityRestoration σ γ) (iterate : Iterate) : Iterate :=
  { iterate with
    nonlinear_progress :=
      { iterate.nonlinear_progress with
        unscaled_optimality :=
          sub.unscaled_optimality_measure S.subproblem S.current_reformulated_problem iterate } }

/-- The member `switch_to_feasibility_restoration`, lines 129-138. -/
def FeasibilityRestoration.switch_to_feasibility_restoration (G : GlobalizationStrategy γ)
    (S : FeasibilityRestoration σ γ) (current_iterate : Iterate) :
    FeasibilityRestoration σ γ × Iterate :=
  let S1 := { S with current_phase := Phase.FEASIBILITY_RESTORATION }
  let S2 := { S1 with
    phase_2_strategy :=
      G.register_current_progress S1.phase_2_strategy current_iterate.nonlinear_progress }
  let S3 := { S2 with phase_1_strategy := G.reset S2.phase_1_strategy }
  let current_iterate1 := S3.set_scaled_optimality_measure current_iterate
  let current_iterate2 := S3.set_infeasibility_measure current_iterate1
  ({ S3 with
     phase_1_strategy :=
       G.register_current_progress S3.phase_1_strategy current_iterate2.nonlinear_progress },
   current_iterate2)

/-- The member `switch_to_optimality`, lines 140-148; it returns the state, the current
iterate and the trial iterate. -/
def FeasibilityRestoration.switch_to_optimality (ext : External)
    (S : FeasibilityRestoration σ γ) (current_iterate trial_iterate : Iterate) :
    FeasibilityRestoration σ γ × Iterate × Iterate :=
  let S1 := { S with current_phase := Phase.OPTIMALITY }
  let current_iterate1 :=
    ext.set_number_variables current_iterate S1.optimality_problem.number_variables
  let trial_iterate1 :=
    ext.set_number_variables trial_iterate S1.optimality_problem.number_variables
  let current_iterate2 := S1.set_scaled_optimality_measure current_iterate1
  let current_iterate3 := S1.set_infeasibility_measure current_iterate2
  (S1, current_iterate3, trial_iterate1)

/-- Lines 100-106 of `compute_progress_measures`: when the definition of the subproblem
changed, the unscaled optimality measure of the current iterate is recomputed, the phase-2
strategy is reset and the flag is cleared. -/
def FeasibilityRestoration.refresh_unscaled_optimality (sub : Subproblem σ)
    (G : GlobalizationStrategy γ) (S : FeasibilityRestoration σ γ) (current_iterate : Iterate) :
    FeasibilityRestoration σ γ × Iterate :=
  if S.subproblem.unscaled_optimality_measure_changed then
    let current_iterate1 := S.set_unscaled_optimality_measure sub current_iterate
    let S1 := { S with phase_2_strategy := G.reset S.phase_2_strategy }
    ({ S1 with
       subproblem := { S1.subproblem with unscaled_optimality_measure_changed := false } },
     current_iterate1)
  else (S, current_iterate)

/-- Lines 108-121 of `compute_progress_measures`: the two possible phase switches. -/
def FeasibilityRestoration.switch_phase (G : GlobalizationStrategy γ) (ext : External)
    (S : FeasibilityRestoration σ γ) (current_iterate trial_iterate : Iterate)
    (direction : Direction) : FeasibilityRestoration σ γ × Iterate × Iterate :=
  if S.current_phase = Phase.OPTIMALITY ∧ direction.objective_multiplier = 0 then
    let switched := S.switch_to_feasibility_restoration G current_iterate
    (switched.1, switched.2, trial_iterate)
  else if S.current_phase = Phase.FEASIBILITY_RESTORATION ∧
      compute_linearized_constraint_violation S.original_model current_iterate direction 1
        = 0 then
    let trial_iterate1 := S.set_scaled_optimality_measure trial_iterate
    if G.is_feasibility_iterate_acceptable S.phase_2_strategy
        (trial_iterate1.nonlinear_progress.scaled_optimality 1) = true then
      S.switch_to_optimality ext current_iterate trial_iterate1
    else (S, current_iterate, trial_iterate1)
  else (S, current_iterate, trial_iterate)

/-- The member `compute_progress_measures`, lines 99-127; it returns the state, the
current iterate and the trial iterate. -/
def FeasibilityRestoration.compute_progress_measures (sub : Subproblem σ)
    (G : GlobalizationStrategy γ) (ext : External) (S : FeasibilityRestoration σ γ)
    (current_iterate trial_iterate : Iterate) (direction : Direction) :
    FeasibilityRestoration σ γ × Iterate × Iterate :=
  let refreshed := S.refresh_unscaled_optimality sub G current_iterate
  let switched := refreshed.1.switch_phase G ext refreshed.2 trial_iterate direction
  let S2 := switched.1
  let trial_iterate1 := S2.set_infeasibility_measure switched.2.2
  let trial_iterate2 := S2.set_scaled_optimality_measure trial_iterate1
  let trial_iterate3 := S2.set_unscaled_optimality_measure sub trial_iterate2
  (S2, switched.2.1, trial_iterate3)

/-- The member `solve_feasibility_problem(statistics, current_iterate)`, lines 75-87; it
returns the direction, the state and the current iterate. -/
def FeasibilityRestoration.solve_feasibility_problem (sub : Subproblem σ)
    (S : FeasibilityRestoration σ γ) (current_iterate : Iterate) :
    Except Fault (Direction × FeasibilityRestoration σ γ × Iterate) :=
  let initialized := sub.initialize_feasibility_problem S.subproblem current_iterate
  let elastic := sub.set_elastic_variable_values initialized.1 S.feasibility_problem
    initialized.2
  let solved := sub.solve elastic.1 S.feasibility_problem elastic.2
  let direction := { solved.1 with objective_multiplier := 0 }
  match norm_inf_range direction.primals (Range S.optimality_problem.number_variables) with
  | .error e => .error e
  | .ok norm =>
    let direction := { direction with norm := norm }
    if direction.status ≠ SubproblemStatus.OPTIMAL then .error .assertion
    else .ok (direction, { S with subproblem := solved.2.1 }, solved.2.2)

/-- The member `solve_feasibility_problem(statistics, current_iterate, initial_point)`,
lines 69-73. -/
def FeasibilityRestoration.solve_feasibility_problem_from (sub : Subproblem σ)
    (S : FeasibilityRestoration σ γ) (current_iterate : Iterate) (initial_point : List ℚ) :
    Except Fault (Direction × FeasibilityRestoration σ γ × Iterate) :=
  FeasibilityRestoration.solve_feasibility_problem sub
    { S with subproblem := sub.set_initial_point S.subproblem initial_point } current_iterate

/-- The member `solve_optimality_problem`, lines 54-67. -/
def FeasibilityRestoration.solve_optimality_problem (sub : Subproblem σ)
    (S : FeasibilityRestoration σ γ) (current_iterate : Iterate) :
    Except Fault (Direction × FeasibilityRestoration σ γ × Iterate) :=
  let solved := sub.solve S.subproblem S.optimality_problem current_iterate
  let direction := { solved.1 with objective_multiplier := 1 }
  match norm_inf_range direction.primals (Range S.optimality_problem.number_variables) with
  | .error e => .error e
  | .ok norm =>
    let direction := { direction with norm := norm }
    if direction.status = SubproblemStatus.INFEASIBLE then
      FeasibilityRestoration.solve_feasibility_problem_from sub
        { S with subproblem := solved.2.1 } solved.2.2 direction.primals
    else .ok (direction, { S with subproblem := solved.2.1 }, solved.2.2)

/-- The member `compute_feasible_direction`, lines 44-52. -/
def FeasibilityRestoration.compute_feasible_direction (sub : Subproblem σ)
    (S : FeasibilityRestoration σ γ) (current_iterate : Iterate) :
    Except Fault (Direction × FeasibilityRestoration σ γ × Iterate) :=
  if S.current_phase = Phase.OPTIMALITY then
    FeasibilityRestoration.solve_optimality_problem sub S current_iterate
  else FeasibilityRestoration.solve_feasibility_problem sub S current_iterate

end Restoration

/-! ## `src/base/subproblem/ActiveSetMethod.cpp`: the infeasibility step

The types of this file (`Problem`, `Iterate`, `SubproblemSolution`, `ConstraintPartition`,
`Range`) are defined in headers that are not among the embedded sources; they are reduced
to the members that `ActiveSetMethod.cpp` uses.  A `double` that can be `INFINITY` is a
`Bound`; a `std::map<int, double>` is the list of its pairs in increasing order of the
keys. -/

namespace ActiveSet

/-- A `double` bound: a rational number, `-INFINITY` or `INFINITY`. -/
inductive Bound where
  | minus_infinity
  | finite (value : ℚ)
  | plus_infinity
deriving DecidableEq, Repr

/-- The difference `bound - value` of a bound and a finite number; an infinite bound is
unchanged. -/
def Bound.sub (bound : Bound) (value : ℚ) : Bound :=
  match bound with
  | .minus_infinity => .minus_infinity
  | .finite b => .finite (b - value)
  | .plus_infinity => .plus_infinity

/-- The pair `{lb, ub}` of `Range`, as `generate_feasibility_bounds` builds it. -/
structure Range where
  lb : Bound
  ub : Bound
deriving DecidableEq, Repr

/-- The values of `constraint_partition.constraint_feasibility[j]` that
`ActiveSetMethod.cpp` tests, lines 113-125 and 139. -/
inductive ConstraintFeasibility where
  | FEASIBLE
  | INFEASIBLE_LOWER
  | INFEASIBLE_UPPER
deriving DecidableEq, Repr

/-- The members of `ConstraintPartition` that `ActiveSetMethod.cpp` uses: the indices of
the infeasible constraints and the feasibility of every constraint. -/
structure ConstraintPartition where
  infeasible : List Nat
  constraint_feasibility : List ConstraintFeasibility
deriving DecidableEq, Repr

/-- The values of `solution.phase` that `ActiveSetMethod.cpp` assigns, lines 57 and 83. -/
inductive Phase where
  | OPTIMALITY
  | RESTORATION
deriving DecidableEq, Repr

/-- The members of `SubproblemSolution` that `ActiveSetMethod.cpp` uses. -/
structure SubproblemSolution where
  x : List ℚ
  objective_multiplier : ℚ
  phase : Phase
  phase_1_required : Bool
  constraint_partition : ConstraintPartition
deriving DecidableEq, Repr

/-- The members of `Problem` that `ActiveSetMethod.cpp` uses. -/
structure Problem where
  number_variables : Nat
  number_constraints : Nat
  variables_bounds : List Range
  constraints_bounds : List Range
  objective_sign : ℚ
deriving DecidableEq, Repr

/-- The members of `Iterate` that the embedded functions use: the point, the constraint
values, the Jacobian as one `std::map<int, double>` per constraint, the objective
gradient as a `std::map<int, double>`, and the flag `is_hessian_computed`. -/
structure Iterate where
  x : List ℚ
  constraints : List ℚ
  constraints_jacobian : List (List (Nat × ℚ))
  objective_gradient : List (Nat × ℚ)
  is_hessian_computed : Bool
deriving DecidableEq, Repr

/-- State of an `ActiveSetMethod`: the QP solver behind the reference `solver`, the
registered bounds and the counter of the subproblems solved. -/
structure ActiveSetMethod (σ : Type) where
  solver : σ
  subproblem_variables_bounds : List Range
  number_subproblems_solved : Nat

/-- The member functions of `ActiveSetMethod` that `compute_infeasibility_step` calls and
that are defined outside the embedded file, as parameters. -/
structure Members (σ : Type) where
  evaluate_feasibility_iterate : ActiveSetMethod σ → Problem → Iterate → SubproblemSolution →
    ActiveSetMethod σ × Iterate
  generate_variables_bounds : ActiveSetMethod σ → Iterate → ℚ → List Range
  solve_subproblem : ActiveSetMethod σ → List Range → List Range → Iterate → List ℚ →
    SubproblemSolution × ActiveSetMethod σ

/-- The expression `map[key] op= value` on a `std::map<int, double>`: the entry of `key` is
created with the value 0 when the map has none, then updated by `f`; the pairs stay in
increasing order of the keys. -/
def map_update : List (Nat × ℚ) → Nat → (ℚ → ℚ) → List (Nat × ℚ)
  | [], key, f => [(key, f 0)]
  | (k, v) :: rest, key, f =>
    if key < k then (key, f 0) :: (k, v) :: rest
    else if key = k then (k, f v) :: rest
    else (k, v) :: map_update rest key f

/-- Body of the loop of `generate_feasibility_bounds`, lines 112-126: the bounds of the
constraint `j` are computed and written into `constraints_bounds[j]`. -/
def feasibility_bounds_body (problem : Problem) (current_constraints : List ℚ)
    (constraint_partition : ConstraintPartition) (constraints_bounds : List Range) (j : Nat) :
    Except Fault (List Range) :=
  match constraint_partition.constraint_feasibility[j]?, problem.constraints_bounds[j]?,
    current_constraints[j]? with
  | some feasibility, some bounds, some c =>
    let range : Range :=
      if feasibility = ConstraintFeasibility.INFEASIBLE_LOWER then
        { lb := Bound.minus_infinity, ub := bounds.lb.sub c }
      else if feasibility = ConstraintFeasibility.INFEASIBLE_UPPER then
        { lb := bounds.ub.sub c, ub := Bound.plus_infinity }
      else { lb := bounds.lb.sub c, ub := bounds.ub.sub c }
    if j < constraints_bounds.length then .ok (constraints_bounds.set j range)
    else .error .out_of_bounds
  | _, _, _ => .error .out_of_bounds

/-- The member `generate_feasibility_bounds`, lines 109-128: a vector of
`number_constraints` ranges, value-initialized, filled by the loop over the constraints. -/
def generate_feasibility_bounds (problem : Problem) (current_constraints : List ℚ)
    (constraint_partition : ConstraintPartition) : Except Fault (List Range) :=
  (List.range problem.number_constraints).foldlM
    (feasibility_bounds_body problem current_constraints constraint_partition)
    (List.replicate problem.number_constraints { lb := Bound.finite 0, ub := Bound.finite 0 })

/-- Lines 135-145 of `compute_linear_feasibility_objective`: the body of the loop over the
terms `(i, derivative)` of the gradient of the constraint `j`. -/
def add_gradient_term (constraint_partition : ConstraintPartition) (j : Nat)
    (objective_gradient : List (Nat × ℚ)) (term : Nat × ℚ) : Except Fault (List (Nat × ℚ)) :=
  match constraint_partition.constraint_feasibility[j]? with
  | none => .error .out_of_bounds
  | some feasibility =>
    if feasibility = ConstraintFeasibility.INFEASIBLE_LOWER then
      .ok (map_update objective_gradient term.1 (fun value => value - term.2))
    else .ok (map_update objective_gradient term.1 (fun value => value + term.2))

/-- Lines 133-146 of `compute_linear_feasibility_objective`: the body of the loop over the
infeasible constraints `j`, that is the loop over the terms of
`current_iterate.constraints_jacobian[j]`. -/
def add_constraint_gradient (current_iterate : Iterate)
    (constraint_partition : ConstraintPartition) (objective_gradient : List (Nat × ℚ))
    (j : Nat) : Except Fault (List (Nat × ℚ)) :=
  match current_iterate.constraints_jacobian[j]? with
  | none => .error .out_of_bounds
  | some gradient =>
    gradient.foldlM (add_gradient_term constraint_partition j) objective_gradient

/-- The member `compute_linear_feasibility_objective`, lines 130-148; the call
`set_objective_gradient(objective_gradient)` assigns the objective gradient of the
iterate. -/
def compute_linear_feasibility_objective (current_iterate : Iterate)
    (constraint_partition : ConstraintPartition) : Except Fault Iterate :=
  match constraint_partition.infeasible.foldlM
      (add_constraint_gradient current_iterate constraint_partition) [] with
  | .error e => .error e
  | .ok objective_gradient => .ok { current_iterate with objective_gradient := objective_gradient }

variable {σ : Type}

/-- The member `compute_infeasibility_step`, lines 62-88; it returns the solution, the
state and the current iterate. -/
def ActiveSetMethod.compute_infeasibility_step (members : Members σ) (A : ActiveSetMethod σ)
    (problem : Problem) (current_iterate : Iterate) (phase_II_solution : SubproblemSolution)
    (trust_region_radius : ℚ) :
    Except Fault (SubproblemSolution × ActiveSetMethod σ × Iterate) :=
  let current_iterate1 := { current_iterate with is_hessian_computed := false }
  let evaluated := members.evaluate_feasibility_iterate A problem current_iterate1
    phase_II_solution
  match compute_linear_feasibility_objective evaluated.2
      phase_II_solution.constraint_partition with
  | .error e => .error e
  | .ok current_iterate2 =>
    let variables_bounds := members.generate_variables_bounds evaluated.1 current_iterate2
      trust_region_radius
    match generate_feasibility_bounds problem current_iterate2.constraints
        phase_II_solution.constraint_partition with
    | .error e => .error e
    | .ok constraints_bounds =>
      let d0 := phase_II_solution.x
      let solved := members.solve_subproblem evaluated.1 variables_bounds constraints_bounds
        current_iterate2 d0
      let solution := { solved.1 with
        objective_multiplier := 0
        phase := Phase.RESTORATION
        constraint_partition := phase_II_solution.constraint_partition }
      .ok (solution,
        { solved.2 with number_subproblems_solved := solved.2.number_subproblems_solved + 1 },
        current_iterate2)

end ActiveSet

/-! ### `CSCSymmetricMatrix::set_regularization` -/

section CSCRegularization

variable {α : Type}

/-- Body of the loop of `set_regularization`, lines 129-134: the index
`k = column_starts[row_index + 1] - 1`, the write `entries[k] = element` and the update of
`diagonal_entries[row_index]`.  The subtraction is the `size_t` one: when
`column_starts[row_index + 1]` is 0 it wraps to `2^64 - 1`, an index beyond the end of any
vector. -/
def CSCSymmetricMatrix.set_regularization_body [Add α] (regularization_function : Nat → α)
    (M : CSCSymmetricMatrix α) (row_index : Nat) : Except Fault (CSCSymmetricMatrix α) :=
  match M.column_starts[row_index + 1]? with
  | none => .error .out_of_bounds
  | some start =>
    if start = 0 then .error .out_of_bounds
    else
      let k := start - 1
      let element := regularization_function row_index
      if k < M.entries.length then
        let M1 : CSCSymmetricMatrix α := { M with entries := M.entries.set k element }
        match M1.diagonal_entries[row_index]? with
        | none => .error .out_of_bounds
        | some diagonal =>
          .ok { M1 with
                diagonal_entries := M1.diagonal_entries.set row_index (diagonal + element) }
      else .error .out_of_bounds

/-- The member `set_regularization(regularization_function)`, lines 124-136: the assertion
`use_regularization`, then the loop over `Range(dimension)`. -/
def CSCSymmetricMatrix.set_regularization [Add α] (M : CSCSymmetricMatrix α)
    (regularization_function : Nat → α) : Except Fault (CSCSymmetricMatrix α) :=
  if M.use_regularization = false then .error .assertion
  else (Range M.dimension).foldlM
    (CSCSymmetricMatrix.set_regularization_body regularization_function) M

end CSCRegularization

/-! ### A small instance of the restoration strategy -/

namespace Restoration

/-- The calls that change a globalization strategy, as a record of them. -/
inductive StrategyCall where
  | reset
  | register_current_progress (progress : ProgressMeasures)

/-- A globalization strategy whose state is the list of the calls that it has received, in
order; it accepts a feasibility iterate when its infeasibility is not positive. -/
def recording_strategy : GlobalizationStrategy (List StrategyCall) :=
  { reset := fun calls => calls ++ [StrategyCall.reset]
    register_current_progress := fun calls progress =>
      calls ++ [StrategyCall.register_current_progress progress]
    is_feasibility_iterate_acceptable := fun _ infeasibility => decide (infeasibility ≤ 0) }

/-- A model with one variable and one constraint: `f(x) = x`, `c(x) = x`,
`0 <= c(x) <= 1` and `2 <= x <= 3`. -/
def line_model : Model :=
  { number_variables := 1
    number_constraints := 1
    evaluate_objective := fun x => x.getD 0 0
    evaluate_objective_gradient := fun _ => [1]
    evaluate_constraints := fun x => [x.getD 0 0]
    evaluate_constraint_jacobian := fun _ => [[1]]
    variable_lower_bounds := [some 2]
    variable_upper_bounds := [some 3]
    constraint_lower_bounds := [some 0]
    constraint_upper_bounds := [some 1] }

/-- Progress measures equal to 0. -/
def zero_progress : ProgressMeasures :=
  { infeasibility := 0, scaled_optimality := fun _ => 0, unscaled_optimality := 0 }

/-- The iterate at the point `x` of `line_model`, with its evaluations cached. -/
def line_iterate (x : ℚ) : Iterate :=
  { number_variables := 1
    primals := [x]
    model_evaluations :=
      { objective := x, constraints := [x], objective_gradient := [1],
        constraint_jacobian := [[1]] }
    is_objective_computed := true
    are_constraints_computed := true
    nonlinear_progress := zero_progress }

/-- The direction with the step `step`, optimal for its subproblem. -/
def line_direction (objective_multiplier step : ℚ) : Direction :=
  { primals := [step]
    objective_multiplier := objective_multiplier
    norm := |step|
    status := SubproblemStatus.OPTIMAL }

/-- A subproblem without state: the optimality problem (objective multiplier not 0) is
reported infeasible with the direction `1/2`, the feasibility problem is solved with
the direction `-1`. -/
def line_subproblem : Subproblem Unit :=
  { solve := fun s problem iterate =>
      (if problem.objective_multiplier = 0 then
          { line_direction 5 (-1) with status := SubproblemStatus.OPTIMAL }
        else { line_direction 5 (1 / 2) with status := SubproblemStatus.INFEASIBLE },
       s, iterate)
    set_initial_point := fun s _ => s
    initialize_feasibility_problem := fun s iterate => (s, iterate)
    set_elastic_variable_values := fun s _ iterate => (s, iterate)
    unscaled_optimality_measure := fun _ _ _ => 0 }

/-- The function `set_number_variables` that records the number only. -/
def line_external : External :=
  { set_number_variables := fun iterate number_variables =>
      { iterate with number_variables := number_variables } }

/-- A restoration strategy on `line_model` in the phase `phase`, with two recording
strategies that have received no call. -/
def line_restoration (phase : Phase) : FeasibilityRestoration Unit (List StrategyCall) :=
  { original_model := line_model
    optimality_problem :=
      { number_variables := 1, number_constraints := 1, objective_multiplier := 1 }
    feasibility_problem :=
      { number_variables := 2, number_constraints := 1, objective_multiplier := 0 }
    subproblem := { state := (), unscaled_optimality_measure_changed := false }
    phase_1_strategy := []
    phase_2_strategy := []
    current_phase := phase }

end Restoration

/-! ### A small instance of the infeasibility step -/

namespace ActiveSet

/-- A partition of one constraint, infeasible at its upper bound. -/
def upper_partition : ConstraintPartition :=
  { infeasible := [0], constraint_feasibility := [ConstraintFeasibility.INFEASIBLE_UPPER] }

/-- A problem with one variable and the constraint `0 <= c(x) <= 1`. -/
def line_problem : Problem :=
  { number_variables := 1
    number_constraints := 1
    variables_bounds := [{ lb := Bound.minus_infinity, ub := Bound.plus_infinity }]
    constraints_bounds := [{ lb := Bound.finite 0, ub := Bound.finite 1 }]
    objective_sign := 1 }

/-- The iterate at `x = 2` for the constraint `c(x) = x`. -/
def line_iterate : Iterate :=
  { x := [2]
    constraints := [2]
    constraints_jacobian := [[(0, 1)]]
    objective_gradient := []
    is_hessian_computed := true }

/-- The solution of the optimality subproblem at that iterate: no step, and the
constraint reported infeasible at its upper bound. -/
def line_solution : SubproblemSolution :=
  { x := [0]
    objective_multiplier := 1
    phase := Phase.OPTIMALITY
    phase_1_required := true
    constraint_partition := upper_partition }

/-- Member functions without state: the evaluation leaves the iterate as it is, the
variables are bounded by the radius, and the solver returns its initial point with the
objective multiplier 5. -/
def line_members : Members Unit :=
  { evaluate_feasibility_iterate := fun A _ iterate _ => (A, iterate)
    generate_variables_bounds := fun _ _ radius =>
      [{ lb := Bound.finite (-radius), ub := Bound.finite radius }]
    solve_subproblem := fun A _ _ _ d0 =>
      ({ x := d0
         objective_multiplier := 5
         phase := Phase.OPTIMALITY
         phase_1_required := false
         constraint_partition := { infeasible := [], constraint_feasibility := [] } }, A) }

/-- An `ActiveSetMethod` that has solved one subproblem. -/
def line_method : ActiveSetMethod Unit :=
  { solver := (), subproblem_variables_bounds := line_problem.variables_bounds,
    number_subproblems_solved := 1 }

end ActiveSet

/-! ### `SymmetricIndefiniteLinearSolverFactory::create` -/

section LinearSolverFactory

/-- The classes derived from `DirectSymmetricIndefiniteLinearSolver` that
`SymmetricIndefiniteLinearSolverFactory::create` builds. -/
inductive LinearSolver where
  | MA57Solver
  | MA27Solver
  | MUMPSSolver
deriving DecidableEq, Repr

/-- Modelled from the spec: `join(names, separator)` (its definition is not among the
embedded sources), which only builds the text of the messages: the names separated by the
separator. -/
def join (names : List String) (separator : String) : String :=
  separator.intercalate names

/-- The text appended to both messages of `create`, lines 60-61 and 66-67. -/
def available_values (flags : BuildFlags) : String :=
  "\n" ++ "The following values are available: "
    ++ join (SymmetricIndefiniteLinearSolverFactory.available_solvers flags) ", "

/-- The function `SymmetricIndefiniteLinearSolverFactory::create(options)`,
`SymmetricIndefiniteLinearSolverFactory.cpp` lines 32-71.  A test that the preprocessor
keeps only under a condition on the build flags is the conjunction of that condition and
of the test; `LIBHSL_isfunctional()` is called only when `HAS_HSL` is defined.  The
handler catches `out_of_range` only, so that `invalid_argument` leaves the function. -/
def SymmetricIndefiniteLinearSolverFactory.create (flags : BuildFlags) (options : Options) :
    Except Exception LinearSolver :=
  match options.get_string "linear_solver" with
  | .error (.out_of_range what) => .error (.out_of_range (what ++ available_values flags))
  | .error e => .error e
  | .ok linear_solver_name =>
    if (flags.HAS_HSL || flags.HAS_MA57) = true ∧ linear_solver_name = "MA57" ∧
        (flags.HAS_HSL = true → flags.LIBHSL_isfunctional = true) then
      .ok LinearSolver.MA57Solver
    else if (flags.HAS_HSL || flags.HAS_MA27) = true ∧ linear_solver_name = "MA27" ∧
        (flags.HAS_HSL = true → flags.LIBHSL_isfunctional = true) then
      .ok LinearSolver.MA27Solver
    else if flags.HAS_MUMPS = true ∧ linear_solver_name = "MUMPS" then
      .ok LinearSolver.MUMPSSolver
    else
      .error (.invalid_argument
        ("The linear solver " ++ linear_solver_name ++ " is unknown" ++ available_values flags))

/-- Options that hold no entry. -/
def no_option : Options := { strings := fun _ => none }

end LinearSolverFactory

/-! ### The objective gradient of the feasibility problem as a signed sum -/

namespace ActiveSet

/-- The component `i` of a sparse vector given by the pairs of a `std::map<int, double>`:
the value stored under the key `i`, and 0 when the map has no such key (written as the sum
of the values stored under `i`, of which a map has at most one). -/
def coefficient (gradient : List (Nat × ℚ)) (i : Nat) : ℚ :=
  ((gradient.filter (fun term => decide (term.1 = i))).map Prod.snd).sum

/-- The sign with which the gradient of the infeasible constraint `j` enters the
objective: `-1` when `j` is `INFEASIBLE_LOWER` and `+1` otherwise. -/
def constraint_sign (constraint_partition : ConstraintPartition) (j : Nat) : ℚ :=
  if constraint_partition.constraint_feasibility[j]?
      = some ConstraintFeasibility.INFEASIBLE_LOWER then -1
  else 1

/-- An iterate with two constraints of gradients `(1, 2)` and `(0, 3)`. -/
def plane_iterate : Iterate :=
  { x := [0, 0]
    constraints := [-1, 2]
    constraints_jacobian := [[(0, 1), (1, 2)], [(1, 3)]]
    objective_gradient := []
    is_hessian_computed := false }

/-- A partition in which the first constraint is infeasible at its lower bound and the
second at its upper bound. -/
def plane_partition : ConstraintPartition :=
  { infeasible := [0, 1]
    constraint_feasibility :=
      [ConstraintFeasibility.INFEASIBLE_LOWER, ConstraintFeasibility.INFEASIBLE_UPPER] }

end ActiveSet

/-! ### `PenaltyStrategy::initialize` and the sizes of the penalty subproblem -/

section PenaltyInitialize

variable {σ : Type}

/-- Body of the loop of `initialize`, lines 24-39: the sizes are incremented according to
the status of the constraint `j`. -/
def initialize_body (problem : Problem) (penalty_dimensions : PenaltyDimensions) (j : Nat) :
    Except Fault PenaltyDimensions :=
  match problem.constraint_status[j]? with
  | none => .error .out_of_bounds
  | some status =>
    if status = ConstraintStatus.EQUAL_BOUNDS then
      .ok { number_additional_variables := penalty_dimensions.number_additional_variables + 2
            number_constraints := penalty_dimensions.number_constraints + 1 }
    else if status = ConstraintStatus.BOUNDED_BOTH_SIDES then
      .ok { number_additional_variables := penalty_dimensions.number_additional_variables + 2
            number_constraints := penalty_dimensions.number_constraints + 2 }
    else if status = ConstraintStatus.BOUNDED_LOWER then
      .ok { number_additional_variables := penalty_dimensions.number_additional_variables + 1
            number_constraints := penalty_dimensions.number_constraints + 1 }
    else
      .ok { number_additional_variables := penalty_dimensions.number_additional_variables + 1
            number_constraints := penalty_dimensions.number_constraints + 1 }

/-- Lines 19-39 of `initialize`: the sizes start at 0 and the loop runs over the
constraints. -/
def initialize_dimensions (problem : Problem) : Except Fault PenaltyDimensions :=
  (List.range problem.number_constraints).foldlM (initialize_body problem)
    { number_additional_variables := 0, number_constraints := 0 }

/-- The member `initialize`, lines 18-51.  The virtual member function
`Subproblem::initialize` (`Subproblem.hpp`, line 36) is the parameter
`subproblem_initialize`; the result is the first iterate, the strategy with its penalty
dimensions set, and the state of the subproblem. -/
def PenaltyStrategy.initialize (S : PenaltyStrategy)
    ( subproblem_initialize :
      σ → Problem → List ℚ → List ℚ → List ℚ → Nat → Nat → Bool → Iterate × σ)
    (ext : External) (solver : σ) (problem : Problem) (x : List ℚ)
    (bound_multipliers constraint_multipliers : List ℚ) (use_trust_region : Bool) :
    Except Fault (Iterate × PenaltyStrategy × σ) :=
  match initialize_dimensions problem with
  | .error e => .error e
  | .ok penalty_dimensions =>
    let S1 := { S with penalty_dimensions := penalty_dimensions }
    let number_variables :=
      problem.number_variables + S1.penalty_dimensions.number_additional_variables
    let number_constraints := S1.penalty_dimensions.number_constraints
    let initialized := subproblem_initialize solver problem x bound_multipliers
      constraint_multipliers number_variables number_constraints use_trust_region
    let first_iterate := { initialized.1 with
      KKTerror := ext.compute_KKT_error problem initialized.1 S1.penalty_parameter }
    let first_iterate := { first_iterate with
      complementarity_error := ext.compute_complementarity_error problem first_iterate }
    .ok (first_iterate, S1, initialized.2)

/-- The number of constraints that the penalty subproblem holds for one constraint of the
problem: 2 for a constraint bounded on both sides, 1 for any other. -/
def generated_constraints (status : ConstraintStatus) : Nat :=
  if status = ConstraintStatus.BOUNDED_BOTH_SIDES then 2 else 1

/-- The number of constraints that the penalty subproblem holds for the first `j`
constraints of the problem, that is the index of the first one generated for the
constraint `j`. -/
def constraint_offset (problem : Problem) (j : Nat) : Nat :=
  ((List.range j).map (fun k =>
    generated_constraints (problem.constraint_status.getD k ConstraintStatus.UNBOUNDED))).sum

/-- The sum of the multipliers of the constraints that the penalty subproblem holds for the
constraint `j` of the problem, taken in the order of the subproblem. -/
def generated_multiplier (problem : Problem) (solution : LocalSolution) (j : Nat) : ℚ :=
  ((List.range
      (generated_constraints (problem.constraint_status.getD j ConstraintStatus.UNBOUNDED))).map
    (fun k => solution.constraint_multipliers.getD (constraint_offset problem j + k) 0)).sum

/-- A problem with three constraints: an equality, a constraint bounded on both sides and
a constraint bounded below. -/
def mixed_problem : Problem :=
  { number_variables := 1
    number_constraints := 3
    constraint_status := [ConstraintStatus.EQUAL_BOUNDS, ConstraintStatus.BOUNDED_BOTH_SIDES,
      ConstraintStatus.BOUNDED_LOWER]
    variable_lb := [0]
    variable_ub := [1]
    constraint_lb := [0, 0, 0]
    constraint_ub := [0, 1, 1] }

/-- A solution of the penalty subproblem of `mixed_problem`, with four constraint
multipliers. -/
def mixed_solution : LocalSolution :=
  { x := [0]
    bound_multipliers := [0]
    constraint_multipliers := [10, 20, 30, 40]
    objective := 0 }

end PenaltyInitialize

/-! ### `CSCSymmetricMatrix::smallest_diagonal_entry` and `in_increasing_order` -/

section DiagonalAndOrder

variable {α : Type}

/-- Body of the loop of `smallest_diagonal_entry`, line 119:
`smallest_entry = std::min(smallest_entry, diagonal_entries[row_index])`.  The value
`INF<ElementType>` is `none`; it is above every element. -/
def CSCSymmetricMatrix.smallest_diagonal_entry_body [Min α] (M : CSCSymmetricMatrix α)
    (smallest_entry : Option α) (row_index : Nat) : Except Fault (Option α) :=
  match M.diagonal_entries[row_index]? with
  | none => .error .out_of_bounds
  | some diagonal =>
    match smallest_entry with
    | none => .ok (some diagonal)
    | some smallest => .ok (some (min smallest diagonal))

/-- The member `smallest_diagonal_entry()`, lines 115-122: `smallest_entry` starts at
`INF<ElementType>` and the loop runs over `Range(dimension)`. -/
def CSCSymmetricMatrix.smallest_diagonal_entry [Min α] (M : CSCSymmetricMatrix α) :
    Except Fault (Option α) :=
  (Range M.dimension).foldlM M.smallest_diagonal_entry_body none

/-- The sum of the stored entries at the position `(i, i)`, 0 where none is stored:
`for_each` run with the callback that adds the entries of that position. -/
def CSCSymmetricMatrix.stored_diagonal [Zero α] [Add α] (M : CSCSymmetricMatrix α) (i : Nat) :
    Except Fault α :=
  M.for_each (fun sum row_index column_index entry =>
    if row_index = i ∧ column_index = i then sum + entry else sum) 0

/-- A matrix of dimension 1 with a regularization slot, whose column is finalized, and on
which `set_regularization` is then called twice with the function that is 1 everywhere. -/
def regularized_twice : Except Fault (CSCSymmetricMatrix ℚ) :=
  match (CSCSymmetricMatrix.create 1 1 true).finalize_column 0 with
  | .error e => .error e
  | .ok M1 =>
    match M1.set_regularization (fun _ => 1) with
    | .error e => .error e
    | .ok M2 => M2.set_regularization (fun _ => 1)

/-- The loop of `in_increasing_order`, lines 194-199, from the value `index` of the
counter.  `bound` is the value of `length - 1`, which does not change during the loop;
`fuel` bounds the number of passes.  The counter stays below `bound`, so `index + 1` does
not wrap. -/
def in_increasing_order_loop [LT α] [DecidableRel (fun a b : α => a < b)] (array : List α)
    (bound : Nat) : Nat → Nat → Except Fault Bool
  | 0, index => if index < bound then .error .out_of_fuel else .ok true
  | fuel + 1, index =>
    if index < bound then
      match array[index]?, array[index + 1]? with
      | some current, some next =>
        if current > next then .ok false
        else in_increasing_order_loop array bound fuel (index + 1)
      | _, _ => .error .out_of_bounds
    else .ok true

/-- The function `in_increasing_order(array, length)` of `Vector.hpp`, lines 191-202.  The
subtraction `length - 1` is the `size_t` one, modulo `2^64`. -/
def in_increasing_order [LT α] [DecidableRel (fun a b : α => a < b)] (array : List α)
    (length : Nat) (fuel : Nat) : Except Fault Bool :=
  in_increasing_order_loop array ((length + 2 ^ 64 - 1) % 2 ^ 64) fuel 0

end DiagonalAndOrder

/-! ## Properties of `add_vectors` -/

section VectorProofs

variable {α : Type} [Add α] [Mul α]

/-- Loop invariant of `add_vectors` after the indices below `n` have been processed: no
vector changed its size, every position from `n` on is as at entry in every vector, and
the positions below `n` of `result` hold the sums computed from the values at entry. -/
theorem add_vectors_loop (st : Store α) (x y result : Nat) (s : α)
    (hy : (st x).length ≤ (st y).length) (hr : (st x).length ≤ (st result).length) :
    ∀ n, n ≤ (st x).length →
      ∃ st1, (List.range n).foldlM (add_vectors_body x y s result) st = .ok st1 ∧
        (∀ a, (st1 a).length = (st a).length) ∧
        (∀ a, a ≠ result → st1 a = st a) ∧
        (∀ a i, n ≤ i → (st1 a)[i]? = (st a)[i]?) ∧
        (∀ i, i < n → ∀ xi yi, (st x)[i]? = some xi → (st y)[i]? = some yi →
          (st1 result)[i]? = some (xi + s * yi)) := by
  intro n
  induction n with
  | zero =>
    intro _
    exact ⟨st, rfl, fun _ => rfl, fun _ _ => rfl, fun _ _ _ => rfl, fun i hi => absurd hi (Nat.not_lt_zero i)⟩
  | succ n ih =>
    intro hn
    obtain ⟨st1, hrun, hlen, hframe, hrest, hdone⟩ := ih (Nat.le_of_succ_le hn)
    have hnx : n < (st x).length := hn
    have hny : n < (st y).length := lt_of_lt_of_le hnx hy
    have hnr : n < (st1 result).length := by rw [hlen]; exact lt_of_lt_of_le hnx hr
    have hx1 : (st1 x)[n]? = some ((st x)[n]) := by
      rw [hrest x n le_rfl]; exact List.getElem?_eq_getElem hnx
    have hy1 : (st1 y)[n]? = some ((st y)[n]) := by
      rw [hrest y n le_rfl]; exact List.getElem?_eq_getElem hny
    refine ⟨Function.update st1 result ((st1 result).set n ((st x)[n] + s * (st y)[n])), ?_, ?_, ?_, ?_, ?_⟩
    · rw [List.range_succ, List.foldlM_append, hrun]
      simp [add_vectors_body, hx1, hy1, hnr, pure, Except.pure, bind, Except.bind]
    · intro a
      by_cases ha : a = result
      · subst ha; simp [hlen]
      · simp [Function.update_noteq ha, hlen]
    · intro a ha
      simp [Function.update_noteq ha, hframe a ha]
    · intro a i hi
      by_cases ha : a = result
      · subst ha
        have hne : n ≠ i := by omega
        simp [List.getElem?_set, hne, hrest a i (by omega)]
      · simp [Function.update_noteq ha, hrest a i (by omega)]
    · intro i hi xi yi hxi hyi
      by_cases hin : i = n
      · subst hin
        have hxe : (st x)[i] = xi := by
          have := List.getElem?_eq_getElem hnx
          rw [hxi] at this; exact (Option.some.inj this).symm
        have hye : (st y)[i] = yi := by
          have := List.getElem?_eq_getElem hny
          rw [hyi] at this; exact (Option.some.inj this).symm
        simp [List.getElem?_set, hnr, hxe, hye]
      · have hlt : i < n := by omega
        have hne : n ≠ i := by omega
        simp [List.getElem?_set, hne, hdone i hlt xi yi hxi hyi]

/-- C1: `add_vectors(x, y, s, result)` called with `|x| <= |y|` and `|x| <= |result|`
returns normally, and afterwards `result[i] = x[i] + s * y[i]` for every `i < |x|`, where
`x[i]` and `y[i]` are the values at entry.  The three arguments are references into the
memory `st`, so the statement covers distinct vectors as well as `result` being the very
vector passed as `x` (the references `x` and `result` are then the same address). -/
theorem add_vectors_componentwise (st : Store α) (x y result : Nat) (s : α)
    (hy : (st x).length ≤ (st y).length) (hr : (st x).length ≤ (st result).length) :
    ∃ st1, add_vectors st x y s result = .ok st1 ∧
      ∀ i (hi : i < (st x).length) (hiy : i < (st y).length),
        (st1 result)[i]? = some ((st x)[i] + s * (st y)[i]) := by
  obtain ⟨st1, hrun, -, -, -, hdone⟩ := add_vectors_loop st x y result s hy hr _ le_rfl
  refine ⟨st1, ?_, ?_⟩
  · simp only [add_vectors, Range, not_le, not_lt.mpr hy, not_lt.mpr hr, if_false]
    exact hrun
  · intro i hi hiy
    exact hdone i hi _ _ (List.getElem?_eq_getElem hi) (List.getElem?_eq_getElem hiy)

/-- Witness of C1 with aliasing: `add_vectors(x, y, 3, x)` on `x = (1, 2)` and
`y = (10, 20, 30)`. -/
theorem add_vectors_componentwise_witness :
    (example_store 0).length ≤ (example_store 1).length ∧
    (example_store 0).length ≤ (example_store 0).length ∧
    ∃ st1, add_vectors example_store 0 1 3 0 = .ok st1 ∧
      ∀ i (hi : i < (example_store 0).length) (hiy : i < (example_store 1).length),
        (st1 0)[i]? = some ((example_store 0)[i] + 3 * (example_store 1)[i]) :=
  ⟨by decide, by decide, add_vectors_componentwise example_store 0 1 0 3 (by decide) (by decide)⟩

end VectorProofs

/-! ## Assembly of a `CSCSymmetricMatrix` -/

section CSCProofs

variable {α : Type}

theorem entries_before_length (P : List (Column α)) :
    entries_before P P.length = P.flatten.length := by
  simp [entries_before]

theorem entries_before_append_le (P Q : List (Column α)) (j : Nat) (hj : j ≤ P.length) :
    entries_before (P ++ Q) j = entries_before P j := by
  simp [entries_before, List.take_append_of_le_length hj]

theorem entries_before_snoc (P : List (Column α)) (c : Column α) :
    entries_before (P ++ [c]) (P.length + 1) = P.flatten.length + c.length := by
  have h : List.take (P.length + 1) (P ++ [c]) = P ++ [c] :=
    List.take_of_length_le (by simp)
  simp [entries_before, h]

/-- A fresh matrix is under assembly with nothing stored. -/
theorem filling_create [Zero α] (dim cap : Nat) (reg : Bool) :
    Filling dim reg (CSCSymmetricMatrix.create dim cap reg : CSCSymmetricMatrix α) [] [] where
  dimension_eq := rfl
  regularization_eq := rfl
  current_eq := rfl
  starts_length := by simp [CSCSymmetricMatrix.create]
  diagonal_length := by simp [CSCSymmetricMatrix.create]
  entries_eq := rfl
  rows_eq := rfl
  nonzeros_eq := rfl
  finalized_le := Nat.zero_le _
  starts_eq := by
    intro j hj
    have : j = 0 := by simpa using hj
    subst this
    simp [CSCSymmetricMatrix.create, entries_before, List.getElem?_replicate]
  next_eq := by
    intro h
    have h1 : 0 < dim := by simpa using h
    simp [CSCSymmetricMatrix.create, entries_before, List.getElem?_replicate, h1]

/-- Inserting into the current column of a matrix under assembly succeeds and appends the
entry to the current column. -/
theorem filling_insert [Add α] {dim : Nat} {reg : Bool} {M : CSCSymmetricMatrix α}
    {P : List (Column α)} {c : Column α} (h : Filling dim reg M P c) (hlt : P.length < dim)
    (v : α) (i : Nat) :
    ∃ M1, M.insert v i P.length = .ok M1 ∧ Filling dim reg M1 P (c ++ [(i, v)]) := by
  have hnext := h.next_eq hlt
  have hb : P.length + 1 < M.column_starts.length := by rw [h.starts_length]; omega
  have hstarts : ∀ j, j ≤ P.length →
      (M.column_starts.set (P.length + 1) (entries_before P P.length + c.length + 1))[j]?
        = some (entries_before P j) := by
    intro j hj
    have hne : P.length + 1 ≠ j := by omega
    simp [List.getElem?_set, hne, h.starts_eq j hj]
  have hnew : (M.column_starts.set (P.length + 1) (entries_before P P.length + c.length + 1))[P.length + 1]?
      = some (entries_before P P.length + (c ++ [(i, v)]).length) := by
    simp [List.getElem?_set, hb]; omega
  by_cases hdiag : i = P.length
  · have hd : i < M.diagonal_entries.length := by rw [h.diagonal_length]; omega
    refine ⟨{ M with
        entries := M.entries ++ [v]
        row_indices := M.row_indices ++ [i]
        column_starts := M.column_starts.set (P.length + 1) (entries_before P P.length + c.length + 1)
        number_nonzeros := M.number_nonzeros + 1
        diagonal_entries := M.diagonal_entries.set i (M.diagonal_entries[i] + v) }, ?_, ?_⟩
    · simp only [CSCSymmetricMatrix.insert, CSCSymmetricMatrix.insert_ndebug, h.current_eq,
        ne_eq, not_true_eq_false, if_false, hnext, hdiag, if_true]
      rw [List.getElem?_eq_getElem (hdiag ▸ hd)]
    · exact
        { dimension_eq := h.dimension_eq
          regularization_eq := h.regularization_eq
          current_eq := h.current_eq
          starts_length := by simp [h.starts_length]
          diagonal_length := by simp [h.diagonal_length]
          entries_eq := by simp [h.entries_eq]
          rows_eq := by simp [h.rows_eq]
          nonzeros_eq := by simp [h.nonzeros_eq]; omega
          finalized_le := h.finalized_le
          starts_eq := hstarts
          next_eq := fun _ => hnew }
  · refine ⟨{ M with
        entries := M.entries ++ [v]
        row_indices := M.row_indices ++ [i]
        column_starts := M.column_starts.set (P.length + 1) (entries_before P P.length + c.length + 1)
        number_nonzeros := M.number_nonzeros + 1 }, ?_, ?_⟩
    · simp only [CSCSymmetricMatrix.insert, CSCSymmetricMatrix.insert_ndebug, h.current_eq,
        ne_eq, not_true_eq_false, if_false, hnext, hdiag]
    · exact
        { dimension_eq := h.dimension_eq
          regularization_eq := h.regularization_eq
          current_eq := h.current_eq
          starts_length := by simp [h.starts_length]
          diagonal_length := by simp [h.diagonal_length]
          entries_eq := by simp [h.entries_eq]
          rows_eq := by simp [h.rows_eq]
          nonzeros_eq := by simp [h.nonzeros_eq]; omega
          finalized_le := h.finalized_le
          starts_eq := hstarts
          next_eq := fun _ => hnew }

/-- Inserting the entries of a column one after the other succeeds and appends them to the
current column. -/
theorem filling_insert_column [Add α] {dim : Nat} {reg : Bool} {P : List (Column α)}
    (hlt : P.length < dim) (col : Column α) :
    ∀ (M : CSCSymmetricMatrix α) (c : Column α), Filling dim reg M P c →
      ∃ M1, M.insert_column P.length col = .ok M1 ∧ Filling dim reg M1 P (c ++ col) := by
  induction col with
  | nil =>
    intro M c h
    exact ⟨M, rfl, by simpa using h⟩
  | cons e rest ih =>
    intro M c h
    obtain ⟨M1, h1, hF1⟩ := filling_insert h hlt e.2 e.1
    obtain ⟨M2, h2, hF2⟩ := ih M1 _ hF1
    refine ⟨M2, ?_, by simpa using hF2⟩
    simp only [CSCSymmetricMatrix.insert_column, List.foldlM_cons, h1, bind, Except.bind]
    exact h2

/-- Moving to the next column: the finalized column joins `P`. -/
theorem filling_start_next_column {dim : Nat} {reg : Bool} {M : CSCSymmetricMatrix α}
    {P : List (Column α)} {c : Column α} (h : Filling dim reg M P c) (hlt : P.length < dim) :
    ∃ M1, M.start_next_column P.length (M.dimension - 1) = .ok M1 ∧
      Filling dim reg M1 (P ++ [c]) [] := by
  have hnext := h.next_eq hlt
  have hflat : entries_before P P.length + c.length = (P ++ [c]).flatten.length := by
    simp [entries_before_length]
  have hstarts : ∀ j, j ≤ P.length + 1 → M.column_starts[j]? = some (entries_before (P ++ [c]) j) := by
    intro j hj
    by_cases hjP : j ≤ P.length
    · rw [entries_before_append_le P [c] j hjP]; exact h.starts_eq j hjP
    · have hj1 : j = P.length + 1 := by omega
      subst hj1
      rw [entries_before_snoc, hnext, entries_before_length]
  by_cases hlast : P.length < dim - 1
  · have hb : P.length + 2 < M.column_starts.length := by rw [h.starts_length]; omega
    refine ⟨{ M with
        current_column := M.current_column + 1
        column_starts := M.column_starts.set (P.length + 2) (entries_before P P.length + c.length) },
      ?_, ?_⟩
    · simp only [CSCSymmetricMatrix.start_next_column, h.dimension_eq, hlast, if_true, hnext, hb]
    · exact
        { dimension_eq := h.dimension_eq
          regularization_eq := h.regularization_eq
          current_eq := by simp [h.current_eq]
          starts_length := by simp [h.starts_length]
          diagonal_length := h.diagonal_length
          entries_eq := by simp [h.entries_eq]
          rows_eq := by simp [h.rows_eq]
          nonzeros_eq := by simp [h.nonzeros_eq]
          finalized_le := by simp; omega
          starts_eq := by
            intro j hj
            have hj1 : j ≤ P.length + 1 := by simpa using hj
            have hne : P.length + 2 ≠ j := by omega
            simp only [List.getElem?_set, hne, if_false]
            exact hstarts j hj1
          next_eq := by
            intro _
            have hlen : (P ++ [c]).length = P.length + 1 := by simp
            rw [hlen, entries_before_snoc]
            simp [List.getElem?_set, hb, entries_before_length] }
  · refine ⟨{ M with current_column := M.current_column + 1 }, ?_, ?_⟩
    · simp only [CSCSymmetricMatrix.start_next_column, h.dimension_eq, hlast, if_false]
    · exact
        { dimension_eq := h.dimension_eq
          regularization_eq := h.regularization_eq
          current_eq := by simp [h.current_eq]
          starts_length := h.starts_length
          diagonal_length := h.diagonal_length
          entries_eq := by simp [h.entries_eq]
          rows_eq := by simp [h.rows_eq]
          nonzeros_eq := by simp [h.nonzeros_eq]
          finalized_le := by simp; omega
          starts_eq := by
            intro j hj
            exact hstarts j (by simpa using hj)
          next_eq := by
            intro hcontra
            have hlen : (P ++ [c]).length = P.length + 1 := by simp
            omega }

/-- Finalizing the current column of a matrix under assembly succeeds; the column is stored
with its regularization slot when regularization is used. -/
theorem filling_finalize_column [Zero α] [Add α] {dim : Nat} {reg : Bool}
    {M : CSCSymmetricMatrix α} {P : List (Column α)} {c : Column α}
    (h : Filling dim reg M P c) (hlt : P.length < dim) :
    ∃ M1, M.finalize_column P.length = .ok M1 ∧
      Filling dim reg M1 (P ++ [c ++ if reg then [(P.length, 0)] else []]) [] := by
  have hcur : (P.length ≠ M.current_column) = False := by simp [h.current_eq]
  have hdim : (¬ P.length < M.dimension) = False := by simp [h.dimension_eq, hlt]
  cases hreg : reg with
  | true =>
    subst hreg
    obtain ⟨M1, h1, hF1⟩ := filling_insert h hlt 0 P.length
    obtain ⟨M2, h2, hF2⟩ := filling_start_next_column hF1 hlt
    refine ⟨M2, ?_, by simpa using hF2⟩
    simp only [CSCSymmetricMatrix.finalize_column, hcur, hdim, if_false, h.regularization_eq,
      if_true, h1]
    exact h2
  | false =>
    subst hreg
    obtain ⟨M2, h2, hF2⟩ := filling_start_next_column h hlt
    refine ⟨M2, ?_, by simpa using hF2⟩
    simp only [CSCSymmetricMatrix.finalize_column, hcur, hdim, if_false, h.regularization_eq]
    exact h2

/-- Column by column assembly succeeds as long as the columns fit in the dimension; the
matrix then stores exactly the given columns, each with its regularization slot. -/
theorem filling_fill_columns [Zero α] [Add α] {dim : Nat} {reg : Bool} (cols : List (Column α)) :
    ∀ (M : CSCSymmetricMatrix α) (P : List (Column α)), Filling dim reg M P [] →
      P.length + cols.length ≤ dim →
      ∃ M1, M.fill_columns P.length cols = .ok M1 ∧
        Filling dim reg M1 (P ++ stored_columns reg P.length cols) [] := by
  induction cols with
  | nil =>
    intro M P h _
    exact ⟨M, rfl, by simpa [stored_columns] using h⟩
  | cons col rest ih =>
    intro M P h hfit
    have hlt : P.length < dim := by simp at hfit; omega
    obtain ⟨M1, h1, hF1⟩ := filling_insert_column hlt col M [] h
    obtain ⟨M2, h2, hF2⟩ := filling_finalize_column hF1 hlt
    have hlen : (P ++ [[] ++ col ++ if reg then [(P.length, (0 : α))] else []]).length
        = P.length + 1 := by simp
    obtain ⟨M3, h3, hF3⟩ := ih M2 _ hF2 (by rw [hlen]; simp at hfit; omega)
    rw [hlen] at h3 hF3
    refine ⟨M3, ?_, by simpa [stored_columns] using hF3⟩
    simp only [CSCSymmetricMatrix.fill_columns, h1, h2]
    exact h3

/-! ## Iteration over a stored matrix -/

theorem column_triples_snoc (P : List (Column α)) (c : Column α) :
    ∀ j, column_triples j (P ++ [c])
      = column_triples j P ++ c.map (fun e => (e.1, j + P.length, e.2)) := by
  induction P with
  | nil => intro j; simp [column_triples]
  | cons d rest ih =>
    intro j
    have : j + 1 + rest.length = j + (rest.length + 1) := by omega
    simp [column_triples, ih (j + 1), this]

theorem take_succ_eq_snoc (S : List (Column α)) (n : Nat) (hn : n < S.length) :
    S.take (n + 1) = S.take n ++ [S[n]] := by
  rw [List.take_succ, List.getElem?_eq_getElem hn]; rfl

theorem flatten_split (S : List (Column α)) (n : Nat) (hn : n < S.length) :
    S.flatten = (S.take n).flatten ++ S[n] ++ (S.drop (n + 1)).flatten := by
  have h1 : S.take n ++ S[n] :: S.drop (n + 1) = S := by
    rw [← List.drop_eq_getElem_cons hn, List.take_append_drop]
  have h2 := congrArg List.flatten h1
  rw [List.flatten_append, List.flatten_cons] at h2
  rw [List.append_assoc]
  exact h2.symm

theorem getElem?_segment {β : Type} (A B rest : List β) (i : Nat) (hi : i < B.length) :
    (A ++ B ++ rest)[A.length + i]? = some B[i] := by
  rw [List.append_assoc, List.getElem?_append_right (Nat.le_add_right _ _)]
  simp [List.getElem?_append_left hi, List.getElem?_eq_getElem hi]

/-- The loop of `for_each_column` over the index range of a segment `B` of the stored
entries calls `f` on the elements of `B`, in order. -/
theorem for_each_entry_segment {σ : Type} (M : CSCSymmetricMatrix α) (f : σ → Nat → α → σ)
    (B : Column α) :
    ∀ (a : Nat) (acc : σ),
      (∀ i (hi : i < B.length),
        M.row_indices[a + i]? = some B[i].1 ∧ M.entries[a + i]? = some B[i].2) →
      (List.range' a B.length).foldlM (M.for_each_entry f) acc
        = Except.ok (B.foldl (fun acc e => f acc e.1 e.2) acc) := by
  induction B with
  | nil => intro a acc _; rfl
  | cons b B1 ih =>
    intro a acc hB
    have h0 := hB 0 (by simp)
    simp only [Nat.add_zero, List.getElem_cons_zero] at h0
    have hstep : M.for_each_entry f acc a = Except.ok (f acc b.1 b.2) := by
      simp only [CSCSymmetricMatrix.for_each_entry, h0.1, h0.2]
    have hrest : ∀ i (hi : i < B1.length),
        M.row_indices[a + 1 + i]? = some B1[i].1 ∧ M.entries[a + 1 + i]? = some B1[i].2 := by
      intro i hi
      have := hB (i + 1) (by simpa using hi)
      have hidx : a + 1 + i = a + (i + 1) := by omega
      rw [hidx]
      simpa using this
    have hfold := ih (a + 1) (f acc b.1 b.2) hrest
    rw [List.length_cons, List.range'_succ, List.foldlM_cons, hstep]
    exact hfold

/-- Once all columns are finalized, iterating over column `n` calls the callback on the
entries stored in that column, in order. -/
theorem filling_for_each_column {σ : Type} {dim : Nat} {reg : Bool} {M : CSCSymmetricMatrix α}
    {S : List (Column α)} (h : Filling dim reg M S []) (n : Nat) (hn : n < S.length)
    (f : σ → Nat → α → σ) (acc : σ) :
    M.for_each_column n f acc = .ok (S[n].foldl (fun acc e => f acc e.1 e.2) acc) := by
  have hrows : M.row_indices = S.flatten.map Prod.fst := by simpa using h.rows_eq
  have hentries : M.entries = S.flatten.map Prod.snd := by simpa using h.entries_eq
  have h0 := h.starts_eq n (Nat.le_of_lt hn)
  have h1 := h.starts_eq (n + 1) hn
  have hb : entries_before S (n + 1) - entries_before S n = S[n].length := by
    unfold entries_before
    rw [take_succ_eq_snoc S n hn, List.flatten_append, List.length_append, List.flatten_cons,
      List.flatten_nil, List.append_nil]
    omega
  have hread : ∀ i (hi : i < S[n].length),
      M.row_indices[entries_before S n + i]? = some S[n][i].1 ∧
      M.entries[entries_before S n + i]? = some S[n][i].2 := by
    intro i hi
    have hseg := getElem?_segment (S.take n).flatten S[n] (S.drop (n + 1)).flatten i hi
    rw [← flatten_split S n hn] at hseg
    have hlenA : (S.take n).flatten.length = entries_before S n := rfl
    rw [hlenA] at hseg
    rw [hrows, hentries, List.getElem?_map, List.getElem?_map, hseg]
    exact ⟨rfl, rfl⟩
  have hloop := for_each_entry_segment M f S[n] (entries_before S n) acc hread
  simp only [CSCSymmetricMatrix.for_each_column, h0, h1, RangeFromTo, hb]
  exact hloop

/-- Once all columns are finalized, `for_each` calls `f` on the triples of the stored
columns, column by column. -/
theorem filling_for_each {σ : Type} {dim : Nat} {reg : Bool} {M : CSCSymmetricMatrix α}
    {S : List (Column α)} (h : Filling dim reg M S []) (hfull : S.length = dim)
    (f : σ → Nat → Nat → α → σ) (init : σ) :
    M.for_each f init
      = .ok ((column_triples 0 S).foldl (fun acc t => f acc t.1 t.2.1 t.2.2) init) := by
  have key : ∀ n, n ≤ S.length →
      (List.range n).foldlM (fun acc column_index =>
        M.for_each_column column_index
          (fun acc row_index entry => f acc row_index column_index entry) acc) init
      = Except.ok ((column_triples 0 (S.take n)).foldl (fun acc t => f acc t.1 t.2.1 t.2.2) init) := by
    intro n
    induction n with
    | zero => intro _; rfl
    | succ n ih =>
      intro hn
      have hn1 : n < S.length := hn
      have hmin : min n S.length = n := Nat.min_eq_left (Nat.le_of_lt hn1)
      rw [List.range_succ, List.foldlM_append, ih (Nat.le_of_lt hn1)]
      have hcol := filling_for_each_column h n hn1
        (fun acc row_index entry => f acc row_index n entry)
        ((column_triples 0 (S.take n)).foldl (fun acc t => f acc t.1 t.2.1 t.2.2) init)
      simp only [bind, Except.bind, List.foldlM_cons, List.foldlM_nil, hcol, pure, Except.pure]
      rw [take_succ_eq_snoc S n hn1, column_triples_snoc, List.foldl_append, List.foldl_map,
        List.length_take, hmin, Nat.zero_add]
  have := key S.length le_rfl
  rw [List.take_length] at this
  simp only [CSCSymmetricMatrix.for_each, Range, h.dimension_eq, ← hfull]
  exact this

theorem column_triples_stored [Zero α] (reg : Bool) (cols : List (Column α)) :
    ∀ j, column_triples j (stored_columns reg j cols) = expected_visits reg j cols := by
  induction cols with
  | nil => intro j; rfl
  | cons c rest ih =>
    intro j
    cases reg <;> simp [column_triples, stored_columns, expected_visits, ih (j + 1)]

theorem stored_columns_length [Zero α] (reg : Bool) (cols : List (Column α)) :
    ∀ j, (stored_columns reg j cols).length = cols.length := by
  induction cols with
  | nil => intro j; rfl
  | cons c rest ih => intro j; simp [stored_columns, ih (j + 1)]

/-- A matrix assembled from a fresh one with as many columns as its dimension. -/
theorem assemble_filling [Zero α] [Add α] (dim cap : Nat) (reg : Bool) (cols : List (Column α))
    (hcols : cols.length = dim) :
    ∃ M, CSCSymmetricMatrix.assemble dim cap reg cols = .ok M ∧
      Filling dim reg M (stored_columns reg 0 cols) [] := by
  obtain ⟨M, hM, hF⟩ := filling_fill_columns cols _ [] (filling_create dim cap reg)
    (by simp [hcols])
  exact ⟨M, hM, by simpa using hF⟩

theorem foldl_record {β : Type} (L : List β) :
    ∀ init : List β, L.foldl (fun acc t => acc ++ [t]) init = init ++ L := by
  induction L with
  | nil => intro init; simp
  | cons t rest ih => intro init; simp [ih]

theorem stored_columns_getElem? [Zero α] (reg : Bool) (cols : List (Column α)) :
    ∀ (k j : Nat) (hj : j < cols.length),
      (stored_columns reg k cols)[j]?
        = some (cols[j] ++ if reg then [(k + j, 0)] else []) := by
  induction cols with
  | nil => intro k j hj; exact absurd hj (Nat.not_lt_zero j)
  | cons c rest ih =>
    intro k j hj
    cases j with
    | zero => simp [stored_columns]
    | succ j =>
      have hj1 : j < rest.length := by simpa using hj
      have hidx : k + (j + 1) = k + 1 + j := by omega
      simp [stored_columns, ih (k + 1) j hj1, hidx]

theorem entries_before_succ (S : List (Column α)) (n : Nat) (c : Column α)
    (hc : S[n]? = some c) :
    entries_before S (n + 1) = entries_before S n + c.length := by
  unfold entries_before
  rw [List.take_succ, hc, List.flatten_append, List.length_append]
  simp

/-- The first `k` passes of the loop of `identity`. -/
theorem identity_loop [AddZeroClass α] [MulOneClass α] (n : Nat) :
    ∀ k, k ≤ n →
      ∃ M : CSCSymmetricMatrix α,
        (List.range k).foldlM CSCSymmetricMatrix.identity_body
          (CSCSymmetricMatrix.create n n false) = .ok M ∧
        Filling n false M (unit_columns k) [] := by
  intro k
  induction k with
  | zero => intro _; exact ⟨_, rfl, filling_create n n false⟩
  | succ k ih =>
    intro hk
    obtain ⟨M, hM, hF⟩ := ih (Nat.le_of_succ_le hk)
    have hlen : (unit_columns k : List (Column α)).length = k := by simp [unit_columns]
    have hlt : (unit_columns k : List (Column α)).length < n := by rw [hlen]; exact hk
    obtain ⟨M1, h1, hF1⟩ := filling_insert hF hlt 1 k
    obtain ⟨M2, h2, hF2⟩ := filling_finalize_column hF1 hlt
    rw [hlen] at h1 h2 hF2
    refine ⟨M2, ?_, ?_⟩
    · rw [List.range_succ, List.foldlM_append, hM]
      simp only [bind, Except.bind, List.foldlM_cons, List.foldlM_nil,
        CSCSymmetricMatrix.identity_body, h1, h2, pure, Except.pure]
    · have hcols : (unit_columns (k + 1) : List (Column α))
          = unit_columns k ++ [[] ++ [(k, 1)] ++ if false = true then [(k, 0)] else []] := by
        simp [unit_columns, List.range_succ]
      rw [hcols]; exact hF2

theorem column_triples_unit [One α] (n : Nat) :
    column_triples 0 (unit_columns n : List (Column α)) = (List.range n).map (fun i => (i, i, 1)) := by
  induction n with
  | zero => rfl
  | succ n ih =>
    have hcols : (unit_columns (n + 1) : List (Column α)) = unit_columns n ++ [[(n, 1)]] := by
      simp [unit_columns, List.range_succ]
    rw [hcols, column_triples_snoc, ih, List.range_succ]
    simp [unit_columns]

theorem entries_before_unit [One α] (n j : Nat) (hj : j ≤ n) :
    entries_before (unit_columns n : List (Column α)) j = j := by
  induction j with
  | zero => simp [entries_before]
  | succ j ih =>
    have hget : (unit_columns n : List (Column α))[j]? = some [(j, 1)] := by
      have hj1 : j < n := hj
      simp [unit_columns, hj1]
    rw [entries_before_succ _ j _ hget, ih (Nat.le_of_succ_le hj)]
    rfl

/-- Accumulating the diagonal entries `(i, i, 1)` for `i < k` into a zero vector gives the
first `k` components of `x`. -/
theorem product_unit_fold [AddZeroClass α] [MulOneClass α] (x : List α) :
    ∀ k, k ≤ x.length →
      ((List.range k).map (fun i => (i, i, (1 : α)))).foldl
        (fun (result : List α) (t : Nat × Nat × α) =>
          let result1 := result.modify (fun r => r + t.2.2 * x.getD t.2.1 0) t.1
          if t.1 = t.2.1 then result1 else result1.modify (fun r => r + t.2.2 * x.getD t.1 0) t.2.1)
        (List.replicate x.length 0)
      = x.take k ++ List.replicate (x.length - k) 0 := by
  intro k
  induction k with
  | zero => intro _; simp
  | succ k ih =>
    intro hk
    have hk1 : k < x.length := hk
    rw [List.range_succ, List.map_append, List.foldl_append, ih (Nat.le_of_lt hk1)]
    simp only [List.map_cons, List.map_nil, List.foldl_cons, List.foldl_nil, if_true]
    apply List.ext_getElem?
    intro i
    rw [List.getElem?_modify]
    by_cases hik : k = i
    · subst hik
      have h1 : (List.take k x ++ List.replicate (x.length - k) (0 : α))[k]? = some 0 := by
        rw [List.getElem?_append_right (by simp)]
        simp [List.getElem?_replicate, Nat.min_eq_left (Nat.le_of_lt hk1)]
        omega
      have h2 : (List.take (k + 1) x ++ List.replicate (x.length - (k + 1)) (0 : α))[k]?
          = some x[k] := by
        rw [List.getElem?_append_left (by simp; omega)]
        simp [List.getElem?_take, hk1]
      rw [h1, h2]
      simp [List.getD_eq_getElem?_getD, List.getElem?_eq_getElem hk1]
    · simp only [hik, if_false]
      by_cases hlt : i < k
      · rw [List.getElem?_append_left (by simp; omega),
          List.getElem?_append_left (by simp; omega)]
        simp [List.getElem?_take, hlt, Nat.lt_succ_of_lt hlt]
      · have hgt : k + 1 ≤ i := by omega
        rw [List.getElem?_append_right (by simp; omega),
          List.getElem?_append_right (by simp; omega)]
        simp [List.getElem?_replicate, Nat.min_eq_left (Nat.le_of_lt hk1), Nat.min_eq_left hk]
        by_cases hi : i < x.length
        · have ha : i - k < x.length - k := by omega
          have hb : i - (k + 1) < x.length - (k + 1) := by omega
          simp [ha, hb]
        · have ha : ¬ i - k < x.length - k := by omega
          have hb : ¬ i - (k + 1) < x.length - (k + 1) := by omega
          simp [ha, hb]

end CSCProofs

/-! ## Single operations and reachable states -/

section CSCOps

variable {α : Type}

/-- What a successful `insert` does to the members that the column structure depends on. -/
theorem insert_ok [Add α] {M M1 : CSCSymmetricMatrix α} {v : α} {i j : Nat}
    (h : M.insert v i j = .ok M1) :
    j = M.current_column ∧ M1.current_column = M.current_column ∧ M1.dimension = M.dimension ∧
    M1.use_regularization = M.use_regularization ∧
    ∃ start, M.column_starts[j + 1]? = some start ∧
      M1.column_starts = M.column_starts.set (j + 1) (start + 1) := by
  unfold CSCSymmetricMatrix.insert at h
  split at h
  · cases h
  · rename_i hcur
    have hj : j = M.current_column := not_not.mp hcur
    unfold CSCSymmetricMatrix.insert_ndebug at h
    split at h
    · cases h
    · rename_i start hstart
      simp only at h
      split at h
      · split at h
        · cases h
        · cases h
          exact ⟨hj, rfl, rfl, rfl, start, hstart, rfl⟩
      · cases h
        exact ⟨hj, rfl, rfl, rfl, start, hstart, rfl⟩

/-- What a successful `start_next_column` does. -/
theorem start_next_column_ok {M M1 : CSCSymmetricMatrix α} {j d : Nat}
    (h : M.start_next_column j d = .ok M1) :
    M1.current_column = M.current_column + 1 ∧ M1.dimension = M.dimension ∧
    M1.use_regularization = M.use_regularization ∧
    ((j < d ∧ ∃ start, M.column_starts[j + 1]? = some start ∧
        j + 2 < M.column_starts.length ∧ M1.column_starts = M.column_starts.set (j + 2) start) ∨
     (¬ j < d ∧ M1.column_starts = M.column_starts)) := by
  unfold CSCSymmetricMatrix.start_next_column at h
  simp only at h
  split at h
  · rename_i hjd
    split at h
    · cases h
    · rename_i start hstart
      split at h
      · rename_i hb
        cases h
        exact ⟨rfl, rfl, rfl, Or.inl ⟨hjd, start, hstart, hb, rfl⟩⟩
      · cases h
  · rename_i hjd
    cases h
    exact ⟨rfl, rfl, rfl, Or.inr ⟨hjd, rfl⟩⟩

/-- A successful `finalize_column(j)` was called on the current column and moves
`current_column` to `j + 1`. -/
theorem finalize_column_ok [Zero α] [Add α] {M M1 : CSCSymmetricMatrix α} {j : Nat}
    (h : M.finalize_column j = .ok M1) :
    j = M.current_column ∧ j < M.dimension ∧ M1.current_column = j + 1 ∧
    M1.dimension = M.dimension := by
  unfold CSCSymmetricMatrix.finalize_column at h
  split at h
  · cases h
  · rename_i hcur
    have hj : j = M.current_column := not_not.mp hcur
    split at h
    · cases h
    · rename_i hdim
      have hjd : j < M.dimension := not_not.mp hdim
      split at h
      · split at h
        · cases h
        · rename_i M0 hins
          obtain ⟨-, hc0, hd0, -, -⟩ := insert_ok hins
          obtain ⟨hc1, hd1, -, -⟩ := start_next_column_ok h
          exact ⟨hj, hjd, by rw [hc1, hc0, ← hj], by rw [hd1, hd0]⟩
      · obtain ⟨hc1, hd1, -, -⟩ := start_next_column_ok h
        exact ⟨hj, hjd, by rw [hc1, ← hj], hd1⟩

/-- With assertions compiled out, a `finalize_column` that returns has advanced
`current_column` by one. -/
theorem finalize_column_ndebug_ok [Zero α] [Add α] {M M1 : CSCSymmetricMatrix α} {j : Nat}
    (h : M.finalize_column_ndebug j = .ok M1) : M1.current_column = M.current_column + 1 := by
  unfold CSCSymmetricMatrix.finalize_column_ndebug at h
  split at h
  · split at h
    · cases h
    · rename_i M0 hins
      have hc0 : M0.current_column = M.current_column := by
        unfold CSCSymmetricMatrix.insert_ndebug at hins
        split at hins
        · cases hins
        · simp only at hins
          split at hins
          · split at hins
            · cases hins
            · cases hins; rfl
          · cases hins; rfl
      obtain ⟨hc1, -, -, -⟩ := start_next_column_ok h
      rw [hc1, hc0]
  · obtain ⟨hc1, -, -, -⟩ := start_next_column_ok h
    exact hc1

theorem sorted_create [Zero α] (dim cap : Nat) (reg : Bool) :
    SortedStarts dim (CSCSymmetricMatrix.create dim cap reg : CSCSymmetricMatrix α) where
  dimension_eq := rfl
  starts_length := by simp [CSCSymmetricMatrix.create]
  current_le := Nat.zero_le _
  sorted := by
    intro j hj _
    have h1 : j < dim + 1 := by omega
    simp [CSCSymmetricMatrix.create, List.getElem?_replicate, hj, h1]

theorem sorted_reset [Zero α] {dim : Nat} {M : CSCSymmetricMatrix α}
    (h : SortedStarts dim M) : SortedStarts dim M.reset where
  dimension_eq := h.dimension_eq
  starts_length := by simp [CSCSymmetricMatrix.reset, initialize_vector, h.starts_length]
  current_le := Nat.zero_le _
  sorted := by
    intro j hj _
    have h0 : j < M.column_starts.length := by rw [h.starts_length]; omega
    have h1 : j + 1 < M.column_starts.length := by rw [h.starts_length]; omega
    simp [CSCSymmetricMatrix.reset, initialize_vector, List.getElem?_map,
      List.getElem?_eq_getElem h0, List.getElem?_eq_getElem h1]

theorem sorted_insert [Add α] {dim : Nat} {M M1 : CSCSymmetricMatrix α} {v : α}
    {i j : Nat} (h : SortedStarts dim M) (hins : M.insert v i j = .ok M1) :
    SortedStarts dim M1 := by
  obtain ⟨hj, hcur, hdim, -, start, hstart, hcs⟩ := insert_ok hins
  have hjb : j + 1 < M.column_starts.length := by
    by_contra hcon
    rw [List.getElem?_eq_none (by omega)] at hstart
    cases hstart
  have hjd : j < dim := by rw [h.starts_length] at hjb; omega
  refine ⟨hdim.trans h.dimension_eq, by rw [hcs]; simp [h.starts_length],
    by rw [hcur]; exact h.current_le, ?_⟩
  intro k hk hkc
  rw [hcur] at hkc
  have hold := h.sorted k hk hkc
  rw [hcs]
  have hne : j + 1 ≠ k := by omega
  simp only [List.getElem?_set, hne, if_false]
  by_cases hkj : j + 1 = k + 1
  · have hkeq : k = j := by omega
    subst hkeq
    rw [hstart] at hold
    simp only [hkj, if_true, hjb]
    simp only [Option.getD_some] at hold ⊢
    omega
  · simp only [hkj, if_false]
    exact hold

theorem sorted_start_next_column {dim : Nat} {M M1 : CSCSymmetricMatrix α}
    (h : SortedStarts dim M) (hlt : M.current_column < dim)
    (hnext : M.start_next_column M.current_column (M.dimension - 1) = .ok M1) :
    SortedStarts dim M1 := by
  obtain ⟨hcur, hdim, -, hcase⟩ := start_next_column_ok hnext
  rcases hcase with ⟨-, start, hstart, hb, hcs⟩ | ⟨hnot, hcs⟩
  · refine ⟨hdim.trans h.dimension_eq, by rw [hcs]; simp [h.starts_length],
      by rw [hcur]; omega, ?_⟩
    intro k hk hkc
    rw [hcur] at hkc
    rw [hcs]
    have hne : M.current_column + 2 ≠ k := by omega
    simp only [List.getElem?_set, hne, if_false]
    by_cases hkj : M.current_column + 2 = k + 1
    · have hkeq : k = M.current_column + 1 := by omega
      subst hkeq
      simp only [hkj, if_true, hb, hstart, Option.getD_some]
      exact le_rfl
    · simp only [hkj, if_false]
      exact h.sorted k hk (by omega)
  · refine ⟨hdim.trans h.dimension_eq, by rw [hcs]; exact h.starts_length,
      by rw [hcur]; omega, ?_⟩
    intro k hk hkc
    rw [hcur] at hkc
    rw [hcs]
    rw [h.dimension_eq] at hnot
    exact h.sorted k hk (by omega)

theorem sorted_finalize_column [Zero α] [Add α] {dim : Nat}
    {M M1 : CSCSymmetricMatrix α} {j : Nat} (h : SortedStarts dim M)
    (hfin : M.finalize_column j = .ok M1) : SortedStarts dim M1 := by
  obtain ⟨hj, hjd, -, -⟩ := finalize_column_ok hfin
  have hlt : M.current_column < dim := by rw [← hj, ← h.dimension_eq]; exact hjd
  subst hj
  unfold CSCSymmetricMatrix.finalize_column at hfin
  simp only [ne_eq, not_true_eq_false, if_false, hjd, not_true_eq_false] at hfin
  split at hfin
  · split at hfin
    · cases hfin
    · rename_i M0 hins
      have h0 := sorted_insert h hins
      obtain ⟨-, hc0, -, -, -⟩ := insert_ok hins
      rw [← hc0] at hfin hlt
      exact sorted_start_next_column h0 hlt hfin
  · exact sorted_start_next_column h hlt hfin

/-- The invariant holds in every state reached from the constructor by a sequence of
operations that run without fault. -/
theorem sorted_run [Zero α] [Add α] {dim : Nat} (ops : List (MatrixOp α)) :
    ∀ (M M1 : CSCSymmetricMatrix α), SortedStarts dim M → M.run ops = .ok M1 →
      SortedStarts dim M1 := by
  induction ops with
  | nil =>
    intro M M1 h hrun
    cases hrun
    exact h
  | cons op rest ih =>
    intro M M1 h hrun
    unfold CSCSymmetricMatrix.run at hrun
    split at hrun
    · cases hrun
    · rename_i M0 hop
      refine ih M0 M1 ?_ hrun
      cases op with
      | insert term row_index column_index => exact sorted_insert h hop
      | finalize_column column_index => exact sorted_finalize_column h hop
      | reset =>
        cases hop
        exact sorted_reset h

end CSCOps

/-! ## The penalty parameter in `compute_step` -/

section PenaltyProofs

variable {σ : Type}

/-- What a pass of the shrink loop does to the penalty parameter and to `condition2`. -/
theorem shrink_pass_ok {S : PenaltyStrategy} {sub : Subproblem σ} {problem : Problem}
    {current_iterate : Iterate} {radius : ℚ} {ideal_solution : LocalSolution}
    {ideal_linear_model : ℚ} {st st1 : LoopState σ}
    (h : S.shrink_pass sub problem current_iterate radius ideal_solution ideal_linear_model st
      = .ok st1) :
    st1.penalty_parameter
        = (if st.penalty_parameter * S.tau < 1 / 10 ^ 10 then 0 else st.penalty_parameter * S.tau) ∧
    (st.penalty_parameter * S.tau < 1 / 10 ^ 10 → st1.condition2 = true) ∧
    st1.solves = st.solves ++ [st1.penalty_parameter] := by
  unfold PenaltyStrategy.shrink_pass at h
  simp only at h
  split at h
  · cases h
  · cases h
    refine ⟨rfl, ?_, rfl⟩
    intro hfloor
    simp only [hfloor, if_true, ite_self]

/-- Only a bounded loop reports an exhausted bound: a read does not, nor do the loops over
index ranges built from reads (the lemmas that follow). -/
theorem read_fuel (v : List ℚ) (i : Nat) : read v i ≠ .error .out_of_fuel := by
  unfold read
  split <;> simp

theorem foldlM_fuel {β γ : Type} (f : β → γ → Except Fault β)
    (hf : ∀ b c, f b c ≠ .error .out_of_fuel) :
    ∀ (l : List γ) (b : β), l.foldlM f b ≠ .error .out_of_fuel := by
  intro l
  induction l with
  | nil => intro b; simp [pure, Except.pure]
  | cons c rest ih =>
    intro b
    rw [List.foldlM_cons]
    cases hfc : f b c with
    | error e =>
      simp only [bind, Except.bind]
      intro hcon
      exact hf b c (hfc.trans hcon)
    | ok b1 =>
      simp only [bind, Except.bind]
      exact ih b1

theorem compute_linear_model_fuel (S : PenaltyStrategy) (problem : Problem)
    (solution : LocalSolution) :
    S.compute_linear_model problem solution ≠ .error .out_of_fuel := by
  unfold PenaltyStrategy.compute_linear_model
  apply foldlM_fuel
  intro b c
  have := read_fuel solution.x (problem.number_variables + c)
  split
  · rename_i e he
    intro hcon
    cases hcon
    exact this he
  · simp

theorem compute_bound_multipliers_fuel (problem : Problem) (solution : LocalSolution) :
    compute_bound_multipliers problem solution ≠ .error .out_of_fuel := by
  unfold compute_bound_multipliers
  apply foldlM_fuel
  intro b c
  have := read_fuel solution.bound_multipliers c
  split
  · rename_i e he
    intro hcon
    cases hcon
    exact this he
  · simp

theorem compute_constraint_multipliers_fuel (problem : Problem) (solution : LocalSolution) :
    compute_constraint_multipliers problem solution ≠ .error .out_of_fuel := by
  unfold compute_constraint_multipliers
  have hfold := foldlM_fuel (compute_constraint_multipliers_body problem solution) (by
    intro b c
    unfold compute_constraint_multipliers_body
    split
    · simp
    · split
      · split <;> simp
      · have := read_fuel solution.constraint_multipliers b.2
        split
        · simp
        · rename_i e he
          intro hcon
          cases hcon
          exact this he)
    (List.range problem.number_constraints) (List.replicate problem.number_constraints 0, 0)
  split
  · rename_i e he
    intro hcon
    cases hcon
    exact hfold he
  · simp

theorem bind_fuel {β γ : Type} (x : Except Fault β) (f : β → Except Fault γ)
    (hx : x ≠ .error .out_of_fuel) (hf : ∀ b, f b ≠ .error .out_of_fuel) :
    (x >>= f) ≠ .error .out_of_fuel := by
  cases x with
  | error e =>
    simp only [bind, Except.bind]
    intro hcon
    cases hcon
    exact hx rfl
  | ok b =>
    simp only [bind, Except.bind]
    exact hf b

theorem compute_error_bound_fuel (problem : Problem) (current_iterate : Iterate)
    (bound_multipliers : List ℚ) (error : ℚ) (i : Nat) :
    compute_error_bound problem current_iterate bound_multipliers error i
      ≠ .error .out_of_fuel := by
  unfold compute_error_bound
  refine bind_fuel _ _ (read_fuel _ _) (fun lb => ?_)
  refine bind_fuel _ _ (read_fuel _ _) (fun xi => ?_)
  split
  · refine bind_fuel _ _ (read_fuel _ _) (fun ub => ?_)
    split
    · refine bind_fuel _ _ (read_fuel _ _) (fun multiplier_i => ?_)
      split
      · simp
      · split <;> simp
    · simp
  · simp

theorem compute_error_constraint_fuel (problem : Problem) (current_iterate : Iterate)
    (constraint_multipliers : List ℚ) (error : ℚ) (j : Nat) :
    compute_error_constraint problem current_iterate constraint_multipliers error j
      ≠ .error .out_of_fuel := by
  unfold compute_error_constraint
  refine bind_fuel _ _ (read_fuel _ _) (fun multiplier_j => ?_)
  refine bind_fuel _ _ (read_fuel _ _) (fun cj => ?_)
  refine bind_fuel _ _ (read_fuel _ _) (fun lb => ?_)
  split
  · simp
  · refine bind_fuel _ _ (read_fuel _ _) (fun ub => ?_)
    split
    · simp
    · split
      · simp
      · split <;> simp

theorem compute_error_fuel (ext : External) (problem : Problem) (current_iterate : Iterate)
    (bound_multipliers constraint_multipliers : List ℚ) (penalty_parameter : ℚ) :
    compute_error ext problem current_iterate bound_multipliers constraint_multipliers
      penalty_parameter ≠ .error .out_of_fuel := by
  unfold compute_error
  refine bind_fuel _ _ (foldlM_fuel _ (compute_error_bound_fuel _ _ _) _ _) (fun error => ?_)
  exact foldlM_fuel _ (compute_error_constraint_fuel _ _ _) _ _

/-- With `tau = 0.5`, a run of the shrink loop from a nonnegative penalty parameter ends
with a penalty parameter that is nonnegative and not larger; if the loop made a pass, the
final value is 0 or at least `1e-10`. -/
theorem shrink_loop_bounds {S : PenaltyStrategy} {sub : Subproblem σ} {problem : Problem}
    {current_iterate : Iterate} {radius : ℚ} {ideal_solution : LocalSolution}
    {ideal_linear_model : ℚ} (htau : S.tau = 1 / 2) :
    ∀ (fuel : Nat) (st st1 : LoopState σ),
      S.shrink_loop sub problem current_iterate radius ideal_solution ideal_linear_model fuel st
        = .ok st1 →
      0 ≤ st.penalty_parameter →
      (0 ≤ st1.penalty_parameter ∧ st1.penalty_parameter ≤ st.penalty_parameter) ∧
      (st.condition2 = false →
        (st1.penalty_parameter = 0 ∨ 1 / 10 ^ 10 ≤ st1.penalty_parameter) ∧
        st1.penalty_parameter ≤ st.penalty_parameter / 2) := by
  intro fuel
  induction fuel with
  | zero =>
    intro st st1 h h0
    unfold PenaltyStrategy.shrink_loop at h
    split at h
    · rename_i hc
      cases h
      exact ⟨⟨h0, le_rfl⟩, fun hf => by rw [hc] at hf; cases hf⟩
    · cases h
  | succ fuel ih =>
    intro st st1 h h0
    unfold PenaltyStrategy.shrink_loop at h
    split at h
    · rename_i hc
      cases h
      exact ⟨⟨h0, le_rfl⟩, fun hf => by rw [hc] at hf; cases hf⟩
    · split at h
      · cases h
      · rename_i st2 hpass
        obtain ⟨hrho, hfloor, -⟩ := shrink_pass_ok hpass
        rw [htau] at hrho hfloor
        have h2 : 0 ≤ st2.penalty_parameter ∧ st2.penalty_parameter ≤ st.penalty_parameter / 2 ∧
            (st2.penalty_parameter = 0 ∨ 1 / 10 ^ 10 ≤ st2.penalty_parameter) := by
          rw [hrho]
          split
          · exact ⟨le_rfl, by linarith, Or.inl rfl⟩
          · rename_i hnf
            exact ⟨by linarith, by linarith, Or.inr (not_lt.mp hnf)⟩
        obtain ⟨⟨h3, h4⟩, h5⟩ := ih st2 st1 h h2.1
        refine ⟨⟨h3, by linarith [h2.2.1]⟩, fun _ => ?_⟩
        cases hc2 : st2.condition2 with
        | false =>
          obtain ⟨h6, h7⟩ := h5 hc2
          exact ⟨h6, by linarith [h2.2.1]⟩
        | true =>
          have hst : st1 = st2 := by
            cases fuel with
            | zero =>
              unfold PenaltyStrategy.shrink_loop at h
              simp only [hc2, if_true] at h
              cases h; rfl
            | succ fuel =>
              unfold PenaltyStrategy.shrink_loop at h
              simp only [hc2, if_true] at h
              cases h; rfl
          rw [hst]
          exact ⟨h2.2.2, h2.2.1⟩

/-- With `tau = 0.5`, the shrink loop started from a penalty parameter below
`2^n * 1e-10` ends within `max n 1` passes: it does not exhaust a bound `fuel >= n`,
`fuel >= 1`. -/
theorem shrink_loop_fuel {S : PenaltyStrategy} {sub : Subproblem σ} {problem : Problem}
    {current_iterate : Iterate} {radius : ℚ} {ideal_solution : LocalSolution}
    {ideal_linear_model : ℚ} (htau : S.tau = 1 / 2) :
    ∀ (fuel n : Nat) (st : LoopState σ),
      st.penalty_parameter < 2 ^ n * (1 / 10 ^ 10) → n ≤ fuel → 1 ≤ fuel →
      S.shrink_loop sub problem current_iterate radius ideal_solution ideal_linear_model fuel st
        ≠ .error .out_of_fuel := by
  intro fuel
  induction fuel with
  | zero => intro n st _ _ h1; omega
  | succ fuel ih =>
    intro n st hlt hn _
    unfold PenaltyStrategy.shrink_loop
    split
    · simp
    · split
      · rename_i e hpass
        intro hcon
        cases hcon
        unfold PenaltyStrategy.shrink_pass at hpass
        simp only at hpass
        split at hpass
        · rename_i e1 he1
          cases hpass
          exact compute_linear_model_fuel _ _ _ he1
        · cases hpass
      · rename_i st2 hpass
        obtain ⟨hrho, hfloor, -⟩ := shrink_pass_ok hpass
        rw [htau] at hrho hfloor
        by_cases hf : st.penalty_parameter * (1 / 2) < 1 / 10 ^ 10
        · have hc2 := hfloor hf
          cases fuel with
          | zero => unfold PenaltyStrategy.shrink_loop; simp [hc2]
          | succ fuel => unfold PenaltyStrategy.shrink_loop; simp [hc2]
        · rw [if_neg hf] at hrho
          have hge : (1 : ℚ) / 10 ^ 10 ≤ st.penalty_parameter * (1 / 2) := not_lt.mp hf
          have hn2 : 2 ≤ n := by
            by_contra hcon
            have hn1 : n = 0 ∨ n = 1 := by omega
            rcases hn1 with h0 | h1
            · subst h0; norm_num at hlt; linarith
            · subst h1; norm_num at hlt; linarith
          obtain ⟨m, rfl⟩ : ∃ m, n = m + 1 := ⟨n - 1, by omega⟩
          have hlt2 : st2.penalty_parameter < 2 ^ m * (1 / 10 ^ 10) := by
            rw [hrho]
            rw [pow_succ] at hlt
            linarith
          exact ih m st2 hlt2 (by omega) (by omega)

/-- The update of the penalty parameter (lines 75-112) leaves a nonnegative value that is
not larger than the one at entry. -/
theorem update_penalty_parameter_bounds {S : PenaltyStrategy} {sub : Subproblem σ}
    {fuel : Nat} {problem : Problem} {current_iterate : Iterate} {radius : ℚ}
    {ideal_solution : LocalSolution} {ideal_error : ℚ} {st st1 : LoopState σ}
    (htau : S.tau = 1 / 2)
    (h : S.update_penalty_parameter sub fuel problem current_iterate radius ideal_solution
      ideal_error st = .ok st1)
    (h0 : 0 ≤ st.penalty_parameter) :
    0 ≤ st1.penalty_parameter ∧ st1.penalty_parameter ≤ st.penalty_parameter := by
  unfold PenaltyStrategy.update_penalty_parameter at h
  split at h
  · cases h
    exact ⟨le_rfl, h0⟩
  · split at h
    · cases h
    · split at h
      · cases h
      · rename_i st2 hloop
        cases h
        obtain ⟨⟨h3, h4⟩, -⟩ := shrink_loop_bounds htau fuel _ st2 hloop h0
        simp only at h4 ⊢
        exact ⟨le_min h3 (mul_self_nonneg _), le_trans (min_le_left _ _) h4⟩

/-- The update of the penalty parameter does not exhaust a bound of 34 passes when the
penalty parameter at entry is at most 1. -/
theorem update_penalty_parameter_fuel {S : PenaltyStrategy} {sub : Subproblem σ}
    {fuel : Nat} {problem : Problem} {current_iterate : Iterate} {radius : ℚ}
    {ideal_solution : LocalSolution} {ideal_error : ℚ} {st : LoopState σ}
    (htau : S.tau = 1 / 2) (h1 : st.penalty_parameter ≤ 1) (hfuel : 34 ≤ fuel) :
    S.update_penalty_parameter sub fuel problem current_iterate radius ideal_solution
      ideal_error st ≠ .error .out_of_fuel := by
  unfold PenaltyStrategy.update_penalty_parameter
  split
  · simp
  · split
    · rename_i e he
      intro hcon
      cases hcon
      exact compute_linear_model_fuel _ _ _ he
    · split
      · rename_i e he
        intro hcon
        cases hcon
        refine shrink_loop_fuel htau fuel 34 _ ?_ hfuel (by omega) he
        simp only
        have : (1 : ℚ) < 2 ^ 34 * (1 / 10 ^ 10) := by norm_num
        linarith
      · simp

/-- The strategy returned by `recompute_solution` is `S` with the penalty parameter of the
loop state. -/
theorem recompute_solution_strategy (S : PenaltyStrategy) (sub : Subproblem σ)
    (problem : Problem) (current_iterate : Iterate) (radius : ℚ)
    (current_penalty_parameter : ℚ) (ideal_solution : LocalSolution) (st : LoopState σ) :
    (S.recompute_solution sub problem current_iterate radius current_penalty_parameter
      ideal_solution st).strategy = { S with penalty_parameter := st.penalty_parameter } := by
  unfold PenaltyStrategy.recompute_solution
  split
  · split <;> rfl
  · rfl

/-- A call of `compute_step` changes no member of the strategy but the penalty parameter,
which it leaves nonnegative and not larger than at entry. -/
theorem compute_step_bounds {S : PenaltyStrategy} {sub : Subproblem σ} {ext : External}
    {fuel : Nat} {solver : σ} {problem : Problem} {current_iterate : Iterate} {radius : ℚ}
    {r : StepResult σ} (htau : S.tau = 1 / 2) (h0 : 0 ≤ S.penalty_parameter)
    (h : S.compute_step sub ext fuel solver problem current_iterate radius = .ok r) :
    r.strategy = { S with penalty_parameter := r.strategy.penalty_parameter } ∧
    0 ≤ r.strategy.penalty_parameter ∧ r.strategy.penalty_parameter ≤ S.penalty_parameter := by
  unfold PenaltyStrategy.compute_step at h
  simp only at h
  split at h
  · split at h
    · cases h
    · split at h
      · split at h
        · cases h
        · split at h
          · cases h
          · split at h
            · cases h
            · split at h
              · cases h
              · rename_i st hupd
                cases h
                have hb := update_penalty_parameter_bounds htau hupd h0
                rw [recompute_solution_strategy]
                exact ⟨rfl, hb⟩
      · cases h
        exact ⟨rfl, h0, le_rfl⟩
  · cases h
    exact ⟨rfl, h0, le_rfl⟩

/-- A call of `compute_step` entered with a penalty parameter of at most 1 does not
exhaust a bound of 34 passes of the shrink loop. -/
theorem compute_step_fuel {S : PenaltyStrategy} {sub : Subproblem σ} {ext : External}
    {fuel : Nat} {solver : σ} {problem : Problem} {current_iterate : Iterate} {radius : ℚ}
    (htau : S.tau = 1 / 2) (h1 : S.penalty_parameter ≤ 1) (hfuel : 34 ≤ fuel) :
    S.compute_step sub ext fuel solver problem current_iterate radius
      ≠ .error .out_of_fuel := by
  unfold PenaltyStrategy.compute_step
  simp only
  split
  · split
    · rename_i e he
      intro hcon; cases hcon
      exact compute_linear_model_fuel _ _ _ he
    · split
      · split
        · rename_i e he
          intro hcon; cases hcon
          exact compute_bound_multipliers_fuel _ _ he
        · split
          · rename_i e he
            intro hcon; cases hcon
            exact compute_constraint_multipliers_fuel _ _ he
          · split
            · rename_i e he
              intro hcon; cases hcon
              exact compute_error_fuel _ _ _ _ _ _ he
            · split
              · rename_i e he
                intro hcon; cases hcon
                exact update_penalty_parameter_fuel htau h1 hfuel he
              · simp
      · simp
  · simp

/-- Along a sequence of calls of `compute_step`, `tau` keeps its value and the penalty
parameter stays between 0 and its initial value; no call exhausts a bound of 34 passes
when the initial value is at most 1. -/
theorem compute_steps_bounds {sub : Subproblem σ} {ext : External} {fuel : Nat}
    (hfuel : 34 ≤ fuel) (calls : List (StepCall σ)) :
    ∀ S : PenaltyStrategy, S.tau = 1 / 2 → 0 ≤ S.penalty_parameter → S.penalty_parameter ≤ 1 →
      S.compute_steps sub ext fuel calls ≠ .error .out_of_fuel ∧
      ∀ S1, S.compute_steps sub ext fuel calls = .ok S1 →
        0 ≤ S1.penalty_parameter ∧ S1.penalty_parameter ≤ S.penalty_parameter := by
  induction calls with
  | nil =>
    intro S _ h0 _
    refine ⟨by simp [PenaltyStrategy.compute_steps], ?_⟩
    intro S1 h
    cases h
    exact ⟨h0, le_rfl⟩
  | cons call rest ih =>
    intro S htau h0 h1
    unfold PenaltyStrategy.compute_steps
    cases hstep : S.compute_step sub ext fuel call.solver call.problem call.current_iterate
        call.radius with
    | error e =>
      refine ⟨?_, ?_⟩
      · intro hcon
        cases hcon
        exact compute_step_fuel htau h1 hfuel hstep
      · intro S1 h
        cases h
    | ok r =>
      obtain ⟨hS, hr0, hr1⟩ := compute_step_bounds htau h0 hstep
      have htau1 : r.strategy.tau = 1 / 2 := by rw [hS]; exact htau
      obtain ⟨hf, hb⟩ := ih r.strategy htau1 hr0 (le_trans hr1 h1)
      refine ⟨hf, ?_⟩
      intro S1 h
      obtain ⟨h3, h4⟩ := hb S1 h
      exact ⟨h3, le_trans h4 hr1⟩

/-! ### Evaluation of the small instance -/

theorem toy_linear_model (objective : ℚ) :
    toy_strategy.compute_linear_model toy_problem (toy_solution objective) = .ok (1 / 2) := by
  simp [PenaltyStrategy.compute_linear_model, toy_strategy, toy_problem, toy_solution, read,
    PenaltyStrategy.create, List.range_succ, pure, Except.pure, bind, Except.bind]

theorem toy_bound_multipliers (objective : ℚ) :
    compute_bound_multipliers toy_problem (toy_solution objective) = .ok [0] := by
  simp [compute_bound_multipliers, toy_problem, toy_solution, read, List.range_succ, pure,
    Except.pure, bind, Except.bind]

theorem toy_constraint_multipliers (objective : ℚ) :
    compute_constraint_multipliers toy_problem (toy_solution objective) = .ok [1] := by
  simp [compute_constraint_multipliers, compute_constraint_multipliers_body, toy_problem,
    toy_solution, read, List.range_succ, pure, Except.pure, bind, Except.bind]

theorem toy_error (iterate : Iterate) (penalty_parameter : ℚ)
    (hx : iterate.x = [0] ∨ iterate.x = [1]) (hc : iterate.constraints = [0]) :
    compute_error toy_external toy_problem iterate [0] [1] penalty_parameter
      = .ok (1 / 10 ^ 6) := by
  rcases hx with hx | hx <;>
  simp [compute_error, compute_error_bound, compute_error_constraint, toy_external, toy_problem,
    hx, hc, read, norm_1, List.range_succ, pure, Except.pure, bind, Except.bind]

/-- On the instance, one call of `compute_step` from the penalty parameter 1 of the
constructor solves four subproblems and leaves the penalty parameter `1e-12`. -/
theorem toy_compute_step :
    toy_strategy.compute_step toy_subproblem toy_external 34 () toy_problem toy_iterate 1
      = .ok { solution := toy_solution (1 / 2)
              strategy := { toy_strategy with penalty_parameter := 1 / 10 ^ 12 }
              solver := ()
              solves := [1, 0, 1 / 2, 1 / 10 ^ 12] } := by
  have h1 : toy_strategy.penalty_parameter = 1 := rfl
  have h2 : toy_iterate.residual = 1 := rfl
  have h3 : toy_strategy.tau = 1 / 2 := rfl
  have h4 : toy_strategy.epsilon1 = 1 / 10 := rfl
  have h5 : toy_strategy.epsilon2 = 1 / 10 := rfl
  have h6 := toy_error toy_iterate 0 (Or.inl rfl) rfl
  simp only [PenaltyStrategy.compute_step, toy_subproblem, toy_linear_model,
    toy_bound_multipliers, toy_constraint_multipliers, h1, h6,
    PenaltyStrategy.update_penalty_parameter, PenaltyStrategy.shrink_loop,
    PenaltyStrategy.shrink_pass, h2, h3, h4, h5, PenaltyStrategy.recompute_solution]
  norm_num [toy_solution]

theorem toy_trial_iterate :
    toy_strategy.trial_iterate toy_subproblem toy_external () toy_problem toy_iterate
        (toy_solution 1) 1
      = .ok { d := [1], iterate := toy_trial, solver := () } := by
  simp only [PenaltyStrategy.trial_iterate, toy_bound_multipliers, toy_constraint_multipliers,
    bind, Except.bind]
  simp [add_vectors_value, PenaltyStrategy.compute_measures, toy_subproblem, toy_external,
    toy_problem, toy_solution, toy_iterate, toy_trial, read, List.range_succ, pure, Except.pure,
    bind, Except.bind]

theorem toy_check_step :
    toy_strategy.check_step toy_subproblem toy_external () toy_problem toy_iterate
        (toy_solution 1) 1
      = .ok { accept := true
              current_iterate := { toy_trial with status := OptimalityStatus.FJ_POINT }
              solver := () } := by
  have h1 : toy_strategy.penalty_parameter = 1 := rfl
  have h2 : toy_strategy.eta = 1 / 10 ^ 8 := rfl
  have h3 : toy_strategy.tolerance = 1 / 10 ^ 6 := rfl
  have hx : toy_trial.x = [1] := rfl
  have hc : toy_trial.constraints = [0] := rfl
  have h5 : toy_trial.bound_multipliers = [0] := rfl
  have h6 : toy_trial.constraint_multipliers = [1] := rfl
  have h7 : toy_trial.residual = 1 := rfl
  have h8 : toy_trial.objective = 0 := rfl
  have h9 : toy_iterate.residual = 1 := rfl
  have h10 : toy_iterate.objective = 0 := rfl
  have h11 : toy_problem.number_constraints = 1 := rfl
  simp only [PenaltyStrategy.check_step, toy_trial_iterate, PenaltyStrategy.compute_status, h1,
    h2, h3, h5, h6, h7, h8, h9, h10, h11, bind, Except.bind]
  norm_num [toy_error, hx, hc, toy_solution, norm_inf]
  exact ⟨rfl, rfl⟩

/-- The flag returned by `check_step` is the outcome of the test at line 157. -/
theorem check_step_ok {S : PenaltyStrategy} {sub : Subproblem σ} {ext : External}
    {solver : σ} {problem : Problem} {current_iterate : Iterate} {solution : LocalSolution}
    {step_length : ℚ} {r : CheckResult σ}
    (h : S.check_step sub ext solver problem current_iterate solution step_length = .ok r) :
    ∃ trial, S.trial_iterate sub ext solver problem current_iterate solution step_length
        = .ok trial ∧
      (r.accept = true ↔
        (S.penalty_parameter * current_iterate.objective + current_iterate.residual)
            - (S.penalty_parameter * trial.iterate.objective + trial.iterate.residual)
          ≥ S.eta * step_length * (current_iterate.residual - solution.objective)) := by
  unfold PenaltyStrategy.check_step at h
  split at h
  · cases h
  · rename_i trial htrial
    refine ⟨trial, htrial, ?_⟩
    simp only at h
    split at h
    · rename_i hacc
      split at h
      · cases h
      · cases h
        exact ⟨fun _ => hacc, fun _ => rfl⟩
    · rename_i hrej
      cases h
      exact ⟨fun hcon => (by cases hcon), fun hacc => absurd hacc hrej⟩

end PenaltyProofs

/-! ## The combined error and the linear model as sums -/

section PenaltyErrorProofs

theorem read_ok (v : List ℚ) (i : Nat) (hi : i < v.length) : read v i = .ok (v.getD i 0) := by
  simp [read, List.getElem?_eq_getElem hi, List.getD_eq_getElem?_getD]

/-- A loop over `Range(n)` whose body adds the term `t i` to the accumulator returns the
initial value plus the sum of the terms. -/
theorem foldlM_sum (f : ℚ → Nat → Except Fault ℚ) (t : Nat → ℚ) :
    ∀ (n : Nat), (∀ acc i, i < n → f acc i = .ok (acc + t i)) →
      ∀ init, (List.range n).foldlM f init = .ok (init + ((List.range n).map t).sum) := by
  intro n
  induction n with
  | zero => intro _ init; simp [pure, Except.pure]
  | succ n ih =>
    intro hf init
    rw [List.range_succ, List.foldlM_append, ih (fun acc i hi => hf acc i (Nat.lt_succ_of_lt hi))]
    simp only [bind, Except.bind, List.foldlM_cons, List.foldlM_nil, hf _ n (Nat.lt_succ_self n),
      pure, Except.pure, List.map_append, List.sum_append, List.map_cons, List.map_nil,
      List.sum_cons, List.sum_nil]
    rw [add_zero, add_assoc]

theorem norm_1_fold (x : List ℚ) :
    ∀ init, x.foldl (fun norm xi => norm + |xi|) init = init + (x.map (fun g => |g|)).sum := by
  induction x with
  | nil => intro init; simp
  | cons a rest ih => intro init; simp [ih, add_assoc]

theorem compute_error_bound_ok (problem : Problem) (iterate : Iterate) (z : List ℚ)
    (error : ℚ) (i : Nat) (hlb : i < problem.variable_lb.length)
    (hub : i < problem.variable_ub.length) (hx : i < iterate.x.length) (hz : i < z.length) :
    compute_error_bound problem iterate z error i
      = .ok (error + bound_complementarity (problem.variable_lb.getD i 0) (iterate.x.getD i 0)
          (problem.variable_ub.getD i 0) (z.getD i 0)) := by
  simp only [compute_error_bound, read_ok _ _ hlb, read_ok _ _ hub, read_ok _ _ hx,
    read_ok _ _ hz, bind, Except.bind, bound_complementarity]
  by_cases h1 : problem.variable_lb.getD i 0 < iterate.x.getD i 0
  · by_cases h2 : iterate.x.getD i 0 < problem.variable_ub.getD i 0
    · simp only [h1, h2, if_true, and_self]
      by_cases h3 : z.getD i 0 > 0
      · simp only [h3, if_true]
      · by_cases h4 : z.getD i 0 < 0
        · simp only [h3, h4, if_true, if_false]
        · simp only [h3, h4, if_false, add_zero]
    · simp only [h1, h2, if_true, if_false, and_false, add_zero]
  · simp only [h1, if_false, false_and, add_zero]

theorem compute_error_constraint_ok (problem : Problem) (iterate : Iterate) (lambda : List ℚ)
    (error : ℚ) (j : Nat) (hlb : j < problem.constraint_lb.length)
    (hub : j < problem.constraint_ub.length) (hc : j < iterate.constraints.length)
    (hl : j < lambda.length) :
    compute_error_constraint problem iterate lambda error j
      = .ok (error + constraint_complementarity (problem.constraint_lb.getD j 0)
          (iterate.constraints.getD j 0) (problem.constraint_ub.getD j 0) (lambda.getD j 0)) := by
  simp only [compute_error_constraint, read_ok _ _ hlb, read_ok _ _ hub, read_ok _ _ hc,
    read_ok _ _ hl, bind, Except.bind, constraint_complementarity]
  by_cases h1 : iterate.constraints.getD j 0 < problem.constraint_lb.getD j 0
  · simp only [h1, if_true]
  · by_cases h2 : problem.constraint_ub.getD j 0 < iterate.constraints.getD j 0
    · simp only [h1, h2, if_true, if_false]
    · by_cases h3 : lambda.getD j 0 > 0
      · simp only [h1, h2, h3, if_true, if_false]
      · by_cases h4 : lambda.getD j 0 < 0
        · simp only [h1, h2, h3, h4, if_true, if_false]
        · simp only [h1, h2, h3, h4, if_false, add_zero]

/-- On vectors that are long enough, `compute_error` returns the closed expression
`combined_error`. -/
theorem compute_error_ok (ext : External) (problem : Problem) (iterate : Iterate)
    (z lambda : List ℚ) (rho : ℚ)
    (hlb : problem.number_variables ≤ problem.variable_lb.length)
    (hub : problem.number_variables ≤ problem.variable_ub.length)
    (hx : problem.number_variables ≤ iterate.x.length)
    (hz : problem.number_variables ≤ z.length)
    (hcl : problem.number_constraints ≤ problem.constraint_lb.length)
    (hcu : problem.number_constraints ≤ problem.constraint_ub.length)
    (hc : problem.number_constraints ≤ iterate.constraints.length)
    (hl : problem.number_constraints ≤ lambda.length) :
    compute_error ext problem iterate z lambda rho
      = .ok (combined_error ext problem iterate z lambda rho) := by
  have h1 := foldlM_sum (compute_error_bound problem iterate z)
    (fun i => bound_complementarity (problem.variable_lb.getD i 0) (iterate.x.getD i 0)
      (problem.variable_ub.getD i 0) (z.getD i 0)) problem.number_variables
    (fun acc i hi => compute_error_bound_ok problem iterate z acc i (by omega) (by omega)
      (by omega) (by omega))
  have h2 := foldlM_sum (compute_error_constraint problem iterate lambda)
    (fun j => constraint_complementarity (problem.constraint_lb.getD j 0)
      (iterate.constraints.getD j 0) (problem.constraint_ub.getD j 0) (lambda.getD j 0))
    problem.number_constraints
    (fun acc j hj => compute_error_constraint_ok problem iterate lambda acc j (by omega)
      (by omega) (by omega) (by omega))
  simp only [compute_error, h1, h2, bind, Except.bind, norm_1, norm_1_fold, combined_error,
    zero_add]

/-- On a solution that is long enough, `compute_linear_model` returns the sum of the
components `x[number_variables + k]`, `k < number_additional_variables`. -/
theorem compute_linear_model_ok (S : PenaltyStrategy) (problem : Problem)
    (solution : LocalSolution)
    (hlen : problem.number_variables + S.penalty_dimensions.number_additional_variables
      ≤ solution.x.length) :
    S.compute_linear_model problem solution
      = .ok (((List.range S.penalty_dimensions.number_additional_variables).map
          (fun k => solution.x.getD (problem.number_variables + k) 0)).sum) := by
  have h := foldlM_sum
    (fun linear_model k =>
      match read solution.x (problem.number_variables + k) with
      | .error e => .error e
      | .ok value => .ok (linear_model + value))
    (fun k => solution.x.getD (problem.number_variables + k) 0)
    S.penalty_dimensions.number_additional_variables
    (fun acc k hk => by simp only [read_ok _ _ (show problem.number_variables + k
      < solution.x.length by omega)]) 0
  rw [zero_add] at h
  exact h

theorem toy_feasible_linear_model :
    toy_strategy.compute_linear_model toy_problem toy_feasible_solution = .ok 0 := by
  simp [PenaltyStrategy.compute_linear_model, toy_strategy, toy_problem, toy_feasible_solution,
    read, PenaltyStrategy.create, List.range_succ, pure, Except.pure, bind, Except.bind]

theorem toy_stationary_error :
    compute_error toy_stationary_external toy_problem toy_iterate [0] [1] 0 = .ok 0 := by
  simp [compute_error, compute_error_bound, compute_error_constraint, toy_stationary_external,
    toy_external, toy_problem, toy_iterate, read, norm_1, List.range_succ, pure, Except.pure,
    bind, Except.bind]

end PenaltyErrorProofs

/-! ## `compute_status` -/

section PenaltyStatusProofs

/-- The first `k` passes of a loop of `divide_components` divide the first `k` components
and leave the others. -/
theorem divide_components_loop (v : List ℚ) (rho : ℚ) :
    ∀ k, k ≤ v.length →
      divide_components v k rho = .ok ((v.take k).map (fun a => a / rho) ++ v.drop k) := by
  unfold divide_components
  intro k
  induction k with
  | zero => intro _; simp [pure, Except.pure]
  | succ k ih =>
    intro hk
    have hk1 : k < v.length := hk
    have hlen : ((v.take k).map (fun a => a / rho) ++ v.drop k).length = v.length := by
      simp [Nat.min_eq_left (Nat.le_of_lt hk1)]; omega
    have hread : read ((v.take k).map (fun a => a / rho) ++ v.drop k) k = .ok v[k] := by
      have hget : ((v.take k).map (fun a => a / rho) ++ v.drop k)[k]? = some v[k] := by
        rw [List.getElem?_append_right (by simp [Nat.min_eq_left (Nat.le_of_lt hk1)])]
        simp [Nat.min_eq_left (Nat.le_of_lt hk1), List.getElem?_eq_getElem hk1]
      simp only [read, hget]
    rw [List.range_succ, List.foldlM_append, ih (Nat.le_of_lt hk1)]
    simp only [bind, Except.bind, List.foldlM_cons, List.foldlM_nil, hread, pure, Except.pure]
    congr 1
    apply List.ext_getElem?
    intro i
    rw [List.getElem?_set]
    by_cases hik : k = i
    · subst hik
      rw [if_pos rfl, if_pos (by rw [hlen]; exact hk1),
        List.getElem?_append_left (by simp [Nat.min_eq_left hk])]
      simp [List.getElem?_take, List.getElem?_eq_getElem hk1]
    · rw [if_neg hik]
      by_cases hlt : i < k
      · rw [List.getElem?_append_left (by simp [Nat.min_eq_left (Nat.le_of_lt hk1)]; exact hlt),
          List.getElem?_append_left (by simp [Nat.min_eq_left hk]; omega)]
        simp [List.getElem?_take, hlt, Nat.lt_succ_of_lt hlt]
      · have hgt : k + 1 ≤ i := by omega
        rw [List.getElem?_append_right (by simp [Nat.min_eq_left (Nat.le_of_lt hk1)]; omega),
          List.getElem?_append_right (by simp [Nat.min_eq_left hk]; omega)]
        simp only [List.length_map, List.length_take, Nat.min_eq_left (Nat.le_of_lt hk1),
          Nat.min_eq_left hk, List.getElem?_drop]
        congr 1
        omega

/-- Dividing all the components of a vector. -/
theorem divide_components_ok (v : List ℚ) (n : Nat) (rho : ℚ) (hn : v.length = n) :
    divide_components v n rho = .ok (v.map (fun a => a / rho)) := by
  have h := divide_components_loop v rho n (by omega)
  rw [← hn, List.take_length, List.drop_length, List.append_nil] at h
  rw [← hn]
  exact h

/-- The decision made by `compute_status`, given the value `e` of the combined error at
the current penalty parameter: either the KKT test holds and the status is `KKT_POINT`, or
it fails, the iterate is unchanged, the combined error at penalty parameter 0 has a value
`e0` and the status follows from the remaining tests. -/
theorem compute_status_cases {S : PenaltyStrategy} {ext : External} {problem : Problem}
    {iterate iterate1 : Iterate} {step_norm e : ℚ} {status : OptimalityStatus}
    (he : compute_error ext problem iterate iterate.bound_multipliers
      iterate.constraint_multipliers S.penalty_parameter = .ok e)
    (h : S.compute_status ext problem iterate step_norm = .ok (status, iterate1)) :
    ((e ≤ S.tolerance ∧ iterate.residual ≤ S.tolerance * problem.number_constraints) ∧
      status = OptimalityStatus.KKT_POINT ∧ (¬ 0 < S.penalty_parameter → iterate1 = iterate)) ∨
    (¬ (e ≤ S.tolerance ∧ iterate.residual ≤ S.tolerance * problem.number_constraints) ∧
      iterate1 = iterate ∧
      ∃ e0, compute_error ext problem iterate iterate.bound_multipliers
          iterate.constraint_multipliers 0 = .ok e0 ∧
        status =
          (if e0 ≤ S.tolerance ∧
              iterate.residual > S.tolerance * problem.number_constraints then
            OptimalityStatus.FJ_POINT
          else if step_norm ≤ S.tolerance / 100 then
            if iterate.residual ≤ S.tolerance * problem.number_constraints then
              OptimalityStatus.FEASIBLE_SMALL_STEP
            else OptimalityStatus.INFEASIBLE_SMALL_STEP
          else OptimalityStatus.NOT_OPTIMAL)) := by
  unfold PenaltyStrategy.compute_status at h
  simp only [he, bind, Except.bind] at h
  by_cases hK : e ≤ S.tolerance ∧ iterate.residual ≤ S.tolerance * problem.number_constraints
  · rw [if_pos hK] at h
    refine Or.inl ⟨hK, ?_⟩
    by_cases hrho : 0 < S.penalty_parameter
    · rw [if_pos hrho] at h
      split at h
      · cases h
      · split at h
        · cases h
        · cases h
          exact ⟨rfl, fun hcon => absurd hrho hcon⟩
    · rw [if_neg hrho] at h
      cases h
      exact ⟨rfl, fun _ => rfl⟩
  · rw [if_neg hK] at h
    refine Or.inr ⟨hK, ?_⟩
    cases he0 : compute_error ext problem iterate iterate.bound_multipliers
        iterate.constraint_multipliers 0 with
    | error err =>
      rw [he0] at h
      cases h
    | ok e0 =>
      rw [he0] at h
      simp only at h
      by_cases hF : e0 ≤ S.tolerance ∧
          iterate.residual > S.tolerance * problem.number_constraints
      · rw [if_pos hF] at h
        cases h
        exact ⟨rfl, e0, rfl, by rw [if_pos hF]⟩
      · rw [if_neg hF] at h
        by_cases hs : step_norm ≤ S.tolerance / 100
        · rw [if_pos hs] at h
          by_cases hr : iterate.residual ≤ S.tolerance * problem.number_constraints
          · rw [if_pos hr] at h
            cases h
            exact ⟨rfl, e0, rfl, by rw [if_neg hF, if_pos hs, if_pos hr]⟩
          · rw [if_neg hr] at h
            cases h
            exact ⟨rfl, e0, rfl, by rw [if_neg hF, if_pos hs, if_neg hr]⟩
        · rw [if_neg hs] at h
          cases h
          exact ⟨rfl, e0, rfl, by rw [if_neg hF, if_neg hs]⟩

/-- At a point that satisfies the KKT test, with one multiplier per variable and per
constraint, `compute_status` returns `KKT_POINT` and, when the penalty parameter is
positive, the iterate with all its multipliers divided by the penalty parameter. -/
theorem compute_status_KKT {S : PenaltyStrategy} {ext : External} {problem : Problem}
    {iterate : Iterate} {step_norm e : ℚ}
    (hb : iterate.bound_multipliers.length = problem.number_variables)
    (hc : iterate.constraint_multipliers.length = problem.number_constraints)
    (he : compute_error ext problem iterate iterate.bound_multipliers
      iterate.constraint_multipliers S.penalty_parameter = .ok e)
    (hK : e ≤ S.tolerance ∧ iterate.residual ≤ S.tolerance * problem.number_constraints) :
    S.compute_status ext problem iterate step_norm
      = .ok (OptimalityStatus.KKT_POINT,
          if 0 < S.penalty_parameter then
            { iterate with
              bound_multipliers :=
                iterate.bound_multipliers.map (fun a => a / S.penalty_parameter)
              constraint_multipliers :=
                iterate.constraint_multipliers.map (fun a => a / S.penalty_parameter) }
          else iterate) := by
  unfold PenaltyStrategy.compute_status
  simp only [he, bind, Except.bind, hK, and_self, if_true]
  by_cases hrho : 0 < S.penalty_parameter
  · simp only [hrho, if_true, divide_components_ok _ _ _ hb, divide_components_ok _ _ _ hc]
  · simp only [hrho, if_false]

/-! ### Evaluation of `compute_status` on the small instance -/

theorem toy_compute_status_FJ :
    toy_strategy.compute_status toy_external toy_problem toy_trial 1
      = .ok (OptimalityStatus.FJ_POINT, toy_trial) := by
  have h1 : toy_trial.bound_multipliers = [0] := rfl
  have h2 : toy_trial.constraint_multipliers = [1] := rfl
  have h3 : ∀ rho, compute_error toy_external toy_problem toy_trial [0] [1] rho
      = .ok (1 / 10 ^ 6) := fun rho => toy_error toy_trial rho (Or.inr rfl) rfl
  have h4 : toy_strategy.tolerance = 1 / 10 ^ 6 := rfl
  have h5 : toy_trial.residual = 1 := rfl
  have h6 : toy_problem.number_constraints = 1 := rfl
  simp only [PenaltyStrategy.compute_status, h1, h2, h3, h4, h5, h6, bind, Except.bind]
  norm_num

theorem toy_compute_status_small :
    toy_tight_strategy.compute_status toy_external toy_problem toy_trial 0
      = .ok (OptimalityStatus.INFEASIBLE_SMALL_STEP, toy_trial) := by
  have h1 : toy_trial.bound_multipliers = [0] := rfl
  have h2 : toy_trial.constraint_multipliers = [1] := rfl
  have h3 : ∀ rho, compute_error toy_external toy_problem toy_trial [0] [1] rho
      = .ok (1 / 10 ^ 6) := fun rho => toy_error toy_trial rho (Or.inr rfl) rfl
  have h4 : toy_tight_strategy.tolerance = 1 / 10 ^ 7 := rfl
  have h5 : toy_trial.residual = 1 := rfl
  have h6 : toy_problem.number_constraints = 1 := rfl
  simp only [PenaltyStrategy.compute_status, h1, h2, h3, h4, h5, h6, bind, Except.bind]
  norm_num

end PenaltyStatusProofs

/-! ## The trial iterate of `check_step` -/

section PenaltyTrialProofs

variable {σ : Type}

/-- A loop that stores the value `val i` at position `i` for `i < n`: when it returns, the
vector has kept its size, holds `val i` at every position `i < n` and is unchanged at the
other positions. -/
theorem fill_loop (val : Nat → Except Fault ℚ) (init : List ℚ) :
    ∀ (n : Nat) (z : List ℚ), n ≤ init.length →
      (List.range n).foldlM (fun (w : List ℚ) i =>
        match val i with
        | Except.error e => Except.error e
        | Except.ok v => Except.ok (w.set i v)) init = Except.ok z →
      z.length = init.length ∧ (∀ i, i < n → ∃ v, val i = .ok v ∧ z[i]? = some v) ∧
      (∀ i, n ≤ i → z[i]? = init[i]?) := by
  intro n
  induction n with
  | zero =>
    intro z _ h
    simp only [List.range_zero, List.foldlM_nil, pure, Except.pure] at h
    cases h
    exact ⟨rfl, fun i hi => absurd hi (Nat.not_lt_zero i), fun _ _ => rfl⟩
  | succ n ih =>
    intro z hn h
    rw [List.range_succ, List.foldlM_append] at h
    cases hw : (List.range n).foldlM (fun (w : List ℚ) i =>
        match val i with
        | Except.error e => Except.error e
        | Except.ok v => Except.ok (w.set i v)) init with
    | error e =>
      rw [hw] at h
      simp only [bind, Except.bind] at h
      cases h
    | ok w =>
      rw [hw] at h
      simp only [bind, Except.bind, List.foldlM_cons, List.foldlM_nil, pure, Except.pure] at h
      obtain ⟨hlen, hdone, hrest⟩ := ih w (Nat.le_of_succ_le hn) hw
      cases hv : val n with
      | error e =>
        rw [hv] at h
        cases h
      | ok v =>
        rw [hv] at h
        simp only at h
        cases h
        refine ⟨by simp [hlen], ?_, ?_⟩
        · intro i hi
          by_cases hin : i = n
          · subst hin
            refine ⟨v, hv, ?_⟩
            have hb : i < w.length := by rw [hlen]; exact hn
            simp [List.getElem?_set, hb]
          · obtain ⟨u, hu, hz⟩ := hdone i (by omega)
            refine ⟨u, hu, ?_⟩
            have hne : n ≠ i := fun hcon => hin hcon.symm
            simp [List.getElem?_set, hne, hz]
        · intro i hi
          have hne : n ≠ i := by omega
          simp [List.getElem?_set, hne, hrest i (by omega)]

theorem read_some {v : List ℚ} {i : Nat} {a : ℚ} (h : read v i = .ok a) : v[i]? = some a := by
  unfold read at h
  split at h
  · rename_i value hv
    cases h
    exact hv
  · cases h

/-- What a returning `add_vectors(x, y, scaling_factor)` has computed. -/
theorem add_vectors_value_ok {x y z : List ℚ} {s : ℚ} (h : add_vectors_value x y s = .ok z) :
    z.length = x.length ∧
    ∀ (i : Nat) (xi : ℚ), x[i]? = some xi →
      ∃ yi, y[i]? = some yi ∧ z[i]? = some (xi + s * yi) := by
  have hbody : (fun (w : List ℚ) (i : Nat) =>
      match x[i]?, y[i]? with
      | some xi, some yi => Except.ok (w.set i (xi + s * yi))
      | _, _ => Except.error Fault.out_of_bounds)
      = (fun (w : List ℚ) (i : Nat) =>
        match (match x[i]?, y[i]? with
          | some xi, some yi => (Except.ok (xi + s * yi) : Except Fault ℚ)
          | _, _ => Except.error Fault.out_of_bounds) with
        | Except.error e => Except.error e
        | Except.ok v => Except.ok (w.set i v)) := by
    funext w i
    cases hx : x[i]? <;> cases hy : y[i]? <;> rfl
  unfold add_vectors_value at h
  rw [hbody] at h
  obtain ⟨hlen, hdone, -⟩ := fill_loop _ _ x.length z (by simp) h
  refine ⟨by simpa using hlen, ?_⟩
  intro i xi hxi
  have hi : i < x.length := by
    by_contra hcon
    rw [List.getElem?_eq_none (by omega)] at hxi
    cases hxi
  obtain ⟨v, hv, hz⟩ := hdone i hi
  rw [hxi] at hv
  cases hy : y[i]? with
  | none =>
    rw [hy] at hv
    cases hv
  | some yi =>
    rw [hy] at hv
    simp only at hv
    cases hv
    exact ⟨yi, rfl, hz⟩

/-- The stages of a returning `trial_iterate`: the direction `d`, the trial point, the
multipliers and the iterate constructed from them. -/
theorem trial_iterate_ok {S : PenaltyStrategy} {sub : Subproblem σ} {ext : External}
    {solver : σ} {problem : Problem} {current_iterate : Iterate} {solution : LocalSolution}
    {step_length : ℚ} {trial : Trial σ}
    (h : S.trial_iterate sub ext solver problem current_iterate solution step_length
      = .ok trial) :
    ∃ x_trial bound_multipliers multipliers trial_multipliers,
      (trial.d.length = problem.number_variables ∧
        ∀ i, i < problem.number_variables → ∃ v, solution.x[i]? = some v ∧ trial.d[i]? = some v) ∧
      add_vectors_value current_iterate.x trial.d step_length = .ok x_trial ∧
      compute_bound_multipliers problem solution = .ok bound_multipliers ∧
      compute_constraint_multipliers problem solution = .ok multipliers ∧
      add_vectors_value current_iterate.constraint_multipliers multipliers step_length
        = .ok trial_multipliers ∧
      trial.iterate = (sub.compute_measures solver problem
        { ext.new_iterate problem x_trial bound_multipliers trial_multipliers with
          x := x_trial
          bound_multipliers := bound_multipliers
          constraint_multipliers := trial_multipliers }).1 := by
  unfold PenaltyStrategy.trial_iterate at h
  simp only [bind, Except.bind] at h
  split at h
  · cases h
  · rename_i d hd
    split at h
    · cases h
    · rename_i x_trial hx
      split at h
      · cases h
      · rename_i bm hbm
        split at h
        · cases h
        · rename_i cm hcm
          split at h
          · cases h
          · rename_i tcm htcm
            cases h
            obtain ⟨hlen, hdone, -⟩ := fill_loop (fun i => read solution.x i) _
              problem.number_variables d (by simp) hd
            refine ⟨x_trial, bm, cm, tcm, ⟨by simpa using hlen, ?_⟩, hx, hbm, hcm, htcm, rfl⟩
            intro i hi
            obtain ⟨v, hv, hz⟩ := hdone i hi
            exact ⟨v, read_some hv, hz⟩

/-- `compute_status` changes no member of the iterate but the multipliers. -/
theorem compute_status_frame {S : PenaltyStrategy} {ext : External} {problem : Problem}
    {iterate iterate1 : Iterate} {step_norm : ℚ} {status : OptimalityStatus}
    (h : S.compute_status ext problem iterate step_norm = .ok (status, iterate1)) :
    iterate1.x = iterate.x ∧ iterate1.objective = iterate.objective ∧
    iterate1.residual = iterate.residual ∧ iterate1.constraints = iterate.constraints ∧
    (¬ (status = OptimalityStatus.KKT_POINT ∧ 0 < S.penalty_parameter) →
      iterate1 = iterate) := by
  cases he : compute_error ext problem iterate iterate.bound_multipliers
      iterate.constraint_multipliers S.penalty_parameter with
  | error err =>
    unfold PenaltyStrategy.compute_status at h
    simp only [he, bind, Except.bind] at h
    cases h
  | ok e =>
    by_cases hrho : 0 < S.penalty_parameter
    · rcases compute_status_cases he h with ⟨hK, hstatus, -⟩ | ⟨hK, hframe, e0, -, hstatus⟩
      · unfold PenaltyStrategy.compute_status at h
        simp only [he, bind, Except.bind, hK, and_self, if_true, hrho] at h
        split at h
        · cases h
        · split at h
          · cases h
          · cases h
            exact ⟨rfl, rfl, rfl, rfl, fun hcon => absurd ⟨rfl, hrho⟩ hcon⟩
      · subst hframe
        exact ⟨rfl, rfl, rfl, rfl, fun _ => rfl⟩
    · rcases compute_status_cases he h with ⟨-, -, hframe⟩ | ⟨-, hframe, -⟩
      · have := hframe hrho
        subst this
        exact ⟨rfl, rfl, rfl, rfl, fun _ => rfl⟩
      · subst hframe
        exact ⟨rfl, rfl, rfl, rfl, fun _ => rfl⟩

/-- What a returning `check_step` leaves in `current_iterate`: on acceptance the trial
iterate as `compute_status` left it, with its status set; otherwise the iterate at
entry. -/
theorem check_step_frame {S : PenaltyStrategy} {sub : Subproblem σ} {ext : External}
    {solver : σ} {problem : Problem} {current_iterate : Iterate} {solution : LocalSolution}
    {step_length : ℚ} {r : CheckResult σ} {trial : Trial σ}
    (htrial : S.trial_iterate sub ext solver problem current_iterate solution step_length
      = .ok trial)
    (h : S.check_step sub ext solver problem current_iterate solution step_length = .ok r) :
    (r.accept = true →
      ∃ status rescaled,
        S.compute_status ext problem
          { trial.iterate with
            KKTerror := ext.compute_KKT_error problem trial.iterate S.penalty_parameter
            complementarity_error := ext.compute_complementarity_error problem
              { trial.iterate with
                KKTerror := ext.compute_KKT_error problem trial.iterate S.penalty_parameter } }
          (step_length * norm_inf trial.d) = .ok (status, rescaled) ∧
        r.current_iterate = { rescaled with status := status }) ∧
    (r.accept = false → r.current_iterate = current_iterate) := by
  unfold PenaltyStrategy.check_step at h
  rw [htrial] at h
  simp only at h
  split at h
  · split at h
    · cases h
    · rename_i status rescaled hstatus
      cases h
      exact ⟨fun _ => ⟨status, rescaled, hstatus, rfl⟩, fun hcon => (by cases hcon)⟩
  · cases h
    exact ⟨fun hcon => (by cases hcon), fun _ => rfl⟩

/-- A loop of `divide_components` that returns has read within the vector, and it keeps
the length of the vector. -/
theorem divide_components_length (v : List ℚ) (rho : ℚ) :
    ∀ (n : Nat) (w : List ℚ), divide_components v n rho = .ok w →
      n ≤ v.length ∧ w.length = v.length := by
  unfold divide_components
  intro n
  induction n with
  | zero =>
    intro w h
    simp only [List.range_zero, List.foldlM_nil, pure, Except.pure] at h
    cases h
    exact ⟨Nat.zero_le _, rfl⟩
  | succ n ih =>
    intro w h
    rw [List.range_succ, List.foldlM_append] at h
    simp only [bind, Except.bind] at h
    split at h
    · cases h
    · rename_i w0 hw0
      obtain ⟨hn, hlen⟩ := ih w0 hw0
      simp only [List.foldlM_cons, List.foldlM_nil, bind, Except.bind, pure, Except.pure] at h
      split at h
      · cases h
      · rename_i w1 hw1
        cases h
        split at hw1
        · cases hw1
        · rename_i value hvalue
          cases hw1
          have hread := read_some hvalue
          have hlt : n < w0.length := by
            by_contra hcon
            rw [List.getElem?_eq_none (by omega)] at hread
            cases hread
          exact ⟨by omega, by simpa using hlen⟩

/-- A loop of `divide_components` that returns has divided the first `n` components and
left the others. -/
theorem divide_components_returns {v w : List ℚ} {n : Nat} {rho : ℚ}
    (h : divide_components v n rho = .ok w) :
    w = (v.take n).map (fun a => a / rho) ++ v.drop n := by
  have hn := (divide_components_length v rho n w h).1
  rw [divide_components_loop v rho n hn] at h
  cases h
  rfl

/-- A `compute_status` that returns `KKT_POINT` with a positive penalty parameter returns
the iterate with its first `number_variables` bound multipliers and its first
`number_constraints` constraint multipliers divided by the penalty parameter. -/
theorem compute_status_rescaled {S : PenaltyStrategy} {ext : External} {problem : Problem}
    {iterate iterate1 : Iterate} {step_norm : ℚ} {status : OptimalityStatus}
    (h : S.compute_status ext problem iterate step_norm = .ok (status, iterate1))
    (hK : status = OptimalityStatus.KKT_POINT) (hrho : 0 < S.penalty_parameter) :
    iterate1 = { iterate with
      bound_multipliers :=
        (iterate.bound_multipliers.take problem.number_variables).map
            (fun a => a / S.penalty_parameter)
          ++ iterate.bound_multipliers.drop problem.number_variables
      constraint_multipliers :=
        (iterate.constraint_multipliers.take problem.number_constraints).map
            (fun a => a / S.penalty_parameter)
          ++ iterate.constraint_multipliers.drop problem.number_constraints } := by
  cases he : compute_error ext problem iterate iterate.bound_multipliers
      iterate.constraint_multipliers S.penalty_parameter with
  | error err =>
    unfold PenaltyStrategy.compute_status at h
    simp only [he, bind, Except.bind] at h
    cases h
  | ok e =>
    rcases compute_status_cases he h with ⟨hKKT, -, -⟩ | ⟨-, -, e0, -, hstatus⟩
    · unfold PenaltyStrategy.compute_status at h
      simp only [he, bind, Except.bind, hKKT, and_self, if_true, hrho] at h
      split at h
      · cases h
      · rename_i bm hbm
        split at h
        · cases h
        · rename_i cm hcm
          cases h
          rw [divide_components_returns hbm, divide_components_returns hcm]
    · rw [hK] at hstatus
      split at hstatus
      · cases hstatus
      · split at hstatus
        · split at hstatus <;> cases hstatus
        · cases hstatus

/-- The trial iterate of the small instance with the constraint multiplier 3 and the
constraint evaluated at its lower bound. -/
theorem toy_active_trial_iterate :
    toy_half_strategy.trial_iterate toy_subproblem toy_active_external () toy_problem
        toy_dual_iterate (toy_solution 1) 1
      = .ok { d := [1], iterate := toy_active_trial, solver := () } := by
  simp only [PenaltyStrategy.trial_iterate, toy_bound_multipliers, toy_constraint_multipliers,
    bind, Except.bind]
  simp [add_vectors_value, PenaltyStrategy.compute_measures, toy_subproblem,
    toy_active_external, toy_stationary_external, toy_external, toy_problem, toy_solution,
    toy_iterate, toy_dual_iterate, toy_active_trial, read, List.range_succ, pure, Except.pure,
    bind, Except.bind]
  norm_num

/-- The combined error on that instance is 0 at every penalty parameter, for an iterate
with `x = 1` whose constraint is at its lower bound. -/
theorem toy_active_error (iterate : Iterate) (penalty_parameter : ℚ)
    (hx : iterate.x = [1]) (hc : iterate.constraints = [1]) :
    compute_error toy_active_external toy_problem iterate [0] [4] penalty_parameter
      = .ok 0 := by
  simp [compute_error, compute_error_bound, compute_error_constraint, toy_active_external,
    toy_stationary_external, toy_external, toy_problem, hx, hc, read, norm_1,
    List.range_succ, pure, Except.pure, bind, Except.bind]

/-- On that instance `check_step` accepts the step, finds a `KKT_POINT` and leaves the
constraint multiplier `8 = 4 / (1/2)` in the current iterate. -/
theorem toy_rescaled_check_step :
    toy_half_strategy.check_step toy_subproblem toy_active_external () toy_problem
        toy_dual_iterate (toy_solution 1) 1
      = .ok toy_rescaled_result := by
  have h1 : toy_half_strategy.penalty_parameter = 1 / 2 := rfl
  have h2 : toy_half_strategy.eta = 1 / 10 ^ 8 := rfl
  have h3 : toy_half_strategy.tolerance = 1 / 10 ^ 6 := rfl
  have hx : toy_active_trial.x = [1] := rfl
  have hc : toy_active_trial.constraints = [1] := rfl
  have h5 : toy_active_trial.bound_multipliers = [0] := rfl
  have h6 : toy_active_trial.constraint_multipliers = [4] := rfl
  have h7 : toy_active_trial.residual = 0 := rfl
  have h8 : toy_active_trial.objective = 0 := rfl
  have h9 : toy_dual_iterate.residual = 1 := rfl
  have h10 : toy_dual_iterate.objective = 0 := rfl
  have h11 : toy_problem.number_constraints = 1 := rfl
  have h12 : toy_problem.number_variables = 1 := rfl
  simp only [PenaltyStrategy.check_step, toy_active_trial_iterate,
    PenaltyStrategy.compute_status, h1, h2, h3, h5, h6, h7, h8, h9, h10, h11, h12,
    bind, Except.bind]
  norm_num [toy_active_error, hx, hc, toy_solution, norm_inf, divide_components, read,
    List.range_succ, pure, Except.pure, bind, Except.bind]
  rfl

end PenaltyTrialProofs

/-! ## The shrink loop of `compute_step` -/

section PenaltyLoopProofs

variable {σ : Type}

/-- The loop does not run when `condition2` holds. -/
theorem shrink_loop_done {S : PenaltyStrategy} {sub : Subproblem σ} {problem : Problem}
    {current_iterate : Iterate} {radius : ℚ} {ideal_solution : LocalSolution}
    {ideal_linear_model : ℚ} (fuel : Nat) (st : LoopState σ) (hc : st.condition2 = true) :
    S.shrink_loop sub problem current_iterate radius ideal_solution ideal_linear_model fuel st
      = .ok st := by
  cases fuel with
  | zero => unfold PenaltyStrategy.shrink_loop; simp [hc]
  | succ fuel => unfold PenaltyStrategy.shrink_loop; simp [hc]

/-- With `tau = 0.5`, the loop started from a penalty parameter below `2^n * 1e-10`,
`n >= 1`, makes at most `n` passes, hence solves at most `n` subproblems. -/
theorem shrink_loop_passes {S : PenaltyStrategy} {sub : Subproblem σ} {problem : Problem}
    {current_iterate : Iterate} {radius : ℚ} {ideal_solution : LocalSolution}
    {ideal_linear_model : ℚ} (htau : S.tau = 1 / 2) :
    ∀ (fuel n : Nat) (st st1 : LoopState σ),
      st.penalty_parameter < 2 ^ n * (1 / 10 ^ 10) → 1 ≤ n →
      S.shrink_loop sub problem current_iterate radius ideal_solution ideal_linear_model fuel st
        = .ok st1 →
      st1.solves.length ≤ st.solves.length + n := by
  intro fuel
  induction fuel with
  | zero =>
    intro n st st1 _ _ h
    unfold PenaltyStrategy.shrink_loop at h
    split at h
    · cases h; omega
    · cases h
  | succ fuel ih =>
    intro n st st1 hlt hn h
    unfold PenaltyStrategy.shrink_loop at h
    split at h
    · cases h; omega
    · split at h
      · cases h
      · rename_i st2 hpass
        obtain ⟨hrho, hfloor, hsolves⟩ := shrink_pass_ok hpass
        rw [htau] at hrho hfloor
        have hlen : st2.solves.length = st.solves.length + 1 := by rw [hsolves]; simp
        by_cases hf : st.penalty_parameter * (1 / 2) < 1 / 10 ^ 10
        · rw [shrink_loop_done fuel st2 (hfloor hf)] at h
          cases h
          omega
        · rw [if_neg hf] at hrho
          have hge : (1 : ℚ) / 10 ^ 10 ≤ st.penalty_parameter * (1 / 2) := not_lt.mp hf
          have hn2 : 2 ≤ n := by
            by_contra hcon
            have hn1 : n = 1 := by omega
            subst hn1
            norm_num at hlt
            linarith
          obtain ⟨m, rfl⟩ : ∃ m, n = m + 1 := ⟨n - 1, by omega⟩
          have hlt2 : st2.penalty_parameter < 2 ^ m * (1 / 10 ^ 10) := by
            rw [hrho]
            rw [pow_succ] at hlt
            linarith
          have := ih m st2 st1 hlt2 (by omega) h
          omega

/-- The test of condition 1 as the loop makes it (lines 98-99). -/
theorem condition1_of_test {residual linear_model ideal_linear_model epsilon1 : ℚ}
    (heps : epsilon1 = 1 / 10) (hres : 0 ≤ residual)
    (h : (ideal_linear_model = 0 ∧ linear_model = 0) ∨
      (ideal_linear_model ≠ 0 ∧
        residual - linear_model ≥ epsilon1 * (residual - ideal_linear_model))) :
    Condition1 residual linear_model ideal_linear_model := by
  unfold Condition1
  rcases h with ⟨h1, h2⟩ | ⟨-, h2⟩
  · rw [h1, h2]
    linarith
  · rw [heps] at h2
    exact h2

/-- One pass of the shrink loop keeps the two facts that the loop relies on: when
`condition1` is set, the test of condition 1 has succeeded for the direction solved at some
penalty parameter of a pass (an entry of `solves` from position `n` on) not smaller than the
current one; when `condition2` is set and the
penalty parameter was not floored to 0, `condition1` is set and the current direction,
solved at the current penalty parameter, passes the test of condition 2. -/
theorem shrink_pass_conditions {S : PenaltyStrategy} {sub : Subproblem σ} {problem : Problem}
    {current_iterate : Iterate} {radius : ℚ} {ideal_solution : LocalSolution}
    {ideal_linear_model : ℚ} {st st2 : LoopState σ} {n : Nat} (htau : S.tau = 1 / 2)
    (h0 : 0 ≤ st.penalty_parameter) (hn : n ≤ st.solves.length) (hc2 : st.condition2 = false)
    (hP : st.condition1 = true → ∃ s rho1 m1, rho1 ∈ st.solves.drop n ∧ st.penalty_parameter ≤ rho1 ∧
      S.compute_linear_model problem
        (sub.compute_l1_penalty_step s problem current_iterate radius rho1
          S.penalty_dimensions).1 = .ok m1 ∧
      ((ideal_linear_model = 0 ∧ m1 = 0) ∨
        (ideal_linear_model ≠ 0 ∧
          current_iterate.residual - m1
            ≥ S.epsilon1 * (current_iterate.residual - ideal_linear_model))))
    (h : S.shrink_pass sub problem current_iterate radius ideal_solution ideal_linear_model st
      = .ok st2) :
    0 ≤ st2.penalty_parameter ∧ n ≤ st2.solves.length ∧
    (st2.condition1 = true → ∃ s rho1 m1, rho1 ∈ st2.solves.drop n ∧ st2.penalty_parameter ≤ rho1 ∧
      S.compute_linear_model problem
        (sub.compute_l1_penalty_step s problem current_iterate radius rho1
          S.penalty_dimensions).1 = .ok m1 ∧
      ((ideal_linear_model = 0 ∧ m1 = 0) ∨
        (ideal_linear_model ≠ 0 ∧
          current_iterate.residual - m1
            ≥ S.epsilon1 * (current_iterate.residual - ideal_linear_model)))) ∧
    (st2.condition2 = true → st2.penalty_parameter ≠ 0 →
      st2.condition1 = true ∧
      current_iterate.residual - st2.solution.objective
        ≥ S.epsilon2 * (current_iterate.residual - ideal_solution.objective) ∧
      ∃ s, st2.solution = (sub.compute_l1_penalty_step s problem current_iterate radius
        st2.penalty_parameter S.penalty_dimensions).1) := by
  obtain ⟨hrho, -, hsolves⟩ := shrink_pass_ok h
  rw [htau] at hrho
  have hdrop : st2.solves.drop n = st.solves.drop n ++ [st2.penalty_parameter] := by
    rw [hsolves, List.drop_append_of_le_length hn]
  have hlen : n ≤ st2.solves.length := by
    rw [hsolves, List.length_append]
    omega
  have hle : st2.penalty_parameter ≤ st.penalty_parameter ∧ 0 ≤ st2.penalty_parameter := by
    rw [hrho]
    split
    · exact ⟨h0, le_rfl⟩
    · constructor <;> linarith
  unfold PenaltyStrategy.shrink_pass at h
  simp only at h
  split at h
  · cases h
  · rename_i trial_linear_model hmodel
    cases h
    simp only at hle hdrop hlen ⊢
    refine ⟨hle.2, hlen, ?_, ?_⟩
    · intro hc1
      rw [hdrop]
      by_cases hold : st.condition1 = true
      · obtain ⟨s, rho1, m1, hmem, hr, hm, htest⟩ := hP hold
        exact ⟨s, rho1, m1, List.mem_append_left _ hmem, le_trans hle.1 hr, hm, htest⟩
      · have hfalse : st.condition1 = false := by
          cases hcond : st.condition1
          · rfl
          · exact absurd hcond hold
        rw [if_pos hfalse] at hc1
        by_cases htest : (ideal_linear_model = 0 ∧ trial_linear_model = 0) ∨
            (ideal_linear_model ≠ 0 ∧
              current_iterate.residual - trial_linear_model
                ≥ S.epsilon1 * (current_iterate.residual - ideal_linear_model))
        · exact ⟨st.solver, _, trial_linear_model,
            List.mem_append_right _ (List.mem_singleton.mpr rfl), le_rfl, hmodel, htest⟩
        · rw [if_neg htest, hfalse] at hc1
          cases hc1
    · intro hcond2 hne
      have hnf : ¬ st.penalty_parameter * S.tau < 1 / 10 ^ 10 := by
        intro hf
        rw [if_pos hf] at hne
        exact hne rfl
      simp only [hnf, if_false] at hcond2 ⊢
      by_cases htest : (if st.condition1 = false then
            if (ideal_linear_model = 0 ∧ trial_linear_model = 0) ∨
                (ideal_linear_model ≠ 0 ∧
                  current_iterate.residual - trial_linear_model
                    ≥ S.epsilon1 * (current_iterate.residual - ideal_linear_model)) then true
            else st.condition1
          else st.condition1) = true ∧
          current_iterate.residual -
              (sub.compute_l1_penalty_step st.solver problem current_iterate radius
                (st.penalty_parameter * S.tau) S.penalty_dimensions).1.objective
            ≥ S.epsilon2 * (current_iterate.residual - ideal_solution.objective)
      · exact ⟨htest.1, htest.2, st.solver, rfl⟩
      · rw [if_neg htest, hc2] at hcond2
        cases hcond2

/-- The two facts of `shrink_pass_conditions` hold when the loop ends. -/
theorem shrink_loop_conditions {S : PenaltyStrategy} {sub : Subproblem σ} {problem : Problem}
    {current_iterate : Iterate} {radius : ℚ} {ideal_solution : LocalSolution}
    {ideal_linear_model : ℚ} {n : Nat} (htau : S.tau = 1 / 2) :
    ∀ (fuel : Nat) (st st1 : LoopState σ),
      0 ≤ st.penalty_parameter → n ≤ st.solves.length →
      (st.condition1 = true → ∃ s rho1 m1, rho1 ∈ st.solves.drop n ∧ st.penalty_parameter ≤ rho1 ∧
        S.compute_linear_model problem
          (sub.compute_l1_penalty_step s problem current_iterate radius rho1
            S.penalty_dimensions).1 = .ok m1 ∧
        ((ideal_linear_model = 0 ∧ m1 = 0) ∨
          (ideal_linear_model ≠ 0 ∧
            current_iterate.residual - m1
              ≥ S.epsilon1 * (current_iterate.residual - ideal_linear_model)))) →
      (st.condition2 = true → st.penalty_parameter ≠ 0 →
        st.condition1 = true ∧
        current_iterate.residual - st.solution.objective
          ≥ S.epsilon2 * (current_iterate.residual - ideal_solution.objective) ∧
        ∃ s, st.solution = (sub.compute_l1_penalty_step s problem current_iterate radius
          st.penalty_parameter S.penalty_dimensions).1) →
      S.shrink_loop sub problem current_iterate radius ideal_solution ideal_linear_model fuel st
        = .ok st1 →
      st1.condition2 = true ∧
      (st1.condition1 = true → ∃ s rho1 m1, rho1 ∈ st1.solves.drop n ∧ st1.penalty_parameter ≤ rho1 ∧
        S.compute_linear_model problem
          (sub.compute_l1_penalty_step s problem current_iterate radius rho1
            S.penalty_dimensions).1 = .ok m1 ∧
        ((ideal_linear_model = 0 ∧ m1 = 0) ∨
          (ideal_linear_model ≠ 0 ∧
            current_iterate.residual - m1
              ≥ S.epsilon1 * (current_iterate.residual - ideal_linear_model)))) ∧
      (st1.penalty_parameter ≠ 0 →
        st1.condition1 = true ∧
        current_iterate.residual - st1.solution.objective
          ≥ S.epsilon2 * (current_iterate.residual - ideal_solution.objective) ∧
        ∃ s, st1.solution = (sub.compute_l1_penalty_step s problem current_iterate radius
          st1.penalty_parameter S.penalty_dimensions).1) := by
  intro fuel
  induction fuel with
  | zero =>
    intro st st1 _ _ hP hQ h
    unfold PenaltyStrategy.shrink_loop at h
    split at h
    · rename_i hc
      cases h
      exact ⟨hc, hP, hQ hc⟩
    · cases h
  | succ fuel ih =>
    intro st st1 h0 hn hP hQ h
    unfold PenaltyStrategy.shrink_loop at h
    split at h
    · rename_i hc
      cases h
      exact ⟨hc, hP, hQ hc⟩
    · rename_i hc
      have hc2 : st.condition2 = false := by
        cases hcond : st.condition2
        · rfl
        · exact absurd hcond hc
      split at h
      · cases h
      · rename_i st2 hpass
        obtain ⟨h02, hn2, hP2, hQ2⟩ := shrink_pass_conditions htau h0 hn hc2 hP hpass
        exact ih st2 st1 h02 hn2 hP2 hQ2 h

theorem toy_late_linear_model :
    toy_strategy.compute_linear_model toy_problem toy_late_solution = .ok 1 := by
  simp [PenaltyStrategy.compute_linear_model, toy_strategy, toy_problem, toy_late_solution,
    read, PenaltyStrategy.create, List.range_succ, pure, Except.pure, bind, Except.bind]

/-- First pass of the loop on the small instance with `toy_sticky_subproblem`: the
direction solved at `1/2` passes the test of condition 1 and fails that of condition 2. -/
theorem toy_shrink_pass_first :
    toy_strategy.shrink_pass toy_sticky_subproblem toy_problem toy_iterate 1
        (toy_solution (1 / 2)) (1 / 2) toy_loop_start
      = .ok toy_loop_middle := by
  have h2 : toy_iterate.residual = 1 := rfl
  have h3 : toy_strategy.tau = 1 / 2 := rfl
  have h4 : toy_strategy.epsilon1 = 1 / 10 := rfl
  have h5 : toy_strategy.epsilon2 = 1 / 10 := rfl
  have ha : ¬ ((1 : ℚ) * (1 / 2) < 1 / 10 ^ 10) := by norm_num
  have h7 : ¬ ((1 : ℚ) * (1 / 2) = 0) := by norm_num
  have h8 : ¬ ((1 : ℚ) * (1 / 2) = 1 / 4) := by norm_num
  simp only [PenaltyStrategy.shrink_pass, toy_loop_start, toy_sticky_subproblem, h2, h3, h4,
    h5, ha, h7, h8, if_false, toy_linear_model]
  norm_num [toy_solution, toy_loop_middle]

/-- Second pass: the direction solved at `1/4` fails the test of condition 1, which is not
made again, and passes the test of condition 2. -/
theorem toy_shrink_pass_second :
    toy_strategy.shrink_pass toy_sticky_subproblem toy_problem toy_iterate 1
        (toy_solution (1 / 2)) (1 / 2) toy_loop_middle
      = .ok toy_loop_end := by
  have h2 : toy_iterate.residual = 1 := rfl
  have h3 : toy_strategy.tau = 1 / 2 := rfl
  have h4 : toy_strategy.epsilon1 = 1 / 10 := rfl
  have h5 : toy_strategy.epsilon2 = 1 / 10 := rfl
  have ha : ¬ ((1 : ℚ) / 2 * (1 / 2) < 1 / 10 ^ 10) := by norm_num
  have h7 : ¬ ((1 : ℚ) / 2 * (1 / 2) = 0) := by norm_num
  have h8 : (1 : ℚ) / 2 * (1 / 2) = 1 / 4 := by norm_num
  have h9 : ¬ ((1 : ℚ) / 4 < 1 / 10 ^ 10) := by norm_num
  have h10 : ¬ ((1 : ℚ) / 4 = 0) := by norm_num
  simp only [PenaltyStrategy.shrink_pass, toy_loop_middle, toy_sticky_subproblem, h2, h3, h4,
    h5, ha, h7, h8, h9, h10, if_false, if_true, toy_late_linear_model]
  norm_num [toy_solution, toy_late_solution, toy_loop_end]

/-- On the small instance with `toy_sticky_subproblem`, the loop makes two passes and ends
at the penalty parameter `1/4`. -/
theorem toy_shrink_loop :
    toy_strategy.shrink_loop toy_sticky_subproblem toy_problem toy_iterate 1
        (toy_solution (1 / 2)) (1 / 2) 34 toy_loop_start
      = .ok toy_loop_end := by
  have hstep : ∀ (fuel : Nat) (st st2 : LoopState Unit), st.condition2 = false →
      toy_strategy.shrink_pass toy_sticky_subproblem toy_problem toy_iterate 1
        (toy_solution (1 / 2)) (1 / 2) st = .ok st2 →
      toy_strategy.shrink_loop toy_sticky_subproblem toy_problem toy_iterate 1
        (toy_solution (1 / 2)) (1 / 2) (fuel + 1) st
      = toy_strategy.shrink_loop toy_sticky_subproblem toy_problem toy_iterate 1
        (toy_solution (1 / 2)) (1 / 2) fuel st2 := by
    intro fuel st st2 hc hp
    rw [PenaltyStrategy.shrink_loop]
    simp only [hc, hp, Bool.false_eq_true, if_false]
  rw [hstep 33 toy_loop_start toy_loop_middle rfl toy_shrink_pass_first,
    hstep 32 toy_loop_middle toy_loop_end rfl toy_shrink_pass_second]
  exact shrink_loop_done 32 toy_loop_end rfl

end PenaltyLoopProofs

/-! ## The regularization slots of a finalized matrix -/

section CSCRegularizationProofs

variable {α : Type}

/-- The loop of `set_regularization` on a matrix whose column `i` ends at the slot
`slot i`, the slots being in bounds and increasing: after `n` passes, the slots of the
first `n` columns hold the values of the function, the other entries are unchanged, and
the diagonal entries of the first `n` columns have been incremented. -/
theorem set_regularization_loop [Add α] (f : Nat → α) (M : CSCSymmetricMatrix α)
    (slot : Nat → Nat) (dim : Nat)
    (hstarts : ∀ i, i < dim → M.column_starts[i + 1]? = some (slot i + 1))
    (hbound : ∀ i, i < dim → slot i < M.entries.length)
    (hdiag : M.diagonal_entries.length = dim)
    (hmono : ∀ i j, i < j → j < dim → slot i < slot j) :
    ∀ n, n ≤ dim →
      ∃ M1, (List.range n).foldlM (CSCSymmetricMatrix.set_regularization_body f) M = .ok M1 ∧
        M1.column_starts = M.column_starts ∧ M1.row_indices = M.row_indices ∧
        M1.current_column = M.current_column ∧ M1.dimension = M.dimension ∧
        M1.number_nonzeros = M.number_nonzeros ∧
        M1.use_regularization = M.use_regularization ∧
        M1.entries.length = M.entries.length ∧ M1.diagonal_entries.length = dim ∧
        (∀ i, i < n → M1.entries[slot i]? = some (f i)) ∧
        (∀ k, (∀ i, i < n → k ≠ slot i) → M1.entries[k]? = M.entries[k]?) ∧
        (∀ i, M1.diagonal_entries[i]?
          = if i < n then (M.diagonal_entries[i]?).map (fun d => d + f i)
            else M.diagonal_entries[i]?) := by
  intro n
  induction n with
  | zero =>
    intro _
    refine ⟨M, rfl, rfl, rfl, rfl, rfl, rfl, rfl, rfl, hdiag, ?_, ?_, ?_⟩
    · intro i hi
      exact absurd hi (Nat.not_lt_zero i)
    · intro k _
      rfl
    · intro i
      simp
  | succ n ih =>
    intro hn
    have hn1 : n < dim := hn
    obtain ⟨M1, hM1, hcs, hri, hcc, hd, hnz, hur, hel, hdl, hslots, hother, hdg⟩ :=
      ih (Nat.le_of_lt hn1)
    have hstart : M1.column_starts[n + 1]? = some (slot n + 1) := by
      rw [hcs]
      exact hstarts n hn1
    have hk : slot n < M1.entries.length := by
      rw [hel]
      exact hbound n hn1
    have hdn : n < M1.diagonal_entries.length := by
      rw [hdl]
      exact hn1
    have hread : M1.diagonal_entries[n]? = some (M1.diagonal_entries.get ⟨n, hdn⟩) :=
      List.getElem?_eq_getElem hdn
    have hstep : CSCSymmetricMatrix.set_regularization_body f M1 n
        = .ok { M1 with
                entries := M1.entries.set (slot n) (f n)
                diagonal_entries :=
                  M1.diagonal_entries.set n (M1.diagonal_entries.get ⟨n, hdn⟩ + f n) } := by
      simp only [CSCSymmetricMatrix.set_regularization_body, hstart, Nat.add_sub_cancel,
        Nat.succ_ne_zero, if_false, hk, if_true, hread]
    refine ⟨{ M1 with
        entries := M1.entries.set (slot n) (f n)
        diagonal_entries :=
          M1.diagonal_entries.set n (M1.diagonal_entries.get ⟨n, hdn⟩ + f n) },
      ?_, hcs, hri, hcc, hd, hnz, hur, ?_, ?_, ?_, ?_, ?_⟩
    · rw [List.range_succ, List.foldlM_append, hM1]
      simp only [bind, Except.bind, List.foldlM_cons, List.foldlM_nil, hstep, pure, Except.pure]
    · simp only [List.length_set]
      exact hel
    · simp only [List.length_set]
      exact hdl
    · intro i hi
      by_cases hin : i = n
      · subst hin
        simp only [List.getElem?_set, hk, if_true]
      · have hlt : i < n := by omega
        have hne : slot n ≠ slot i := Nat.ne_of_gt (hmono i n hlt hn1)
        simp only [List.getElem?_set, hne, if_false]
        exact hslots i hlt
    · intro k hk1
      have hne : slot n ≠ k := fun hcon => hk1 n (Nat.lt_succ_self n) hcon.symm
      simp only [List.getElem?_set, hne, if_false]
      exact hother k (fun i hi => hk1 i (Nat.lt_succ_of_lt hi))
    · intro i
      by_cases hin : i = n
      · subst hin
        have h0 := hdg i
        simp only [Nat.lt_irrefl, if_false] at h0
        rw [hread] at h0
        simp only [List.getElem?_set, hdn, if_true, Nat.lt_succ_self, ← h0, Option.map_some']
      · have hne : n ≠ i := fun hcon => hin hcon.symm
        simp only [List.getElem?_set, hne, if_false]
        rw [hdg i]
        have hiff : (i < n + 1) = (i < n) := by
          apply propext
          constructor
          · intro h
            omega
          · intro h
            omega
        simp only [hiff]

/-- On a matrix with all its columns finalized, the entries stored before column `j` grow
with `j`. -/
theorem entries_before_mono (S : List (Column α)) :
    ∀ i j, i ≤ j → entries_before S i ≤ entries_before S j := by
  intro i j hij
  obtain ⟨d, rfl⟩ := Nat.exists_eq_add_of_le hij
  induction d with
  | zero => exact le_rfl
  | succ d ih =>
    refine le_trans (ih (Nat.le_add_right i d)) ?_
    unfold entries_before
    rw [← Nat.add_assoc, List.take_succ, List.flatten_append, List.length_append]
    exact Nat.le_add_right _ _

/-- In a matrix assembled with regularization, column `i` ends with its regularization
slot: the slot is the last of the `columns[i].length + 1` entries of the column, it lies
within the stored entries, its row index is `i` and it holds 0. -/
theorem filling_slot [Zero α] {dim : Nat} {M : CSCSymmetricMatrix α} (columns : List (Column α))
    (h : Filling dim true M (stored_columns true 0 columns) []) (i : Nat)
    (hi : i < columns.length) :
    entries_before (stored_columns true 0 columns) (i + 1)
      = entries_before (stored_columns true 0 columns) i + columns[i].length + 1 ∧
    entries_before (stored_columns true 0 columns) (i + 1) ≤ M.entries.length ∧
    M.row_indices[entries_before (stored_columns true 0 columns) i + columns[i].length]?
      = some i ∧
    M.entries[entries_before (stored_columns true 0 columns) i + columns[i].length]?
      = some 0 := by
  have hlen : (stored_columns true 0 columns).length = columns.length :=
    stored_columns_length _ _ _
  have hS : i < (stored_columns true 0 columns).length := by rw [hlen]; exact hi
  have hget := stored_columns_getElem? true columns 0 i hi
  rw [List.getElem?_eq_getElem hS] at hget
  have hcol : (stored_columns true 0 columns)[i] = columns[i] ++ [(i, 0)] := by
    have := Option.some.inj hget
    simpa using this
  have hsucc := entries_before_succ (stored_columns true 0 columns) i _
    (stored_columns_getElem? true columns 0 i hi)
  have hrows : M.row_indices = (stored_columns true 0 columns).flatten.map Prod.fst := by
    simpa using h.rows_eq
  have hentries : M.entries = (stored_columns true 0 columns).flatten.map Prod.snd := by
    simpa using h.entries_eq
  have hpos : columns[i].length < (stored_columns true 0 columns)[i].length := by
    rw [hcol]
    simp
  have hseg := getElem?_segment ((stored_columns true 0 columns).take i).flatten
    (stored_columns true 0 columns)[i] ((stored_columns true 0 columns).drop (i + 1)).flatten
    columns[i].length hpos
  rw [← flatten_split _ i hS] at hseg
  have hlenA : ((stored_columns true 0 columns).take i).flatten.length
      = entries_before (stored_columns true 0 columns) i := rfl
  rw [hlenA] at hseg
  have hlast : (stored_columns true 0 columns)[i][columns[i].length] = (i, 0) := by
    simp [hcol]
  rw [hlast] at hseg
  refine ⟨?_, ?_, ?_, ?_⟩
  · rw [hsucc]
    simp
    omega
  · rw [hentries, List.length_map, ← entries_before_length]
    exact entries_before_mono _ _ _ hS
  · rw [hrows, List.getElem?_map, hseg]
    rfl
  · rw [hentries, List.getElem?_map, hseg]
    rfl

end CSCRegularizationProofs

/-! ## Phases and progress measures of `FeasibilityRestoration` -/

namespace Restoration

section RestorationProofs

variable {σ γ : Type}

theorem refresh_phase (sub : Subproblem σ) (G : GlobalizationStrategy γ)
    (S : FeasibilityRestoration σ γ) (current_iterate : Iterate) :
    (S.refresh_unscaled_optimality sub G current_iterate).1.current_phase = S.current_phase ∧
    (S.refresh_unscaled_optimality sub G current_iterate).1.original_model = S.original_model ∧
    (S.refresh_unscaled_optimality sub G current_iterate).1.optimality_problem
      = S.optimality_problem ∧
    (S.refresh_unscaled_optimality sub G current_iterate).1.phase_1_strategy
      = S.phase_1_strategy ∧
    (S.refresh_unscaled_optimality sub G current_iterate).1.phase_2_strategy
      = (if S.subproblem.unscaled_optimality_measure_changed then G.reset S.phase_2_strategy
          else S.phase_2_strategy) ∧
    (S.refresh_unscaled_optimality sub G current_iterate).2.model_evaluations
      = current_iterate.model_evaluations ∧
    (S.refresh_unscaled_optimality sub G current_iterate).2.primals = current_iterate.primals := by
  unfold FeasibilityRestoration.refresh_unscaled_optimality
  split <;> exact ⟨rfl, rfl, rfl, rfl, rfl, rfl, rfl⟩

/-- The phase after lines 108-121. -/
theorem switch_phase_phase (G : GlobalizationStrategy γ) (ext : External)
    (S : FeasibilityRestoration σ γ) (current_iterate trial_iterate : Iterate)
    (direction : Direction) :
    (S.switch_phase G ext current_iterate trial_iterate direction).1.current_phase
      = if S.current_phase = Phase.OPTIMALITY ∧ direction.objective_multiplier = 0 then
          Phase.FEASIBILITY_RESTORATION
        else if S.current_phase = Phase.FEASIBILITY_RESTORATION ∧
            compute_linearized_constraint_violation S.original_model current_iterate direction 1
              = 0 ∧
            G.is_feasibility_iterate_acceptable S.phase_2_strategy
              ((S.set_scaled_optimality_measure trial_iterate).nonlinear_progress.scaled_optimality
                1) = true then
          Phase.OPTIMALITY
        else S.current_phase := by
  unfold FeasibilityRestoration.switch_phase
  by_cases h1 : S.current_phase = Phase.OPTIMALITY ∧ direction.objective_multiplier = 0
  · rw [if_pos h1, if_pos h1]
    rfl
  · rw [if_neg h1, if_neg h1]
    by_cases h2 : S.current_phase = Phase.FEASIBILITY_RESTORATION ∧
        compute_linearized_constraint_violation S.original_model current_iterate direction 1 = 0
    · rw [if_pos h2]
      by_cases h3 : G.is_feasibility_iterate_acceptable S.phase_2_strategy
          ((S.set_scaled_optimality_measure trial_iterate).nonlinear_progress.scaled_optimality
            1) = true
      · rw [if_pos h3, if_pos ⟨h2.1, h2.2, h3⟩]
        rfl
      · rw [if_neg h3, if_neg (fun hcon => h3 hcon.2.2)]
    · rw [if_neg h2, if_neg (fun hcon => h2 ⟨hcon.1, hcon.2.1⟩)]

/-- The linearized constraint violation reads the cached evaluations of the iterate only. -/
theorem linearized_violation_congr (model : Model) (a b : Iterate) (direction : Direction)
    (step_length : ℚ) (h : a.model_evaluations = b.model_evaluations) :
    compute_linearized_constraint_violation model a direction step_length
      = compute_linearized_constraint_violation model b direction step_length := by
  unfold compute_linearized_constraint_violation
  rw [h]

/-- In the restoration phase the scaled optimality measure is the constraint violation. -/
theorem scaled_optimality_restoration (S : FeasibilityRestoration σ γ) (iterate : Iterate)
    (h : S.current_phase = Phase.FEASIBILITY_RESTORATION) (objective_multiplier : ℚ) :
    (S.set_scaled_optimality_measure iterate).nonlinear_progress.scaled_optimality
        objective_multiplier
      = S.original_model.compute_constraint_violation
          (iterate.evaluate_constraints S.original_model).model_evaluations.constraints := by
  unfold FeasibilityRestoration.set_scaled_optimality_measure
  have hne : ¬ S.current_phase = Phase.OPTIMALITY := by rw [h]; decide
  rw [if_neg hne]

/-- The phase after `compute_progress_measures`, in terms of the state at entry. -/
theorem compute_progress_measures_phase (sub : Subproblem σ) (G : GlobalizationStrategy γ)
    (ext : External) (S : FeasibilityRestoration σ γ) (current_iterate trial_iterate : Iterate)
    (direction : Direction) :
    (S.compute_progress_measures sub G ext current_iterate trial_iterate direction).1.current_phase
      = if S.current_phase = Phase.OPTIMALITY ∧ direction.objective_multiplier = 0 then
          Phase.FEASIBILITY_RESTORATION
        else if S.current_phase = Phase.FEASIBILITY_RESTORATION ∧
            compute_linearized_constraint_violation S.original_model current_iterate direction 1
              = 0 ∧
            G.is_feasibility_iterate_acceptable
              (if S.subproblem.unscaled_optimality_measure_changed then
                G.reset S.phase_2_strategy else S.phase_2_strategy)
              (S.original_model.compute_constraint_violation
                (trial_iterate.evaluate_constraints S.original_model).model_evaluations.constraints)
              = true then
          Phase.OPTIMALITY
        else S.current_phase := by
  obtain ⟨hp, hm, -, -, h2, he, -⟩ := refresh_phase sub G S current_iterate
  have hcpm : (S.compute_progress_measures sub G ext current_iterate trial_iterate
      direction).1
      = ((S.refresh_unscaled_optimality sub G current_iterate).1.switch_phase G ext
          (S.refresh_unscaled_optimality sub G current_iterate).2 trial_iterate direction).1 := rfl
  rw [hcpm, switch_phase_phase, hp, hm, h2,
    linearized_violation_congr S.original_model _ current_iterate direction 1 he]
  by_cases hR : S.current_phase = Phase.FEASIBILITY_RESTORATION
  · rw [scaled_optimality_restoration _ trial_iterate (hp.trans hR) 1, hm]
  · have h1 : ∀ p q : Prop, ¬ (S.current_phase = Phase.FEASIBILITY_RESTORATION ∧ p ∧ q) :=
      fun p q hcon => hR hcon.1
    rw [if_neg (h1 _ _), if_neg (h1 _ _)]

/-- The state after lines 108-121: at most one of the two switches has been made. -/
theorem switch_phase_state (G : GlobalizationStrategy γ) (ext : External)
    (S : FeasibilityRestoration σ γ) (current_iterate trial_iterate : Iterate)
    (direction : Direction) :
    (S.current_phase = Phase.OPTIMALITY ∧ direction.objective_multiplier = 0 ∧
      S.switch_phase G ext current_iterate trial_iterate direction
        = ((S.switch_to_feasibility_restoration G current_iterate).1,
           (S.switch_to_feasibility_restoration G current_iterate).2, trial_iterate)) ∨
    (S.current_phase = Phase.FEASIBILITY_RESTORATION ∧
      S.switch_phase G ext current_iterate trial_iterate direction
        = S.switch_to_optimality ext current_iterate
            (S.set_scaled_optimality_measure trial_iterate)) ∨
    ((S.switch_phase G ext current_iterate trial_iterate direction).1 = S ∧
      (S.switch_phase G ext current_iterate trial_iterate direction).2.1 = current_iterate) := by
  unfold FeasibilityRestoration.switch_phase
  by_cases h1 : S.current_phase = Phase.OPTIMALITY ∧ direction.objective_multiplier = 0
  · rw [if_pos h1]
    exact Or.inl ⟨h1.1, h1.2, rfl⟩
  · rw [if_neg h1]
    by_cases h2 : S.current_phase = Phase.FEASIBILITY_RESTORATION ∧
        compute_linearized_constraint_violation S.original_model current_iterate direction 1 = 0
    · rw [if_pos h2]
      by_cases h3 : G.is_feasibility_iterate_acceptable S.phase_2_strategy
          ((S.set_scaled_optimality_measure trial_iterate).nonlinear_progress.scaled_optimality
            1) = true
      · rw [if_pos h3]
        exact Or.inr (Or.inl ⟨h2.1, rfl⟩)
      · rw [if_neg h3]
        exact Or.inr (Or.inr ⟨rfl, rfl⟩)
    · rw [if_neg h2]
      exact Or.inr (Or.inr ⟨rfl, rfl⟩)

theorem refresh_unchanged (sub : Subproblem σ) (G : GlobalizationStrategy γ)
    (S : FeasibilityRestoration σ γ) (current_iterate : Iterate)
    (h : S.subproblem.unscaled_optimality_measure_changed = false) :
    S.refresh_unscaled_optimality sub G current_iterate = (S, current_iterate) := by
  unfold FeasibilityRestoration.refresh_unscaled_optimality
  simp only [h, Bool.false_eq_true, if_false]

theorem switch_phase_to_restoration (G : GlobalizationStrategy γ) (ext : External)
    (S : FeasibilityRestoration σ γ) (current_iterate trial_iterate : Iterate)
    (direction : Direction) (hO : S.current_phase = Phase.OPTIMALITY)
    (hzero : direction.objective_multiplier = 0) :
    S.switch_phase G ext current_iterate trial_iterate direction
      = ((S.switch_to_feasibility_restoration G current_iterate).1,
         (S.switch_to_feasibility_restoration G current_iterate).2, trial_iterate) := by
  unfold FeasibilityRestoration.switch_phase
  rw [if_pos ⟨hO, hzero⟩]

theorem switch_phase_to_optimality (G : GlobalizationStrategy γ) (ext : External)
    (S : FeasibilityRestoration σ γ) (current_iterate trial_iterate : Iterate)
    (direction : Direction) (hR : S.current_phase = Phase.FEASIBILITY_RESTORATION)
    (hlin : compute_linearized_constraint_violation S.original_model current_iterate direction 1
      = 0)
    (haccept : G.is_feasibility_iterate_acceptable S.phase_2_strategy
      (S.original_model.compute_constraint_violation
        (trial_iterate.evaluate_constraints S.original_model).model_evaluations.constraints)
      = true) :
    S.switch_phase G ext current_iterate trial_iterate direction
      = S.switch_to_optimality ext current_iterate
          (S.set_scaled_optimality_measure trial_iterate) := by
  unfold FeasibilityRestoration.switch_phase
  have h1 : ¬ (S.current_phase = Phase.OPTIMALITY ∧ direction.objective_multiplier = 0) := by
    intro hcon
    rw [hR] at hcon
    exact absurd hcon.1 (by decide)
  rw [if_neg h1, if_pos ⟨hR, hlin⟩]
  simp only
  rw [scaled_optimality_restoration S trial_iterate hR 1, if_pos haccept]

theorem line_violation (c : ℚ) :
    line_model.compute_constraint_violation [c] = max (max 0 (0 - c)) (max 0 (c - 1)) := by
  simp [Model.compute_constraint_violation, line_model, List.range_succ, lower_violation,
    upper_violation]

theorem line_linearized (x objective_multiplier step step_length : ℚ) :
    compute_linearized_constraint_violation line_model (line_iterate x)
        (line_direction objective_multiplier step) step_length
      = max (max 0 (0 - (x + step_length * step))) (max 0 (x + step_length * step - 1)) := by
  simp [compute_linearized_constraint_violation, Model.compute_constraint_violation, line_model,
    line_iterate, line_direction, dot, List.range_succ, lower_violation, upper_violation]

theorem line_linearized_zero :
    compute_linearized_constraint_violation
      (line_restoration Phase.FEASIBILITY_RESTORATION).original_model (line_iterate (1 / 2))
      (line_direction 0 0) 1 = 0 := by
  have := line_linearized (1 / 2) 0 0 1
  have hm : (line_restoration Phase.FEASIBILITY_RESTORATION).original_model = line_model := rfl
  rw [hm, this]
  norm_num

theorem line_trial_violation :
    (line_restoration Phase.FEASIBILITY_RESTORATION).original_model.compute_constraint_violation
      ((line_iterate (1 / 2)).evaluate_constraints
        (line_restoration Phase.FEASIBILITY_RESTORATION).original_model).model_evaluations.constraints
      = 0 := by
  have := line_violation (1 / 2)
  have hc : ((line_iterate (1 / 2)).evaluate_constraints
      (line_restoration Phase.FEASIBILITY_RESTORATION).original_model).model_evaluations.constraints
      = [1 / 2] := rfl
  have hm : (line_restoration Phase.FEASIBILITY_RESTORATION).original_model = line_model := rfl
  rw [hc, hm, this]
  norm_num

theorem line_accept :
    recording_strategy.is_feasibility_iterate_acceptable
      (if (line_restoration Phase.FEASIBILITY_RESTORATION).subproblem.unscaled_optimality_measure_changed
        then recording_strategy.reset
          (line_restoration Phase.FEASIBILITY_RESTORATION).phase_2_strategy
        else (line_restoration Phase.FEASIBILITY_RESTORATION).phase_2_strategy)
      ((line_restoration Phase.FEASIBILITY_RESTORATION).original_model.compute_constraint_violation
        ((line_iterate (1 / 2)).evaluate_constraints
          (line_restoration Phase.FEASIBILITY_RESTORATION).original_model).model_evaluations.constraints)
      = true := by
  rw [line_trial_violation]
  simp [recording_strategy]

/-- On the small instance in the restoration phase, at the point `1/2` with a zero step,
the linearized constraint violation is 0 and the phase-2 strategy accepts the trial
iterate: `compute_progress_measures` switches to the optimality phase, and the state at
return differs from the state at entry by the phase only. -/
theorem line_switch_back :
    ((line_restoration Phase.FEASIBILITY_RESTORATION).compute_progress_measures line_subproblem
      recording_strategy line_external (line_iterate (1 / 2)) (line_iterate (1 / 2))
      (line_direction 0 0)).1
    = { line_restoration Phase.FEASIBILITY_RESTORATION with
        current_phase := Phase.OPTIMALITY } := by
  have hcpm : ((line_restoration Phase.FEASIBILITY_RESTORATION).compute_progress_measures
      line_subproblem recording_strategy line_external (line_iterate (1 / 2))
      (line_iterate (1 / 2)) (line_direction 0 0)).1
      = (((line_restoration Phase.FEASIBILITY_RESTORATION).refresh_unscaled_optimality
          line_subproblem recording_strategy (line_iterate (1 / 2))).1.switch_phase
          recording_strategy line_external
          ((line_restoration Phase.FEASIBILITY_RESTORATION).refresh_unscaled_optimality
            line_subproblem recording_strategy (line_iterate (1 / 2))).2
          (line_iterate (1 / 2)) (line_direction 0 0)).1 := rfl
  rw [hcpm, refresh_unchanged _ _ _ _ rfl,
    switch_phase_to_optimality recording_strategy line_external _ _ _ _ rfl
      line_linearized_zero line_accept]
  rfl

/-- A sum of nonnegative terms over an index range is 0 exactly when every term is. -/
theorem range_sum_eq_zero_iff (g : Nat → ℚ) (hg : ∀ j, 0 ≤ g j) :
    ∀ n, ((List.range n).map g).sum = 0 ↔ ∀ j, j < n → g j = 0 := by
  intro n
  induction n with
  | zero => simp
  | succ n ih =>
    have hnonneg : 0 ≤ ((List.range n).map g).sum :=
      List.sum_nonneg (by
        intro x hx
        obtain ⟨j, -, rfl⟩ := List.mem_map.mp hx
        exact hg j)
    rw [List.range_succ, List.map_append, List.sum_append, List.map_singleton, List.sum_singleton]
    constructor
    · intro h j hj
      have h1 : ((List.range n).map g).sum = 0 := by linarith [hg n]
      have h2 : g n = 0 := by linarith [hg n]
      by_cases hjn : j = n
      · rw [hjn]
        exact h2
      · exact ih.mp h1 j (by omega)
    · intro h
      rw [ih.mpr (fun j hj => h j (Nat.lt_succ_of_lt hj)), h n (Nat.lt_succ_self n)]
      norm_num

theorem lower_violation_nonneg (lb : Option ℚ) (c : ℚ) : 0 ≤ lower_violation lb c := by
  cases lb with
  | none => exact le_rfl
  | some l => exact le_max_left _ _

theorem upper_violation_nonneg (ub : Option ℚ) (c : ℚ) : 0 ≤ upper_violation ub c := by
  cases ub with
  | none => exact le_rfl
  | some u => exact le_max_left _ _

theorem lower_violation_eq_zero (lb : Option ℚ) (c : ℚ) :
    lower_violation lb c = 0 ↔ above_lower lb c := by
  cases lb with
  | none => simp [lower_violation, above_lower]
  | some l =>
    simp only [lower_violation, above_lower]
    constructor
    · intro h
      have := le_max_right 0 (l - c)
      linarith
    · intro h
      exact max_eq_left (by linarith)

theorem upper_violation_eq_zero (ub : Option ℚ) (c : ℚ) :
    upper_violation ub c = 0 ↔ below_upper ub c := by
  cases ub with
  | none => simp [upper_violation, below_upper]
  | some u =>
    simp only [upper_violation, below_upper]
    constructor
    · intro h
      have := le_max_right 0 (c - u)
      linarith
    · intro h
      exact max_eq_left (by linarith)

/-- The L1 constraint violation is 0 exactly when the constraint values are within their
bounds. -/
theorem constraint_violation_eq_zero (model : Model) (constraints : List ℚ) :
    model.compute_constraint_violation constraints = 0
      ↔ model.constraints_within_bounds constraints := by
  unfold Model.compute_constraint_violation Model.constraints_within_bounds
  rw [range_sum_eq_zero_iff _ (fun j => le_trans (lower_violation_nonneg _ _) (le_max_left _ _))]
  constructor
  · intro h j hj
    have h1 := h j hj
    have h2 := lower_violation_nonneg (model.constraint_lower_bounds.getD j none)
      (constraints.getD j 0)
    have h3 := upper_violation_nonneg (model.constraint_upper_bounds.getD j none)
      (constraints.getD j 0)
    have h4 := le_max_left (lower_violation (model.constraint_lower_bounds.getD j none)
      (constraints.getD j 0)) (upper_violation (model.constraint_upper_bounds.getD j none)
      (constraints.getD j 0))
    have h5 := le_max_right (lower_violation (model.constraint_lower_bounds.getD j none)
      (constraints.getD j 0)) (upper_violation (model.constraint_upper_bounds.getD j none)
      (constraints.getD j 0))
    exact ⟨(lower_violation_eq_zero _ _).mp (by linarith),
      (upper_violation_eq_zero _ _).mp (by linarith)⟩
  · intro h j hj
    obtain ⟨h1, h2⟩ := h j hj
    rw [(lower_violation_eq_zero _ _).mpr h1, (upper_violation_eq_zero _ _).mpr h2]
    exact max_self 0

/-- The L1 constraint violation reads the first `number_constraints` values only. -/
theorem constraint_violation_congr (model : Model) (a b : List ℚ)
    (h : ∀ j, j < model.number_constraints → a.getD j 0 = b.getD j 0) :
    model.compute_constraint_violation a = model.compute_constraint_violation b := by
  unfold Model.compute_constraint_violation
  congr 1
  apply List.map_congr_left
  intro j hj
  rw [h j (List.mem_range.mp hj)]

theorem getD_range_map (g : Nat → ℚ) (n j : Nat) (hj : j < n) :
    ((List.range n).map g).getD j 0 = g j := by
  simp [List.getD_eq_getElem?_getD, List.getElem?_map, List.getElem?_range hj]

/-- With a step length of 0 the linearized constraint violation is the constraint
violation of the cached constraints. -/
theorem linearized_violation_zero (model : Model) (current_iterate : Iterate)
    (direction : Direction) :
    compute_linearized_constraint_violation model current_iterate direction 0
      = model.compute_constraint_violation current_iterate.model_evaluations.constraints := by
  unfold compute_linearized_constraint_violation
  apply constraint_violation_congr
  intro j hj
  rw [getD_range_map _ _ _ hj]
  ring

/-- An iterate whose cache of constraints is right holds `c(x)` after
`evaluate_constraints`. -/
theorem evaluate_constraints_value (iterate : Iterate) (model : Model)
    (h : iterate.are_constraints_computed = true →
      iterate.model_evaluations.constraints = model.evaluate_constraints iterate.primals) :
    (iterate.evaluate_constraints model).model_evaluations.constraints
      = model.evaluate_constraints iterate.primals := by
  unfold Iterate.evaluate_constraints
  by_cases hflag : iterate.are_constraints_computed = true
  · rw [if_pos hflag]
    exact h hflag
  · rw [if_neg hflag]

/-- An iterate whose cache of the objective is right holds `f(x)` after
`evaluate_objective`. -/
theorem evaluate_objective_value (iterate : Iterate) (model : Model)
    (h : iterate.is_objective_computed = true →
      iterate.model_evaluations.objective = model.evaluate_objective iterate.primals) :
    (iterate.evaluate_objective model).model_evaluations.objective
      = model.evaluate_objective iterate.primals := by
  unfold Iterate.evaluate_objective
  by_cases hflag : iterate.is_objective_computed = true
  · rw [if_pos hflag]
    exact h hflag
  · rw [if_neg hflag]

/-- The norm over the first `n` components is computed when the vector holds them. -/
theorem norm_inf_range_ok (x : List ℚ) :
    ∀ n, n ≤ x.length → ∃ norm, norm_inf_range x (Range n) = .ok norm := by
  intro n
  induction n with
  | zero =>
    intro _
    exact ⟨0, rfl⟩
  | succ n ih =>
    intro hn
    obtain ⟨norm, hnorm⟩ := ih (Nat.le_of_succ_le hn)
    have hread : x[n]? = some (x.get ⟨n, hn⟩) := List.getElem?_eq_getElem hn
    refine ⟨max norm |x.get ⟨n, hn⟩|, ?_⟩
    unfold norm_inf_range Range at hnorm ⊢
    rw [List.range_succ, List.foldlM_append, hnorm]
    simp only [bind, Except.bind, List.foldlM_cons, List.foldlM_nil, hread, pure, Except.pure]

/-- What `solve_feasibility_problem` returns: the direction of the feasibility subproblem,
solved to optimality, with the objective multiplier 0. -/
theorem solve_feasibility_problem_ok (sub : Subproblem σ) (S : FeasibilityRestoration σ γ)
    (current_iterate : Iterate) (r : Direction × FeasibilityRestoration σ γ × Iterate)
    (h : FeasibilityRestoration.solve_feasibility_problem sub S current_iterate = .ok r) :
    r.1.objective_multiplier = 0 ∧ r.1.status = SubproblemStatus.OPTIMAL ∧
    r.1.primals
      = (sub.solve
          (sub.set_elastic_variable_values
            (sub.initialize_feasibility_problem S.subproblem current_iterate).1
            S.feasibility_problem
            (sub.initialize_feasibility_problem S.subproblem current_iterate).2).1
          S.feasibility_problem
          (sub.set_elastic_variable_values
            (sub.initialize_feasibility_problem S.subproblem current_iterate).1
            S.feasibility_problem
            (sub.initialize_feasibility_problem S.subproblem current_iterate).2).2).1.primals ∧
    norm_inf_range r.1.primals (Range S.optimality_problem.number_variables) = .ok r.1.norm := by
  unfold FeasibilityRestoration.solve_feasibility_problem at h
  simp only at h
  split at h
  · cases h
  · rename_i norm hnorm
    split at h
    · cases h
    · rename_i hstatus
      cases h
      refine ⟨rfl, ?_, rfl, hnorm⟩
      by_contra hne
      exact hstatus hne

/-- The feasibility problem returns when its subproblem is solved to optimality and the
direction holds a component for every variable of the optimality problem. -/
theorem solve_feasibility_problem_returns (sub : Subproblem σ) (S : FeasibilityRestoration σ γ)
    (current_iterate : Iterate)
    (hstatus : (sub.solve
        (sub.set_elastic_variable_values
          (sub.initialize_feasibility_problem S.subproblem current_iterate).1
          S.feasibility_problem
          (sub.initialize_feasibility_problem S.subproblem current_iterate).2).1
        S.feasibility_problem
        (sub.set_elastic_variable_values
          (sub.initialize_feasibility_problem S.subproblem current_iterate).1
          S.feasibility_problem
          (sub.initialize_feasibility_problem S.subproblem current_iterate).2).2).1.status
      = SubproblemStatus.OPTIMAL)
    (hprimals : S.optimality_problem.number_variables ≤ (sub.solve
        (sub.set_elastic_variable_values
          (sub.initialize_feasibility_problem S.subproblem current_iterate).1
          S.feasibility_problem
          (sub.initialize_feasibility_problem S.subproblem current_iterate).2).1
        S.feasibility_problem
        (sub.set_elastic_variable_values
          (sub.initialize_feasibility_problem S.subproblem current_iterate).1
          S.feasibility_problem
          (sub.initialize_feasibility_problem S.subproblem current_iterate).2).2).1.primals.length) :
    ∃ r, FeasibilityRestoration.solve_feasibility_problem sub S current_iterate = .ok r := by
  obtain ⟨norm, hnorm⟩ := norm_inf_range_ok _ _ hprimals
  unfold FeasibilityRestoration.solve_feasibility_problem
  simp only [hnorm, hstatus, ne_eq, not_true_eq_false, if_false]
  exact ⟨_, rfl⟩

/-- On the small instance in the phase `OPTIMALITY`, the optimality subproblem is reported
infeasible and `compute_feasible_direction` returns the direction `-1` of the feasibility
subproblem, with the objective multiplier 0 and the norm 1. -/
theorem line_feasible_direction :
    ((line_restoration Phase.OPTIMALITY).compute_feasible_direction line_subproblem
        (line_iterate 2)).map (fun r => r.1)
      = .ok { primals := [-1]
              objective_multiplier := 0
              norm := 1
              status := SubproblemStatus.OPTIMAL } := by
  have hnorm1 : norm_inf_range [(1 : ℚ) / 2] (Range 1) = .ok (1 / 2) := by
    simp [norm_inf_range, Range, List.range_succ, pure, Except.pure, bind, Except.bind]
  have hnorm2 : norm_inf_range [(-1 : ℚ)] (Range 1) = .ok 1 := by
    simp [norm_inf_range, Range, List.range_succ, pure, Except.pure, bind, Except.bind]
  have h1 : (1 : ℚ) ≠ 0 := by norm_num
  simp only [FeasibilityRestoration.compute_feasible_direction,
    FeasibilityRestoration.solve_optimality_problem,
    FeasibilityRestoration.solve_feasibility_problem_from,
    FeasibilityRestoration.solve_feasibility_problem, line_restoration, line_subproblem,
    line_direction, h1, if_false, if_true, hnorm1, hnorm2]
  simp [Except.map]

end RestorationProofs

end Restoration

/-! ## The infeasibility step of `ActiveSetMethod` -/

namespace ActiveSet

section ActiveSetProofs

variable {σ : Type}

/-- What `compute_infeasibility_step` returns: the solution of the QP solver with the
objective multiplier 0, the phase `RESTORATION` and the partition of the phase-II
solution; the counter of the subproblems solved has been incremented. -/
theorem compute_infeasibility_step_ok (members : Members σ) (A : ActiveSetMethod σ)
    (problem : Problem) (current_iterate : Iterate) (phase_II_solution : SubproblemSolution)
    (trust_region_radius : ℚ) (r : SubproblemSolution × ActiveSetMethod σ × Iterate)
    (h : A.compute_infeasibility_step members problem current_iterate phase_II_solution
      trust_region_radius = .ok r) :
    r.1.objective_multiplier = 0 ∧ r.1.phase = Phase.RESTORATION ∧
    r.1.constraint_partition = phase_II_solution.constraint_partition := by
  unfold ActiveSetMethod.compute_infeasibility_step at h
  simp only at h
  split at h
  · cases h
  · split at h
    · cases h
    · cases h
      exact ⟨rfl, rfl, rfl⟩

/-- The infeasibility step on the small instance. -/
theorem line_infeasibility_step :
    line_method.compute_infeasibility_step line_members line_problem line_iterate line_solution 1
      = .ok ({ x := [0]
               objective_multiplier := 0
               phase := Phase.RESTORATION
               phase_1_required := false
               constraint_partition := upper_partition },
             { line_method with number_subproblems_solved := 2 },
             { line_iterate with objective_gradient := [(0, 1)], is_hessian_computed := false }) := by
  simp [ActiveSetMethod.compute_infeasibility_step, compute_linear_feasibility_objective,
    add_constraint_gradient, add_gradient_term, generate_feasibility_bounds,
    feasibility_bounds_body, map_update, List.range_succ,
    line_members, line_method, line_problem, line_iterate, line_solution, upper_partition,
    Bound.sub, pure, Except.pure, bind, Except.bind]

/-- The loop of `generate_feasibility_bounds`: after `n` passes the first `n` ranges are
those that the body computes. -/
theorem feasibility_bounds_loop (problem : Problem) (current_constraints : List ℚ)
    (constraint_partition : ConstraintPartition)
    (hf : problem.number_constraints ≤ constraint_partition.constraint_feasibility.length)
    (hb : problem.number_constraints ≤ problem.constraints_bounds.length)
    (hc : problem.number_constraints ≤ current_constraints.length) :
    ∀ n, n ≤ problem.number_constraints →
      ∃ result, (List.range n).foldlM
          (feasibility_bounds_body problem current_constraints constraint_partition)
          (List.replicate problem.number_constraints
            { lb := Bound.finite 0, ub := Bound.finite 0 }) = .ok result ∧
        result.length = problem.number_constraints ∧
        ∀ (j : Nat) (feasibility : ConstraintFeasibility) (bounds : Range) (c : ℚ), j < n →
          constraint_partition.constraint_feasibility[j]? = some feasibility →
          problem.constraints_bounds[j]? = some bounds → current_constraints[j]? = some c →
          result[j]? = some
            (if feasibility = ConstraintFeasibility.INFEASIBLE_LOWER then
              { lb := Bound.minus_infinity, ub := bounds.lb.sub c }
            else if feasibility = ConstraintFeasibility.INFEASIBLE_UPPER then
              { lb := bounds.ub.sub c, ub := Bound.plus_infinity }
            else { lb := bounds.lb.sub c, ub := bounds.ub.sub c }) := by
  intro n
  induction n with
  | zero =>
    intro _
    refine ⟨_, rfl, List.length_replicate _ _, ?_⟩
    intro j _ _ _ hj
    exact absurd hj (Nat.not_lt_zero j)
  | succ n ih =>
    intro hn
    have hn1 : n < problem.number_constraints := hn
    obtain ⟨result, hresult, hlen, hval⟩ := ih (Nat.le_of_lt hn1)
    have h1 : n < constraint_partition.constraint_feasibility.length := by omega
    have h2 : n < problem.constraints_bounds.length := by omega
    have h3 : n < current_constraints.length := by omega
    have hr : n < result.length := by omega
    have e1 := List.getElem?_eq_getElem h1
    have e2 := List.getElem?_eq_getElem h2
    have e3 := List.getElem?_eq_getElem h3
    refine ⟨result.set n
      (if constraint_partition.constraint_feasibility.get ⟨n, h1⟩
          = ConstraintFeasibility.INFEASIBLE_LOWER then
        { lb := Bound.minus_infinity,
          ub := (problem.constraints_bounds.get ⟨n, h2⟩).lb.sub (current_constraints.get ⟨n, h3⟩) }
      else if constraint_partition.constraint_feasibility.get ⟨n, h1⟩
          = ConstraintFeasibility.INFEASIBLE_UPPER then
        { lb := (problem.constraints_bounds.get ⟨n, h2⟩).ub.sub (current_constraints.get ⟨n, h3⟩),
          ub := Bound.plus_infinity }
      else
        { lb := (problem.constraints_bounds.get ⟨n, h2⟩).lb.sub (current_constraints.get ⟨n, h3⟩),
          ub := (problem.constraints_bounds.get ⟨n, h2⟩).ub.sub
            (current_constraints.get ⟨n, h3⟩) }), ?_, ?_, ?_⟩
    · rw [List.range_succ, List.foldlM_append, hresult]
      simp only [bind, Except.bind, List.foldlM_cons, List.foldlM_nil,
        feasibility_bounds_body, e1, e2, e3, hr, if_true, pure, Except.pure]
      rfl
    · rw [List.length_set]
      exact hlen
    · intro j feasibility bounds c hj hfj hbj hcj
      by_cases hjn : j = n
      · subst hjn
        rw [e1] at hfj
        rw [e2] at hbj
        rw [e3] at hcj
        cases hfj
        cases hbj
        cases hcj
        simp only [List.getElem?_set, hr, if_true]
        rfl
      · have hne : n ≠ j := fun hcon => hjn hcon.symm
        simp only [List.getElem?_set, hne, if_false]
        exact hval j feasibility bounds c (by omega) hfj hbj hcj

theorem coefficient_nil (i : Nat) : coefficient [] i = 0 := rfl

theorem coefficient_cons (k : Nat) (v : ℚ) (rest : List (Nat × ℚ)) (i : Nat) :
    coefficient ((k, v) :: rest) i = (if k = i then v else 0) + coefficient rest i := by
  unfold coefficient
  by_cases h : k = i
  · simp [List.filter_cons, h]
  · simp [List.filter_cons, h]

/-- The expression `map[key] += d` adds `d` to the component `key` and leaves the other
components unchanged. -/
theorem map_update_coefficient (d : ℚ) (key i : Nat) :
    ∀ m : List (Nat × ℚ),
      coefficient (map_update m key (fun value => value + d)) i
        = coefficient m i + (if key = i then d else 0) := by
  intro m
  induction m with
  | nil =>
    simp only [map_update, coefficient_cons, coefficient_nil]
    split <;> ring
  | cons head rest ih =>
    obtain ⟨k, v⟩ := head
    simp only [map_update]
    by_cases h1 : key < k
    · rw [if_pos h1]
      simp only [coefficient_cons]
      split <;> ring
    · rw [if_neg h1]
      by_cases h2 : key = k
      · rw [if_pos h2]
        simp only [coefficient_cons, h2]
        split <;> ring
      · rw [if_neg h2]
        simp only [coefficient_cons, ih]
        ring

/-- The expression `map[key] op= d` creates the key when the map does not hold it and
creates no other key. -/
theorem map_update_keys (f : ℚ → ℚ) (key i : Nat) :
    ∀ m : List (Nat × ℚ),
      i ∈ (map_update m key f).map Prod.fst ↔ i = key ∨ i ∈ m.map Prod.fst := by
  intro m
  induction m with
  | nil => simp [map_update]
  | cons head rest ih =>
    obtain ⟨k, v⟩ := head
    simp only [map_update]
    by_cases h1 : key < k
    · rw [if_pos h1]
      simp
    · rw [if_neg h1]
      by_cases h2 : key = k
      · rw [if_pos h2, h2]
        simp
      · rw [if_neg h2, List.map_cons, List.mem_cons, ih, List.map_cons, List.mem_cons]
        tauto

/-- The expression `map[key] op= d` keeps the keys in increasing order. -/
theorem map_update_sorted (f : ℚ → ℚ) (key : Nat) :
    ∀ m : List (Nat × ℚ), (m.map Prod.fst).Pairwise (fun a b => a < b) →
      ((map_update m key f).map Prod.fst).Pairwise (fun a b => a < b) := by
  intro m
  induction m with
  | nil =>
    intro _
    simp [map_update]
  | cons head rest ih =>
    obtain ⟨k, v⟩ := head
    intro hsorted
    rw [List.map_cons, List.pairwise_cons] at hsorted
    obtain ⟨hhead, hrest⟩ := hsorted
    simp only [map_update]
    by_cases h1 : key < k
    · rw [if_pos h1, List.map_cons, List.pairwise_cons]
      refine ⟨?_, ?_⟩
      · intro a ha
        rw [List.map_cons, List.mem_cons] at ha
        rcases ha with ha | ha
        · rw [ha]
          exact h1
        · exact lt_trans h1 (hhead a ha)
      · rw [List.map_cons, List.pairwise_cons]
        exact ⟨hhead, hrest⟩
    · rw [if_neg h1]
      by_cases h2 : key = k
      · rw [if_pos h2, List.map_cons, List.pairwise_cons]
        exact ⟨hhead, hrest⟩
      · rw [if_neg h2, List.map_cons, List.pairwise_cons]
        refine ⟨?_, ih hrest⟩
        intro a ha
        rcases (map_update_keys f key a rest).mp ha with ha | ha
        · rw [ha]
          omega
        · exact hhead a ha

/-- The loop over the terms of the gradient of the constraint `j`: every term is added
with the sign of the constraint. -/
theorem add_gradient_terms (constraint_partition : ConstraintPartition) (j : Nat)
    (feasibility : ConstraintFeasibility)
    (hf : constraint_partition.constraint_feasibility[j]? = some feasibility) :
    ∀ (gradient objective_gradient : List (Nat × ℚ)),
      ∃ result, gradient.foldlM (add_gradient_term constraint_partition j) objective_gradient
          = .ok result ∧
        (∀ i, coefficient result i
          = coefficient objective_gradient i
            + constraint_sign constraint_partition j * coefficient gradient i) ∧
        (∀ i, i ∈ result.map Prod.fst
          ↔ i ∈ objective_gradient.map Prod.fst ∨ i ∈ gradient.map Prod.fst) ∧
        ((objective_gradient.map Prod.fst).Pairwise (fun a b => a < b) →
          (result.map Prod.fst).Pairwise (fun a b => a < b)) := by
  intro gradient
  induction gradient with
  | nil =>
    intro objective_gradient
    refine ⟨objective_gradient, rfl, ?_, ?_, fun h => h⟩
    · intro i
      rw [coefficient_nil]
      ring
    · intro i
      simp
  | cons term rest ih =>
    intro objective_gradient
    obtain ⟨k, v⟩ := term
    by_cases hlow : feasibility = ConstraintFeasibility.INFEASIBLE_LOWER
    · have hsign : constraint_sign constraint_partition j = -1 := by
        unfold constraint_sign
        rw [hf, hlow, if_pos rfl]
      have hfun : (fun value : ℚ => value - v) = (fun value : ℚ => value + -v) := by
        funext value
        ring
      have hstep : add_gradient_term constraint_partition j objective_gradient (k, v)
          = .ok (map_update objective_gradient k (fun value => value + -v)) := by
        unfold add_gradient_term
        simp only [hf, hlow, if_true, hfun]
      obtain ⟨result, hresult, hcoef, hkeys, hsorted⟩ :=
        ih (map_update objective_gradient k (fun value => value + -v))
      refine ⟨result, ?_, ?_, ?_, ?_⟩
      · rw [List.foldlM_cons, hstep]
        exact hresult
      · intro i
        rw [hcoef i, map_update_coefficient, coefficient_cons, hsign]
        split <;> ring
      · intro i
        rw [hkeys i, map_update_keys, List.map_cons, List.mem_cons]
        tauto
      · intro h
        exact hsorted (map_update_sorted _ _ _ h)
    · have hsign : constraint_sign constraint_partition j = 1 := by
        unfold constraint_sign
        rw [hf]
        have hne : ¬ (some feasibility = some ConstraintFeasibility.INFEASIBLE_LOWER) :=
          fun hcon => hlow (Option.some.inj hcon)
        rw [if_neg hne]
      have hstep : add_gradient_term constraint_partition j objective_gradient (k, v)
          = .ok (map_update objective_gradient k (fun value => value + v)) := by
        unfold add_gradient_term
        simp only [hf, hlow, if_false]
      obtain ⟨result, hresult, hcoef, hkeys, hsorted⟩ :=
        ih (map_update objective_gradient k (fun value => value + v))
      refine ⟨result, ?_, ?_, ?_, ?_⟩
      · rw [List.foldlM_cons, hstep]
        exact hresult
      · intro i
        rw [hcoef i, map_update_coefficient, coefficient_cons, hsign]
        split <;> ring
      · intro i
        rw [hkeys i, map_update_keys, List.map_cons, List.mem_cons]
        tauto
      · intro h
        exact hsorted (map_update_sorted _ _ _ h)

/-- The loop over the infeasible constraints: the gradients of the constraints are added
with their signs. -/
theorem add_constraint_gradients (current_iterate : Iterate)
    (constraint_partition : ConstraintPartition) :
    ∀ (infeasible : List Nat) (objective_gradient : List (Nat × ℚ)),
      (∀ j, j ∈ infeasible → j < current_iterate.constraints_jacobian.length ∧
        j < constraint_partition.constraint_feasibility.length) →
      ∃ result, infeasible.foldlM
          (add_constraint_gradient current_iterate constraint_partition) objective_gradient
          = .ok result ∧
        (∀ i, coefficient result i
          = coefficient objective_gradient i
            + (infeasible.map (fun j => constraint_sign constraint_partition j
                * coefficient (current_iterate.constraints_jacobian.getD j []) i)).sum) ∧
        (∀ i, i ∈ result.map Prod.fst
          ↔ i ∈ objective_gradient.map Prod.fst ∨
            ∃ j, j ∈ infeasible ∧
              i ∈ (current_iterate.constraints_jacobian.getD j []).map Prod.fst) ∧
        ((objective_gradient.map Prod.fst).Pairwise (fun a b => a < b) →
          (result.map Prod.fst).Pairwise (fun a b => a < b)) := by
  intro infeasible
  induction infeasible with
  | nil =>
    intro objective_gradient _
    refine ⟨objective_gradient, rfl, ?_, ?_, fun h => h⟩
    · intro i
      simp
    · intro i
      simp
  | cons j rest ih =>
    intro objective_gradient hbounds
    obtain ⟨hj1, hj2⟩ := hbounds j (List.mem_cons_self j rest)
    have e1 : current_iterate.constraints_jacobian[j]?
        = some (current_iterate.constraints_jacobian.get ⟨j, hj1⟩) :=
      List.getElem?_eq_getElem hj1
    have e2 := List.getElem?_eq_getElem hj2
    have hget : current_iterate.constraints_jacobian.getD j []
        = current_iterate.constraints_jacobian.get ⟨j, hj1⟩ := by
      rw [List.getD_eq_getElem?_getD, e1]
      rfl
    obtain ⟨middle, hmiddle, hcoef1, hkeys1, hsorted1⟩ :=
      add_gradient_terms constraint_partition j _ e2
        (current_iterate.constraints_jacobian.get ⟨j, hj1⟩) objective_gradient
    obtain ⟨result, hresult, hcoef2, hkeys2, hsorted2⟩ :=
      ih middle (fun k hk => hbounds k (List.mem_cons_of_mem j hk))
    have hstep : add_constraint_gradient current_iterate constraint_partition
        objective_gradient j = .ok middle := by
      unfold add_constraint_gradient
      rw [e1]
      exact hmiddle
    refine ⟨result, ?_, ?_, ?_, ?_⟩
    · rw [List.foldlM_cons, hstep]
      exact hresult
    · intro i
      rw [hcoef2 i, hcoef1 i, List.map_cons, List.sum_cons, hget]
      ring
    · intro i
      rw [hkeys2 i, hkeys1 i]
      constructor
      · rintro ((h | h) | ⟨k, hk, h⟩)
        · exact Or.inl h
        · exact Or.inr ⟨j, List.mem_cons_self j rest, by rw [hget]; exact h⟩
        · exact Or.inr ⟨k, List.mem_cons_of_mem j hk, h⟩
      · rintro (h | ⟨k, hk, h⟩)
        · exact Or.inl (Or.inl h)
        · rcases List.mem_cons.mp hk with hk | hk
          · subst hk
            rw [hget] at h
            exact Or.inl (Or.inr h)
          · exact Or.inr ⟨k, hk, h⟩
    · intro h
      exact hsorted2 (hsorted1 h)

/-- On the instance with two constraints, the objective gradient is
`-(1, 2) + (0, 3) = (-1, 1)`. -/
theorem plane_objective :
    compute_linear_feasibility_objective plane_iterate plane_partition
      = .ok { plane_iterate with objective_gradient := [(0, -1), (1, 1)] } := by
  simp [compute_linear_feasibility_objective, add_constraint_gradient, add_gradient_term,
    map_update, plane_iterate, plane_partition, pure, Except.pure, bind, Except.bind]
  norm_num

end ActiveSetProofs

end ActiveSet

/-! ### Lemmas on `initialize` and on the reads of `compute_constraint_multipliers` -/

section PenaltyInitializeProofs

theorem constraint_offset_zero (problem : Problem) : constraint_offset problem 0 = 0 := by
  simp [constraint_offset]

theorem constraint_offset_succ (problem : Problem) (j : Nat) :
    constraint_offset problem (j + 1) = constraint_offset problem j
      + generated_constraints (problem.constraint_status.getD j ConstraintStatus.UNBOUNDED) := by
  simp [constraint_offset, List.range_succ]

theorem constraint_offset_mono (problem : Problem) {i j : Nat} (h : i ≤ j) :
    constraint_offset problem i ≤ constraint_offset problem j := by
  induction j with
  | zero =>
    have : i = 0 := by omega
    subst this
    exact Nat.le_refl _
  | succ n ih =>
    rcases Nat.lt_or_ge i (n + 1) with hlt | hge
    · have := ih (by omega)
      rw [constraint_offset_succ]
      omega
    · have : i = n + 1 := by omega
      subst this
      exact Nat.le_refl _

/-- The loop of `initialize` over the first `n` constraints adds to the number of
constraints the count `constraint_offset problem n`. -/
theorem initialize_dimensions_loop (problem : Problem) (start : PenaltyDimensions) (n : Nat)
    (hn : n ≤ problem.constraint_status.length) :
    ∃ result, (List.range n).foldlM (initialize_body problem) start = .ok result ∧
      result.number_constraints = start.number_constraints + constraint_offset problem n := by
  induction n with
  | zero => exact ⟨start, rfl, by simp [constraint_offset_zero]⟩
  | succ n ih =>
    obtain ⟨previous, hfold, hcount⟩ := ih (by omega)
    have hlt : n < problem.constraint_status.length := by omega
    have hget : problem.constraint_status[n]? = some (problem.constraint_status.get ⟨n, hlt⟩) :=
      List.getElem?_eq_getElem hlt
    have hD : problem.constraint_status.getD n ConstraintStatus.UNBOUNDED
        = problem.constraint_status.get ⟨n, hlt⟩ := by
      simp [List.getD, hget]
    rw [List.range_succ, List.foldlM_append, hfold, constraint_offset_succ, hD]
    generalize problem.constraint_status.get ⟨n, hlt⟩ = status at hget
    cases status <;>
      simp [initialize_body, hget, generated_constraints, pure, Except.pure, bind, Except.bind,
        hcount] <;> omega

/-- One pass of the loop of `compute_constraint_multipliers` whose reads are in bounds. -/
theorem constraint_multipliers_pass (problem : Problem) (solution : LocalSolution)
    (multipliers : List ℚ) (n : Nat) (hn : n < problem.constraint_status.length)
    (hreads : constraint_offset problem (n + 1) ≤ solution.constraint_multipliers.length) :
    compute_constraint_multipliers_body problem solution
        (multipliers, constraint_offset problem n) n
      = .ok (multipliers.set n (generated_multiplier problem solution n),
          constraint_offset problem (n + 1)) := by
  have hget : problem.constraint_status[n]? = some (problem.constraint_status.get ⟨n, hn⟩) :=
    List.getElem?_eq_getElem hn
  have hD : problem.constraint_status.getD n ConstraintStatus.UNBOUNDED
      = problem.constraint_status.get ⟨n, hn⟩ := by
    simp [List.getD, hget]
  rw [constraint_offset_succ, hD] at hreads
  unfold generated_multiplier
  rw [constraint_offset_succ, hD]
  generalize problem.constraint_status.get ⟨n, hn⟩ = status at hget hreads
  by_cases hboth : status = ConstraintStatus.BOUNDED_BOTH_SIDES
  · subst hboth
    simp only [generated_constraints, if_true] at hreads ⊢
    have h0 : constraint_offset problem n < solution.constraint_multipliers.length := by omega
    have h1 : constraint_offset problem n + 1 < solution.constraint_multipliers.length := by
      omega
    have hr0 : solution.constraint_multipliers[constraint_offset problem n]?
        = some (solution.constraint_multipliers.get ⟨constraint_offset problem n, h0⟩) :=
      List.getElem?_eq_getElem h0
    have hr1 : solution.constraint_multipliers[constraint_offset problem n + 1]?
        = some (solution.constraint_multipliers.get ⟨constraint_offset problem n + 1, h1⟩) :=
      List.getElem?_eq_getElem h1
    simp [compute_constraint_multipliers_body, hget, read, hr0, hr1, List.getD, List.range_succ]
  · simp only [generated_constraints, hboth, if_false] at hreads ⊢
    have h0 : constraint_offset problem n < solution.constraint_multipliers.length := by omega
    have hr0 : solution.constraint_multipliers[constraint_offset problem n]?
        = some (solution.constraint_multipliers.get ⟨constraint_offset problem n, h0⟩) :=
      List.getElem?_eq_getElem h0
    simp [compute_constraint_multipliers_body, hget, read, hr0, List.getD, hboth,
      List.range_succ]

/-- One pass of the loop of `compute_constraint_multipliers` that needs an entry beyond the
end of the multipliers of the subproblem. -/
theorem constraint_multipliers_pass_short (problem : Problem) (solution : LocalSolution)
    (multipliers : List ℚ) (n : Nat) (hn : n < problem.constraint_status.length)
    (hshort : solution.constraint_multipliers.length < constraint_offset problem (n + 1)) :
    compute_constraint_multipliers_body problem solution
        (multipliers, constraint_offset problem n) n
      = .error .out_of_bounds := by
  have hget : problem.constraint_status[n]? = some (problem.constraint_status.get ⟨n, hn⟩) :=
    List.getElem?_eq_getElem hn
  have hD : problem.constraint_status.getD n ConstraintStatus.UNBOUNDED
      = problem.constraint_status.get ⟨n, hn⟩ := by
    simp [List.getD, hget]
  rw [constraint_offset_succ, hD] at hshort
  generalize problem.constraint_status.get ⟨n, hn⟩ = status at hget hshort
  by_cases hboth : status = ConstraintStatus.BOUNDED_BOTH_SIDES
  · subst hboth
    simp only [generated_constraints, if_true] at hshort
    have hr1 : solution.constraint_multipliers[constraint_offset problem n + 1]? = none :=
      List.getElem?_eq_none (by omega)
    simp only [compute_constraint_multipliers_body, hget, read, hr1, if_true]
    split <;> simp_all
  · simp only [generated_constraints, hboth, if_false] at hshort
    have hr0 : solution.constraint_multipliers[constraint_offset problem n]? = none :=
      List.getElem?_eq_none (by omega)
    simp [compute_constraint_multipliers_body, hget, read, hr0, hboth]

/-- The loop of `compute_constraint_multipliers` over the first `n` constraints, when the
subproblem returns at least `constraint_offset problem n` multipliers: the counter ends at
that count and the entries below `n` are the sums of the generated multipliers. -/
theorem constraint_multipliers_loop (problem : Problem) (solution : LocalSolution)
    (start : List ℚ) (n : Nat) (hn : n ≤ problem.constraint_status.length)
    (hlen : n ≤ start.length)
    (hreads : constraint_offset problem n ≤ solution.constraint_multipliers.length) :
    ∃ multipliers : List ℚ,
      (List.range n).foldlM (compute_constraint_multipliers_body problem solution) (start, 0)
        = .ok (multipliers, constraint_offset problem n) ∧
      multipliers.length = start.length ∧
      (∀ j : Nat, j < n → multipliers[j]? = some (generated_multiplier problem solution j)) ∧
      (∀ j : Nat, n ≤ j → multipliers[j]? = start[j]?) := by
  induction n with
  | zero => exact ⟨start, rfl, rfl, fun j hj => by omega, fun j _ => rfl⟩
  | succ n ih =>
    have hmono := constraint_offset_mono problem (Nat.le_add_right n 1)
    obtain ⟨previous, hfold, hsize, hbelow, habove⟩ := ih (by omega) (by omega) (by omega)
    refine ⟨previous.set n (generated_multiplier problem solution n), ?_, ?_, ?_, ?_⟩
    · rw [List.range_succ, List.foldlM_append, hfold]
      simp only [List.foldlM, bind, Except.bind, pure, Except.pure]
      rw [constraint_multipliers_pass problem solution previous n (by omega) hreads]
    · simp [hsize]
    · intro j hj
      rcases Nat.lt_or_ge j n with hlt | hge
      · rw [List.getElem?_set_ne (by omega)]
        exact hbelow j hlt
      · have : j = n := by omega
        subst this
        exact List.getElem?_set_self (by omega)
    · intro j hj
      rw [List.getElem?_set_ne (by omega)]
      exact habove j (by omega)

/-- The loop of `compute_constraint_multipliers` over the first `n` constraints, when the
subproblem returns fewer than `constraint_offset problem n` multipliers: a read is out of
bounds. -/
theorem constraint_multipliers_loop_short (problem : Problem) (solution : LocalSolution)
    (start : List ℚ) (n : Nat) (hn : n ≤ problem.constraint_status.length)
    (hlen : n ≤ start.length)
    (hshort : solution.constraint_multipliers.length < constraint_offset problem n) :
    (List.range n).foldlM (compute_constraint_multipliers_body problem solution) (start, 0)
      = .error .out_of_bounds := by
  induction n with
  | zero => simp [constraint_offset_zero] at hshort
  | succ n ih =>
    rw [List.range_succ, List.foldlM_append]
    rcases Nat.lt_or_ge solution.constraint_multipliers.length (constraint_offset problem n)
      with hlt | hge
    · rw [ih (by omega) (by omega) hlt]
      rfl
    · obtain ⟨previous, hfold, _, _, _⟩ :=
        constraint_multipliers_loop problem solution start n (by omega) (by omega) hge
      rw [hfold]
      simp only [List.foldlM, bind, Except.bind, pure, Except.pure]
      rw [constraint_multipliers_pass_short problem solution previous n (by omega) hshort]

/-- When the loop of `initialize` returns, so does `initialize`, with the sizes stored in
the strategy. -/
theorem initialize_ok {σ : Type} (S : PenaltyStrategy)
    ( subproblem_initialize :
      σ → Problem → List ℚ → List ℚ → List ℚ → Nat → Nat → Bool → Iterate × σ)
    (ext : External) (solver : σ) (problem : Problem) (x : List ℚ)
    (bound_multipliers constraint_multipliers : List ℚ) (use_trust_region : Bool)
    (dimensions : PenaltyDimensions)
    (hloop : initialize_dimensions problem = .ok dimensions) :
    ∃ (first_iterate : Iterate) (solver1 : σ),
      S.initialize subproblem_initialize ext solver problem x bound_multipliers
          constraint_multipliers use_trust_region
        = .ok (first_iterate, { S with penalty_dimensions := dimensions }, solver1) := by
  simp only [ PenaltyStrategy.initialize, hloop]
  exact ⟨_, _, rfl⟩

end PenaltyInitializeProofs

/-! ### Lemmas on `smallest_diagonal_entry` and `in_increasing_order` -/

section DiagonalAndOrderProofs

/-- For a matrix of dimension 0 the loop of `smallest_diagonal_entry` makes no pass and the
result is `INF<ElementType>`. -/
theorem smallest_diagonal_entry_empty {α : Type} [Min α] (M : CSCSymmetricMatrix α)
    (hdimension : M.dimension = 0) : M.smallest_diagonal_entry = .ok none := by
  simp [CSCSymmetricMatrix.smallest_diagonal_entry, hdimension, Range, pure, Except.pure]

/-- The loop of `in_increasing_order` from the counter `index`, when the entries up to
the index `bound` exist and the bound on the passes is large enough: it returns whether
the entries from `index` to `bound` are in increasing order. -/
theorem in_increasing_order_loop_ok (array : List Int) (bound : Nat)
    (hbound : bound + 1 ≤ array.length) :
    ∀ (fuel index : Nat), index ≤ bound → bound - index ≤ fuel →
      in_increasing_order_loop array bound fuel index
        = .ok (decide (∀ i : Nat, index ≤ i → i < bound →
            array.getD i 0 ≤ array.getD (i + 1) 0)) := by
  intro fuel
  induction fuel with
  | zero =>
    intro index hle hfuel
    have hnot : ¬ index < bound := by omega
    simp only [in_increasing_order_loop, hnot, if_false]
    congr 1
    symm
    rw [decide_eq_true_iff]
    intro i h1 h2
    omega
  | succ fuel ih =>
    intro index hle hfuel
    unfold in_increasing_order_loop
    by_cases hlt : index < bound
    · have h0 : index < array.length := by omega
      have h1 : index + 1 < array.length := by omega
      have hr0 : array[index]? = some (array.get ⟨index, h0⟩) := List.getElem?_eq_getElem h0
      have hr1 : array[index + 1]? = some (array.get ⟨index + 1, h1⟩) :=
        List.getElem?_eq_getElem h1
      have hd0 : array.getD index 0 = array.get ⟨index, h0⟩ := by simp [List.getD, hr0]
      have hd1 : array.getD (index + 1) 0 = array.get ⟨index + 1, h1⟩ := by
        simp [List.getD, hr1]
      simp only [hlt, if_true, hr0, hr1]
      by_cases hgt : array.get ⟨index, h0⟩ > array.get ⟨index + 1, h1⟩
      · simp only [hgt, if_true]
        congr 1
        symm
        rw [decide_eq_false_iff_not]
        intro hall
        have := hall index (Nat.le_refl _) hlt
        rw [hd0, hd1] at this
        omega
      · simp only [hgt, if_false]
        rw [ih (index + 1) (by omega) (by omega)]
        congr 1
        rw [decide_eq_decide]
        constructor
        · intro hall i hi1 hi2
          rcases Nat.lt_or_ge index i with hlt1 | hge1
          · exact hall i hlt1 hi2
          · have hi : i = index := by omega
            subst hi
            rw [hd0, hd1]
            omega
        · intro hall i hi1 hi2
          exact hall i (by omega) hi2
    · simp only [hlt, if_false]
      congr 1
      symm
      rw [decide_eq_true_iff]
      intro i h1 h2
      omega

/-- For a length of at least 1 that does not exceed the size of the array,
`in_increasing_order` returns, and it returns true exactly when `array[i] <= array[i + 1]`
for every `i` with `i + 1 < length`, when the bound on the passes is at least
`length - 1`. -/
theorem in_increasing_order_positive (array : List Int) (length fuel : Nat)
    (hpositive : 1 ≤ length) (hsize : length ≤ array.length) (hword : length < 2 ^ 64)
    (hfuel : length ≤ fuel + 1) :
    ∃ result : Bool, in_increasing_order array length fuel = .ok result ∧
      (result = true ↔ ∀ i : Nat, i + 1 < length →
        array.getD i 0 ≤ array.getD (i + 1) 0) := by
  have hwrap : (length + 2 ^ 64 - 1) % 2 ^ 64 = length - 1 := by
    generalize (2 : Nat) ^ 64 = word at hword
    have hsum : length + word - 1 = length - 1 + word := by omega
    rw [hsum, Nat.add_mod_right]
    exact Nat.mod_eq_of_lt (by omega)
  unfold in_increasing_order
  rw [hwrap, in_increasing_order_loop_ok array (length - 1) (by omega) fuel 0 (by omega)
    (by omega)]
  refine ⟨_, rfl, ?_⟩
  rw [decide_eq_true_iff]
  constructor
  · intro hall i hi
    exact hall i (Nat.zero_le _) (by omega)
  · intro hall i _ hi
    exact hall i (by omega)

end DiagonalAndOrderProofs

/-! ## Round trip, column starts and identity -/

section CSCClaims

variable {α : Type}

/-- C2: a matrix built from a fresh `CSCSymmetricMatrix` by inserting the entries of each
column `0 .. dimension-1` in turn and finalizing the column is built without fault, and
`for_each` then visits exactly the inserted triples `(i, j, v)`, each once, column by
column in insertion order, each column followed by one slot `(j, j, 0)` when
`use_regularization` is set. -/
theorem csc_round_trip [Zero α] [Add α] (dimension original_capacity : Nat)
    (use_regularization : Bool) (columns : List (Column α))
    (hcolumns : columns.length = dimension) :
    ∃ M, CSCSymmetricMatrix.assemble dimension original_capacity use_regularization columns
          = .ok M ∧
      M.visits = .ok (expected_visits use_regularization 0 columns) := by
  obtain ⟨M, hM, hF⟩ := assemble_filling dimension original_capacity use_regularization
    columns hcolumns
  refine ⟨M, hM, ?_⟩
  have hfull : (stored_columns use_regularization 0 columns).length = dimension := by
    rw [stored_columns_length, hcolumns]
  have hfe := filling_for_each hF hfull
    (fun acc row_index column_index entry => acc ++ [(row_index, column_index, entry)]) []
  rw [CSCSymmetricMatrix.visits, hfe, column_triples_stored]
  exact congrArg Except.ok (foldl_record _ [])

/-- Witness of C2: a 2 x 2 matrix with regularization, two entries in column 0 and one in
column 1. -/
theorem csc_round_trip_witness :
    [[(0, (5 : Int)), (1, 7)], [(1, 3)]].length = 2 ∧
    ∃ M, CSCSymmetricMatrix.assemble 2 0 true [[(0, (5 : Int)), (1, 7)], [(1, 3)]] = .ok M ∧
      M.visits = .ok (expected_visits true 0 [[(0, (5 : Int)), (1, 7)], [(1, 3)]]) :=
  ⟨rfl, csc_round_trip 2 0 true [[(0, (5 : Int)), (1, 7)], [(1, 3)]] rfl⟩

/-- C3: after every column of a fresh matrix has been filled and finalized in order,
`column_starts[0] = 0`, for every column `j < dimension` the difference
`column_starts[j+1] - column_starts[j]` is the number of entries stored in column `j`
(the inserted entries, plus one regularization slot when `use_regularization` is set),
and `column_starts[dimension] = number_nonzeros`. -/
theorem csc_column_starts [Zero α] [Add α] (dimension original_capacity : Nat)
    (use_regularization : Bool) (columns : List (Column α))
    (hcolumns : columns.length = dimension) (j : Nat) (hj : j < columns.length) :
    ∃ M first, CSCSymmetricMatrix.assemble dimension original_capacity use_regularization columns
          = .ok M ∧
      M.column_starts[0]? = some 0 ∧
      M.column_starts[j]? = some first ∧
      M.column_starts[j + 1]?
        = some (first + (columns[j].length + if use_regularization then 1 else 0)) ∧
      M.column_starts[dimension]? = some M.number_nonzeros := by
  obtain ⟨M, hM, hF⟩ := assemble_filling dimension original_capacity use_regularization
    columns hcolumns
  have hlen : (stored_columns use_regularization 0 columns).length = columns.length :=
    stored_columns_length _ _ _
  refine ⟨M, entries_before (stored_columns use_regularization 0 columns) j, hM, ?_, ?_, ?_, ?_⟩
  · have := hF.starts_eq 0 (Nat.zero_le _)
    simpa [entries_before] using this
  · exact hF.starts_eq j (by rw [hlen]; exact Nat.le_of_lt hj)
  · rw [hF.starts_eq (j + 1) (by rw [hlen]; exact hj),
      entries_before_succ _ j _ (stored_columns_getElem? use_regularization columns 0 j hj)]
    cases use_regularization <;> simp
  · have h1 := hF.starts_eq dimension (by rw [hlen, hcolumns])
    have h2 : entries_before (stored_columns use_regularization 0 columns) dimension
        = M.number_nonzeros := by
      rw [hF.nonzeros_eq, ← hcolumns, ← hlen, entries_before_length]; simp
    rw [h1, h2]

/-- Witness of C3: column 1 of a 2 x 2 matrix with regularization. -/
theorem csc_column_starts_witness :
    [[(0, (5 : Int)), (1, 7)], [(1, 3)]].length = 2 ∧ 1 < [[(0, (5 : Int)), (1, 7)], [(1, 3)]].length ∧
    ∃ M first, CSCSymmetricMatrix.assemble 2 0 true [[(0, (5 : Int)), (1, 7)], [(1, 3)]] = .ok M ∧
      M.column_starts[0]? = some 0 ∧
      M.column_starts[1]? = some first ∧
      M.column_starts[1 + 1]? = some (first + ([(1, (3 : Int))].length + if true then 1 else 0)) ∧
      M.column_starts[2]? = some M.number_nonzeros :=
  ⟨rfl, by decide,
    csc_column_starts 2 0 true [[(0, (5 : Int)), (1, 7)], [(1, 3)]] rfl 1 (by decide)⟩

/-- C6: `identity(n)` is built without fault and stores exactly the `n` entries
`(i, i, 1)` for `i < n`, with `column_starts[j] = j` and `number_nonzeros = n`; the
matrix-vector product that accumulates the entries visited by `for_each` maps every vector
of length `n` to itself. -/
theorem identity_product [AddZeroClass α] [MulOneClass α] (n : Nat) (x : List α)
    (hx : x.length = n) (j : Nat) (hj : j ≤ n) :
    ∃ M : CSCSymmetricMatrix α, CSCSymmetricMatrix.identity n = .ok M ∧
      M.visits = .ok ((List.range n).map (fun i => (i, i, 1))) ∧
      M.column_starts[j]? = some j ∧
      M.number_nonzeros = n ∧
      M.product x = .ok x := by
  obtain ⟨M, hM, hF⟩ := @identity_loop α _ _ n n le_rfl
  have hlen : (unit_columns n : List (Column α)).length = n := by simp [unit_columns]
  refine ⟨M, hM, ?_, ?_, ?_, ?_⟩
  · have hfe := filling_for_each hF hlen
      (fun acc row_index column_index entry => acc ++ [(row_index, column_index, entry)]) []
    rw [CSCSymmetricMatrix.visits, hfe, column_triples_unit]
    exact congrArg Except.ok (foldl_record _ [])
  · rw [hF.starts_eq j (by rw [hlen]; exact hj), entries_before_unit n j hj]
  · have h1 := hF.nonzeros_eq
    rw [List.append_nil, ← entries_before_length, hlen, entries_before_unit n n le_rfl] at h1
    exact h1
  · rw [CSCSymmetricMatrix.product, filling_for_each hF hlen, column_triples_unit]
    have := product_unit_fold x x.length le_rfl
    rw [hx] at this
    subst hx
    rw [this]
    simp

/-- Witness of C6: the identity of dimension 2 applied to the vector `(4, 5)`. -/
theorem identity_product_witness :
    [(4 : Int), 5].length = 2 ∧ 1 ≤ 2 ∧
    ∃ M : CSCSymmetricMatrix Int, CSCSymmetricMatrix.identity 2 = .ok M ∧
      M.visits = .ok ((List.range 2).map (fun i => (i, i, 1))) ∧
      M.column_starts[1]? = some 1 ∧
      M.number_nonzeros = 2 ∧
      M.product [4, 5] = .ok [4, 5] :=
  ⟨rfl, by decide, identity_product 2 [4, 5] rfl 1 (by decide)⟩

/-- C4, counterexample: on a fresh 2 x 2 matrix, `finalize_column(0)` succeeds and leaves
`current_column = 1`; a second `finalize_column(0)` fails the assertion
`column_index == current_column` instead of returning the same state, and the same code
with assertions compiled out returns a state whose `current_column` is 2. -/
theorem finalize_column_twice_counterexample :
    ∃ M1 M2 : CSCSymmetricMatrix Int,
      (CSCSymmetricMatrix.create 2 0 false).finalize_column 0 = .ok M1 ∧
      M1.current_column = 1 ∧
      M1.finalize_column 0 = .error .assertion ∧
      M1.finalize_column_ndebug 0 = .ok M2 ∧
      M2.current_column = 2 :=
  ⟨_, _, rfl, rfl, rfl, rfl, rfl⟩

/-- C4, amended: `finalize_column(j)` succeeds once per column.  After a successful
`finalize_column(j)` the current column is `j + 1`, so a second `finalize_column(j)` fails
the assertion `column_index == current_column`; with assertions compiled out a second
call that returns has moved `current_column` to `j + 2`.  In neither case is the state
after the second call the state after the first. -/
theorem finalize_column_once [Zero α] [Add α] (M M1 : CSCSymmetricMatrix α) (j : Nat)
    (h : M.finalize_column j = .ok M1) :
    M1.current_column = j + 1 ∧
    M1.finalize_column j = .error .assertion ∧
    ∀ M2, M1.finalize_column_ndebug j = .ok M2 → M2.current_column = j + 2 ∧ M2 ≠ M1 := by
  obtain ⟨-, -, hcur, -⟩ := finalize_column_ok h
  refine ⟨hcur, ?_, ?_⟩
  · unfold CSCSymmetricMatrix.finalize_column
    simp [hcur]
  · intro M2 h2
    have hc2 := finalize_column_ndebug_ok h2
    rw [hcur] at hc2
    refine ⟨hc2, ?_⟩
    intro heq
    rw [heq, hcur] at hc2
    omega

/-- Witness of C4 (amended): the first column of a fresh 2 x 2 matrix with
regularization. -/
theorem finalize_column_once_witness :
    ∃ M1 : CSCSymmetricMatrix Int,
      (CSCSymmetricMatrix.create 2 0 true).finalize_column 0 = .ok M1 ∧
      M1.current_column = 0 + 1 ∧
      M1.finalize_column 0 = .error .assertion ∧
      ∀ M2, M1.finalize_column_ndebug 0 = .ok M2 → M2.current_column = 0 + 2 ∧ M2 ≠ M1 :=
  ⟨_, rfl, finalize_column_once (CSCSymmetricMatrix.create 2 0 true) _ 0 rfl⟩

/-- C5, counterexample: after `insert(1, 0, 0)` on a fresh 2 x 2 matrix the column starts
are `[0, 1, 0]`, so `column_starts[1] <= column_starts[2]` fails although `1 < dimension`. -/
theorem column_starts_monotone_counterexample :
    ∃ M : CSCSymmetricMatrix Int,
      (CSCSymmetricMatrix.create 2 0 false).run [MatrixOp.insert 1 0 0] = .ok M ∧
      M.dimension = 2 ∧
      M.column_starts = [0, 1, 0] ∧
      ¬ ((M.column_starts[1]?).getD 0 ≤ (M.column_starts[1 + 1]?).getD 0) :=
  ⟨_, rfl, rfl, rfl, by decide⟩

/-- C5, amended: in every state reached from the constructor by `insert`,
`finalize_column` and `reset` running without fault, `column_starts[j] <=
column_starts[j+1]` for every `j < dimension` with `j <= current_column`, that is for the
finalized columns and the column being filled; for every `j < dimension` once all columns
are finalized. -/
theorem column_starts_monotone_to_current [Zero α] [Add α] (dimension original_capacity : Nat)
    (use_regularization : Bool) (ops : List (MatrixOp α)) (M : CSCSymmetricMatrix α)
    (hrun : (CSCSymmetricMatrix.create dimension original_capacity use_regularization).run ops
      = .ok M)
    (j : Nat) (hj : j < dimension) (hcur : j ≤ M.current_column) :
    ∃ first next, M.column_starts[j]? = some first ∧ M.column_starts[j + 1]? = some next ∧
      first ≤ next := by
  have hS := sorted_run ops _ M
    (sorted_create dimension original_capacity use_regularization) hrun
  have h0 : j < M.column_starts.length := by rw [hS.starts_length]; omega
  have h1 : j + 1 < M.column_starts.length := by rw [hS.starts_length]; omega
  have hle := hS.sorted j hj hcur
  rw [List.getElem?_eq_getElem h0, List.getElem?_eq_getElem h1] at hle
  exact ⟨_, _, List.getElem?_eq_getElem h0, List.getElem?_eq_getElem h1, hle⟩

/-- Witness of C5 (amended): column 1 of a 2 x 2 matrix after one entry was inserted into
column 0 and that column was finalized. -/
theorem column_starts_monotone_to_current_witness :
    ∃ M : CSCSymmetricMatrix Int,
      (CSCSymmetricMatrix.create 2 0 false).run
        [MatrixOp.insert 5 0 0, MatrixOp.finalize_column 0] = .ok M ∧
      1 < 2 ∧ 1 ≤ M.current_column ∧
      ∃ first next, M.column_starts[1]? = some first ∧ M.column_starts[1 + 1]? = some next ∧
        first ≤ next :=
  ⟨_, rfl, by decide, by decide,
    column_starts_monotone_to_current 2 0 false
      [MatrixOp.insert 5 0 0, MatrixOp.finalize_column 0] _ rfl 1 (by decide) (by decide)⟩

end CSCClaims

/-! ## Penalty parameter and step acceptance -/

section PenaltyClaims

variable {σ : Type}

/-- C7: the constructor starts the penalty parameter at 1 (and `tau` at 0.5); a call of
`compute_step` entered with `0 <= rho <= 1` ends (a bound of 34 passes of the shrink loop
is never exhausted), whatever the problem, the iterate and the answers of the subproblem
solver, and when it returns, the new penalty parameter satisfies `rho_new <= rho` and
`0 <= rho_new <= 1`. -/
theorem penalty_parameter_nonincreasing (S : PenaltyStrategy) (sub : Subproblem σ)
    (ext : External) (fuel : Nat) (solver : σ) (problem : Problem) (current_iterate : Iterate)
    (radius : ℚ) (htau : S.tau = 1 / 2) (h0 : 0 ≤ S.penalty_parameter)
    (h1 : S.penalty_parameter ≤ 1) (hfuel : 34 ≤ fuel) :
    (PenaltyStrategy.create S.tolerance).penalty_parameter = 1 ∧
    (PenaltyStrategy.create S.tolerance).tau = 1 / 2 ∧
    S.compute_step sub ext fuel solver problem current_iterate radius ≠ .error .out_of_fuel ∧
    ∀ r, S.compute_step sub ext fuel solver problem current_iterate radius = .ok r →
      r.strategy.penalty_parameter ≤ S.penalty_parameter ∧
      0 ≤ r.strategy.penalty_parameter ∧ r.strategy.penalty_parameter ≤ 1 := by
  refine ⟨rfl, rfl, compute_step_fuel htau h1 hfuel, ?_⟩
  intro r hr
  obtain ⟨-, hr0, hr1⟩ := compute_step_bounds htau h0 hr
  exact ⟨hr1, hr0, le_trans hr1 h1⟩

/-- Witness of C7: the strategy as constructed (penalty parameter 1) on the small
instance. -/
theorem penalty_parameter_nonincreasing_witness :
    toy_strategy.tau = 1 / 2 ∧ 0 ≤ toy_strategy.penalty_parameter ∧
    toy_strategy.penalty_parameter ≤ 1 ∧ 34 ≤ 34 ∧
    (PenaltyStrategy.create toy_strategy.tolerance).penalty_parameter = 1 ∧
    (PenaltyStrategy.create toy_strategy.tolerance).tau = 1 / 2 ∧
    toy_strategy.compute_step toy_subproblem toy_external 34 () toy_problem toy_iterate 1
      ≠ .error .out_of_fuel ∧
    ∀ r, toy_strategy.compute_step toy_subproblem toy_external 34 () toy_problem toy_iterate 1
        = .ok r →
      r.strategy.penalty_parameter ≤ toy_strategy.penalty_parameter ∧
      0 ≤ r.strategy.penalty_parameter ∧ r.strategy.penalty_parameter ≤ 1 :=
  ⟨rfl, by norm_num [toy_strategy, PenaltyStrategy.create],
    by norm_num [toy_strategy, PenaltyStrategy.create], le_rfl,
    penalty_parameter_nonincreasing toy_strategy toy_subproblem toy_external 34 () toy_problem
      toy_iterate 1 rfl (by norm_num [toy_strategy, PenaltyStrategy.create])
      (by norm_num [toy_strategy, PenaltyStrategy.create]) le_rfl⟩

/-- C8, counterexample: on the small instance the strategy as constructed (penalty
parameter 1) makes one call of `compute_step`; the shrink loop stops at `1/2`, the ideal
error is `1e-6` and the residual 1, so the final update `min(rho, (1e-6 / 1)^2)` leaves the
penalty parameter `1e-12`, which is neither 0 nor in `[1e-10, 1]`. -/
theorem penalty_parameter_floor_counterexample :
    toy_strategy.penalty_parameter = 1 ∧
    toy_strategy.compute_steps toy_subproblem toy_external 34 [toy_call]
      = .ok { toy_strategy with penalty_parameter := 1 / 10 ^ 12 } ∧
    ¬ ((1 : ℚ) / 10 ^ 12 = 0 ∨ ((1 : ℚ) / 10 ^ 10 ≤ 1 / 10 ^ 12 ∧ (1 : ℚ) / 10 ^ 12 ≤ 1)) := by
  refine ⟨rfl, ?_, by norm_num⟩
  simp only [PenaltyStrategy.compute_steps, toy_call, toy_compute_step]

/-- C8, amended: starting from the penalty parameter 1 of the constructor, after any
sequence of `compute_step` calls the penalty parameter lies in `[0, 1]` (and no call
exhausts a bound of 34 passes).  The floor `1e-10` holds for the value left by the shrink
loop, which is 0 or at least `1e-10` once the loop has made a pass; the final update
`min(rho, (ideal_error / max(1, residual))^2)` is not floored. -/
theorem penalty_parameter_range (sub : Subproblem σ) (ext : External) (fuel : Nat)
    (tolerance : ℚ) (dimensions : PenaltyDimensions) (calls : List (StepCall σ))
    (hfuel : 34 ≤ fuel) :
    ({ PenaltyStrategy.create tolerance with penalty_dimensions := dimensions }.compute_steps
        sub ext fuel calls ≠ .error .out_of_fuel) ∧
    (∀ S1, { PenaltyStrategy.create tolerance with penalty_dimensions := dimensions }.compute_steps
        sub ext fuel calls = .ok S1 →
      0 ≤ S1.penalty_parameter ∧ S1.penalty_parameter ≤ 1) ∧
    (∀ (S : PenaltyStrategy) (problem : Problem) (current_iterate : Iterate) (radius : ℚ)
        (ideal_solution : LocalSolution) (ideal_linear_model : ℚ) (st st1 : LoopState σ),
      S.tau = 1 / 2 → 0 ≤ st.penalty_parameter → st.condition2 = false →
      S.shrink_loop sub problem current_iterate radius ideal_solution ideal_linear_model fuel st
        = .ok st1 →
      st1.penalty_parameter = 0 ∨ 1 / 10 ^ 10 ≤ st1.penalty_parameter) := by
  have hb := @compute_steps_bounds σ sub ext fuel hfuel calls
    { PenaltyStrategy.create tolerance with penalty_dimensions := dimensions } rfl
    (by norm_num [PenaltyStrategy.create]) (by norm_num [PenaltyStrategy.create])
  refine ⟨hb.1, ?_, ?_⟩
  · intro S1 h
    obtain ⟨h3, h4⟩ := hb.2 S1 h
    refine ⟨h3, le_trans h4 ?_⟩
    norm_num [PenaltyStrategy.create]
  · intro S problem current_iterate radius ideal_solution ideal_linear_model st st1 htau h0 hc h
    exact ((shrink_loop_bounds htau fuel st st1 h h0).2 hc).1

/-- Witness of C8 (amended): one call on the small instance. -/
theorem penalty_parameter_range_witness :
    34 ≤ 34 ∧
    ({ PenaltyStrategy.create (1 / 10 ^ 6) with
        penalty_dimensions := { number_additional_variables := 1, number_constraints := 1 }
      }.compute_steps toy_subproblem toy_external 34 [toy_call] ≠ .error .out_of_fuel) ∧
    (∀ S1, { PenaltyStrategy.create (1 / 10 ^ 6) with
        penalty_dimensions := { number_additional_variables := 1, number_constraints := 1 }
      }.compute_steps toy_subproblem toy_external 34 [toy_call] = .ok S1 →
      0 ≤ S1.penalty_parameter ∧ S1.penalty_parameter ≤ 1) ∧
    (∀ (S : PenaltyStrategy) (problem : Problem) (current_iterate : Iterate) (radius : ℚ)
        (ideal_solution : LocalSolution) (ideal_linear_model : ℚ) (st st1 : LoopState Unit),
      S.tau = 1 / 2 → 0 ≤ st.penalty_parameter → st.condition2 = false →
      S.shrink_loop toy_subproblem problem current_iterate radius ideal_solution
        ideal_linear_model 34 st = .ok st1 →
      st1.penalty_parameter = 0 ∨ 1 / 10 ^ 10 ≤ st1.penalty_parameter) :=
  ⟨le_rfl, penalty_parameter_range toy_subproblem toy_external 34 (1 / 10 ^ 6)
    { number_additional_variables := 1, number_constraints := 1 } [toy_call] le_rfl⟩

/-- C9: when the penalty parameter is 0 at entry, `compute_step` solves exactly one
subproblem, at penalty parameter 0, returns its solution and leaves the strategy, hence
the penalty parameter 0, unchanged. -/
theorem zero_penalty_parameter_absorbing (S : PenaltyStrategy) (sub : Subproblem σ)
    (ext : External) (fuel : Nat) (solver : σ) (problem : Problem) (current_iterate : Iterate)
    (radius : ℚ) (hzero : S.penalty_parameter = 0) :
    S.compute_step sub ext fuel solver problem current_iterate radius
      = .ok { solution := (sub.compute_l1_penalty_step solver problem current_iterate radius 0
                S.penalty_dimensions).1
              strategy := S
              solver := (sub.compute_l1_penalty_step solver problem current_iterate radius 0
                S.penalty_dimensions).2
              solves := [0] } := by
  unfold PenaltyStrategy.compute_step
  simp only [hzero, lt_self_iff_false, if_false]

/-- Witness of C9: the small instance with the penalty parameter set to 0. -/
theorem zero_penalty_parameter_absorbing_witness :
    ({ toy_strategy with penalty_parameter := 0 } : PenaltyStrategy).penalty_parameter = 0 ∧
    ({ toy_strategy with penalty_parameter := 0 } : PenaltyStrategy).compute_step toy_subproblem
        toy_external 0 () toy_problem toy_iterate 1
      = .ok { solution := (toy_subproblem.compute_l1_penalty_step () toy_problem toy_iterate 1 0
                toy_strategy.penalty_dimensions).1
              strategy := { toy_strategy with penalty_parameter := 0 }
              solver := (toy_subproblem.compute_l1_penalty_step () toy_problem toy_iterate 1 0
                toy_strategy.penalty_dimensions).2
              solves := [0] } :=
  ⟨rfl, zero_penalty_parameter_absorbing { toy_strategy with penalty_parameter := 0 }
    toy_subproblem toy_external 0 () toy_problem toy_iterate 1 rfl⟩

/-- C10, counterexample: on the small instance with a direction whose elastic component
(linear model) is `1/2` and whose subproblem objective is 1, the trial iterate has the
merit of the current one; `check_step` accepts, because the test uses `residual - objective
= 0`, while the inequality of the claim with the linear model,
`0 >= 1e-8 * (1 - 1/2)`, is false. -/
theorem check_step_linear_model_counterexample :
    toy_strategy.check_step toy_subproblem toy_external () toy_problem toy_iterate
        (toy_solution 1) 1
      = .ok { accept := true
              current_iterate := { toy_trial with status := OptimalityStatus.FJ_POINT }
              solver := () } ∧
    toy_strategy.trial_iterate toy_subproblem toy_external () toy_problem toy_iterate
        (toy_solution 1) 1
      = .ok { d := [1], iterate := toy_trial, solver := () } ∧
    toy_strategy.compute_linear_model toy_problem (toy_solution 1) = .ok (1 / 2) ∧
    ¬ ((toy_strategy.penalty_parameter * toy_iterate.objective + toy_iterate.residual)
        - (toy_strategy.penalty_parameter * toy_trial.objective + toy_trial.residual)
      ≥ 1 / 10 ^ 8 * 1 * (toy_iterate.residual - 1 / 2)) := by
  refine ⟨toy_check_step, toy_trial_iterate, toy_linear_model 1, ?_⟩
  norm_num [toy_strategy, PenaltyStrategy.create, toy_iterate, toy_trial]

/-- C10, amended: with `eta = 1e-8` as set by the constructor, a `check_step` that returns
accepts the trial (returns true) if and only if
`phi(x; rho) - phi(x + alpha*d; rho) >= eta * alpha * (residual(x) - objective(d))`, where
`phi(x; rho) = rho * f(x) + residual(x)` and `objective(d)` is the objective value of the
subproblem solution (`solution.objective`), not the sum of its elastic components. -/
theorem check_step_accepts_iff (S : PenaltyStrategy) (sub : Subproblem σ) (ext : External)
    (solver : σ) (problem : Problem) (current_iterate : Iterate) (solution : LocalSolution)
    (step_length : ℚ) (r : CheckResult σ) (heta : S.eta = 1 / 10 ^ 8)
    (h : S.check_step sub ext solver problem current_iterate solution step_length = .ok r) :
    ∃ trial, S.trial_iterate sub ext solver problem current_iterate solution step_length
        = .ok trial ∧
      (r.accept = true ↔
        (S.penalty_parameter * current_iterate.objective + current_iterate.residual)
            - (S.penalty_parameter * trial.iterate.objective + trial.iterate.residual)
          ≥ 1 / 10 ^ 8 * step_length * (current_iterate.residual - solution.objective)) := by
  obtain ⟨trial, htrial, hiff⟩ := check_step_ok h
  rw [heta] at hiff
  exact ⟨trial, htrial, hiff⟩

/-- Witness of C10 (amended): the accepted step of the small instance. -/
theorem check_step_accepts_iff_witness :
    toy_strategy.eta = 1 / 10 ^ 8 ∧
    toy_strategy.check_step toy_subproblem toy_external () toy_problem toy_iterate
        (toy_solution 1) 1
      = .ok { accept := true
              current_iterate := { toy_trial with status := OptimalityStatus.FJ_POINT }
              solver := () } ∧
    ∃ trial, toy_strategy.trial_iterate toy_subproblem toy_external () toy_problem toy_iterate
        (toy_solution 1) 1 = .ok trial ∧
      (true = true ↔
        (toy_strategy.penalty_parameter * toy_iterate.objective + toy_iterate.residual)
            - (toy_strategy.penalty_parameter * trial.iterate.objective + trial.iterate.residual)
          ≥ 1 / 10 ^ 8 * 1 * (toy_iterate.residual - (toy_solution 1).objective)) :=
  ⟨rfl, toy_check_step,
    check_step_accepts_iff toy_strategy toy_subproblem toy_external () toy_problem toy_iterate
      (toy_solution 1) 1 _ rfl toy_check_step⟩

end PenaltyClaims

/-! ## Status of the trial iterate, combined error and linear model -/

section PenaltyStatusClaims

variable {σ : Type}

/-- C12: with one multiplier per variable and per constraint and `e` the combined error
at the current penalty parameter, `compute_status` returns `KKT_POINT` if and only if
`e <= tolerance` and `residual <= tolerance * number_constraints`.  In that case it
returns, and when `rho > 0` every bound and constraint multiplier of the trial iterate has
been divided by `rho`; in every other case (another status, or `rho <= 0`) the trial
iterate is unchanged. -/
theorem compute_status_KKT_POINT (S : PenaltyStrategy) (ext : External) (problem : Problem)
    (iterate : Iterate) (step_norm e : ℚ)
    (hb : iterate.bound_multipliers.length = problem.number_variables)
    (hc : iterate.constraint_multipliers.length = problem.number_constraints)
    (he : compute_error ext problem iterate iterate.bound_multipliers
      iterate.constraint_multipliers S.penalty_parameter = .ok e) :
    ((e ≤ S.tolerance ∧ iterate.residual ≤ S.tolerance * problem.number_constraints) →
      S.compute_status ext problem iterate step_norm
        = .ok (OptimalityStatus.KKT_POINT,
            if 0 < S.penalty_parameter then
              { iterate with
                bound_multipliers :=
                  iterate.bound_multipliers.map (fun a => a / S.penalty_parameter)
                constraint_multipliers :=
                  iterate.constraint_multipliers.map (fun a => a / S.penalty_parameter) }
            else iterate)) ∧
    (∀ status iterate1, S.compute_status ext problem iterate step_norm = .ok (status, iterate1) →
      (status = OptimalityStatus.KKT_POINT ↔
        e ≤ S.tolerance ∧ iterate.residual ≤ S.tolerance * problem.number_constraints) ∧
      (¬ (status = OptimalityStatus.KKT_POINT ∧ 0 < S.penalty_parameter) →
        iterate1 = iterate)) := by
  refine ⟨fun hK => compute_status_KKT hb hc he hK, ?_⟩
  intro status iterate1 h
  rcases compute_status_cases he h with ⟨hK, hstatus, hframe⟩ | ⟨hK, hframe, e0, -, hstatus⟩
  · refine ⟨⟨fun _ => hK, fun _ => hstatus⟩, ?_⟩
    intro hnot
    exact hframe (fun hrho => hnot ⟨hstatus, hrho⟩)
  · refine ⟨⟨fun hcon => ?_, fun hcon => absurd hcon hK⟩, fun _ => hframe⟩
    rw [hcon] at hstatus
    split_ifs at hstatus

/-- Witness of C12: on the small instance with penalty parameter `1/2`, a trial iterate
with residual 0 and combined error `1e-6 <= tolerance`. -/
theorem compute_status_KKT_POINT_witness :
    toy_feasible_trial.bound_multipliers.length = toy_problem.number_variables ∧
    toy_feasible_trial.constraint_multipliers.length = toy_problem.number_constraints ∧
    compute_error toy_external toy_problem toy_feasible_trial
      toy_feasible_trial.bound_multipliers toy_feasible_trial.constraint_multipliers
      toy_half_strategy.penalty_parameter = .ok (1 / 10 ^ 6) ∧
    (((1 : ℚ) / 10 ^ 6 ≤ toy_half_strategy.tolerance ∧
        toy_feasible_trial.residual
          ≤ toy_half_strategy.tolerance * toy_problem.number_constraints) →
      toy_half_strategy.compute_status toy_external toy_problem toy_feasible_trial 1
        = .ok (OptimalityStatus.KKT_POINT,
            if 0 < toy_half_strategy.penalty_parameter then
              { toy_feasible_trial with
                bound_multipliers := toy_feasible_trial.bound_multipliers.map
                  (fun a => a / toy_half_strategy.penalty_parameter)
                constraint_multipliers := toy_feasible_trial.constraint_multipliers.map
                  (fun a => a / toy_half_strategy.penalty_parameter) }
            else toy_feasible_trial)) ∧
    (∀ status iterate1,
      toy_half_strategy.compute_status toy_external toy_problem toy_feasible_trial 1
        = .ok (status, iterate1) →
      (status = OptimalityStatus.KKT_POINT ↔
        (1 : ℚ) / 10 ^ 6 ≤ toy_half_strategy.tolerance ∧
          toy_feasible_trial.residual
            ≤ toy_half_strategy.tolerance * toy_problem.number_constraints) ∧
      (¬ (status = OptimalityStatus.KKT_POINT ∧ 0 < toy_half_strategy.penalty_parameter) →
        iterate1 = toy_feasible_trial)) :=
  ⟨rfl, rfl, toy_error toy_feasible_trial _ (Or.inr rfl) rfl,
    compute_status_KKT_POINT toy_half_strategy toy_external toy_problem toy_feasible_trial 1
      (1 / 10 ^ 6) rfl rfl (toy_error toy_feasible_trial _ (Or.inr rfl) rfl)⟩

/-- C13: with `e0` the combined error evaluated with penalty parameter 0, a
`compute_status` that returns returns `FJ_POINT` if and only if `e0 <= tolerance` and
`residual > tolerance * number_constraints`. -/
theorem compute_status_FJ_POINT (S : PenaltyStrategy) (ext : External) (problem : Problem)
    (iterate iterate1 : Iterate) (step_norm e0 : ℚ) (status : OptimalityStatus)
    (he0 : compute_error ext problem iterate iterate.bound_multipliers
      iterate.constraint_multipliers 0 = .ok e0)
    (h : S.compute_status ext problem iterate step_norm = .ok (status, iterate1)) :
    status = OptimalityStatus.FJ_POINT ↔
      e0 ≤ S.tolerance ∧ iterate.residual > S.tolerance * problem.number_constraints := by
  cases he : compute_error ext problem iterate iterate.bound_multipliers
      iterate.constraint_multipliers S.penalty_parameter with
  | error err =>
    unfold PenaltyStrategy.compute_status at h
    simp only [he, bind, Except.bind] at h
    cases h
  | ok e =>
    rcases compute_status_cases he h with ⟨hK, hstatus, -⟩ | ⟨-, -, e1, he1, hstatus⟩
    · constructor
      · intro hcon
        rw [hcon] at hstatus
        cases hstatus
      · intro hF
        exact absurd hK.2 (not_le.mpr hF.2)
    · rw [he0] at he1
      cases he1
      constructor
      · intro hcon
        rw [hcon] at hstatus
        by_contra hF
        rw [if_neg hF] at hstatus
        split_ifs at hstatus
      · intro hF
        rw [if_pos hF] at hstatus
        exact hstatus

/-- Witness of C13: the trial iterate of the small instance, with residual 1 and combined
error `1e-6 <= tolerance` at penalty parameter 0, is a `FJ_POINT`. -/
theorem compute_status_FJ_POINT_witness :
    compute_error toy_external toy_problem toy_trial toy_trial.bound_multipliers
      toy_trial.constraint_multipliers 0 = .ok (1 / 10 ^ 6) ∧
    toy_strategy.compute_status toy_external toy_problem toy_trial 1
      = .ok (OptimalityStatus.FJ_POINT, toy_trial) ∧
    (OptimalityStatus.FJ_POINT = OptimalityStatus.FJ_POINT ↔
      (1 : ℚ) / 10 ^ 6 ≤ toy_strategy.tolerance ∧
        toy_trial.residual > toy_strategy.tolerance * toy_problem.number_constraints) :=
  ⟨toy_error toy_trial 0 (Or.inr rfl) rfl, toy_compute_status_FJ,
    compute_status_FJ_POINT toy_strategy toy_external toy_problem toy_trial toy_trial 1
      (1 / 10 ^ 6) OptimalityStatus.FJ_POINT (toy_error toy_trial 0 (Or.inr rfl) rfl)
      toy_compute_status_FJ⟩

/-- C14: with `e` and `e0` the combined errors at the current penalty parameter and at
penalty parameter 0, a `compute_status` that returns returns a small-step status if and
only if neither the `KKT_POINT` test nor the `FJ_POINT` test holds and
`step_norm <= tolerance / 100`; the status is then `FEASIBLE_SMALL_STEP` when
`residual <= tolerance * number_constraints` and `INFEASIBLE_SMALL_STEP` otherwise; when
none of the three tests holds the status is `NOT_OPTIMAL`. -/
theorem compute_status_small_step (S : PenaltyStrategy) (ext : External) (problem : Problem)
    (iterate iterate1 : Iterate) (step_norm e e0 : ℚ) (status : OptimalityStatus)
    (he : compute_error ext problem iterate iterate.bound_multipliers
      iterate.constraint_multipliers S.penalty_parameter = .ok e)
    (he0 : compute_error ext problem iterate iterate.bound_multipliers
      iterate.constraint_multipliers 0 = .ok e0)
    (h : S.compute_status ext problem iterate step_norm = .ok (status, iterate1)) :
    ((status = OptimalityStatus.FEASIBLE_SMALL_STEP ∨
        status = OptimalityStatus.INFEASIBLE_SMALL_STEP) ↔
      ¬ (e ≤ S.tolerance ∧ iterate.residual ≤ S.tolerance * problem.number_constraints) ∧
      ¬ (e0 ≤ S.tolerance ∧ iterate.residual > S.tolerance * problem.number_constraints) ∧
      step_norm ≤ S.tolerance / 100) ∧
    (status = OptimalityStatus.FEASIBLE_SMALL_STEP →
      iterate.residual ≤ S.tolerance * problem.number_constraints) ∧
    (status = OptimalityStatus.INFEASIBLE_SMALL_STEP →
      ¬ iterate.residual ≤ S.tolerance * problem.number_constraints) ∧
    (status = OptimalityStatus.NOT_OPTIMAL ↔
      ¬ (e ≤ S.tolerance ∧ iterate.residual ≤ S.tolerance * problem.number_constraints) ∧
      ¬ (e0 ≤ S.tolerance ∧ iterate.residual > S.tolerance * problem.number_constraints) ∧
      ¬ step_norm ≤ S.tolerance / 100) := by
  rcases compute_status_cases he h with ⟨hK, hstatus, -⟩ | ⟨hK, -, e1, he1, hstatus⟩
  · subst hstatus
    refine ⟨⟨fun hcon => ?_, fun hcon => absurd hK hcon.1⟩, fun hcon => ?_, fun hcon => ?_,
      ⟨fun hcon => ?_, fun hcon => absurd hK hcon.1⟩⟩
    · rcases hcon with hcon | hcon <;> cases hcon
    · cases hcon
    · cases hcon
    · cases hcon
  · rw [he0] at he1
    cases he1
    by_cases hF : e0 ≤ S.tolerance ∧
        iterate.residual > S.tolerance * problem.number_constraints
    · rw [if_pos hF] at hstatus
      subst hstatus
      refine ⟨⟨fun hcon => ?_, fun hcon => absurd hF hcon.2.1⟩, fun hcon => ?_, fun hcon => ?_,
        ⟨fun hcon => ?_, fun hcon => absurd hF hcon.2.1⟩⟩
      · rcases hcon with hcon | hcon <;> cases hcon
      · cases hcon
      · cases hcon
      · cases hcon
    · rw [if_neg hF] at hstatus
      by_cases hs : step_norm ≤ S.tolerance / 100
      · rw [if_pos hs] at hstatus
        by_cases hr : iterate.residual ≤ S.tolerance * problem.number_constraints
        · rw [if_pos hr] at hstatus
          subst hstatus
          refine ⟨⟨fun _ => ⟨hK, hF, hs⟩, fun _ => Or.inl rfl⟩, fun _ => hr, fun hcon => ?_,
            ⟨fun hcon => ?_, fun hcon => absurd hs hcon.2.2⟩⟩
          · cases hcon
          · cases hcon
        · rw [if_neg hr] at hstatus
          subst hstatus
          refine ⟨⟨fun _ => ⟨hK, hF, hs⟩, fun _ => Or.inr rfl⟩, fun hcon => ?_, fun _ => hr,
            ⟨fun hcon => ?_, fun hcon => absurd hs hcon.2.2⟩⟩
          · cases hcon
          · cases hcon
      · rw [if_neg hs] at hstatus
        subst hstatus
        refine ⟨⟨fun hcon => ?_, fun hcon => absurd hcon.2.2 hs⟩, fun hcon => ?_, fun hcon => ?_,
          ⟨fun _ => ⟨hK, hF, hs⟩, fun _ => rfl⟩⟩
        · rcases hcon with hcon | hcon <;> cases hcon
        · cases hcon
        · cases hcon

/-- Witness of C14: with the tolerance `1e-7`, the trial iterate of the small instance
(combined error `1e-6`, residual 1) reached by a step of norm 0 is an
`INFEASIBLE_SMALL_STEP`. -/
theorem compute_status_small_step_witness :
    compute_error toy_external toy_problem toy_trial toy_trial.bound_multipliers
      toy_trial.constraint_multipliers toy_tight_strategy.penalty_parameter
        = .ok (1 / 10 ^ 6) ∧
    compute_error toy_external toy_problem toy_trial toy_trial.bound_multipliers
      toy_trial.constraint_multipliers 0 = .ok (1 / 10 ^ 6) ∧
    toy_tight_strategy.compute_status toy_external toy_problem toy_trial 0
      = .ok (OptimalityStatus.INFEASIBLE_SMALL_STEP, toy_trial) ∧
    ((OptimalityStatus.INFEASIBLE_SMALL_STEP = OptimalityStatus.FEASIBLE_SMALL_STEP ∨
        OptimalityStatus.INFEASIBLE_SMALL_STEP = OptimalityStatus.INFEASIBLE_SMALL_STEP) ↔
      ¬ ((1 : ℚ) / 10 ^ 6 ≤ toy_tight_strategy.tolerance ∧
        toy_trial.residual ≤ toy_tight_strategy.tolerance * toy_problem.number_constraints) ∧
      ¬ ((1 : ℚ) / 10 ^ 6 ≤ toy_tight_strategy.tolerance ∧
        toy_trial.residual > toy_tight_strategy.tolerance * toy_problem.number_constraints) ∧
      (0 : ℚ) ≤ toy_tight_strategy.tolerance / 100) ∧
    (OptimalityStatus.INFEASIBLE_SMALL_STEP = OptimalityStatus.FEASIBLE_SMALL_STEP →
      toy_trial.residual ≤ toy_tight_strategy.tolerance * toy_problem.number_constraints) ∧
    (OptimalityStatus.INFEASIBLE_SMALL_STEP = OptimalityStatus.INFEASIBLE_SMALL_STEP →
      ¬ toy_trial.residual ≤ toy_tight_strategy.tolerance * toy_problem.number_constraints) ∧
    (OptimalityStatus.INFEASIBLE_SMALL_STEP = OptimalityStatus.NOT_OPTIMAL ↔
      ¬ ((1 : ℚ) / 10 ^ 6 ≤ toy_tight_strategy.tolerance ∧
        toy_trial.residual ≤ toy_tight_strategy.tolerance * toy_problem.number_constraints) ∧
      ¬ ((1 : ℚ) / 10 ^ 6 ≤ toy_tight_strategy.tolerance ∧
        toy_trial.residual > toy_tight_strategy.tolerance * toy_problem.number_constraints) ∧
      ¬ (0 : ℚ) ≤ toy_tight_strategy.tolerance / 100) :=
  ⟨toy_error toy_trial _ (Or.inr rfl) rfl, toy_error toy_trial 0 (Or.inr rfl) rfl,
    toy_compute_status_small,
    compute_status_small_step toy_tight_strategy toy_external toy_problem toy_trial toy_trial 0
      (1 / 10 ^ 6) (1 / 10 ^ 6) OptimalityStatus.INFEASIBLE_SMALL_STEP
      (toy_error toy_trial _ (Or.inr rfl) rfl) (toy_error toy_trial 0 (Or.inr rfl) rfl)
      toy_compute_status_small⟩

/-- C15: on vectors that hold a component for every variable and every constraint,
`compute_error(x, z, lambda, rho)` returns the 1-norm of the Lagrangian gradient plus the
complementarity sum `combined_error`: `bound_complementarity` for every variable and
`constraint_complementarity` for every constraint.  A variable at a bound, and a zero
multiplier of a variable or of a satisfied constraint, contribute nothing. -/
theorem compute_error_formula (ext : External) (problem : Problem) (iterate : Iterate)
    (z lambda : List ℚ) (rho : ℚ)
    (hlb : problem.number_variables ≤ problem.variable_lb.length)
    (hub : problem.number_variables ≤ problem.variable_ub.length)
    (hx : problem.number_variables ≤ iterate.x.length)
    (hz : problem.number_variables ≤ z.length)
    (hcl : problem.number_constraints ≤ problem.constraint_lb.length)
    (hcu : problem.number_constraints ≤ problem.constraint_ub.length)
    (hc : problem.number_constraints ≤ iterate.constraints.length)
    (hl : problem.number_constraints ≤ lambda.length) :
    compute_error ext problem iterate z lambda rho
      = .ok (((ext.compute_lagrangian_gradient problem iterate rho z lambda).map
            (fun g => |g|)).sum
          + ((List.range problem.number_variables).map (fun i =>
              bound_complementarity (problem.variable_lb.getD i 0) (iterate.x.getD i 0)
                (problem.variable_ub.getD i 0) (z.getD i 0))).sum
          + ((List.range problem.number_constraints).map (fun j =>
              constraint_complementarity (problem.constraint_lb.getD j 0)
                (iterate.constraints.getD j 0) (problem.constraint_ub.getD j 0)
                (lambda.getD j 0))).sum) ∧
    (∀ lb ub zi : ℚ, bound_complementarity lb lb ub zi = 0 ∧
      bound_complementarity lb ub ub zi = 0) ∧
    (∀ lb xi ub : ℚ, bound_complementarity lb xi ub 0 = 0) ∧
    (∀ lb cj ub : ℚ, lb ≤ cj → cj ≤ ub → constraint_complementarity lb cj ub 0 = 0) := by
  refine ⟨compute_error_ok ext problem iterate z lambda rho hlb hub hx hz hcl hcu hc hl,
    ?_, ?_, ?_⟩
  · intro lb ub zi
    simp [bound_complementarity]
  · intro lb xi ub
    simp [bound_complementarity]
  · intro lb cj ub h1 h2
    simp [constraint_complementarity, not_lt.mpr h1, not_lt.mpr h2]

/-- Witness of C15: the small instance, one variable and one constraint. -/
theorem compute_error_formula_witness :
    toy_problem.number_variables ≤ toy_problem.variable_lb.length ∧
    toy_problem.number_variables ≤ toy_problem.variable_ub.length ∧
    toy_problem.number_variables ≤ toy_iterate.x.length ∧
    toy_problem.number_variables ≤ [(0 : ℚ)].length ∧
    toy_problem.number_constraints ≤ toy_problem.constraint_lb.length ∧
    toy_problem.number_constraints ≤ toy_problem.constraint_ub.length ∧
    toy_problem.number_constraints ≤ toy_iterate.constraints.length ∧
    toy_problem.number_constraints ≤ [(1 : ℚ)].length ∧
    compute_error toy_external toy_problem toy_iterate [0] [1] 1
      = .ok (((toy_external.compute_lagrangian_gradient toy_problem toy_iterate 1 [0] [1]).map
            (fun g => |g|)).sum
          + ((List.range toy_problem.number_variables).map (fun i =>
              bound_complementarity (toy_problem.variable_lb.getD i 0) (toy_iterate.x.getD i 0)
                (toy_problem.variable_ub.getD i 0) ([(0 : ℚ)].getD i 0))).sum
          + ((List.range toy_problem.number_constraints).map (fun j =>
              constraint_complementarity (toy_problem.constraint_lb.getD j 0)
                (toy_iterate.constraints.getD j 0) (toy_problem.constraint_ub.getD j 0)
                ([(1 : ℚ)].getD j 0))).sum) ∧
    (∀ lb ub zi : ℚ, bound_complementarity lb lb ub zi = 0 ∧
      bound_complementarity lb ub ub zi = 0) ∧
    (∀ lb xi ub : ℚ, bound_complementarity lb xi ub 0 = 0) ∧
    (∀ lb cj ub : ℚ, lb ≤ cj → cj ≤ ub → constraint_complementarity lb cj ub 0 = 0) :=
  ⟨le_refl 1, le_refl 1, le_refl 1, le_refl 1, le_refl 1, le_refl 1, le_refl 1, le_refl 1,
    compute_error_formula toy_external toy_problem toy_iterate [0] [1] 1 (le_refl 1) (le_refl 1)
      (le_refl 1) (le_refl 1) (le_refl 1) (le_refl 1) (le_refl 1) (le_refl 1)⟩

/-- C16: on a solution that holds the elastic components, `compute_linear_model` returns
their sum, the sum of `solution.x[number_variables + k]` for
`k < number_additional_variables`; when `rho > 0` and this sum is 0 for the direction
solved at `rho`, `compute_step` returns that direction, leaves the strategy (hence `rho`)
unchanged and has solved this one subproblem only. -/
theorem linear_model_zero_accepted (S : PenaltyStrategy) (sub : Subproblem σ) (ext : External)
    (fuel : Nat) (solver : σ) (problem : Problem) (current_iterate : Iterate) (radius : ℚ)
    (hlen : problem.number_variables + S.penalty_dimensions.number_additional_variables
      ≤ (sub.compute_l1_penalty_step solver problem current_iterate radius S.penalty_parameter
          S.penalty_dimensions).1.x.length)
    (hrho : 0 < S.penalty_parameter)
    (hzero : ((List.range S.penalty_dimensions.number_additional_variables).map
      (fun k => (sub.compute_l1_penalty_step solver problem current_iterate radius
        S.penalty_parameter S.penalty_dimensions).1.x.getD (problem.number_variables + k) 0)).sum
      = 0) :
    (∀ solution : LocalSolution,
      problem.number_variables + S.penalty_dimensions.number_additional_variables
        ≤ solution.x.length →
      S.compute_linear_model problem solution
        = .ok (((List.range S.penalty_dimensions.number_additional_variables).map
            (fun k => solution.x.getD (problem.number_variables + k) 0)).sum)) ∧
    S.compute_step sub ext fuel solver problem current_iterate radius
      = .ok { solution := (sub.compute_l1_penalty_step solver problem current_iterate radius
                S.penalty_parameter S.penalty_dimensions).1
              strategy := S
              solver := (sub.compute_l1_penalty_step solver problem current_iterate radius
                S.penalty_parameter S.penalty_dimensions).2
              solves := [S.penalty_parameter] } := by
  refine ⟨fun solution hsol => compute_linear_model_ok S problem solution hsol, ?_⟩
  have hm := compute_linear_model_ok S problem _ hlen
  rw [hzero] at hm
  unfold PenaltyStrategy.compute_step
  simp only [hrho, if_true, hm, ne_eq, not_true_eq_false, if_false]

/-- Witness of C16: on the small instance, a subproblem whose solution has the elastic
component 0. -/
theorem linear_model_zero_accepted_witness :
    toy_problem.number_variables + toy_strategy.penalty_dimensions.number_additional_variables
      ≤ (toy_feasible_subproblem.compute_l1_penalty_step () toy_problem toy_iterate 1
          toy_strategy.penalty_parameter toy_strategy.penalty_dimensions).1.x.length ∧
    0 < toy_strategy.penalty_parameter ∧
    ((List.range toy_strategy.penalty_dimensions.number_additional_variables).map
      (fun k => (toy_feasible_subproblem.compute_l1_penalty_step () toy_problem toy_iterate 1
        toy_strategy.penalty_parameter toy_strategy.penalty_dimensions).1.x.getD
          (toy_problem.number_variables + k) 0)).sum = 0 ∧
    (∀ solution : LocalSolution,
      toy_problem.number_variables + toy_strategy.penalty_dimensions.number_additional_variables
        ≤ solution.x.length →
      toy_strategy.compute_linear_model toy_problem solution
        = .ok (((List.range toy_strategy.penalty_dimensions.number_additional_variables).map
            (fun k => solution.x.getD (toy_problem.number_variables + k) 0)).sum)) ∧
    toy_strategy.compute_step toy_feasible_subproblem toy_external 34 () toy_problem toy_iterate 1
      = .ok { solution := (toy_feasible_subproblem.compute_l1_penalty_step () toy_problem
                toy_iterate 1 toy_strategy.penalty_parameter toy_strategy.penalty_dimensions).1
              strategy := toy_strategy
              solver := (toy_feasible_subproblem.compute_l1_penalty_step () toy_problem
                toy_iterate 1 toy_strategy.penalty_parameter toy_strategy.penalty_dimensions).2
              solves := [toy_strategy.penalty_parameter] } :=
  ⟨le_refl 2, by norm_num [toy_strategy, PenaltyStrategy.create],
    by simp [toy_strategy, toy_feasible_subproblem, toy_feasible_solution, toy_problem,
      List.range_succ],
    linear_model_zero_accepted toy_strategy toy_feasible_subproblem toy_external 34 () toy_problem
      toy_iterate 1 (le_refl 2) (by norm_num [toy_strategy, PenaltyStrategy.create])
      (by simp [toy_strategy, toy_feasible_subproblem, toy_feasible_solution, toy_problem,
      List.range_succ])⟩

/-- C17: in `compute_step` with `rho > 0` and a nonzero linear model of the first
direction, if the ideal error (the combined error at penalty parameter 0 with the
multipliers recovered from the direction solved at penalty parameter 0) is exactly 0, the
call returns with `rho = 0` and the ideal direction, after these two subproblems. -/
theorem zero_ideal_error (S : PenaltyStrategy) (sub : Subproblem σ) (ext : External)
    (fuel : Nat) (solver : σ) (problem : Problem) (current_iterate : Iterate) (radius : ℚ)
    (linear_model : ℚ) (bound_multipliers constraint_multipliers : List ℚ)
    (hrho : 0 < S.penalty_parameter)
    (hmodel : S.compute_linear_model problem
      (sub.compute_l1_penalty_step solver problem current_iterate radius S.penalty_parameter
        S.penalty_dimensions).1 = .ok linear_model)
    (hnonzero : linear_model ≠ 0)
    (hbound : compute_bound_multipliers problem
      (sub.compute_l1_penalty_step
        (sub.compute_l1_penalty_step solver problem current_iterate radius S.penalty_parameter
          S.penalty_dimensions).2 problem current_iterate radius 0 S.penalty_dimensions).1
      = .ok bound_multipliers)
    (hconstraint : compute_constraint_multipliers problem
      (sub.compute_l1_penalty_step
        (sub.compute_l1_penalty_step solver problem current_iterate radius S.penalty_parameter
          S.penalty_dimensions).2 problem current_iterate radius 0 S.penalty_dimensions).1
      = .ok constraint_multipliers)
    (hideal : compute_error ext problem current_iterate bound_multipliers
      constraint_multipliers 0 = .ok 0) :
    S.compute_step sub ext fuel solver problem current_iterate radius
      = .ok { solution := (sub.compute_l1_penalty_step
                (sub.compute_l1_penalty_step solver problem current_iterate radius
                  S.penalty_parameter S.penalty_dimensions).2 problem current_iterate radius 0
                S.penalty_dimensions).1
              strategy := { S with penalty_parameter := 0 }
              solver := (sub.compute_l1_penalty_step
                (sub.compute_l1_penalty_step solver problem current_iterate radius
                  S.penalty_parameter S.penalty_dimensions).2 problem current_iterate radius 0
                S.penalty_dimensions).2
              solves := [S.penalty_parameter, 0] } := by
  unfold PenaltyStrategy.compute_step
  simp only [hrho, if_true, hmodel, ne_eq, hnonzero, not_false_eq_true, hbound, hconstraint,
    hideal, PenaltyStrategy.update_penalty_parameter, PenaltyStrategy.recompute_solution]

/-- Witness of C17: the small instance with a Lagrangian gradient equal to 0. -/
theorem zero_ideal_error_witness :
    0 < toy_strategy.penalty_parameter ∧
    toy_strategy.compute_linear_model toy_problem (toy_solution (1 / 2)) = .ok (1 / 2) ∧
    (1 : ℚ) / 2 ≠ 0 ∧
    compute_bound_multipliers toy_problem (toy_solution (1 / 2)) = .ok [0] ∧
    compute_constraint_multipliers toy_problem (toy_solution (1 / 2)) = .ok [1] ∧
    compute_error toy_stationary_external toy_problem toy_iterate [0] [1] 0 = .ok 0 ∧
    toy_strategy.compute_step toy_subproblem toy_stationary_external 34 () toy_problem
        toy_iterate 1
      = .ok { solution := toy_solution (1 / 2)
              strategy := { toy_strategy with penalty_parameter := 0 }
              solver := ()
              solves := [toy_strategy.penalty_parameter, 0] } :=
  ⟨by norm_num [toy_strategy, PenaltyStrategy.create], toy_linear_model _, by norm_num,
    toy_bound_multipliers _, toy_constraint_multipliers _, toy_stationary_error,
    zero_ideal_error toy_strategy toy_subproblem toy_stationary_external 34 () toy_problem
      toy_iterate 1 (1 / 2) [0] [1] (by norm_num [toy_strategy, PenaltyStrategy.create])
      (toy_linear_model _) (by norm_num) (toy_bound_multipliers _)
      (toy_constraint_multipliers _) toy_stationary_error⟩

end PenaltyStatusClaims

/-! ## The trial iterate and the current iterate -/

section PenaltyTrialClaims

variable {σ : Type}

/-- C11, as stated, fails: on the small instance with the penalty parameter `1/2`, the
current constraint multiplier 3 and a direction with the constraint multiplier 1,
`check_step` with the step length 1 builds the trial iterate with `x = 0 + 1 * 1` and the
constraint multiplier `3 + 1 * 1 = 4`, accepts it and finds a `KKT_POINT`; the current
iterate that it leaves has the constraint multiplier `4 / (1/2) = 8`, not 4. -/
theorem check_step_rescaled_counterexample :
    toy_half_strategy.penalty_parameter = 1 / 2 ∧
    toy_dual_iterate.x = [0] ∧ toy_dual_iterate.constraint_multipliers = [3] ∧
    compute_constraint_multipliers toy_problem (toy_solution 1) = .ok [1] ∧
    toy_half_strategy.trial_iterate toy_subproblem toy_active_external () toy_problem
        toy_dual_iterate (toy_solution 1) 1
      = .ok { d := [1], iterate := toy_active_trial, solver := () } ∧
    toy_active_trial.x = [0 + 1 * 1] ∧
    toy_active_trial.constraint_multipliers = [3 + 1 * 1] ∧
    toy_half_strategy.check_step toy_subproblem toy_active_external () toy_problem
        toy_dual_iterate (toy_solution 1) 1
      = .ok toy_rescaled_result ∧
    toy_rescaled_result.accept = true ∧
    toy_rescaled_result.current_iterate.status = OptimalityStatus.KKT_POINT ∧
    toy_rescaled_result.current_iterate.constraint_multipliers = [8] ∧
    toy_rescaled_result.current_iterate.constraint_multipliers
      ≠ toy_active_trial.constraint_multipliers := by
  refine ⟨rfl, rfl, rfl, toy_constraint_multipliers _, toy_active_trial_iterate, ?_, ?_,
    toy_rescaled_check_step, rfl, rfl, rfl, ?_⟩
  · norm_num [toy_active_trial]
  · norm_num [toy_active_trial]
  · norm_num [toy_rescaled_result, toy_active_trial]

/-- C11, amended: a `check_step` that returns has constructed an iterate with the primals
`x + alpha * d`, `d` being made of the first `number_variables` components of the
direction, the bound multipliers of the direction and the constraint multipliers
`lambda + alpha * lambda_d`, `lambda_d` being the constraint multipliers of the direction;
the trial iterate is this iterate once `compute_measures` has been applied to it.  If
`check_step` returns true, `current_iterate` is the trial iterate with `KKTerror`,
`complementarity_error` and `status` set and, when the status is `KKT_POINT` and
`rho > 0`, with its first `number_variables` bound multipliers and its first
`number_constraints` constraint multipliers divided by `rho`; its multipliers are those of
the trial iterate otherwise.  If it returns false, `current_iterate` is unchanged. -/
theorem check_step_current_iterate (S : PenaltyStrategy) (sub : Subproblem σ)
    (ext : External) (solver : σ) (problem : Problem) (current_iterate : Iterate)
    (solution : LocalSolution) (step_length : ℚ) (r : CheckResult σ)
    (h : S.check_step sub ext solver problem current_iterate solution step_length = .ok r) :
    ∃ (trial : Trial σ) (x_trial bound_multipliers multipliers trial_multipliers : List ℚ),
      S.trial_iterate sub ext solver problem current_iterate solution step_length = .ok trial ∧
      compute_bound_multipliers problem solution = .ok bound_multipliers ∧
      compute_constraint_multipliers problem solution = .ok multipliers ∧
      (x_trial.length = current_iterate.x.length ∧
        ∀ (i : Nat) (xi : ℚ), current_iterate.x[i]? = some xi →
          ∃ di, i < problem.number_variables ∧ solution.x[i]? = some di ∧
            x_trial[i]? = some (xi + step_length * di)) ∧
      (trial_multipliers.length = current_iterate.constraint_multipliers.length ∧
        ∀ (j : Nat) (lj : ℚ), current_iterate.constraint_multipliers[j]? = some lj →
          ∃ dj, multipliers[j]? = some dj ∧
            trial_multipliers[j]? = some (lj + step_length * dj)) ∧
      trial.iterate = (sub.compute_measures solver problem
        { ext.new_iterate problem x_trial bound_multipliers trial_multipliers with
          x := x_trial
          bound_multipliers := bound_multipliers
          constraint_multipliers := trial_multipliers }).1 ∧
      (r.accept = true →
        ∃ status rescaled,
          S.compute_status ext problem
            { trial.iterate with
              KKTerror := ext.compute_KKT_error problem trial.iterate S.penalty_parameter
              complementarity_error := ext.compute_complementarity_error problem
                { trial.iterate with
                  KKTerror := ext.compute_KKT_error problem trial.iterate S.penalty_parameter } }
            (step_length * norm_inf trial.d) = .ok (status, rescaled) ∧
          r.current_iterate =
            { trial.iterate with
              bound_multipliers :=
                if status = OptimalityStatus.KKT_POINT ∧ 0 < S.penalty_parameter then
                  (trial.iterate.bound_multipliers.take problem.number_variables).map
                      (fun a => a / S.penalty_parameter)
                    ++ trial.iterate.bound_multipliers.drop problem.number_variables
                else trial.iterate.bound_multipliers
              constraint_multipliers :=
                if status = OptimalityStatus.KKT_POINT ∧ 0 < S.penalty_parameter then
                  (trial.iterate.constraint_multipliers.take problem.number_constraints).map
                      (fun a => a / S.penalty_parameter)
                    ++ trial.iterate.constraint_multipliers.drop problem.number_constraints
                else trial.iterate.constraint_multipliers
              KKTerror := ext.compute_KKT_error problem trial.iterate S.penalty_parameter
              complementarity_error := ext.compute_complementarity_error problem
                { trial.iterate with
                  KKTerror := ext.compute_KKT_error problem trial.iterate S.penalty_parameter }
              status := status }) ∧
      (r.accept = false → r.current_iterate = current_iterate) := by
  obtain ⟨trial, htrial, -⟩ := check_step_ok h
  obtain ⟨x_trial, bm, cm, tcm, ⟨hdlen, hd⟩, hx, hbm, hcm, htcm, hit⟩ := trial_iterate_ok htrial
  obtain ⟨hxlen, hxval⟩ := add_vectors_value_ok hx
  obtain ⟨hclen, hcval⟩ := add_vectors_value_ok htcm
  obtain ⟨hacc, hrej⟩ := check_step_frame htrial h
  refine ⟨trial, x_trial, bm, cm, tcm, htrial, hbm, hcm, ⟨hxlen, ?_⟩, ⟨hclen, hcval⟩, hit, ?_,
    hrej⟩
  · intro i xi hxi
    obtain ⟨di, hdi, hz⟩ := hxval i xi hxi
    have hi : i < problem.number_variables := by
      by_contra hcon
      rw [List.getElem?_eq_none (by omega)] at hdi
      cases hdi
    obtain ⟨v, hv, hdv⟩ := hd i hi
    rw [hdv] at hdi
    cases hdi
    exact ⟨di, hi, hv, hz⟩
  · intro hr
    obtain ⟨status, rescaled, hstatus, hcur⟩ := hacc hr
    refine ⟨status, rescaled, hstatus, ?_⟩
    by_cases hK : status = OptimalityStatus.KKT_POINT ∧ 0 < S.penalty_parameter
    · rw [hcur, compute_status_rescaled hstatus hK.1 hK.2]
      simp only [hK, and_self, if_true]
    · rw [hcur, (compute_status_frame hstatus).2.2.2.2 hK]
      simp only [hK, if_false]

/-- Witness of C11, amended: the accepted full step of the small instance with the penalty
parameter `1/2`, whose trial iterate is a `KKT_POINT`. -/
theorem check_step_current_iterate_witness :
    toy_half_strategy.check_step toy_subproblem toy_active_external () toy_problem
      toy_dual_iterate (toy_solution 1) 1 = .ok toy_rescaled_result ∧
    ∃ (trial : Trial Unit) (x_trial bound_multipliers multipliers trial_multipliers : List ℚ),
      toy_half_strategy.trial_iterate toy_subproblem toy_active_external () toy_problem
        toy_dual_iterate (toy_solution 1) 1 = .ok trial ∧
      compute_bound_multipliers toy_problem (toy_solution 1) = .ok bound_multipliers ∧
      compute_constraint_multipliers toy_problem (toy_solution 1) = .ok multipliers ∧
      (x_trial.length = toy_dual_iterate.x.length ∧
        ∀ (i : Nat) (xi : ℚ), toy_dual_iterate.x[i]? = some xi →
          ∃ di, i < toy_problem.number_variables ∧ (toy_solution 1).x[i]? = some di ∧
            x_trial[i]? = some (xi + 1 * di)) ∧
      (trial_multipliers.length = toy_dual_iterate.constraint_multipliers.length ∧
        ∀ (j : Nat) (lj : ℚ), toy_dual_iterate.constraint_multipliers[j]? = some lj →
          ∃ dj, multipliers[j]? = some dj ∧
            trial_multipliers[j]? = some (lj + 1 * dj)) ∧
      trial.iterate = (toy_subproblem.compute_measures () toy_problem
        { toy_active_external.new_iterate toy_problem x_trial bound_multipliers
            trial_multipliers with
          x := x_trial
          bound_multipliers := bound_multipliers
          constraint_multipliers := trial_multipliers }).1 ∧
      (toy_rescaled_result.accept = true →
        ∃ status rescaled,
          toy_half_strategy.compute_status toy_active_external toy_problem
            { trial.iterate with
              KKTerror := toy_active_external.compute_KKT_error toy_problem trial.iterate
                toy_half_strategy.penalty_parameter
              complementarity_error := toy_active_external.compute_complementarity_error
                toy_problem
                { trial.iterate with
                  KKTerror := toy_active_external.compute_KKT_error toy_problem trial.iterate
                    toy_half_strategy.penalty_parameter } }
            (1 * norm_inf trial.d) = .ok (status, rescaled) ∧
          toy_rescaled_result.current_iterate =
            { trial.iterate with
              bound_multipliers :=
                if status = OptimalityStatus.KKT_POINT
                    ∧ 0 < toy_half_strategy.penalty_parameter then
                  (trial.iterate.bound_multipliers.take toy_problem.number_variables).map
                      (fun a => a / toy_half_strategy.penalty_parameter)
                    ++ trial.iterate.bound_multipliers.drop toy_problem.number_variables
                else trial.iterate.bound_multipliers
              constraint_multipliers :=
                if status = OptimalityStatus.KKT_POINT
                    ∧ 0 < toy_half_strategy.penalty_parameter then
                  (trial.iterate.constraint_multipliers.take
                        toy_problem.number_constraints).map
                      (fun a => a / toy_half_strategy.penalty_parameter)
                    ++ trial.iterate.constraint_multipliers.drop
                        toy_problem.number_constraints
                else trial.iterate.constraint_multipliers
              KKTerror := toy_active_external.compute_KKT_error toy_problem trial.iterate
                toy_half_strategy.penalty_parameter
              complementarity_error := toy_active_external.compute_complementarity_error
                toy_problem
                { trial.iterate with
                  KKTerror := toy_active_external.compute_KKT_error toy_problem trial.iterate
                    toy_half_strategy.penalty_parameter }
              status := status }) ∧
      (toy_rescaled_result.accept = false →
        toy_rescaled_result.current_iterate = toy_dual_iterate) :=
  ⟨toy_rescaled_check_step,
    check_step_current_iterate toy_half_strategy toy_subproblem toy_active_external ()
      toy_problem toy_dual_iterate (toy_solution 1) 1 toy_rescaled_result
      toy_rescaled_check_step⟩

end PenaltyTrialClaims

/-! ## Claims on the shrink loop of `compute_step` -/

section PenaltyLoopClaims

variable {σ : Type}

/-- C18, as stated, fails: on the small instance with `toy_sticky_subproblem` (residual 1,
ideal direction `toy_solution (1/2)` with linear model `m* = 1/2` and objective `1/2`), the
loop entered from the penalty parameter 1 ends after two passes at the penalty parameter
`1/4`, which is not floored to 0, and the direction solved there, `toy_late_solution`, has
the linear model 1, for which Condition 1 does not hold: `1 - 1 < 0.1 * (1 - 1/2)`. -/
theorem shrink_loop_condition1_counterexample :
    (toy_sticky_subproblem.compute_l1_penalty_step () toy_problem toy_iterate 1 0
      toy_strategy.penalty_dimensions).1 = toy_solution (1 / 2) ∧
    toy_strategy.compute_linear_model toy_problem (toy_solution (1 / 2)) = .ok (1 / 2) ∧
    toy_strategy.shrink_loop toy_sticky_subproblem toy_problem toy_iterate 1
        (toy_solution (1 / 2)) (1 / 2) 34 toy_loop_start
      = .ok toy_loop_end ∧
    toy_loop_end.penalty_parameter = 1 / 4 ∧
    toy_loop_end.solution
      = (toy_sticky_subproblem.compute_l1_penalty_step () toy_problem toy_iterate 1
          toy_loop_end.penalty_parameter toy_strategy.penalty_dimensions).1 ∧
    toy_strategy.compute_linear_model toy_problem toy_loop_end.solution = .ok 1 ∧
    ¬ Condition1 toy_iterate.residual 1 (1 / 2) ∧
    Condition2 toy_iterate.residual toy_loop_end.solution.objective
      (toy_solution (1 / 2)).objective := by
  refine ⟨?_, toy_linear_model _, toy_shrink_loop, rfl, ?_, toy_late_linear_model, ?_, ?_⟩
  · simp [toy_sticky_subproblem]
  · have h : ¬ ((1 : ℚ) / 4 = 0) := by norm_num
    simp only [toy_sticky_subproblem, toy_loop_end, h, if_false, if_true]
  · unfold Condition1
    norm_num [toy_iterate]
  · unfold Condition2
    norm_num [toy_iterate, toy_loop_end, toy_late_solution, toy_solution]

/-- C18, amended: when the shrink loop of `compute_step` (entered with both flags false,
`tau = 0.5`, `epsilon1 = epsilon2 = 0.1`, a nonnegative residual and a nonnegative penalty
parameter) ends at a penalty parameter that is not 0, the final direction is the one
solved at the final penalty parameter and satisfies Condition 2; Condition 1 holds for the
direction solved at the penalty parameter `rho1` of one of the passes of the loop, the
final one or an earlier one (`rho1` is not smaller than the final penalty parameter). -/
theorem shrink_loop_final_conditions (S : PenaltyStrategy) (sub : Subproblem σ)
    (problem : Problem) (current_iterate : Iterate) (radius : ℚ)
    (ideal_solution : LocalSolution) (ideal_linear_model : ℚ) (fuel : Nat)
    (st st1 : LoopState σ)
    (htau : S.tau = 1 / 2) (heps1 : S.epsilon1 = 1 / 10) (heps2 : S.epsilon2 = 1 / 10)
    (hres : 0 ≤ current_iterate.residual) (h0 : 0 ≤ st.penalty_parameter)
    (hc1 : st.condition1 = false) (hc2 : st.condition2 = false)
    (h : S.shrink_loop sub problem current_iterate radius ideal_solution ideal_linear_model
      fuel st = .ok st1)
    (hne : st1.penalty_parameter ≠ 0) :
    Condition2 current_iterate.residual st1.solution.objective ideal_solution.objective ∧
    (∃ s, st1.solution = (sub.compute_l1_penalty_step s problem current_iterate radius
      st1.penalty_parameter S.penalty_dimensions).1) ∧
    (∃ s rho1 linear_model, rho1 ∈ st1.solves.drop st.solves.length ∧
      st1.penalty_parameter ≤ rho1 ∧
      S.compute_linear_model problem
        (sub.compute_l1_penalty_step s problem current_iterate radius rho1
          S.penalty_dimensions).1 = .ok linear_model ∧
      Condition1 current_iterate.residual linear_model ideal_linear_model) := by
  obtain ⟨-, hP, hQ⟩ := shrink_loop_conditions htau fuel st st1 h0
    (Nat.le_refl st.solves.length)
    (by intro hc; rw [hc1] at hc; cases hc) (by intro hc; rw [hc2] at hc; cases hc) h
  obtain ⟨hcond1, hC2, hs⟩ := hQ hne
  obtain ⟨s, rho1, m1, hmem, hle, hm, htest⟩ := hP hcond1
  refine ⟨?_, hs, s, rho1, m1, hmem, hle, hm, condition1_of_test heps1 hres htest⟩
  unfold Condition2
  rw [heps2] at hC2
  exact hC2

/-- Witness of the amended C18: the small instance with `toy_sticky_subproblem`, where the
loop ends at `1/4`. -/
theorem shrink_loop_final_conditions_witness :
    toy_strategy.tau = 1 / 2 ∧ toy_strategy.epsilon1 = 1 / 10 ∧
    toy_strategy.epsilon2 = 1 / 10 ∧ 0 ≤ toy_iterate.residual ∧
    0 ≤ toy_loop_start.penalty_parameter ∧ toy_loop_start.condition1 = false ∧
    toy_loop_start.condition2 = false ∧
    toy_strategy.shrink_loop toy_sticky_subproblem toy_problem toy_iterate 1
        (toy_solution (1 / 2)) (1 / 2) 34 toy_loop_start = .ok toy_loop_end ∧
    toy_loop_end.penalty_parameter ≠ 0 ∧
    Condition2 toy_iterate.residual toy_loop_end.solution.objective
      (toy_solution (1 / 2)).objective ∧
    (∃ s, toy_loop_end.solution
      = (toy_sticky_subproblem.compute_l1_penalty_step s toy_problem toy_iterate 1
          toy_loop_end.penalty_parameter toy_strategy.penalty_dimensions).1) ∧
    (∃ s rho1 linear_model, rho1 ∈ toy_loop_end.solves.drop toy_loop_start.solves.length ∧
      toy_loop_end.penalty_parameter ≤ rho1 ∧
      toy_strategy.compute_linear_model toy_problem
        (toy_sticky_subproblem.compute_l1_penalty_step s toy_problem toy_iterate 1 rho1
          toy_strategy.penalty_dimensions).1 = .ok linear_model ∧
      Condition1 toy_iterate.residual linear_model (1 / 2)) :=
  ⟨rfl, rfl, rfl, by norm_num [toy_iterate], by norm_num [toy_loop_start], rfl, rfl,
    toy_shrink_loop, by norm_num [toy_loop_end],
    shrink_loop_final_conditions toy_strategy toy_sticky_subproblem toy_problem toy_iterate 1
      (toy_solution (1 / 2)) (1 / 2) 34 toy_loop_start toy_loop_end rfl rfl rfl
      (by norm_num [toy_iterate]) (by norm_num [toy_loop_start]) rfl rfl toy_shrink_loop
      (by norm_num [toy_loop_end])⟩

/-- C19: in the shrink branch of `compute_step` (`rho > 0`, a nonzero linear model of the
first direction, a nonzero ideal error), a call that returns has run the shrink loop from
`rho` with both flags false, set the penalty parameter to
`min(rho_loop, (ideal_error / max(1, residual))^2)` where `rho_loop` is the value left by
the loop, which is smaller than the value at entry, and returns the ideal direction when
this final value is 0 and the direction of a subproblem solved at this final value
otherwise.  With `rho <= 1` at entry, a bound of 34 passes or more is not exhausted. -/
theorem shrink_branch_penalty_parameter (S : PenaltyStrategy) (sub : Subproblem σ)
    (ext : External) (fuel : Nat) (solver : σ) (problem : Problem) (current_iterate : Iterate)
    (radius : ℚ) (first ideal : LocalSolution × σ) (linear_model : ℚ)
    (bound_multipliers constraint_multipliers : List ℚ) (ideal_error : ℚ)
    (hfirst : first = sub.compute_l1_penalty_step solver problem current_iterate radius
      S.penalty_parameter S.penalty_dimensions)
    (hideal : ideal = sub.compute_l1_penalty_step first.2 problem current_iterate radius 0
      S.penalty_dimensions)
    (htau : S.tau = 1 / 2) (hrho : 0 < S.penalty_parameter)
    (hmodel : S.compute_linear_model problem first.1 = .ok linear_model)
    (hnonzero : linear_model ≠ 0)
    (hbound : compute_bound_multipliers problem ideal.1 = .ok bound_multipliers)
    (hconstraint : compute_constraint_multipliers problem ideal.1 = .ok constraint_multipliers)
    (herror : compute_error ext problem current_iterate bound_multipliers
      constraint_multipliers 0 = .ok ideal_error)
    (hideal_error : ideal_error ≠ 0) :
    (34 ≤ fuel → S.penalty_parameter ≤ 1 →
      S.compute_step sub ext fuel solver problem current_iterate radius
        ≠ .error .out_of_fuel) ∧
    ∀ r, S.compute_step sub ext fuel solver problem current_iterate radius = .ok r →
      ∃ ideal_linear_model st1,
        S.compute_linear_model problem ideal.1 = .ok ideal_linear_model ∧
        S.shrink_loop sub problem current_iterate radius ideal.1 ideal_linear_model fuel
          { penalty_parameter := S.penalty_parameter
            condition1 := false
            condition2 := false
            solution := first.1
            solver := ideal.2
            solves := [S.penalty_parameter, 0] } = .ok st1 ∧
        r.strategy = { S with
          penalty_parameter :=
            min st1.penalty_parameter ((ideal_error / max 1 current_iterate.residual) ^ 2) } ∧
        r.strategy.penalty_parameter < S.penalty_parameter ∧
        (r.strategy.penalty_parameter = 0 →
          r.solution = ideal.1 ∧ r.solves = st1.solves) ∧
        (r.strategy.penalty_parameter ≠ 0 →
          r.solution = (sub.compute_l1_penalty_step st1.solver problem current_iterate radius
            r.strategy.penalty_parameter S.penalty_dimensions).1 ∧
          r.solves = st1.solves ++ [r.strategy.penalty_parameter]) := by
  subst hfirst
  subst hideal
  refine ⟨fun hfuel h1 => compute_step_fuel htau h1 hfuel, ?_⟩
  intro r h
  unfold PenaltyStrategy.compute_step at h
  simp only [hrho, if_true, hmodel, ne_eq, hnonzero, not_false_eq_true, hbound, hconstraint,
    herror, PenaltyStrategy.update_penalty_parameter, hideal_error, if_false] at h
  split at h
  · cases h
  · rename_i st hupd
    split at hupd
    · cases hupd
    · rename_i ideal_linear_model hmi
      split at hupd
      · cases hupd
      · rename_i st1 hloop
        cases hupd
        cases h
        obtain ⟨-, h5⟩ := shrink_loop_bounds htau fuel _ st1 hloop (le_of_lt hrho)
        have h6 := (h5 rfl).2
        simp only at h6
        have hlt : min st1.penalty_parameter
            (ideal_error / max 1 current_iterate.residual
              * (ideal_error / max 1 current_iterate.residual)) < S.penalty_parameter :=
          lt_of_le_of_lt (min_le_left _ _) (by linarith)
        refine ⟨ideal_linear_model, st1, hmi, hloop, ?_⟩
        rw [sq]
        unfold PenaltyStrategy.recompute_solution
        simp only [hlt, if_true]
        split
        · rename_i hz
          exact ⟨rfl, hlt, fun _ => ⟨rfl, rfl⟩, fun hcon => absurd hz hcon⟩
        · rename_i hz
          exact ⟨rfl, hlt, fun hcon => absurd hcon hz, fun _ => ⟨rfl, rfl⟩⟩

/-- Witness of C19: the small instance, where the loop leaves `1/2` and the final penalty
parameter is `(1e-6 / 1)^2 = 1e-12`. -/
theorem shrink_branch_penalty_parameter_witness :
    toy_strategy.tau = 1 / 2 ∧ 0 < toy_strategy.penalty_parameter ∧
    toy_strategy.compute_linear_model toy_problem (toy_solution (1 / 2)) = .ok (1 / 2) ∧
    (1 : ℚ) / 2 ≠ 0 ∧
    compute_bound_multipliers toy_problem (toy_solution (1 / 2)) = .ok [0] ∧
    compute_constraint_multipliers toy_problem (toy_solution (1 / 2)) = .ok [1] ∧
    compute_error toy_external toy_problem toy_iterate [0] [1] 0 = .ok (1 / 10 ^ 6) ∧
    (1 : ℚ) / 10 ^ 6 ≠ 0 ∧
    toy_strategy.compute_step toy_subproblem toy_external 34 () toy_problem toy_iterate 1
      = .ok toy_step_result ∧
    ∃ ideal_linear_model st1,
      toy_strategy.compute_linear_model toy_problem (toy_solution (1 / 2))
        = .ok ideal_linear_model ∧
      toy_strategy.shrink_loop toy_subproblem toy_problem toy_iterate 1 (toy_solution (1 / 2))
        ideal_linear_model 34
        { penalty_parameter := toy_strategy.penalty_parameter
          condition1 := false
          condition2 := false
          solution := toy_solution (1 / 2)
          solver := ()
          solves := [toy_strategy.penalty_parameter, 0] } = .ok st1 ∧
      toy_step_result.strategy = { toy_strategy with
        penalty_parameter :=
          min st1.penalty_parameter ((1 / 10 ^ 6 / max 1 toy_iterate.residual) ^ 2) } ∧
      toy_step_result.strategy.penalty_parameter < toy_strategy.penalty_parameter ∧
      (toy_step_result.strategy.penalty_parameter = 0 →
        toy_step_result.solution = toy_solution (1 / 2) ∧
        toy_step_result.solves = st1.solves) ∧
      (toy_step_result.strategy.penalty_parameter ≠ 0 →
        toy_step_result.solution
          = (toy_subproblem.compute_l1_penalty_step st1.solver toy_problem toy_iterate 1
              toy_step_result.strategy.penalty_parameter toy_strategy.penalty_dimensions).1 ∧
        toy_step_result.solves
          = st1.solves ++ [toy_step_result.strategy.penalty_parameter]) :=
  ⟨rfl, by norm_num [toy_strategy, PenaltyStrategy.create], toy_linear_model _, by norm_num,
    toy_bound_multipliers _, toy_constraint_multipliers _,
    toy_error toy_iterate 0 (Or.inl rfl) rfl, by norm_num, toy_compute_step,
    (shrink_branch_penalty_parameter toy_strategy toy_subproblem toy_external 34 () toy_problem
      toy_iterate 1 (toy_solution (1 / 2), ()) (toy_solution (1 / 2), ()) (1 / 2) [0] [1]
      (1 / 10 ^ 6) rfl rfl rfl (by norm_num [toy_strategy, PenaltyStrategy.create])
      (toy_linear_model _) (by norm_num) (toy_bound_multipliers _)
      (toy_constraint_multipliers _) (toy_error toy_iterate 0 (Or.inl rfl) rfl)
      (by norm_num)).2 toy_step_result toy_compute_step⟩

/-- C20: the shrink loop of `compute_step` ends whatever the subproblem object returns.
With `tau = 0.5`, a pass replaces `rho` by `rho / 2`, or by 0 when `rho / 2 < 1e-10`, in
which case the loop ends with that pass, and solves one subproblem; from `rho <= 1` a bound
of 34 passes is never exhausted, and a run that returns has made at most 34 passes, hence
at most 34 subproblem solves. -/
theorem shrink_loop_terminates (S : PenaltyStrategy) (sub : Subproblem σ) (problem : Problem)
    (current_iterate : Iterate) (radius : ℚ) (ideal_solution : LocalSolution)
    (ideal_linear_model : ℚ) (st : LoopState σ)
    (htau : S.tau = 1 / 2) (h1 : st.penalty_parameter ≤ 1) :
    (∀ fuel, 34 ≤ fuel →
      S.shrink_loop sub problem current_iterate radius ideal_solution ideal_linear_model fuel st
        ≠ .error .out_of_fuel) ∧
    (∀ fuel st1,
      S.shrink_loop sub problem current_iterate radius ideal_solution ideal_linear_model fuel st
        = .ok st1 →
      st1.solves.length ≤ st.solves.length + 34) ∧
    (∀ st0 st2 : LoopState σ,
      S.shrink_pass sub problem current_iterate radius ideal_solution ideal_linear_model st0
        = .ok st2 →
      st2.penalty_parameter
        = (if st0.penalty_parameter * (1 / 2) < 1 / 10 ^ 10 then 0
            else st0.penalty_parameter * (1 / 2)) ∧
      st2.solves = st0.solves ++ [st2.penalty_parameter] ∧
      (st0.penalty_parameter * (1 / 2) < 1 / 10 ^ 10 →
        ∀ fuel, S.shrink_loop sub problem current_iterate radius ideal_solution
          ideal_linear_model fuel st2 = .ok st2)) := by
  have hlt : st.penalty_parameter < 2 ^ 34 * (1 / 10 ^ 10) := by
    have : (1 : ℚ) < 2 ^ 34 * (1 / 10 ^ 10) := by norm_num
    linarith
  refine ⟨?_, ?_, ?_⟩
  · intro fuel hfuel
    exact shrink_loop_fuel htau fuel 34 st hlt hfuel (by omega)
  · intro fuel st1 h
    exact shrink_loop_passes htau fuel 34 st st1 hlt (by omega) h
  · intro st0 st2 h
    obtain ⟨hrho, hfloor, hsolves⟩ := shrink_pass_ok h
    rw [htau] at hrho hfloor
    exact ⟨hrho, hsolves, fun hf fuel => shrink_loop_done fuel st2 (hfloor hf)⟩

/-- Witness of C20: the loop of the small instance with `toy_sticky_subproblem`, entered
at the penalty parameter 1. -/
theorem shrink_loop_terminates_witness :
    toy_strategy.tau = 1 / 2 ∧ toy_loop_start.penalty_parameter ≤ 1 ∧
    (∀ fuel, 34 ≤ fuel →
      toy_strategy.shrink_loop toy_sticky_subproblem toy_problem toy_iterate 1
        (toy_solution (1 / 2)) (1 / 2) fuel toy_loop_start ≠ .error .out_of_fuel) ∧
    (∀ fuel st1,
      toy_strategy.shrink_loop toy_sticky_subproblem toy_problem toy_iterate 1
        (toy_solution (1 / 2)) (1 / 2) fuel toy_loop_start = .ok st1 →
      st1.solves.length ≤ toy_loop_start.solves.length + 34) ∧
    (∀ st0 st2 : LoopState Unit,
      toy_strategy.shrink_pass toy_sticky_subproblem toy_problem toy_iterate 1
        (toy_solution (1 / 2)) (1 / 2) st0 = .ok st2 →
      st2.penalty_parameter
        = (if st0.penalty_parameter * (1 / 2) < 1 / 10 ^ 10 then 0
            else st0.penalty_parameter * (1 / 2)) ∧
      st2.solves = st0.solves ++ [st2.penalty_parameter] ∧
      (st0.penalty_parameter * (1 / 2) < 1 / 10 ^ 10 →
        ∀ fuel, toy_strategy.shrink_loop toy_sticky_subproblem toy_problem toy_iterate 1
          (toy_solution (1 / 2)) (1 / 2) fuel st2 = .ok st2)) :=
  ⟨rfl, by norm_num [toy_loop_start],
    shrink_loop_terminates toy_strategy toy_sticky_subproblem toy_problem toy_iterate 1
      (toy_solution (1 / 2)) (1 / 2) toy_loop_start rfl (by norm_num [toy_loop_start])⟩

end PenaltyLoopClaims

/-! ## Claims on the factories -/

section FactoryClaims

/-- C28: `HessianModelFactory::create` returns a `ConvexifiedHessian` for `"exact"` with
`convexify`, an `ExactHessian` for `"exact"` without `convexify`, a `ZeroHessian` for
`"zero"` whatever `convexify` is, and throws `invalid_argument` for every other name. -/
theorem hessian_model_factory_create (options : Options) :
    HessianModelFactory.create "exact" true options
      = .ok (HessianModel.ConvexifiedHessian options) ∧
    HessianModelFactory.create "exact" false options = .ok HessianModel.ExactHessian ∧
    (∀ convexify, HessianModelFactory.create "zero" convexify options
      = .ok HessianModel.ZeroHessian) ∧
    (∀ hessian_model convexify, hessian_model ≠ "exact" → hessian_model ≠ "zero" →
      HessianModelFactory.create hessian_model convexify options
        = .error (.invalid_argument ("Hessian model " ++ hessian_model ++ " does not exist"))) := by
  refine ⟨?_, ?_, ?_, ?_⟩
  · simp [HessianModelFactory.create]
  · simp [HessianModelFactory.create]
  · intro convexify
    simp [HessianModelFactory.create]
  · intro hessian_model convexify h1 h2
    simp [HessianModelFactory.create, h1, h2]

/-- Witness of C28: the name `"BFGS"` is refused. -/
theorem hessian_model_factory_create_witness :
    HessianModelFactory.create "BFGS" true (single_option "hessian_model" "BFGS")
      = .error (.invalid_argument ("Hessian model " ++ "BFGS" ++ " does not exist")) :=
  (hessian_model_factory_create (single_option "hessian_model" "BFGS")).2.2.2 "BFGS" true
    (by decide) (by decide)

/-- C29: with the option `subproblem` set, `InequalityHandlingMethodFactory::create` returns
a `QPSubproblem` for `"QP"`, an `LPSubproblem` for `"LP"`, a
`PrimalDualInteriorPointMethod` for `"primal_dual_interior_point"`, and throws
`invalid_argument` for every other value; every name that `available_strategies()` lists,
whatever the available QP solvers and the build flags, is accepted by `create`. -/
theorem inequality_handling_method_factory_create (options : Options)
    (subproblem_strategy : String)
    (h : options.get_string "subproblem" = .ok subproblem_strategy) :
    (subproblem_strategy = "QP" → InequalityHandlingMethodFactory.create options
      = .ok (InequalityHandlingMethod.QPSubproblem options)) ∧
    (subproblem_strategy = "LP" → InequalityHandlingMethodFactory.create options
      = .ok (InequalityHandlingMethod.LPSubproblem options)) ∧
    (subproblem_strategy = "primal_dual_interior_point" →
      InequalityHandlingMethodFactory.create options
        = .ok (InequalityHandlingMethod.PrimalDualInteriorPointMethod options)) ∧
    (subproblem_strategy ≠ "QP" → subproblem_strategy ≠ "LP" →
      subproblem_strategy ≠ "primal_dual_interior_point" →
      InequalityHandlingMethodFactory.create options
        = .error (.invalid_argument
            ("Subproblem strategy " ++ subproblem_strategy ++ " is not supported"))) ∧
    (∀ qp_solvers flags,
      subproblem_strategy
        ∈ InequalityHandlingMethodFactory.available_strategies qp_solvers flags →
      ∃ method, InequalityHandlingMethodFactory.create options = .ok method) := by
  refine ⟨?_, ?_, ?_, ?_, ?_⟩
  · intro hs
    subst hs
    simp [InequalityHandlingMethodFactory.create, h]
  · intro hs
    subst hs
    simp [InequalityHandlingMethodFactory.create, h]
  · intro hs
    subst hs
    simp [InequalityHandlingMethodFactory.create, h]
  · intro h1 h2 h3
    simp [InequalityHandlingMethodFactory.create, h, h1, h2, h3]
  · intro qp_solvers flags hmem
    have hcases : subproblem_strategy = "QP" ∨ subproblem_strategy = "LP" ∨
        subproblem_strategy = "primal_dual_interior_point" := by
      unfold InequalityHandlingMethodFactory.available_strategies at hmem
      simp only at hmem
      split_ifs at hmem <;> simp at hmem <;> tauto
    rcases hcases with hs | hs | hs <;> subst hs <;>
      simp [InequalityHandlingMethodFactory.create, h]

/-- Witness of C29: the options that hold `subproblem = QP`. -/
theorem inequality_handling_method_factory_create_witness :
    (single_option "subproblem" "QP").get_string "subproblem" = .ok "QP" ∧
    InequalityHandlingMethodFactory.create (single_option "subproblem" "QP")
      = .ok (InequalityHandlingMethod.QPSubproblem (single_option "subproblem" "QP")) ∧
    "QP" ∈ InequalityHandlingMethodFactory.available_strategies ["BQPD"] toy_flags :=
  ⟨rfl,
    (inequality_handling_method_factory_create (single_option "subproblem" "QP") "QP" rfl).1
      rfl,
    by decide⟩

end FactoryClaims

/-! ## Claim on the regularization slots -/

section CSCRegularizationClaims

variable {α : Type}

/-- C30: in a matrix assembled with `use_regularization` (every column filled and
finalized in order), every column `i` has a slot at the index `column_starts[i+1] - 1`,
which belongs to the column, is within the stored entries and has the row index `i`;
`set_regularization(f)` returns with `f(i)` written into that slot for every
`i < dimension`, every other entry, the row indices and the column starts being
unchanged. -/
theorem regularization_slots [Zero α] [Add α] (dimension original_capacity : Nat)
    (columns : List (Column α)) (f : Nat → α) (hcolumns : columns.length = dimension) :
    ∃ M M1, CSCSymmetricMatrix.assemble dimension original_capacity true columns = .ok M ∧
      M.set_regularization f = .ok M1 ∧
      M1.column_starts = M.column_starts ∧ M1.row_indices = M.row_indices ∧
      M1.entries.length = M.entries.length ∧
      (∀ i, i < dimension → ∃ first last,
        M.column_starts[i]? = some first ∧ M.column_starts[i + 1]? = some last ∧
        first < last ∧ last - 1 < M.entries.length ∧
        M.row_indices[last - 1]? = some i ∧ M1.entries[last - 1]? = some (f i)) ∧
      (∀ k, (∀ i last, i < dimension → M.column_starts[i + 1]? = some last → k ≠ last - 1) →
        M1.entries[k]? = M.entries[k]?) := by
  obtain ⟨M, hM, hF⟩ := assemble_filling dimension original_capacity true columns hcolumns
  have hlen : (stored_columns true 0 columns).length = columns.length :=
    stored_columns_length _ _ _
  have hstart : ∀ i, i < dimension → M.column_starts[i + 1]?
      = some (entries_before (stored_columns true 0 columns) (i + 1) - 1 + 1) := by
    intro i hi
    have hic : i < columns.length := by rw [hcolumns]; exact hi
    rw [hF.starts_eq (i + 1) (by rw [hlen]; exact hic), (filling_slot columns hF i hic).1]
    rfl
  have hbound : ∀ i, i < dimension →
      entries_before (stored_columns true 0 columns) (i + 1) - 1 < M.entries.length := by
    intro i hi
    have hic : i < columns.length := by rw [hcolumns]; exact hi
    have h1 := (filling_slot columns hF i hic).1
    have h2 := (filling_slot columns hF i hic).2.1
    omega
  have hmono : ∀ i j, i < j → j < dimension →
      entries_before (stored_columns true 0 columns) (i + 1) - 1
        < entries_before (stored_columns true 0 columns) (j + 1) - 1 := by
    intro i j hij hj
    have hic : i < columns.length := by rw [hcolumns]; omega
    have hjc : j < columns.length := by rw [hcolumns]; exact hj
    have h1 := (filling_slot columns hF i hic).1
    have h2 := (filling_slot columns hF j hjc).1
    have h3 := entries_before_mono (stored_columns true 0 columns) (i + 1) j hij
    omega
  obtain ⟨M1, hM1, hcs, hri, -, -, -, -, hel, -, hslots, hother, -⟩ :=
    set_regularization_loop f M
      (fun i => entries_before (stored_columns true 0 columns) (i + 1) - 1) dimension
      hstart hbound (by rw [hF.diagonal_length]) hmono dimension le_rfl
  refine ⟨M, M1, hM, ?_, hcs, hri, hel, ?_, ?_⟩
  · simp only [CSCSymmetricMatrix.set_regularization, hF.regularization_eq, Range,
      hF.dimension_eq]
    exact hM1
  · intro i hi
    have hic : i < columns.length := by rw [hcolumns]; exact hi
    obtain ⟨h1, -, h3, -⟩ := filling_slot columns hF i hic
    refine ⟨entries_before (stored_columns true 0 columns) i,
      entries_before (stored_columns true 0 columns) (i + 1),
      hF.starts_eq i (by rw [hlen]; exact Nat.le_of_lt hic),
      hF.starts_eq (i + 1) (by rw [hlen]; exact hic), by omega, hbound i hi, ?_, hslots i hi⟩
    have hidx : entries_before (stored_columns true 0 columns) (i + 1) - 1
        = entries_before (stored_columns true 0 columns) i + columns[i].length := by omega
    rw [hidx]
    exact h3
  · intro k hk
    apply hother
    intro i hi
    have hic : i < columns.length := by rw [hcolumns]; exact hi
    exact hk i _ hi (hF.starts_eq (i + 1) (by rw [hlen]; exact hic))

/-- Witness of C30: a 2 x 2 matrix with the entries `(0,0) = 5`, `(1,0) = 7` and
`(1,1) = 3`, regularized with `f(i) = 10 + i`. -/
theorem regularization_slots_witness :
    [[(0, (5 : Int)), (1, 7)], [(1, 3)]].length = 2 ∧
    ∃ M M1, CSCSymmetricMatrix.assemble 2 0 true [[(0, (5 : Int)), (1, 7)], [(1, 3)]] = .ok M ∧
      M.set_regularization (fun i => 10 + (i : Int)) = .ok M1 ∧
      M1.column_starts = M.column_starts ∧ M1.row_indices = M.row_indices ∧
      M1.entries.length = M.entries.length ∧
      (∀ i, i < 2 → ∃ first last,
        M.column_starts[i]? = some first ∧ M.column_starts[i + 1]? = some last ∧
        first < last ∧ last - 1 < M.entries.length ∧
        M.row_indices[last - 1]? = some i ∧ M1.entries[last - 1]? = some (10 + (i : Int))) ∧
      (∀ k, (∀ i last, i < 2 → M.column_starts[i + 1]? = some last → k ≠ last - 1) →
        M1.entries[k]? = M.entries[k]?) :=
  ⟨rfl, regularization_slots 2 0 [[(0, (5 : Int)), (1, 7)], [(1, 3)]]
    (fun i => 10 + (i : Int)) rfl⟩

end CSCRegularizationClaims

/-! ## Claims on `FeasibilityRestoration` -/

namespace Restoration

section RestorationClaims

variable {σ γ : Type}

/-- C21: `compute_progress_measures` goes from the phase `OPTIMALITY` to the phase
`FEASIBILITY_RESTORATION` if and only if the phase at entry is `OPTIMALITY` and the
objective multiplier of the direction is 0; with a nonzero objective multiplier the phase
stays `OPTIMALITY`. -/
theorem optimality_to_restoration_iff (sub : Subproblem σ) (G : GlobalizationStrategy γ)
    (ext : External) (S : FeasibilityRestoration σ γ) (current_iterate trial_iterate : Iterate)
    (direction : Direction) :
    ((S.current_phase = Phase.OPTIMALITY ∧
        (S.compute_progress_measures sub G ext current_iterate trial_iterate
          direction).1.current_phase = Phase.FEASIBILITY_RESTORATION)
      ↔ (S.current_phase = Phase.OPTIMALITY ∧ direction.objective_multiplier = 0)) ∧
    (S.current_phase = Phase.OPTIMALITY → direction.objective_multiplier ≠ 0 →
      (S.compute_progress_measures sub G ext current_iterate trial_iterate
        direction).1.current_phase = Phase.OPTIMALITY) := by
  rw [compute_progress_measures_phase]
  constructor
  · constructor
    · rintro ⟨hO, hphase⟩
      refine ⟨hO, ?_⟩
      by_contra hne
      have h1 : ¬ (S.current_phase = Phase.OPTIMALITY ∧ direction.objective_multiplier = 0) :=
        fun hcon => hne hcon.2
      have h2 : ∀ p q : Prop, ¬ (S.current_phase = Phase.FEASIBILITY_RESTORATION ∧ p ∧ q) := by
        intro p q hcon
        rw [hO] at hcon
        exact absurd hcon.1 (by decide)
      rw [if_neg h1, if_neg (h2 _ _), hO] at hphase
      exact absurd hphase (by decide)
    · rintro ⟨hO, hzero⟩
      exact ⟨hO, by rw [if_pos ⟨hO, hzero⟩]⟩
  · intro hO hne
    have h1 : ¬ (S.current_phase = Phase.OPTIMALITY ∧ direction.objective_multiplier = 0) :=
      fun hcon => hne hcon.2
    have h2 : ∀ p q : Prop, ¬ (S.current_phase = Phase.FEASIBILITY_RESTORATION ∧ p ∧ q) := by
      intro p q hcon
      rw [hO] at hcon
      exact absurd hcon.1 (by decide)
    rw [if_neg h1, if_neg (h2 _ _), hO]

/-- Witness of C21: on the small instance in the phase `OPTIMALITY`, a direction with the
objective multiplier 1 leaves the phase unchanged. -/
theorem optimality_to_restoration_iff_witness :
    (line_restoration Phase.OPTIMALITY).current_phase = Phase.OPTIMALITY ∧
    (line_direction 1 0).objective_multiplier ≠ 0 ∧
    ((line_restoration Phase.OPTIMALITY).compute_progress_measures line_subproblem
      recording_strategy line_external (line_iterate (1 / 2)) (line_iterate (1 / 2))
      (line_direction 1 0)).1.current_phase = Phase.OPTIMALITY :=
  ⟨rfl, by norm_num [line_direction],
    (optimality_to_restoration_iff line_subproblem recording_strategy line_external
      (line_restoration Phase.OPTIMALITY) (line_iterate (1 / 2)) (line_iterate (1 / 2))
      (line_direction 1 0)).2 rfl (by norm_num [line_direction])⟩

/-- C22: `compute_progress_measures` goes from the phase `FEASIBILITY_RESTORATION` to the
phase `OPTIMALITY` if and only if the phase at entry is `FEASIBILITY_RESTORATION`, the
linearized constraint violation at the current iterate along the direction with the step
length 1 is 0, and `is_feasibility_iterate_acceptable` of the phase-2 strategy (reset
beforehand when the definition of the subproblem changed) accepts the constraint violation
of the trial iterate; otherwise the phase stays `FEASIBILITY_RESTORATION`.  At most one
switch is made: the state at return is the state after lines 100-106, or the result of
`switch_to_feasibility_restoration` on it, or the result of `switch_to_optimality` on it,
and it is the first of these when the phase at return is the phase at entry. -/
theorem restoration_to_optimality_iff (sub : Subproblem σ) (G : GlobalizationStrategy γ)
    (ext : External) (S : FeasibilityRestoration σ γ) (current_iterate trial_iterate : Iterate)
    (direction : Direction) :
    ((S.current_phase = Phase.FEASIBILITY_RESTORATION ∧
        (S.compute_progress_measures sub G ext current_iterate trial_iterate
          direction).1.current_phase = Phase.OPTIMALITY)
      ↔ (S.current_phase = Phase.FEASIBILITY_RESTORATION ∧
          compute_linearized_constraint_violation S.original_model current_iterate direction 1
            = 0 ∧
          G.is_feasibility_iterate_acceptable
            (if S.subproblem.unscaled_optimality_measure_changed then
              G.reset S.phase_2_strategy else S.phase_2_strategy)
            (S.original_model.compute_constraint_violation
              (trial_iterate.evaluate_constraints S.original_model).model_evaluations.constraints)
            = true)) ∧
    (S.current_phase = Phase.FEASIBILITY_RESTORATION →
      (S.compute_progress_measures sub G ext current_iterate trial_iterate
        direction).1.current_phase ≠ Phase.OPTIMALITY →
      (S.compute_progress_measures sub G ext current_iterate trial_iterate
        direction).1.current_phase = Phase.FEASIBILITY_RESTORATION) ∧
    ((S.compute_progress_measures sub G ext current_iterate trial_iterate direction).1
        = (S.refresh_unscaled_optimality sub G current_iterate).1 ∨
      (S.compute_progress_measures sub G ext current_iterate trial_iterate direction).1
        = ((S.refresh_unscaled_optimality sub G current_iterate).1.switch_to_feasibility_restoration
            G (S.refresh_unscaled_optimality sub G current_iterate).2).1 ∨
      (S.compute_progress_measures sub G ext current_iterate trial_iterate direction).1
        = ((S.refresh_unscaled_optimality sub G current_iterate).1.switch_to_optimality ext
            (S.refresh_unscaled_optimality sub G current_iterate).2
            ((S.refresh_unscaled_optimality sub G current_iterate).1.set_scaled_optimality_measure
              trial_iterate)).1) ∧
    ((S.compute_progress_measures sub G ext current_iterate trial_iterate
        direction).1.current_phase = S.current_phase →
      (S.compute_progress_measures sub G ext current_iterate trial_iterate direction).1
        = (S.refresh_unscaled_optimality sub G current_iterate).1) := by
  have hcpm : (S.compute_progress_measures sub G ext current_iterate trial_iterate
      direction).1
      = ((S.refresh_unscaled_optimality sub G current_iterate).1.switch_phase G ext
          (S.refresh_unscaled_optimality sub G current_iterate).2 trial_iterate direction).1 := rfl
  have hp := (refresh_phase sub G S current_iterate).1
  refine ⟨?_, ?_, ?_, ?_⟩
  · rw [compute_progress_measures_phase]
    constructor
    · rintro ⟨hR, hphase⟩
      have h1 : ¬ (S.current_phase = Phase.OPTIMALITY ∧ direction.objective_multiplier = 0) := by
        intro hcon
        rw [hR] at hcon
        exact absurd hcon.1 (by decide)
      rw [if_neg h1] at hphase
      by_contra hne
      rw [if_neg hne, hR] at hphase
      exact absurd hphase (by decide)
    · intro h
      have h1 : ¬ (S.current_phase = Phase.OPTIMALITY ∧ direction.objective_multiplier = 0) := by
        intro hcon
        rw [h.1] at hcon
        exact absurd hcon.1 (by decide)
      exact ⟨h.1, by rw [if_neg h1, if_pos h]⟩
  · intro hR hne
    cases hphase : (S.compute_progress_measures sub G ext current_iterate trial_iterate
        direction).1.current_phase
    · exact absurd hphase hne
    · rfl
  · rw [hcpm]
    rcases switch_phase_state G ext (S.refresh_unscaled_optimality sub G current_iterate).1
        (S.refresh_unscaled_optimality sub G current_iterate).2 trial_iterate direction with
      ⟨-, -, h⟩ | ⟨-, h⟩ | ⟨h, -⟩
    · exact Or.inr (Or.inl (by rw [h]))
    · exact Or.inr (Or.inr (by rw [h]))
    · exact Or.inl h
  · rw [hcpm]
    intro hsame
    rcases switch_phase_state G ext (S.refresh_unscaled_optimality sub G current_iterate).1
        (S.refresh_unscaled_optimality sub G current_iterate).2 trial_iterate direction with
      ⟨hO, -, h⟩ | ⟨hR, h⟩ | ⟨h, -⟩
    · rw [h] at hsame
      rw [hp] at hO
      rw [hO] at hsame
      have hcon : Phase.FEASIBILITY_RESTORATION = Phase.OPTIMALITY := hsame
      cases hcon
    · rw [h] at hsame
      rw [hp] at hR
      rw [hR] at hsame
      have hcon : Phase.OPTIMALITY = Phase.FEASIBILITY_RESTORATION := hsame
      cases hcon
    · exact h

/-- Witness of C22: on the small instance in the restoration phase, at the point `1/2`
with a zero step, the three conditions hold and the phase at return is `OPTIMALITY`. -/
theorem restoration_to_optimality_iff_witness :
    (line_restoration Phase.FEASIBILITY_RESTORATION).current_phase
      = Phase.FEASIBILITY_RESTORATION ∧
    compute_linearized_constraint_violation
      (line_restoration Phase.FEASIBILITY_RESTORATION).original_model (line_iterate (1 / 2))
      (line_direction 0 0) 1 = 0 ∧
    recording_strategy.is_feasibility_iterate_acceptable
      (if (line_restoration Phase.FEASIBILITY_RESTORATION).subproblem.unscaled_optimality_measure_changed
        then recording_strategy.reset
          (line_restoration Phase.FEASIBILITY_RESTORATION).phase_2_strategy
        else (line_restoration Phase.FEASIBILITY_RESTORATION).phase_2_strategy)
      ((line_restoration Phase.FEASIBILITY_RESTORATION).original_model.compute_constraint_violation
        ((line_iterate (1 / 2)).evaluate_constraints
          (line_restoration Phase.FEASIBILITY_RESTORATION).original_model).model_evaluations.constraints)
      = true ∧
    ((line_restoration Phase.FEASIBILITY_RESTORATION).compute_progress_measures line_subproblem
      recording_strategy line_external (line_iterate (1 / 2)) (line_iterate (1 / 2))
      (line_direction 0 0)).1.current_phase = Phase.OPTIMALITY :=
  ⟨rfl, line_linearized_zero, line_accept,
    ((restoration_to_optimality_iff line_subproblem recording_strategy line_external
      (line_restoration Phase.FEASIBILITY_RESTORATION) (line_iterate (1 / 2))
      (line_iterate (1 / 2)) (line_direction 0 0)).1.mpr
      ⟨rfl, line_linearized_zero, line_accept⟩).2⟩

/-- C23, as stated, fails: on the small instance, where the two globalization strategies
record the calls that they receive, `compute_progress_measures` switches from
`FEASIBILITY_RESTORATION` to `OPTIMALITY` and, at return, neither strategy has received a
call: the strategy of the destination phase (phase 2) has not been reset and the strategy
of the source phase (phase 1) has not received `register_current_progress`. -/
theorem switch_to_optimality_counterexample :
    (line_restoration Phase.FEASIBILITY_RESTORATION).current_phase
      = Phase.FEASIBILITY_RESTORATION ∧
    (line_restoration Phase.FEASIBILITY_RESTORATION).phase_1_strategy = [] ∧
    (line_restoration Phase.FEASIBILITY_RESTORATION).phase_2_strategy = [] ∧
    ((line_restoration Phase.FEASIBILITY_RESTORATION).compute_progress_measures line_subproblem
      recording_strategy line_external (line_iterate (1 / 2)) (line_iterate (1 / 2))
      (line_direction 0 0)).1.current_phase = Phase.OPTIMALITY ∧
    ((line_restoration Phase.FEASIBILITY_RESTORATION).compute_progress_measures line_subproblem
      recording_strategy line_external (line_iterate (1 / 2)) (line_iterate (1 / 2))
      (line_direction 0 0)).1.phase_1_strategy = [] ∧
    ((line_restoration Phase.FEASIBILITY_RESTORATION).compute_progress_measures line_subproblem
      recording_strategy line_external (line_iterate (1 / 2)) (line_iterate (1 / 2))
      (line_direction 0 0)).1.phase_2_strategy = [] := by
  rw [line_switch_back]
  exact ⟨rfl, rfl, rfl, rfl, rfl, rfl⟩

/-- C23, amended: when `compute_progress_measures` switches from `OPTIMALITY` to
`FEASIBILITY_RESTORATION`, the strategy of the source phase (phase 2, reset beforehand
when the definition of the subproblem changed) receives `register_current_progress` with
the progress of the current iterate, the strategy of the destination phase (phase 1) is
reset, the scaled optimality and infeasibility measures of the current iterate are
evaluated again under the new phase, and the phase-1 strategy receives
`register_current_progress` with them.  When it switches from `FEASIBILITY_RESTORATION`
to `OPTIMALITY`, the two measures of the current iterate (after `set_number_variables`)
are evaluated again under the new phase, and the switch calls neither strategy: the
phase-1 strategy is as at entry and the phase-2 strategy as after lines 100-106. -/
theorem phase_switch_effects (sub : Subproblem σ) (G : GlobalizationStrategy γ)
    (ext : External) (S : FeasibilityRestoration σ γ) (current_iterate trial_iterate : Iterate)
    (direction : Direction) :
    (S.current_phase = Phase.OPTIMALITY →
      (S.compute_progress_measures sub G ext current_iterate trial_iterate
        direction).1.current_phase = Phase.FEASIBILITY_RESTORATION →
      (S.compute_progress_measures sub G ext current_iterate trial_iterate direction).2.1
        = (S.compute_progress_measures sub G ext current_iterate trial_iterate
            direction).1.set_infeasibility_measure
            ((S.compute_progress_measures sub G ext current_iterate trial_iterate
              direction).1.set_scaled_optimality_measure
              (S.refresh_unscaled_optimality sub G current_iterate).2) ∧
      (S.compute_progress_measures sub G ext current_iterate trial_iterate
        direction).1.phase_1_strategy
        = G.register_current_progress (G.reset S.phase_1_strategy)
            (S.compute_progress_measures sub G ext current_iterate trial_iterate
              direction).2.1.nonlinear_progress ∧
      (S.compute_progress_measures sub G ext current_iterate trial_iterate
        direction).1.phase_2_strategy
        = G.register_current_progress
            (if S.subproblem.unscaled_optimality_measure_changed then
              G.reset S.phase_2_strategy else S.phase_2_strategy)
            (S.refresh_unscaled_optimality sub G current_iterate).2.nonlinear_progress) ∧
    (S.current_phase = Phase.FEASIBILITY_RESTORATION →
      (S.compute_progress_measures sub G ext current_iterate trial_iterate
        direction).1.current_phase = Phase.OPTIMALITY →
      (S.compute_progress_measures sub G ext current_iterate trial_iterate direction).2.1
        = (S.compute_progress_measures sub G ext current_iterate trial_iterate
            direction).1.set_infeasibility_measure
            ((S.compute_progress_measures sub G ext current_iterate trial_iterate
              direction).1.set_scaled_optimality_measure
              (ext.set_number_variables (S.refresh_unscaled_optimality sub G current_iterate).2
                S.optimality_problem.number_variables)) ∧
      (S.compute_progress_measures sub G ext current_iterate trial_iterate
        direction).1.phase_1_strategy = S.phase_1_strategy ∧
      (S.compute_progress_measures sub G ext current_iterate trial_iterate
        direction).1.phase_2_strategy
        = (if S.subproblem.unscaled_optimality_measure_changed then
            G.reset S.phase_2_strategy else S.phase_2_strategy)) := by
  have hcpm1 : (S.compute_progress_measures sub G ext current_iterate trial_iterate
      direction).1
      = ((S.refresh_unscaled_optimality sub G current_iterate).1.switch_phase G ext
          (S.refresh_unscaled_optimality sub G current_iterate).2 trial_iterate direction).1 := rfl
  have hcpm2 : (S.compute_progress_measures sub G ext current_iterate trial_iterate
      direction).2.1
      = ((S.refresh_unscaled_optimality sub G current_iterate).1.switch_phase G ext
          (S.refresh_unscaled_optimality sub G current_iterate).2 trial_iterate direction).2.1 :=
    rfl
  obtain ⟨hp, -, ho, h1, h2, -, -⟩ := refresh_phase sub G S current_iterate
  rw [hcpm1, hcpm2]
  constructor
  · intro hO hphase
    rcases switch_phase_state G ext (S.refresh_unscaled_optimality sub G current_iterate).1
        (S.refresh_unscaled_optimality sub G current_iterate).2 trial_iterate direction with
      ⟨-, -, h⟩ | ⟨hR, -⟩ | ⟨h, -⟩
    · rw [h]
      refine ⟨rfl, ?_, ?_⟩
      · rw [← h1]
        rfl
      · rw [← h2]
        rfl
    · rw [hp, hO] at hR
      cases hR
    · rw [h, hp, hO] at hphase
      cases hphase
  · intro hR hphase
    rcases switch_phase_state G ext (S.refresh_unscaled_optimality sub G current_iterate).1
        (S.refresh_unscaled_optimality sub G current_iterate).2 trial_iterate direction with
      ⟨hO, -, -⟩ | ⟨-, h⟩ | ⟨h, -⟩
    · rw [hp, hR] at hO
      cases hO
    · rw [h]
      refine ⟨?_, ?_, ?_⟩
      · rw [← ho]
        rfl
      · rw [← h1]
        rfl
      · rw [← h2]
        rfl
    · rw [h, hp, hR] at hphase
      cases hphase

/-- Witness of the amended C23: the switch from `FEASIBILITY_RESTORATION` to `OPTIMALITY`
on the small instance. -/
theorem phase_switch_effects_witness :
    (line_restoration Phase.FEASIBILITY_RESTORATION).current_phase
      = Phase.FEASIBILITY_RESTORATION ∧
    ((line_restoration Phase.FEASIBILITY_RESTORATION).compute_progress_measures line_subproblem
      recording_strategy line_external (line_iterate (1 / 2)) (line_iterate (1 / 2))
      (line_direction 0 0)).1.current_phase = Phase.OPTIMALITY ∧
    ((line_restoration Phase.FEASIBILITY_RESTORATION).compute_progress_measures line_subproblem
      recording_strategy line_external (line_iterate (1 / 2)) (line_iterate (1 / 2))
      (line_direction 0 0)).1.phase_1_strategy
      = (line_restoration Phase.FEASIBILITY_RESTORATION).phase_1_strategy :=
  ⟨rfl, by rw [line_switch_back],
    ((phase_switch_effects line_subproblem recording_strategy line_external
      (line_restoration Phase.FEASIBILITY_RESTORATION) (line_iterate (1 / 2))
      (line_iterate (1 / 2)) (line_direction 0 0)).2 rfl (by rw [line_switch_back])).2.1⟩

/-- C25, as stated, fails: on the small instance (`0 <= c(x) <= 1`, `2 <= x <= 3`,
`c(x) = x`), in the phase `OPTIMALITY` the infeasibility measure of the point `x = 1/2` is
0 although `x` is below its lower bound, and in the phase `FEASIBILITY_RESTORATION` the
infeasibility measure of the point `x = 5` is 0 although `c(x) = 5` is above its upper
bound. -/
theorem infeasibility_measure_counterexample :
    ((line_restoration Phase.OPTIMALITY).set_infeasibility_measure
      (line_iterate (1 / 2))).nonlinear_progress.infeasibility = 0 ∧
    ¬ line_model.variables_within_bounds (line_iterate (1 / 2)).primals ∧
    ((line_restoration Phase.FEASIBILITY_RESTORATION).set_infeasibility_measure
      (line_iterate 5)).nonlinear_progress.infeasibility = 0 ∧
    ¬ line_model.constraints_within_bounds
      (line_model.evaluate_constraints (line_iterate 5).primals) := by
  refine ⟨?_, ?_, rfl, ?_⟩
  · have h : ((line_restoration Phase.OPTIMALITY).set_infeasibility_measure
        (line_iterate (1 / 2))).nonlinear_progress.infeasibility
        = line_model.compute_constraint_violation [1 / 2] := rfl
    rw [h, line_violation]
    norm_num
  · intro hcon
    have h := (hcon 0 (by decide)).1
    simp [line_model, line_iterate, above_lower] at h
    norm_num at h
  · intro hcon
    have h := (hcon 0 (by decide)).2
    simp [line_model, line_iterate, below_upper] at h

/-- C25, amended: for an iterate whose cache of constraints is right, in the phase
`OPTIMALITY` the infeasibility measure assigned by `set_infeasibility_measure` is 0 if and
only if `c_L <= c(x) <= c_U` (the bounds on the variables play no part); in the phase
`FEASIBILITY_RESTORATION` the measure assigned is 0 for every iterate. -/
theorem infeasibility_measure_zero_iff (S : FeasibilityRestoration σ γ) (iterate : Iterate)
    (hcache : iterate.are_constraints_computed = true →
      iterate.model_evaluations.constraints
        = S.original_model.evaluate_constraints iterate.primals) :
    (S.current_phase = Phase.OPTIMALITY →
      ((S.set_infeasibility_measure iterate).nonlinear_progress.infeasibility = 0
        ↔ S.original_model.constraints_within_bounds
            (S.original_model.evaluate_constraints iterate.primals))) ∧
    (S.current_phase = Phase.FEASIBILITY_RESTORATION →
      (S.set_infeasibility_measure iterate).nonlinear_progress.infeasibility = 0) := by
  constructor
  · intro hO
    unfold FeasibilityRestoration.set_infeasibility_measure
    rw [if_pos hO]
    simp only
    rw [evaluate_constraints_value iterate S.original_model hcache]
    exact constraint_violation_eq_zero _ _
  · intro hR
    unfold FeasibilityRestoration.set_infeasibility_measure
    have hne : ¬ S.current_phase = Phase.OPTIMALITY := by rw [hR]; decide
    rw [if_neg hne]

/-- Witness of the amended C25: the point `1/2` of the small instance in the phase
`OPTIMALITY`. -/
theorem infeasibility_measure_zero_iff_witness :
    ((line_iterate (1 / 2)).are_constraints_computed = true →
      (line_iterate (1 / 2)).model_evaluations.constraints
        = (line_restoration Phase.OPTIMALITY).original_model.evaluate_constraints
            (line_iterate (1 / 2)).primals) ∧
    (line_restoration Phase.OPTIMALITY).current_phase = Phase.OPTIMALITY ∧
    (((line_restoration Phase.OPTIMALITY).set_infeasibility_measure
        (line_iterate (1 / 2))).nonlinear_progress.infeasibility = 0
      ↔ (line_restoration Phase.OPTIMALITY).original_model.constraints_within_bounds
          ((line_restoration Phase.OPTIMALITY).original_model.evaluate_constraints
            (line_iterate (1 / 2)).primals)) :=
  ⟨fun _ => rfl, rfl,
    (infeasibility_measure_zero_iff (line_restoration Phase.OPTIMALITY) (line_iterate (1 / 2))
      (fun _ => rfl)).1 rfl⟩

/-- C26: for an iterate whose caches of the objective and of the constraints are right,
`set_scaled_optimality_measure` sets `scaled_optimality` to the function
`sigma -> sigma * f(x)` in the phase `OPTIMALITY`, which is 0 at `sigma = 0` and `f(x)` at
`sigma = 1`, and to the constant function that returns the L1 constraint violation of
`c(x)` in the phase `FEASIBILITY_RESTORATION`. -/
theorem scaled_optimality_measure (S : FeasibilityRestoration σ γ) (iterate : Iterate)
    (hobjective : iterate.is_objective_computed = true →
      iterate.model_evaluations.objective = S.original_model.evaluate_objective iterate.primals)
    (hconstraints : iterate.are_constraints_computed = true →
      iterate.model_evaluations.constraints
        = S.original_model.evaluate_constraints iterate.primals) :
    (S.current_phase = Phase.OPTIMALITY →
      (S.set_scaled_optimality_measure iterate).nonlinear_progress.scaled_optimality
        = (fun objective_multiplier =>
            objective_multiplier * S.original_model.evaluate_objective iterate.primals) ∧
      (S.set_scaled_optimality_measure iterate).nonlinear_progress.scaled_optimality 0 = 0 ∧
      (S.set_scaled_optimality_measure iterate).nonlinear_progress.scaled_optimality 1
        = S.original_model.evaluate_objective iterate.primals) ∧
    (S.current_phase = Phase.FEASIBILITY_RESTORATION →
      (S.set_scaled_optimality_measure iterate).nonlinear_progress.scaled_optimality
        = (fun _ => S.original_model.compute_constraint_violation
            (S.original_model.evaluate_constraints iterate.primals))) := by
  constructor
  · intro hO
    have h : (S.set_scaled_optimality_measure iterate).nonlinear_progress.scaled_optimality
        = (fun objective_multiplier =>
            objective_multiplier * S.original_model.evaluate_objective iterate.primals) := by
      unfold FeasibilityRestoration.set_scaled_optimality_measure
      rw [if_pos hO]
      simp only
      rw [evaluate_objective_value iterate S.original_model hobjective]
    rw [h]
    exact ⟨rfl, zero_mul _, one_mul _⟩
  · intro hR
    unfold FeasibilityRestoration.set_scaled_optimality_measure
    have hne : ¬ S.current_phase = Phase.OPTIMALITY := by rw [hR]; decide
    rw [if_neg hne]
    simp only
    rw [evaluate_constraints_value iterate S.original_model hconstraints]

/-- Witness of C26: the point `1/2` of the small instance in the phase `OPTIMALITY`. -/
theorem scaled_optimality_measure_witness :
    ((line_iterate (1 / 2)).is_objective_computed = true →
      (line_iterate (1 / 2)).model_evaluations.objective
        = (line_restoration Phase.OPTIMALITY).original_model.evaluate_objective
            (line_iterate (1 / 2)).primals) ∧
    ((line_iterate (1 / 2)).are_constraints_computed = true →
      (line_iterate (1 / 2)).model_evaluations.constraints
        = (line_restoration Phase.OPTIMALITY).original_model.evaluate_constraints
            (line_iterate (1 / 2)).primals) ∧
    (line_restoration Phase.OPTIMALITY).current_phase = Phase.OPTIMALITY ∧
    ((line_restoration Phase.OPTIMALITY).set_scaled_optimality_measure
      (line_iterate (1 / 2))).nonlinear_progress.scaled_optimality 1
      = (line_restoration Phase.OPTIMALITY).original_model.evaluate_objective
          (line_iterate (1 / 2)).primals :=
  ⟨fun _ => rfl, fun _ => rfl, rfl,
    ((scaled_optimality_measure (line_restoration Phase.OPTIMALITY) (line_iterate (1 / 2))
      (fun _ => rfl) (fun _ => rfl)).1 rfl).2.2⟩

/-- C27, as stated, fails: on the small instance in the phase `FEASIBILITY_RESTORATION`,
at the point `x = 2` (constraint violation 1) with the direction `-1` and the step length
1 (linearized constraint violation 0), the function returns 0 and not the difference 1. -/
theorem predicted_infeasibility_reduction_counterexample :
    (line_restoration Phase.FEASIBILITY_RESTORATION).generate_predicted_infeasibility_reduction_model
      (line_iterate 2) (line_direction 0 (-1)) 1 = 0 ∧
    (line_restoration Phase.FEASIBILITY_RESTORATION).original_model.compute_constraint_violation
        (line_iterate 2).model_evaluations.constraints
      - compute_linearized_constraint_violation
          (line_restoration Phase.FEASIBILITY_RESTORATION).original_model (line_iterate 2)
          (line_direction 0 (-1)) 1 = 1 := by
  refine ⟨rfl, ?_⟩
  have hm : (line_restoration Phase.FEASIBILITY_RESTORATION).original_model = line_model := rfl
  have hc : (line_iterate 2).model_evaluations.constraints = [2] := rfl
  rw [hm, hc, line_violation, line_linearized]
  norm_num

/-- C27, amended: in the phase `OPTIMALITY`, for a current iterate that caches `c(x)` and
the Jacobian of the constraints at `x`, `generate_predicted_infeasibility_reduction_model`
returns, for the step length `alpha`, the L1 constraint violation of `c(x)` minus the L1
violation of the linearized constraints `c(x) + alpha * grad c(x) d`; in the phase
`FEASIBILITY_RESTORATION` it returns 0 for every step length; in both phases it returns 0
for `alpha = 0`. -/
theorem predicted_infeasibility_reduction (S : FeasibilityRestoration σ γ)
    (current_iterate : Iterate) (direction : Direction)
    (hconstraints : current_iterate.model_evaluations.constraints
      = S.original_model.evaluate_constraints current_iterate.primals)
    (hjacobian : current_iterate.model_evaluations.constraint_jacobian
      = S.original_model.evaluate_constraint_jacobian current_iterate.primals) :
    (S.current_phase = Phase.OPTIMALITY → ∀ step_length,
      S.generate_predicted_infeasibility_reduction_model current_iterate direction step_length
        = S.original_model.compute_constraint_violation
            (S.original_model.evaluate_constraints current_iterate.primals)
          - S.original_model.compute_constraint_violation
              ((List.range S.original_model.number_constraints).map (fun j =>
                (S.original_model.evaluate_constraints current_iterate.primals).getD j 0
                  + step_length * dot direction.primals
                      ((S.original_model.evaluate_constraint_jacobian
                        current_iterate.primals).getD j [])))) ∧
    (S.current_phase = Phase.FEASIBILITY_RESTORATION → ∀ step_length,
      S.generate_predicted_infeasibility_reduction_model current_iterate direction step_length
        = 0) ∧
    S.generate_predicted_infeasibility_reduction_model current_iterate direction 0 = 0 := by
  refine ⟨?_, ?_, ?_⟩
  · intro hO step_length
    unfold FeasibilityRestoration.generate_predicted_infeasibility_reduction_model
      compute_linearized_constraint_violation
    rw [if_pos hO, hconstraints, hjacobian]
  · intro hR step_length
    unfold FeasibilityRestoration.generate_predicted_infeasibility_reduction_model
    have hne : ¬ S.current_phase = Phase.OPTIMALITY := by rw [hR]; decide
    rw [if_neg hne]
  · unfold FeasibilityRestoration.generate_predicted_infeasibility_reduction_model
    split
    · simp only
      rw [linearized_violation_zero]
      exact sub_self _
    · rfl

/-- Witness of the amended C27: the point `x = 2` of the small instance. -/
theorem predicted_infeasibility_reduction_witness :
    (line_iterate 2).model_evaluations.constraints
      = (line_restoration Phase.OPTIMALITY).original_model.evaluate_constraints
          (line_iterate 2).primals ∧
    (line_iterate 2).model_evaluations.constraint_jacobian
      = (line_restoration Phase.OPTIMALITY).original_model.evaluate_constraint_jacobian
          (line_iterate 2).primals ∧
    (line_restoration Phase.OPTIMALITY).generate_predicted_infeasibility_reduction_model
      (line_iterate 2) (line_direction 1 (-1)) 0 = 0 :=
  ⟨rfl, rfl,
    (predicted_infeasibility_reduction (line_restoration Phase.OPTIMALITY) (line_iterate 2)
      (line_direction 1 (-1)) rfl rfl).2.2⟩

/-- C24: in the phase `OPTIMALITY`, with `solved` the result of the optimality subproblem
(a direction that holds a component for every variable), `compute_feasible_direction`
returns that direction with the objective multiplier 1 whenever its status is not
`INFEASIBLE`; when the status is `INFEASIBLE` it is the feasibility solve on the
subproblem whose initial point has been set to the primals of the failed direction.  A
feasibility solve that returns gives the direction of the feasibility subproblem, solved
to optimality, with the objective multiplier 0, and it returns when that subproblem is
solved to optimality with a component for every variable; a direction returned by
`ActiveSetMethod::compute_infeasibility_step` has the objective multiplier 0. -/
theorem compute_feasible_direction_optimality {τ : Type} (sub : Subproblem σ)
    (S : FeasibilityRestoration σ γ) (current_iterate : Iterate)
    (solved : Direction × SubproblemObject σ × Iterate)
    (hsolved : solved = sub.solve S.subproblem S.optimality_problem current_iterate)
    (hphase : S.current_phase = Phase.OPTIMALITY)
    (hprimals : S.optimality_problem.number_variables ≤ solved.1.primals.length) :
    (solved.1.status ≠ SubproblemStatus.INFEASIBLE →
      ∃ norm, norm_inf_range solved.1.primals (Range S.optimality_problem.number_variables)
          = .ok norm ∧
        S.compute_feasible_direction sub current_iterate
          = .ok ({ solved.1 with objective_multiplier := 1, norm := norm },
                 { S with subproblem := solved.2.1 }, solved.2.2)) ∧
    (solved.1.status = SubproblemStatus.INFEASIBLE →
      S.compute_feasible_direction sub current_iterate
        = FeasibilityRestoration.solve_feasibility_problem sub
            { S with subproblem := sub.set_initial_point solved.2.1 solved.1.primals }
            solved.2.2) ∧
    (∀ (S1 : FeasibilityRestoration σ γ) (iterate : Iterate)
        (r : Direction × FeasibilityRestoration σ γ × Iterate),
      FeasibilityRestoration.solve_feasibility_problem sub S1 iterate = .ok r →
      r.1.objective_multiplier = 0 ∧ r.1.status = SubproblemStatus.OPTIMAL ∧
      r.1.primals
        = (sub.solve
            (sub.set_elastic_variable_values
              (sub.initialize_feasibility_problem S1.subproblem iterate).1
              S1.feasibility_problem
              (sub.initialize_feasibility_problem S1.subproblem iterate).2).1
            S1.feasibility_problem
            (sub.set_elastic_variable_values
              (sub.initialize_feasibility_problem S1.subproblem iterate).1
              S1.feasibility_problem
              (sub.initialize_feasibility_problem S1.subproblem iterate).2).2).1.primals) ∧
    (∀ (S1 : FeasibilityRestoration σ γ) (iterate : Iterate),
      (sub.solve
          (sub.set_elastic_variable_values
            (sub.initialize_feasibility_problem S1.subproblem iterate).1
            S1.feasibility_problem
            (sub.initialize_feasibility_problem S1.subproblem iterate).2).1
          S1.feasibility_problem
          (sub.set_elastic_variable_values
            (sub.initialize_feasibility_problem S1.subproblem iterate).1
            S1.feasibility_problem
            (sub.initialize_feasibility_problem S1.subproblem iterate).2).2).1.status
        = SubproblemStatus.OPTIMAL →
      S1.optimality_problem.number_variables ≤ (sub.solve
          (sub.set_elastic_variable_values
            (sub.initialize_feasibility_problem S1.subproblem iterate).1
            S1.feasibility_problem
            (sub.initialize_feasibility_problem S1.subproblem iterate).2).1
          S1.feasibility_problem
          (sub.set_elastic_variable_values
            (sub.initialize_feasibility_problem S1.subproblem iterate).1
            S1.feasibility_problem
            (sub.initialize_feasibility_problem S1.subproblem iterate).2).2).1.primals.length →
      ∃ r, FeasibilityRestoration.solve_feasibility_problem sub S1 iterate = .ok r) ∧
    (∀ (members : ActiveSet.Members τ) (A : ActiveSet.ActiveSetMethod τ)
        (problem : ActiveSet.Problem) (iterate : ActiveSet.Iterate)
        (phase_II_solution : ActiveSet.SubproblemSolution) (trust_region_radius : ℚ)
        (r : ActiveSet.SubproblemSolution × ActiveSet.ActiveSetMethod τ × ActiveSet.Iterate),
      A.compute_infeasibility_step members problem iterate phase_II_solution
        trust_region_radius = .ok r →
      r.1.objective_multiplier = 0) := by
  subst hsolved
  obtain ⟨norm, hnorm⟩ := norm_inf_range_ok _ _ hprimals
  refine ⟨?_, ?_, ?_, ?_, ?_⟩
  · intro hstatus
    refine ⟨norm, hnorm, ?_⟩
    unfold FeasibilityRestoration.compute_feasible_direction
      FeasibilityRestoration.solve_optimality_problem
    rw [if_pos hphase]
    simp only [hnorm, hstatus, if_false]
  · intro hstatus
    unfold FeasibilityRestoration.compute_feasible_direction
      FeasibilityRestoration.solve_optimality_problem
      FeasibilityRestoration.solve_feasibility_problem_from
    rw [if_pos hphase]
    simp only [hnorm, hstatus, if_true]
  · intro S1 iterate r h
    obtain ⟨h1, h2, h3, -⟩ := solve_feasibility_problem_ok sub S1 iterate r h
    exact ⟨h1, h2, h3⟩
  · intro S1 iterate hstatus hlength
    exact solve_feasibility_problem_returns sub S1 iterate hstatus hlength
  · intro members A problem iterate phase_II_solution trust_region_radius r h
    exact (ActiveSet.compute_infeasibility_step_ok members A problem iterate phase_II_solution
      trust_region_radius r h).1

/-- Witness of C24: on the small instance in the phase `OPTIMALITY` the optimality
subproblem is reported infeasible and the direction returned is the one of the feasibility
solve; the infeasibility step of the small active-set instance returns. -/
theorem compute_feasible_direction_optimality_witness :
    (line_restoration Phase.OPTIMALITY).current_phase = Phase.OPTIMALITY ∧
    (line_restoration Phase.OPTIMALITY).optimality_problem.number_variables
      ≤ (line_subproblem.solve (line_restoration Phase.OPTIMALITY).subproblem
          (line_restoration Phase.OPTIMALITY).optimality_problem
          (line_iterate 2)).1.primals.length ∧
    (line_subproblem.solve (line_restoration Phase.OPTIMALITY).subproblem
      (line_restoration Phase.OPTIMALITY).optimality_problem (line_iterate 2)).1.status
      = SubproblemStatus.INFEASIBLE ∧
    (line_restoration Phase.OPTIMALITY).compute_feasible_direction line_subproblem
        (line_iterate 2)
      = FeasibilityRestoration.solve_feasibility_problem line_subproblem
          { line_restoration Phase.OPTIMALITY with
            subproblem := line_subproblem.set_initial_point
              (line_subproblem.solve (line_restoration Phase.OPTIMALITY).subproblem
                (line_restoration Phase.OPTIMALITY).optimality_problem (line_iterate 2)).2.1
              (line_subproblem.solve (line_restoration Phase.OPTIMALITY).subproblem
                (line_restoration Phase.OPTIMALITY).optimality_problem
                (line_iterate 2)).1.primals }
          (line_subproblem.solve (line_restoration Phase.OPTIMALITY).subproblem
            (line_restoration Phase.OPTIMALITY).optimality_problem (line_iterate 2)).2.2 ∧
    ((line_restoration Phase.OPTIMALITY).compute_feasible_direction line_subproblem
        (line_iterate 2)).map (fun r => r.1)
      = .ok { primals := [-1]
              objective_multiplier := 0
              norm := 1
              status := SubproblemStatus.OPTIMAL } ∧
    ActiveSet.line_method.compute_infeasibility_step ActiveSet.line_members
        ActiveSet.line_problem ActiveSet.line_iterate ActiveSet.line_solution 1
      = .ok ({ x := [0]
               objective_multiplier := 0
               phase := ActiveSet.Phase.RESTORATION
               phase_1_required := false
               constraint_partition := ActiveSet.upper_partition },
             { ActiveSet.line_method with number_subproblems_solved := 2 },
             { ActiveSet.line_iterate with
               objective_gradient := [(0, 1)], is_hessian_computed := false }) :=
  ⟨rfl, by simp [line_subproblem, line_restoration, line_direction],
    by simp [line_subproblem, line_restoration, line_direction],
    (@compute_feasible_direction_optimality Unit (List StrategyCall) Unit line_subproblem
      (line_restoration Phase.OPTIMALITY) (line_iterate 2) _ rfl rfl
      (by simp [line_subproblem, line_restoration, line_direction])).2.1
      (by simp [line_subproblem, line_restoration, line_direction]),
    line_feasible_direction, ActiveSet.line_infeasibility_step⟩

end RestorationClaims

end Restoration

/-! ## Claim on the factory of linear solvers -/

section LinearSolverFactoryClaims

/-- C31: whatever the build flags and the value of `LIBHSL_isfunctional()`,
`SymmetricIndefiniteLinearSolverFactory::create` returns a solver if and only if the option
`linear_solver` is set to a member of `available_solvers()`; for any other value of the
option it throws `invalid_argument`, and when the option is missing, `get_string` having
thrown `out_of_range`, it throws `out_of_range` again. -/
theorem linear_solver_factory_create (flags : BuildFlags) (options : Options) :
    ((∃ solver, SymmetricIndefiniteLinearSolverFactory.create flags options = .ok solver)
      ↔ ∃ name, options.get_string "linear_solver" = .ok name ∧
          name ∈ SymmetricIndefiniteLinearSolverFactory.available_solvers flags) ∧
    (∀ name, options.get_string "linear_solver" = .ok name →
      name ∉ SymmetricIndefiniteLinearSolverFactory.available_solvers flags →
      SymmetricIndefiniteLinearSolverFactory.create flags options
        = .error (.invalid_argument
            ("The linear solver " ++ name ++ " is unknown" ++ available_values flags))) ∧
    (∀ what, options.get_string "linear_solver" = .error (.out_of_range what) →
      SymmetricIndefiniteLinearSolverFactory.create flags options
        = .error (.out_of_range (what ++ available_values flags))) := by
  have key : ∀ name, options.get_string "linear_solver" = .ok name →
      (name ∈ SymmetricIndefiniteLinearSolverFactory.available_solvers flags →
        ∃ solver, SymmetricIndefiniteLinearSolverFactory.create flags options = .ok solver) ∧
      (name ∉ SymmetricIndefiniteLinearSolverFactory.available_solvers flags →
        SymmetricIndefiniteLinearSolverFactory.create flags options
          = .error (.invalid_argument
              ("The linear solver " ++ name ++ " is unknown" ++ available_values flags))) := by
    intro name hname
    obtain ⟨hsl, ma57, ma27, mumps, functional⟩ := flags
    unfold SymmetricIndefiniteLinearSolverFactory.create
      SymmetricIndefiniteLinearSolverFactory.available_solvers
    simp only [hname]
    by_cases h57 : name = "MA57" <;> by_cases h27 : name = "MA27" <;>
      by_cases hmumps : name = "MUMPS" <;>
      cases hsl <;> cases ma57 <;> cases ma27 <;> cases mumps <;> cases functional <;>
      simp_all
  refine ⟨⟨?_, ?_⟩, ?_, ?_⟩
  · rintro ⟨solver, hsolver⟩
    cases hget : options.get_string "linear_solver" with
    | error e =>
      unfold SymmetricIndefiniteLinearSolverFactory.create at hsolver
      rw [hget] at hsolver
      cases e <;> simp at hsolver
    | ok name =>
      refine ⟨name, rfl, ?_⟩
      by_contra hnot
      rw [(key name hget).2 hnot] at hsolver
      cases hsolver
  · rintro ⟨name, hget, hmem⟩
    exact (key name hget).1 hmem
  · intro name hget hnot
    exact (key name hget).2 hnot
  · intro what hget
    unfold SymmetricIndefiniteLinearSolverFactory.create
    rw [hget]

/-- Witness of C31: in a build with MUMPS only, the option `linear_solver = MUMPS` gives a
solver, and the option `linear_solver = MA57` is refused. -/
theorem linear_solver_factory_create_witness :
    (single_option "linear_solver" "MUMPS").get_string "linear_solver" = .ok "MUMPS" ∧
    "MUMPS" ∈ SymmetricIndefiniteLinearSolverFactory.available_solvers toy_flags ∧
    (∃ solver, SymmetricIndefiniteLinearSolverFactory.create toy_flags
      (single_option "linear_solver" "MUMPS") = .ok solver) ∧
    (single_option "linear_solver" "MA57").get_string "linear_solver" = .ok "MA57" ∧
    "MA57" ∉ SymmetricIndefiniteLinearSolverFactory.available_solvers toy_flags ∧
    SymmetricIndefiniteLinearSolverFactory.create toy_flags (single_option "linear_solver" "MA57")
      = .error (.invalid_argument
          ("The linear solver " ++ "MA57" ++ " is unknown" ++ available_values toy_flags)) :=
  ⟨rfl, by decide,
    (linear_solver_factory_create toy_flags (single_option "linear_solver" "MUMPS")).1.mpr
      ⟨"MUMPS", rfl, by decide⟩,
    rfl, by decide,
    (linear_solver_factory_create toy_flags (single_option "linear_solver" "MA57")).2.1 "MA57"
      rfl (by decide)⟩

end LinearSolverFactoryClaims

/-! ## Claim on the predicted reduction of the scaled optimality measure -/

namespace Restoration

section RestorationModelClaims

variable {σ γ : Type}

/-- C32: for a current iterate that caches the gradient of the objective, the constraints
and their Jacobian at `x`, `generate_predicted_scaled_optimality_reduction_model` returns,
in the phase `OPTIMALITY`, the function `sigma -> alpha * (-sigma * grad f(x)^T d)`, which
is linear in `alpha` and in `sigma`, and, in the phase `FEASIBILITY_RESTORATION`, the
constant function whose value is the L1 constraint violation of `c(x)` minus the L1
violation of the linearized constraints `c(x) + alpha * grad c(x) d`. -/
theorem predicted_scaled_optimality_reduction (S : FeasibilityRestoration σ γ)
    (current_iterate : Iterate) (direction : Direction)
    (hgradient : current_iterate.model_evaluations.objective_gradient
      = S.original_model.evaluate_objective_gradient current_iterate.primals)
    (hconstraints : current_iterate.model_evaluations.constraints
      = S.original_model.evaluate_constraints current_iterate.primals)
    (hjacobian : current_iterate.model_evaluations.constraint_jacobian
      = S.original_model.evaluate_constraint_jacobian current_iterate.primals) :
    (S.current_phase = Phase.OPTIMALITY →
      (∀ step_length,
        S.generate_predicted_scaled_optimality_reduction_model current_iterate direction
            step_length
          = (fun objective_multiplier =>
              step_length * (-objective_multiplier
                * dot direction.primals
                    (S.original_model.evaluate_objective_gradient current_iterate.primals)))) ∧
      (∀ a b alpha1 alpha2 objective_multiplier,
        S.generate_predicted_scaled_optimality_reduction_model current_iterate direction
            (a * alpha1 + b * alpha2) objective_multiplier
          = a * S.generate_predicted_scaled_optimality_reduction_model current_iterate
                direction alpha1 objective_multiplier
            + b * S.generate_predicted_scaled_optimality_reduction_model current_iterate
                direction alpha2 objective_multiplier) ∧
      (∀ a b step_length sigma1 sigma2,
        S.generate_predicted_scaled_optimality_reduction_model current_iterate direction
            step_length (a * sigma1 + b * sigma2)
          = a * S.generate_predicted_scaled_optimality_reduction_model current_iterate
                direction step_length sigma1
            + b * S.generate_predicted_scaled_optimality_reduction_model current_iterate
                direction step_length sigma2)) ∧
    (S.current_phase = Phase.FEASIBILITY_RESTORATION → ∀ step_length,
      S.generate_predicted_scaled_optimality_reduction_model current_iterate direction
          step_length
        = (fun _ =>
            S.original_model.compute_constraint_violation
                (S.original_model.evaluate_constraints current_iterate.primals)
              - S.original_model.compute_constraint_violation
                  ((List.range S.original_model.number_constraints).map (fun j =>
                    (S.original_model.evaluate_constraints current_iterate.primals).getD j 0
                      + step_length * dot direction.primals
                          ((S.original_model.evaluate_constraint_jacobian
                            current_iterate.primals).getD j []))))) := by
  constructor
  · intro hO
    have h : ∀ step_length,
        S.generate_predicted_scaled_optimality_reduction_model current_iterate direction
            step_length
          = (fun objective_multiplier =>
              step_length * (-objective_multiplier
                * dot direction.primals
                    (S.original_model.evaluate_objective_gradient current_iterate.primals))) := by
      intro step_length
      unfold FeasibilityRestoration.generate_predicted_scaled_optimality_reduction_model
      rw [if_pos hO, hgradient]
    refine ⟨h, ?_, ?_⟩
    · intro a b alpha1 alpha2 objective_multiplier
      rw [h, h, h]
      ring
    · intro a b step_length sigma1 sigma2
      rw [h]
      ring
  · intro hR step_length
    unfold FeasibilityRestoration.generate_predicted_scaled_optimality_reduction_model
      compute_linearized_constraint_violation
    have hne : ¬ S.current_phase = Phase.OPTIMALITY := by rw [hR]; decide
    rw [if_neg hne, hconstraints, hjacobian]

/-- Witness of C32: the point `x = 2` of the small instance in the phase `OPTIMALITY`,
with the direction `-1`. -/
theorem predicted_scaled_optimality_reduction_witness :
    (line_iterate 2).model_evaluations.objective_gradient
      = (line_restoration Phase.OPTIMALITY).original_model.evaluate_objective_gradient
          (line_iterate 2).primals ∧
    (line_iterate 2).model_evaluations.constraints
      = (line_restoration Phase.OPTIMALITY).original_model.evaluate_constraints
          (line_iterate 2).primals ∧
    (line_iterate 2).model_evaluations.constraint_jacobian
      = (line_restoration Phase.OPTIMALITY).original_model.evaluate_constraint_jacobian
          (line_iterate 2).primals ∧
    (line_restoration Phase.OPTIMALITY).current_phase = Phase.OPTIMALITY ∧
    (∀ step_length,
      (line_restoration Phase.OPTIMALITY).generate_predicted_scaled_optimality_reduction_model
          (line_iterate 2) (line_direction 1 (-1)) step_length
        = (fun objective_multiplier =>
            step_length * (-objective_multiplier
              * dot (line_direction 1 (-1)).primals
                  ((line_restoration Phase.OPTIMALITY).original_model.evaluate_objective_gradient
                    (line_iterate 2).primals)))) :=
  ⟨rfl, rfl, rfl, rfl,
    ((predicted_scaled_optimality_reduction (line_restoration Phase.OPTIMALITY) (line_iterate 2)
      (line_direction 1 (-1)) rfl rfl rfl).1 rfl).1⟩

end RestorationModelClaims

end Restoration

/-! ## Claims on `ActiveSetMethod` -/

namespace ActiveSet

section ActiveSetClaims

/-- C33: when the partition, the bounds of the problem and the current constraints hold a
component for every constraint, `generate_feasibility_bounds` returns one range per
constraint, and the range of the constraint `j`, with bounds `[c_L, c_U]` and value `c`,
is `[c_L - c, c_U - c]` when `j` is `FEASIBLE`, `[-infinity, c_L - c]` when `j` is
`INFEASIBLE_LOWER` and `[c_U - c, +infinity]` when `j` is `INFEASIBLE_UPPER`. -/
theorem feasibility_bounds (problem : Problem) (current_constraints : List ℚ)
    (constraint_partition : ConstraintPartition)
    (hf : problem.number_constraints ≤ constraint_partition.constraint_feasibility.length)
    (hb : problem.number_constraints ≤ problem.constraints_bounds.length)
    (hc : problem.number_constraints ≤ current_constraints.length) :
    ∃ result, generate_feasibility_bounds problem current_constraints constraint_partition
        = .ok result ∧
      result.length = problem.number_constraints ∧
      ∀ (j : Nat) (feasibility : ConstraintFeasibility) (bounds : Range) (c : ℚ),
        j < problem.number_constraints →
        constraint_partition.constraint_feasibility[j]? = some feasibility →
        problem.constraints_bounds[j]? = some bounds → current_constraints[j]? = some c →
        (feasibility = ConstraintFeasibility.FEASIBLE →
          result[j]? = some { lb := bounds.lb.sub c, ub := bounds.ub.sub c }) ∧
        (feasibility = ConstraintFeasibility.INFEASIBLE_LOWER →
          result[j]? = some { lb := Bound.minus_infinity, ub := bounds.lb.sub c }) ∧
        (feasibility = ConstraintFeasibility.INFEASIBLE_UPPER →
          result[j]? = some { lb := bounds.ub.sub c, ub := Bound.plus_infinity }) := by
  obtain ⟨result, hresult, hlen, hval⟩ := feasibility_bounds_loop problem current_constraints
    constraint_partition hf hb hc problem.number_constraints le_rfl
  refine ⟨result, hresult, hlen, ?_⟩
  intro j feasibility bounds c hj hfj hbj hcj
  have h := hval j feasibility bounds c hj hfj hbj hcj
  refine ⟨?_, ?_, ?_⟩
  · intro hcase
    subst hcase
    simpa using h
  · intro hcase
    subst hcase
    simpa using h
  · intro hcase
    subst hcase
    simpa using h

/-- Witness of C33: the small instance, whose constraint `0 <= c <= 1` has the value 2 and
is infeasible at its upper bound. -/
theorem feasibility_bounds_witness :
    line_problem.number_constraints ≤ upper_partition.constraint_feasibility.length ∧
    line_problem.number_constraints ≤ line_problem.constraints_bounds.length ∧
    line_problem.number_constraints ≤ line_iterate.constraints.length ∧
    ∃ result, generate_feasibility_bounds line_problem line_iterate.constraints upper_partition
        = .ok result ∧
      result.length = line_problem.number_constraints ∧
      ∀ (j : Nat) (feasibility : ConstraintFeasibility) (bounds : Range) (c : ℚ),
        j < line_problem.number_constraints →
        upper_partition.constraint_feasibility[j]? = some feasibility →
        line_problem.constraints_bounds[j]? = some bounds →
        line_iterate.constraints[j]? = some c →
        (feasibility = ConstraintFeasibility.FEASIBLE →
          result[j]? = some { lb := bounds.lb.sub c, ub := bounds.ub.sub c }) ∧
        (feasibility = ConstraintFeasibility.INFEASIBLE_LOWER →
          result[j]? = some { lb := Bound.minus_infinity, ub := bounds.lb.sub c }) ∧
        (feasibility = ConstraintFeasibility.INFEASIBLE_UPPER →
          result[j]? = some { lb := bounds.ub.sub c, ub := Bound.plus_infinity }) :=
  ⟨by decide, by decide, by decide,
    feasibility_bounds line_problem line_iterate.constraints upper_partition (by decide)
      (by decide) (by decide)⟩

/-- C34: when every infeasible constraint has a gradient in the Jacobian and a feasibility
in the partition, `compute_linear_feasibility_objective` returns the iterate with a new
objective gradient and nothing else changed; the keys of this `std::map` are in increasing
order, its component `i` is the sum over the constraints `j` of `partition.infeasible` of
`s_j * dc_j/dx_i`, with `s_j = -1` when `j` is `INFEASIBLE_LOWER` and `s_j = +1` otherwise,
and it holds the key `i` exactly when `i` is a key of the gradient of an infeasible
constraint. -/
theorem linear_feasibility_objective (current_iterate : Iterate)
    (constraint_partition : ConstraintPartition)
    (hbounds : ∀ j, j ∈ constraint_partition.infeasible →
      j < current_iterate.constraints_jacobian.length ∧
      j < constraint_partition.constraint_feasibility.length) :
    ∃ objective_gradient,
      compute_linear_feasibility_objective current_iterate constraint_partition
        = .ok { current_iterate with objective_gradient := objective_gradient } ∧
      (objective_gradient.map Prod.fst).Pairwise (fun a b => a < b) ∧
      (∀ i, coefficient objective_gradient i
        = (constraint_partition.infeasible.map (fun j =>
            constraint_sign constraint_partition j
              * coefficient (current_iterate.constraints_jacobian.getD j []) i)).sum) ∧
      (∀ i, i ∈ objective_gradient.map Prod.fst
        ↔ ∃ j, j ∈ constraint_partition.infeasible ∧
            i ∈ (current_iterate.constraints_jacobian.getD j []).map Prod.fst) := by
  obtain ⟨result, hresult, hcoef, hkeys, hsorted⟩ :=
    add_constraint_gradients current_iterate constraint_partition
      constraint_partition.infeasible [] hbounds
  refine ⟨result, ?_, hsorted List.Pairwise.nil, ?_, ?_⟩
  · unfold compute_linear_feasibility_objective
    rw [hresult]
  · intro i
    rw [hcoef i, coefficient_nil, zero_add]
  · intro i
    rw [hkeys i]
    simp

/-- Witness of C34: the instance with two constraints, the first infeasible at its lower
bound and the second at its upper bound. -/
theorem linear_feasibility_objective_witness :
    (∀ j, j ∈ plane_partition.infeasible →
      j < plane_iterate.constraints_jacobian.length ∧
      j < plane_partition.constraint_feasibility.length) ∧
    compute_linear_feasibility_objective plane_iterate plane_partition
      = .ok { plane_iterate with objective_gradient := [(0, -1), (1, 1)] } ∧
    ∃ objective_gradient,
      compute_linear_feasibility_objective plane_iterate plane_partition
        = .ok { plane_iterate with objective_gradient := objective_gradient } ∧
      (objective_gradient.map Prod.fst).Pairwise (fun a b => a < b) ∧
      (∀ i, coefficient objective_gradient i
        = (plane_partition.infeasible.map (fun j =>
            constraint_sign plane_partition j
              * coefficient (plane_iterate.constraints_jacobian.getD j []) i)).sum) ∧
      (∀ i, i ∈ objective_gradient.map Prod.fst
        ↔ ∃ j, j ∈ plane_partition.infeasible ∧
            i ∈ (plane_iterate.constraints_jacobian.getD j []).map Prod.fst) :=
  ⟨by decide, plane_objective, linear_feasibility_objective plane_iterate plane_partition
    (by decide)⟩

end ActiveSetClaims

end ActiveSet

/-! ### Claims on the sizes of the penalty subproblem and on the shrinking of the penalty
parameter -/

section PenaltyInitializeClaims

variable {σ : Type}

/-- C35: when every constraint of the problem has a status, `initialize` returns and sets
`penalty_dimensions.number_constraints` to the count of 2 per constraint bounded on both
sides and 1 per any other; the entries that `compute_constraint_multipliers` reads for the
constraint `j` lie below this count; when the subproblem returns at least that many
constraint multipliers, every read is in bounds, the counter of the loop ends at exactly
this count, and the multiplier of the constraint `j` is the sum of the multipliers generated
for `j`, taken in order; when the subproblem returns fewer, a read is out of bounds. -/
theorem constraint_multipliers_reads (S : PenaltyStrategy)
    ( subproblem_initialize :
      σ → Problem → List ℚ → List ℚ → List ℚ → Nat → Nat → Bool → Iterate × σ)
    (ext : External) (solver : σ) (problem : Problem) (x : List ℚ)
    (bound_multipliers constraint_multipliers : List ℚ) (use_trust_region : Bool)
    (solution : LocalSolution)
    (hstatus : problem.number_constraints ≤ problem.constraint_status.length) :
    ∃ (first_iterate : Iterate) (S1 : PenaltyStrategy) (solver1 : σ),
      S.initialize subproblem_initialize ext solver problem x bound_multipliers
          constraint_multipliers use_trust_region = .ok (first_iterate, S1, solver1) ∧
      S1.penalty_dimensions.number_constraints
        = ((List.range problem.number_constraints).map (fun k =>
            if problem.constraint_status.getD k ConstraintStatus.UNBOUNDED
                = ConstraintStatus.BOUNDED_BOTH_SIDES then 2 else 1)).sum ∧
      S1.penalty_dimensions.number_constraints
        = constraint_offset problem problem.number_constraints ∧
      (∀ j : Nat, j < problem.number_constraints →
        constraint_offset problem j
            + generated_constraints
                (problem.constraint_status.getD j ConstraintStatus.UNBOUNDED)
          ≤ S1.penalty_dimensions.number_constraints) ∧
      (S1.penalty_dimensions.number_constraints ≤ solution.constraint_multipliers.length →
        ∃ multipliers : List ℚ,
          (List.range problem.number_constraints).foldlM
              (compute_constraint_multipliers_body problem solution)
              (List.replicate problem.number_constraints 0, 0)
            = .ok (multipliers, S1.penalty_dimensions.number_constraints) ∧
          compute_constraint_multipliers problem solution = .ok multipliers ∧
          multipliers.length = problem.number_constraints ∧
          ∀ j : Nat, j < problem.number_constraints →
            multipliers[j]? = some (generated_multiplier problem solution j)) ∧
      (solution.constraint_multipliers.length < S1.penalty_dimensions.number_constraints →
        compute_constraint_multipliers problem solution = .error .out_of_bounds) := by
  obtain ⟨dimensions, hloop, hcount⟩ := initialize_dimensions_loop problem
    { number_additional_variables := 0, number_constraints := 0 } problem.number_constraints
    hstatus
  have hcount0 : dimensions.number_constraints
      = constraint_offset problem problem.number_constraints := by
    simpa using hcount
  obtain ⟨first_iterate, solver1, hinitialize⟩ := initialize_ok S subproblem_initialize ext
    solver problem x bound_multipliers constraint_multipliers use_trust_region dimensions hloop
  refine ⟨first_iterate, { S with penalty_dimensions := dimensions }, solver1, hinitialize,
    ?_, hcount0, ?_, ?_, ?_⟩
  · rw [hcount0]
    rfl
  · intro j hj
    rw [hcount0, ← constraint_offset_succ]
    exact constraint_offset_mono problem hj
  · intro hreads
    rw [hcount0] at hreads ⊢
    obtain ⟨multipliers, hfold, hsize, hbelow, _⟩ := constraint_multipliers_loop problem
      solution (List.replicate problem.number_constraints 0) problem.number_constraints
      hstatus (by simp) hreads
    refine ⟨multipliers, hfold, ?_, by simpa using hsize, hbelow⟩
    simp only [compute_constraint_multipliers, hfold]
  · intro hshort
    rw [hcount0] at hshort
    have hfold := constraint_multipliers_loop_short problem solution
      (List.replicate problem.number_constraints 0) problem.number_constraints hstatus
      (by simp) hshort
    simp only [compute_constraint_multipliers, hfold]

/-- Witness of C35: a problem with an equality, a constraint bounded on both sides and a
constraint bounded below, whose penalty subproblem has four constraints. -/
theorem constraint_multipliers_reads_witness :
    mixed_problem.number_constraints ≤ mixed_problem.constraint_status.length ∧
    ∃ (first_iterate : Iterate) (S1 : PenaltyStrategy) (solver1 : Unit),
      toy_strategy.initialize
          (fun solver _ x bound_multipliers constraint_multipliers _ _ _ =>
            (toy_external.new_iterate mixed_problem x bound_multipliers
              constraint_multipliers, solver))
          toy_external () mixed_problem [0] [0] [0, 0, 0] false
        = .ok (first_iterate, S1, solver1) ∧
      S1.penalty_dimensions.number_constraints
        = ((List.range mixed_problem.number_constraints).map (fun k =>
            if mixed_problem.constraint_status.getD k ConstraintStatus.UNBOUNDED
                = ConstraintStatus.BOUNDED_BOTH_SIDES then 2 else 1)).sum ∧
      S1.penalty_dimensions.number_constraints
        = constraint_offset mixed_problem mixed_problem.number_constraints ∧
      (∀ j : Nat, j < mixed_problem.number_constraints →
        constraint_offset mixed_problem j
            + generated_constraints
                (mixed_problem.constraint_status.getD j ConstraintStatus.UNBOUNDED)
          ≤ S1.penalty_dimensions.number_constraints) ∧
      (S1.penalty_dimensions.number_constraints
          ≤ mixed_solution.constraint_multipliers.length →
        ∃ multipliers : List ℚ,
          (List.range mixed_problem.number_constraints).foldlM
              (compute_constraint_multipliers_body mixed_problem mixed_solution)
              (List.replicate mixed_problem.number_constraints 0, 0)
            = .ok (multipliers, S1.penalty_dimensions.number_constraints) ∧
          compute_constraint_multipliers mixed_problem mixed_solution = .ok multipliers ∧
          multipliers.length = mixed_problem.number_constraints ∧
          ∀ j : Nat, j < mixed_problem.number_constraints →
            multipliers[j]? = some (generated_multiplier mixed_problem mixed_solution j)) ∧
      (mixed_solution.constraint_multipliers.length
          < S1.penalty_dimensions.number_constraints →
        compute_constraint_multipliers mixed_problem mixed_solution
          = .error .out_of_bounds) :=
  ⟨by decide,
    constraint_multipliers_reads toy_strategy _ toy_external () mixed_problem [0] [0]
      [0, 0, 0] false mixed_solution (by decide)⟩

/-- C36: when `compute_step` is entered with `rho > 0`, the first direction has a nonzero
linear model and the ideal error is nonzero, a call that returns leaves a penalty parameter
of at most `rho / 2`, whatever the first direction is, hence also when it satisfies
Conditions 1 and 2; with `rho <= 1` at entry, a bound of 34 passes or more is not
exhausted. -/
theorem compute_step_halves (S : PenaltyStrategy) (sub : Subproblem σ)
    (ext : External) (fuel : Nat) (solver : σ) (problem : Problem) (current_iterate : Iterate)
    (radius : ℚ) (first ideal : LocalSolution × σ) (linear_model : ℚ)
    (bound_multipliers constraint_multipliers : List ℚ) (ideal_error : ℚ)
    (hfirst : first = sub.compute_l1_penalty_step solver problem current_iterate radius
      S.penalty_parameter S.penalty_dimensions)
    (hideal : ideal = sub.compute_l1_penalty_step first.2 problem current_iterate radius 0
      S.penalty_dimensions)
    (htau : S.tau = 1 / 2) (hrho : 0 < S.penalty_parameter)
    (hmodel : S.compute_linear_model problem first.1 = .ok linear_model)
    (hnonzero : linear_model ≠ 0)
    (hbound : compute_bound_multipliers problem ideal.1 = .ok bound_multipliers)
    (hconstraint : compute_constraint_multipliers problem ideal.1 = .ok constraint_multipliers)
    (herror : compute_error ext problem current_iterate bound_multipliers
      constraint_multipliers 0 = .ok ideal_error)
    (hideal_error : ideal_error ≠ 0) :
    (34 ≤ fuel → S.penalty_parameter ≤ 1 →
      S.compute_step sub ext fuel solver problem current_iterate radius
        ≠ .error .out_of_fuel) ∧
    ∀ r, S.compute_step sub ext fuel solver problem current_iterate radius = .ok r →
      r.strategy.penalty_parameter ≤ S.penalty_parameter / 2 := by
  subst hfirst
  subst hideal
  refine ⟨fun hfuel h1 => compute_step_fuel htau h1 hfuel, ?_⟩
  intro r h
  unfold PenaltyStrategy.compute_step at h
  simp only [hrho, if_true, hmodel, ne_eq, hnonzero, not_false_eq_true, hbound, hconstraint,
    herror, PenaltyStrategy.update_penalty_parameter, hideal_error, if_false] at h
  split at h
  · cases h
  · rename_i st hupd
    split at hupd
    · cases hupd
    · rename_i ideal_linear_model hmi
      split at hupd
      · cases hupd
      · rename_i st1 hloop
        cases hupd
        cases h
        obtain ⟨-, h5⟩ := shrink_loop_bounds htau fuel _ st1 hloop (le_of_lt hrho)
        have h6 := (h5 rfl).2
        simp only at h6
        rw [recompute_solution_strategy]
        exact le_trans (min_le_left _ _) h6

/-- Witness of C36: the small instance, whose first direction is the ideal direction and
satisfies Conditions 1 and 2; the call entered with the penalty parameter 1 returns with
`1e-12`. -/
theorem compute_step_halves_witness :
    toy_strategy.tau = 1 / 2 ∧ 0 < toy_strategy.penalty_parameter ∧
    toy_strategy.compute_linear_model toy_problem (toy_solution (1 / 2)) = .ok (1 / 2) ∧
    (1 : ℚ) / 2 ≠ 0 ∧
    compute_bound_multipliers toy_problem (toy_solution (1 / 2)) = .ok [0] ∧
    compute_constraint_multipliers toy_problem (toy_solution (1 / 2)) = .ok [1] ∧
    compute_error toy_external toy_problem toy_iterate [0] [1] 0 = .ok (1 / 10 ^ 6) ∧
    (1 : ℚ) / 10 ^ 6 ≠ 0 ∧
    Condition1 toy_iterate.residual (1 / 2) (1 / 2) ∧
    Condition2 toy_iterate.residual (toy_solution (1 / 2)).objective
      (toy_solution (1 / 2)).objective ∧
    toy_strategy.compute_step toy_subproblem toy_external 34 () toy_problem toy_iterate 1
      = .ok toy_step_result ∧
    toy_step_result.strategy.penalty_parameter ≤ toy_strategy.penalty_parameter / 2 :=
  ⟨rfl, by norm_num [toy_strategy, PenaltyStrategy.create], toy_linear_model _, by norm_num,
    toy_bound_multipliers _, toy_constraint_multipliers _,
    toy_error toy_iterate 0 (Or.inl rfl) rfl, by norm_num,
    by norm_num [Condition1, toy_iterate], by norm_num [Condition2, toy_iterate, toy_solution],
    toy_compute_step,
    (compute_step_halves toy_strategy toy_subproblem toy_external 34 () toy_problem
      toy_iterate 1 (toy_solution (1 / 2), ()) (toy_solution (1 / 2), ()) (1 / 2) [0] [1]
      (1 / 10 ^ 6) rfl rfl rfl (by norm_num [toy_strategy, PenaltyStrategy.create])
      (toy_linear_model _) (by norm_num) (toy_bound_multipliers _)
      (toy_constraint_multipliers _) (toy_error toy_iterate 0 (Or.inl rfl) rfl)
      (by norm_num)).2 toy_step_result toy_compute_step⟩

end PenaltyInitializeClaims

/-! ### Claims on the diagonal of the matrix, on the bounds of `insert` and on
`in_increasing_order` -/

section DiagonalAndOrderClaims

/-- C37, evaluation of the code where it departs from the claim: on a matrix of dimension 1
with a finalized column and a regularization slot, after two calls of `set_regularization`
with the function that is 1 everywhere, the only stored entry is 1 at the position
`(0, 0)`, so the sum of the stored entries at that position is 1, and
`smallest_diagonal_entry()` returns 2. -/
theorem smallest_diagonal_entry_regularized_twice :
    ∃ M : CSCSymmetricMatrix ℚ, regularized_twice = .ok M ∧
      M.dimension = 1 ∧
      M.visits = .ok [(0, 0, 1)] ∧
      M.stored_diagonal 0 = .ok 1 ∧
      M.smallest_diagonal_entry = .ok (some 2) := by
  refine ⟨{ dimension := 1, number_nonzeros := 1, entries := [1], use_regularization := true,
            column_starts := [0, 1], row_indices := [0], current_column := 1,
            diagonal_entries := [2] }, ?_, rfl, ?_, ?_, ?_⟩
  · simp [regularized_twice, CSCSymmetricMatrix.finalize_column, CSCSymmetricMatrix.insert,
      CSCSymmetricMatrix.insert_ndebug, CSCSymmetricMatrix.start_next_column,
      CSCSymmetricMatrix.create, SymmetricMatrix.create,
      CSCSymmetricMatrix.set_regularization, CSCSymmetricMatrix.set_regularization_body,
      Range, List.range_succ, pure, Except.pure, bind, Except.bind]
    norm_num
  · simp [CSCSymmetricMatrix.visits, CSCSymmetricMatrix.for_each,
      CSCSymmetricMatrix.for_each_column, CSCSymmetricMatrix.for_each_entry, Range,
      RangeFromTo, List.range_succ, pure, Except.pure, bind, Except.bind]
  · simp [CSCSymmetricMatrix.stored_diagonal, CSCSymmetricMatrix.for_each,
      CSCSymmetricMatrix.for_each_column, CSCSymmetricMatrix.for_each_entry, Range,
      RangeFromTo, List.range_succ, pure, Except.pure, bind, Except.bind]
  · simp [CSCSymmetricMatrix.smallest_diagonal_entry,
      CSCSymmetricMatrix.smallest_diagonal_entry_body, Range, List.range_succ, pure,
      Except.pure, bind, Except.bind]

/-- C38, evaluation of the code where it departs from the claim: on a matrix of dimension
1 whose column has been finalized, `current_column` is 1, the call `insert(1, 0, 1)`
satisfies the assertion of `insert`, and its write to `column_starts[2]` is outside the
vector of size 2. -/
theorem insert_after_last_column :
    ∃ M : CSCSymmetricMatrix Int,
      (CSCSymmetricMatrix.create 1 1 false).run [MatrixOp.finalize_column 0] = .ok M ∧
      M.current_column = 1 ∧ M.dimension = 1 ∧ M.column_starts.length = 2 ∧
      M.insert 1 0 1 = .error .out_of_bounds ∧
      (CSCSymmetricMatrix.create 1 1 false).run
          [MatrixOp.finalize_column 0, MatrixOp.insert 1 0 1] = .error .out_of_bounds :=
  ⟨{ dimension := 1, number_nonzeros := 0, entries := [], use_regularization := false,
     column_starts := [0, 0], row_indices := [], current_column := 1,
     diagonal_entries := [0] }, rfl, rfl, rfl, rfl, rfl, rfl⟩

/-- C39, evaluation of the code where it departs from the claim: with `length = 0` the
bound `length - 1` of the loop is `2^64 - 1`; on the array `{2, 1}` the function reads the
indices 0 and 1 and returns false, and on the empty array it reads outside the array, for
every bound of at least one pass. -/
theorem in_increasing_order_length_zero (fuel : Nat) :
    in_increasing_order [(2 : Int), 1] 0 (fuel + 1) = .ok false ∧
    in_increasing_order ([] : List Int) 0 (fuel + 1) = .error .out_of_bounds := by
  constructor
  · simp [in_increasing_order, in_increasing_order_loop]
  · simp [in_increasing_order, in_increasing_order_loop]

end DiagonalAndOrderClaims

end Uno
